import Mathlib

/-!
# muduo network library: Channel, EventLoop, EPollPoller, TcpConnection

A shallow embedding of the reactor core (`src/net`) and the properties proved
about it.  C++ objects become structures, member functions become functions
that pass the object explicitly, user callbacks become entries of a trace, and
results of system calls are arguments of the function that makes the call.
-/

namespace Muduo

/-! ## poll(2) event bits -/

/-- Modelled from the spec: the event bits of the platform header poll.h
(Linux values), which Channel.cc includes but the repository does not hold. -/
def POLLIN : Nat := 0x001
/-- Modelled from the spec: poll.h, urgent data readable. -/
def POLLPRI : Nat := 0x002
/-- Modelled from the spec: poll.h, writable. -/
def POLLOUT : Nat := 0x004
/-- Modelled from the spec: poll.h, error condition. -/
def POLLERR : Nat := 0x008
/-- Modelled from the spec: poll.h, hang up. -/
def POLLHUP : Nat := 0x010
/-- Modelled from the spec: poll.h, invalid descriptor. -/
def POLLNVAL : Nat := 0x020
/-- Modelled from the spec: poll.h, peer closed its writing half. -/
def POLLRDHUP : Nat := 0x2000

/-- Channel.cc: `const int Channel::kNoneEvent = 0`. -/
def kNoneEvent : Nat := 0
/-- Channel.cc: `const int Channel::kReadEvent = POLLIN | POLLPRI`. -/
def kReadEvent : Nat := POLLIN ||| POLLPRI
/-- Channel.cc: `const int Channel::kWriteEvent = POLLOUT`. -/
def kWriteEvent : Nat := POLLOUT

/-- The C test `if (x & mask)`: true when some bit of `mask` is set in `x`. -/
def test (x mask : Nat) : Bool := (x &&& mask) != 0

/-- Timestamp: microseconds since the epoch. -/
abbrev Timestamp := Nat

/-! ## Channel -/

/-- One invocation of a callback stored in a Channel. -/
inductive ChannelCall where
  | close
  | error
  | read (receiveTime : Timestamp)
  | write
  deriving DecidableEq, Repr

/-- The data members of `class Channel` (Channel.h).  A callback member is
represented by whether one has been set (`boost::function` converts to false
when empty); `addr` stands for the address of the object (`Channel*`). -/
structure Channel where
  addr : Nat
  fd_ : Int
  events_ : Nat
  revents_ : Nat
  index_ : Int
  logHup_ : Bool
  tied_ : Bool
  eventHandling_ : Bool
  addedToLoop_ : Bool
  readCallback_ : Bool
  writeCallback_ : Bool
  closeCallback_ : Bool
  errorCallback_ : Bool
  deriving DecidableEq, Repr

/-- Channel::Channel(loop, fd): no interest, index -1, no callback. -/
def Channel.new (addr : Nat) (fd : Int) : Channel :=
  { addr := addr, fd_ := fd, events_ := 0, revents_ := 0, index_ := -1,
    logHup_ := true, tied_ := false, eventHandling_ := false,
    addedToLoop_ := false, readCallback_ := false, writeCallback_ := false,
    closeCallback_ := false, errorCallback_ := false }

/-- Channel::isNoneEvent. -/
def Channel.isNoneEvent (ch : Channel) : Bool := ch.events_ == kNoneEvent
/-- Channel::isWriting. -/
def Channel.isWriting (ch : Channel) : Bool := test ch.events_ kWriteEvent
/-- Channel::isReading. -/
def Channel.isReading (ch : Channel) : Bool := test ch.events_ kReadEvent
/-- Channel::set_revents. -/
def Channel.set_revents (ch : Channel) (revt : Nat) : Channel := { ch with revents_ := revt }
/-- Channel::set_index. -/
def Channel.set_index (ch : Channel) (idx : Int) : Channel := { ch with index_ := idx }

/-- Channel::handleEventWithGuard.  Returns the channel afterwards and the
callbacks invoked, in the order of invocation.  The callbacks themselves are
opaque to the Channel: they do not assign `revents_` or the callback members. -/
def Channel.handleEventWithGuard (ch : Channel) (receiveTime : Timestamp) :
    Channel × List ChannelCall :=
  let ch1 := { ch with eventHandling_ := true }
  let t0 : List ChannelCall := []
  let t1 :=
    if test ch1.revents_ POLLHUP && !(test ch1.revents_ POLLIN) then
      (if ch1.closeCallback_ then t0 ++ [ChannelCall.close] else t0)
    else t0
  let t2 :=
    if test ch1.revents_ (POLLERR ||| POLLNVAL) then
      (if ch1.errorCallback_ then t1 ++ [ChannelCall.error] else t1)
    else t1
  let t3 :=
    if test ch1.revents_ (POLLIN ||| POLLPRI ||| POLLRDHUP) then
      (if ch1.readCallback_ then t2 ++ [ChannelCall.read receiveTime] else t2)
    else t2
  let t4 :=
    if test ch1.revents_ POLLOUT then
      (if ch1.writeCallback_ then t3 ++ [ChannelCall.write] else t3)
    else t3
  ({ ch1 with eventHandling_ := false }, t4)

/-- Channel::handleEvent.  `lockOk` is the outcome of `tie_.lock()`: whether
the weak reference to the owner could be upgraded. -/
def Channel.handleEvent (ch : Channel) (receiveTime : Timestamp) (lockOk : Bool) :
    Channel × List ChannelCall :=
  if ch.tied_ then
    if lockOk then ch.handleEventWithGuard receiveTime else (ch, [])
  else ch.handleEventWithGuard receiveTime

/-! ### The dispatch rule in the words of the specification -/

/-- Bit `POLLIN` of a ready mask. -/
def readyIN (r : Nat) : Bool := r.testBit 0
/-- Bit `POLLPRI` of a ready mask. -/
def readyPRI (r : Nat) : Bool := r.testBit 1
/-- Bit `POLLOUT` of a ready mask. -/
def readyOUT (r : Nat) : Bool := r.testBit 2
/-- Bit `POLLERR` of a ready mask. -/
def readyERR (r : Nat) : Bool := r.testBit 3
/-- Bit `POLLHUP` of a ready mask. -/
def readyHUP (r : Nat) : Bool := r.testBit 4
/-- Bit `POLLNVAL` of a ready mask. -/
def readyNVAL (r : Nat) : Bool := r.testBit 5
/-- Bit `POLLRDHUP` of a ready mask. -/
def readyRDHUP (r : Nat) : Bool := r.testBit 13

/-- The callbacks the specification prescribes for a ready mask, in its order
(close, error, read, write), skipping the callbacks that are not set. -/
def specDispatch (ch : Channel) (receiveTime : Timestamp) : List ChannelCall :=
  (if readyHUP ch.revents_ && !readyIN ch.revents_ && ch.closeCallback_
    then [ChannelCall.close] else []) ++
  (if (readyERR ch.revents_ || readyNVAL ch.revents_) && ch.errorCallback_
    then [ChannelCall.error] else []) ++
  (if (readyIN ch.revents_ || readyPRI ch.revents_ || readyRDHUP ch.revents_) && ch.readCallback_
    then [ChannelCall.read receiveTime] else []) ++
  (if readyOUT ch.revents_ && ch.writeCallback_ then [ChannelCall.write] else [])

/-- A tied channel with HUP, ERR, IN and OUT all ready and
every callback set. -/
def tiedChannel : Channel :=
  { Channel.new 1 7 with
    tied_ := true, revents_ := 0x1d, readCallback_ := true, writeCallback_ := true,
    closeCallback_ := true, errorCallback_ := true }

/-! ## EventLoop: the task queue -/

/-- The members of `class EventLoop` that the task pump uses, over a type `F`
of functors.  `wakeups` counts the calls of `wakeup()` (8-byte tokens written
to `wakeupFd_`), `queued` records every functor handed to `queueInLoop`, and
`invoked` records every functor call `cb()` the loop made, both in order. -/
structure EventLoop (F : Type) where
  pendingFunctors_ : List F
  callingPendingFunctors_ : Bool
  wakeups : Nat
  queued : List F
  invoked : List F
  deriving DecidableEq, Repr

/-- EventLoop::EventLoop: empty queue, not draining. -/
def EventLoop.new {F : Type} : EventLoop F :=
  { pendingFunctors_ := [], callingPendingFunctors_ := false, wakeups := 0,
    queued := [], invoked := [] }

/-- EventLoop::wakeup: one token written to the wake descriptor. -/
def EventLoop.wakeup {F : Type} (L : EventLoop F) : EventLoop F :=
  { L with wakeups := L.wakeups + 1 }

/-- EventLoop::queueInLoop(cb); `isInLoopThread` tells whether the calling
thread is the loop thread. -/
def EventLoop.queueInLoop {F : Type} (L : EventLoop F) (isInLoopThread : Bool) (cb : F) :
    EventLoop F :=
  let L1 := { L with pendingFunctors_ := L.pendingFunctors_ ++ [cb],
                     queued := L.queued ++ [cb] }
  if !isInLoopThread || L1.callingPendingFunctors_ then L1.wakeup else L1

/-- One functor call `cb()` on the loop thread.  `body cb` lists the
`queueInLoop` calls that reach the loop while `cb` runs, in order: those made
by `cb` itself (flag true, the caller is the loop thread) and those made by
other threads in the meantime (flag false). -/
def EventLoop.call {F : Type} (body : F → List (Bool × F)) (L : EventLoop F) (cb : F) :
    EventLoop F :=
  (body cb).foldl (fun L' p => L'.queueInLoop p.1 p.2)
    { L with invoked := L.invoked ++ [cb] }

/-- EventLoop::runInLoop(cb). -/
def EventLoop.runInLoop {F : Type} (body : F → List (Bool × F)) (L : EventLoop F)
    (isInLoopThread : Bool) (cb : F) : EventLoop F :=
  if isInLoopThread then L.call body cb else L.queueInLoop isInLoopThread cb

/-- EventLoop::doPendingFunctors: set the flag, swap the queue into a local
vector, call each functor of the local vector in index order, clear the flag. -/
def EventLoop.doPendingFunctors {F : Type} (body : F → List (Bool × F)) (L : EventLoop F) :
    EventLoop F :=
  let L1 := { L with callingPendingFunctors_ := true }
  let functors := L1.pendingFunctors_
  let L2 := { L1 with pendingFunctors_ := [] }
  let L3 := functors.foldl (fun L' f => L'.call body f) L2
  { L3 with callingPendingFunctors_ := false }

/-- What happens to a loop between two observations: some thread posts a
functor, or the loop thread reaches the drain phase of an iteration. -/
inductive LoopOp (F : Type) where
  | queue (isInLoopThread : Bool) (cb : F)
  | drain

/-- One operation applied to the loop. -/
def EventLoop.step {F : Type} (body : F → List (Bool × F)) (L : EventLoop F) :
    LoopOp F → EventLoop F
  | LoopOp.queue b cb => L.queueInLoop b cb
  | LoopOp.drain => L.doPendingFunctors body

/-- A sequence of operations applied to the loop, left to right. -/
def EventLoop.run {F : Type} (body : F → List (Bool × F)) (L : EventLoop F)
    (ops : List (LoopOp F)) : EventLoop F :=
  ops.foldl (EventLoop.step body) L

/-- The functors enqueued while the functors of `fs` run, in order. -/
def enqueuedBy {F : Type} (body : F → List (Bool × F)) (fs : List F) : List F :=
  fs.flatMap (fun f => (body f).map Prod.snd)

/-! ## Aborts -/

/-- The places where the modelled code stops the process: a failed `assert`
(named after the function that holds it) or a fatal log entry. -/
inductive Abort where
  /-- connectEstablished: `assert(state_ == kConnecting)` -/
  | connectEstablished_state
  /-- handleClose: `assert(state_ == kConnected || state_ == kDisconnecting)` -/
  | handleClose_state
  /-- sendInLoop: `assert(remaining <= len)` -/
  | sendInLoop_remaining
  /-- Channel::remove: `assert(isNoneEvent())` -/
  | Channel_remove_isNoneEvent
  /-- updateChannel, index kNew: `assert(channels_.find(fd) == channels_.end())` -/
  | updateChannel_new_absent
  /-- updateChannel, index kDeleted: `assert(channels_.find(fd) != channels_.end())` -/
  | updateChannel_deleted_present
  /-- updateChannel, index kDeleted: `assert(channels_[fd] == channel)` -/
  | updateChannel_deleted_same
  /-- updateChannel, other index: `assert(channels_.find(fd) != channels_.end())` -/
  | updateChannel_present
  /-- updateChannel, other index: `assert(channels_[fd] == channel)` -/
  | updateChannel_same
  /-- updateChannel, other index: `assert(index == kAdded)` -/
  | updateChannel_index
  /-- removeChannel: `assert(channels_.find(fd) != channels_.end())` -/
  | removeChannel_present
  /-- removeChannel: `assert(channels_[fd] == channel)` -/
  | removeChannel_same
  /-- removeChannel: `assert(channel->isNoneEvent())` -/
  | removeChannel_isNoneEvent
  /-- removeChannel: `assert(index == kAdded || index == kDeleted)` -/
  | removeChannel_index
  /-- removeChannel: `assert(n == 1)` -/
  | removeChannel_erased
  /-- EPollPoller::update: `LOG_SYSFATAL` after a failed ADD or MOD -/
  | epoll_ctl_fatal
  deriving DecidableEq, Repr

deriving instance DecidableEq for Except

/-- The macro `assert(c)`: with assertions compiled in (`dbg`, NDEBUG not
defined) a false condition aborts; with NDEBUG the condition is not evaluated. -/
def check (dbg : Bool) (c : Bool) (site : Abort) : Except Abort Unit :=
  if dbg && !c then Except.error site else Except.ok ()

/-! ## EPollPoller -/

/-- EPollPoller.cc: index of a channel that is in neither `channels_` nor the kernel set. -/
def kNew : Int := -1
/-- EPollPoller.cc: index of a channel that is in the kernel set. -/
def kAdded : Int := 1
/-- EPollPoller.cc: index of a channel kept in `channels_` but taken out of the kernel set. -/
def kDeleted : Int := 2

/-- The operations of epoll_ctl(2). -/
inductive EpollOp where
  | ADD
  | MOD
  | DEL
  deriving DecidableEq, Repr

/-- The state of an EPollPoller: `channels_` (std::map from descriptor to
`Channel*`, as an association list with one entry per key) and the interest
list the kernel keeps for `epollfd_` (descriptor and event mask). -/
structure EPollPoller where
  channels_ : List (Int × Nat)
  kernel : List (Int × Nat)
  deriving DecidableEq, Repr

/-- EPollPoller::EPollPoller: nothing registered. -/
def EPollPoller.new : EPollPoller := { channels_ := [], kernel := [] }

/-- The call `m.erase(key)` of std::map. -/
def mapErase (m : List (Int × Nat)) (key : Int) : List (Int × Nat) :=
  m.filter (fun e => e.1 != key)

/-- The assignment `m[key] = v` of std::map. -/
def mapSet (m : List (Int × Nat)) (key : Int) (v : Nat) : List (Int × Nat) :=
  (key, v) :: mapErase m key

/-- Modelled from the spec: the system call epoll_ctl(2) on an open
descriptor.  ADD fails (EEXIST) when the descriptor is in the interest list,
MOD and DEL fail (ENOENT) when it is not; `none` is a failure. -/
def epoll_ctl (kernel : List (Int × Nat)) (op : EpollOp) (fd : Int) (events : Nat) :
    Option (List (Int × Nat)) :=
  match op with
  | EpollOp.ADD => if (kernel.lookup fd).isSome then none else some ((fd, events) :: kernel)
  | EpollOp.MOD => if (kernel.lookup fd).isSome then some (mapSet kernel fd events) else none
  | EpollOp.DEL => if (kernel.lookup fd).isSome then some (mapErase kernel fd) else none

/-- EPollPoller::update(operation, channel): a failed DEL is logged, a failed
ADD or MOD is fatal. -/
def EPollPoller.update (p : EPollPoller) (operation : EpollOp) (channel : Channel) :
    Except Abort EPollPoller :=
  match epoll_ctl p.kernel operation channel.fd_ channel.events_ with
  | some k => Except.ok { p with kernel := k }
  | none =>
    if operation = EpollOp.DEL then Except.ok p
    else Except.error Abort.epoll_ctl_fatal

/-- EPollPoller::updateChannel(channel).  Returns the channel (its index may
change) and the poller. -/
def EPollPoller.updateChannel (dbg : Bool) (p : EPollPoller) (channel : Channel) :
    Except Abort (Channel × EPollPoller) := do
  let index := channel.index_
  if index = kNew ∨ index = kDeleted then
    let fd := channel.fd_
    let p1 ← (if index = kNew then do
        check dbg (p.channels_.lookup fd).isNone Abort.updateChannel_new_absent
        pure { p with channels_ := mapSet p.channels_ fd channel.addr }
      else do
        check dbg (p.channels_.lookup fd).isSome Abort.updateChannel_deleted_present
        check dbg (p.channels_.lookup fd == some channel.addr) Abort.updateChannel_deleted_same
        pure p)
    let channel1 := channel.set_index kAdded
    let p2 ← p1.update EpollOp.ADD channel1
    pure (channel1, p2)
  else
    let fd := channel.fd_
    check dbg (p.channels_.lookup fd).isSome Abort.updateChannel_present
    check dbg (p.channels_.lookup fd == some channel.addr) Abort.updateChannel_same
    check dbg (index == kAdded) Abort.updateChannel_index
    if channel.isNoneEvent then
      let p1 ← p.update EpollOp.DEL channel
      pure (channel.set_index kDeleted, p1)
    else
      let p1 ← p.update EpollOp.MOD channel
      pure (channel, p1)

/-- EPollPoller::removeChannel(channel). -/
def EPollPoller.removeChannel (dbg : Bool) (p : EPollPoller) (channel : Channel) :
    Except Abort (Channel × EPollPoller) := do
  let fd := channel.fd_
  check dbg (p.channels_.lookup fd).isSome Abort.removeChannel_present
  check dbg (p.channels_.lookup fd == some channel.addr) Abort.removeChannel_same
  check dbg channel.isNoneEvent Abort.removeChannel_isNoneEvent
  let index := channel.index_
  check dbg (index == kAdded || index == kDeleted) Abort.removeChannel_index
  let n := if (p.channels_.lookup fd).isSome then 1 else 0
  let p1 := { p with channels_ := mapErase p.channels_ fd }
  check dbg (n == 1) Abort.removeChannel_erased
  let p2 ← (if index = kAdded then p1.update EpollOp.DEL channel else pure p1)
  pure (channel.set_index kNew, p2)

/-! ## Channel operations that reach the poller

`Channel::update` and `Channel::remove` go through `EventLoop::updateChannel`
and `EventLoop::removeChannel` to the poller of the owner loop; the loop-side
assertions (owner loop, loop thread, no removal of a channel that is still to
be dispatched) hold for the calls modelled here, which all run on the loop
thread of the one loop that owns the channel. -/

/-- Channel::update. -/
def Channel.update (dbg : Bool) (ch : Channel) (p : EPollPoller) :
    Except Abort (Channel × EPollPoller) :=
  EPollPoller.updateChannel dbg p { ch with addedToLoop_ := true }

/-- Channel::remove. -/
def Channel.remove (dbg : Bool) (ch : Channel) (p : EPollPoller) :
    Except Abort (Channel × EPollPoller) := do
  check dbg ch.isNoneEvent Abort.Channel_remove_isNoneEvent
  EPollPoller.removeChannel dbg p { ch with addedToLoop_ := false }

/-- The C expression `~mask` on a 32-bit int, for masks below 2^32. -/
def notMask (mask : Nat) : Nat := 0xFFFFFFFF ^^^ mask

/-- Channel::enableReading. -/
def Channel.enableReading (dbg : Bool) (ch : Channel) (p : EPollPoller) :=
  Channel.update dbg { ch with events_ := ch.events_ ||| kReadEvent } p
/-- Channel::disableReading. -/
def Channel.disableReading (dbg : Bool) (ch : Channel) (p : EPollPoller) :=
  Channel.update dbg { ch with events_ := ch.events_ &&& notMask kReadEvent } p
/-- Channel::enableWriting. -/
def Channel.enableWriting (dbg : Bool) (ch : Channel) (p : EPollPoller) :=
  Channel.update dbg { ch with events_ := ch.events_ ||| kWriteEvent } p
/-- Channel::disableWriting. -/
def Channel.disableWriting (dbg : Bool) (ch : Channel) (p : EPollPoller) :=
  Channel.update dbg { ch with events_ := ch.events_ &&& notMask kWriteEvent } p
/-- Channel::disableAll. -/
def Channel.disableAll (dbg : Bool) (ch : Channel) (p : EPollPoller) :=
  Channel.update dbg { ch with events_ := kNoneEvent } p

/-! ## TcpConnection -/

/-- A byte of a payload; only its identity matters. -/
abbrev Byte := Nat

/-- TcpConnection.h: `enum StateE`. -/
inductive StateE where
  | kConnecting
  | kConnected
  | kDisconnecting
  | kDisconnected
  deriving DecidableEq, Repr

/-- Modelled from the spec: errno.h (Linux value), resource temporarily unavailable. -/
def EWOULDBLOCK : Nat := 11
/-- Modelled from the spec: errno.h (Linux value), broken pipe. -/
def EPIPE : Nat := 32
/-- Modelled from the spec: errno.h (Linux value), connection reset by peer. -/
def ECONNRESET : Nat := 104

/-- What the kernel answers to one write on the connected socket: it takes at
most `room` bytes, or the call fails with an errno. -/
inductive WriteResult where
  | accepts (room : Nat)
  | fails (errno : Nat)
  deriving DecidableEq, Repr

/-- Modelled from the spec: sockets::write(fd, buf, count), declared in
SocketsOps.h and defined outside the repository.  Returns the `ssize_t` result
(the number of bytes taken, at most `count`, or -1) and errno. -/
def sockets.write (count : Nat) : WriteResult → Int × Nat
  | WriteResult.accepts room => ((min room count : Nat), 0)
  | WriteResult.fails errno => (-1, errno)

/-- What one `inputBuffer_.readFd` yields: the bytes read (none at end of
stream, the call then returns 0), or a failure with an errno. -/
inductive ReadResult where
  | bytes (data : List Byte)
  | fails (errno : Nat)
  deriving DecidableEq, Repr

/-- The functors TcpConnection binds and hands to `runInLoop` or
`queueInLoop` of its loop.  `sendInLoop` carries the message and the answer
the kernel will give if the functor attempts a write. -/
inductive ConnFunctor where
  | sendInLoop (message : List Byte) (wr : WriteResult)
  | shutdownInLoop
  | forceCloseInLoop
  | writeCompleteCallback
  | highWaterMarkCallback (len : Nat)
  deriving DecidableEq, Repr

/-- The calls a connection makes to the outside, in order: user callbacks and
the half-close of the socket.  `connection` records the state the connection
is in when `connectionCallback_` is invoked; `shutdownWrite` records the state
and `outputBuffer_.readableBytes()` at the call of `socket_->shutdownWrite()`. -/
inductive ConnEvent where
  | connection (state : StateE)
  | message (receiveTime : Timestamp) (readable : Nat)
  | writeComplete
  | highWaterMark (len : Nat)
  | close
  | shutdownWrite (state : StateE) (unsent : Nat)
  deriving DecidableEq, Repr

/-- A TcpConnection with the parts of its surroundings it acts on: its data
members (TcpConnection.h; `connectionCallback_`, `messageCallback_` and
`closeCallback_` are always set by TcpServer and TcpClient), the task queue
and the poller of its loop, the bytes the kernel took from `sockets::write`
on its socket (`sent`), and the calls it made to the outside (`trace`).
Modelled from the spec: Buffer (muduo/net/Buffer.h, not in the repository) is
the list of its readable bytes; `append` adds at the end, `retrieve(n)` drops
the first n bytes. -/
structure TcpConnection where
  state_ : StateE
  reading_ : Bool
  channel_ : Channel
  highWaterMark_ : Nat
  writeCompleteCallback_ : Bool
  highWaterMarkCallback_ : Bool
  inputBuffer_ : List Byte
  outputBuffer_ : List Byte
  loop_ : EventLoop ConnFunctor
  poller_ : EPollPoller
  sent : List Byte
  trace : List ConnEvent
  deriving DecidableEq, Repr

/-- The result of a member function: the connection afterwards, or the abort
together with the connection as it was when the aborting call started. -/
abbrev Res := Except (Abort × TcpConnection) TcpConnection

/-- The connection a result leaves behind. -/
def Res.world : Res → TcpConnection
  | Except.ok w => w
  | Except.error e => e.2

namespace TcpConnection

/-- TcpConnection::TcpConnection on a loop with the given poller: state
kConnecting, the four channel callbacks bound, high-water mark 64 MiB. -/
def new (addr : Nat) (sockfd : Int) (poller : EPollPoller)
    (writeCompleteCallback highWaterMarkCallback : Bool) : TcpConnection :=
  { state_ := StateE.kConnecting, reading_ := true,
    channel_ := { Channel.new addr sockfd with
      readCallback_ := true, writeCallback_ := true,
      closeCallback_ := true, errorCallback_ := true },
    highWaterMark_ := 64 * 1024 * 1024,
    writeCompleteCallback_ := writeCompleteCallback,
    highWaterMarkCallback_ := highWaterMarkCallback,
    inputBuffer_ := [], outputBuffer_ := [],
    loop_ := EventLoop.new, poller_ := poller, sent := [], trace := [] }

/-- An `assert` inside a member function. -/
def assert (dbg : Bool) (c : Bool) (site : Abort) (w : TcpConnection) : Res :=
  if dbg && !c then Except.error (site, w) else Except.ok w

/-- A call on `channel_` that reaches the poller of the loop. -/
def onChannel (w : TcpConnection)
    (f : Channel → EPollPoller → Except Abort (Channel × EPollPoller)) : Res :=
  match f w.channel_ w.poller_ with
  | Except.ok r => Except.ok { w with channel_ := r.1, poller_ := r.2 }
  | Except.error a => Except.error (a, w)

/-- TcpConnection::setState. -/
def setState (w : TcpConnection) (s : StateE) : TcpConnection := { w with state_ := s }

/-- A call recorded in the trace. -/
def emit (w : TcpConnection) (e : ConnEvent) : TcpConnection :=
  { w with trace := w.trace ++ [e] }

/-- The call `loop_->queueInLoop(cb)`. -/
def queueInLoop (w : TcpConnection) (isInLoopThread : Bool) (cb : ConnFunctor) :
    TcpConnection :=
  { w with loop_ := w.loop_.queueInLoop isInLoopThread cb }

/-- The statement `if (c) loop_->queueInLoop(cb);` executed on the loop thread. -/
def queueIf (w : TcpConnection) (c : Bool) (cb : ConnFunctor) : TcpConnection :=
  if c then w.queueInLoop true cb else w

/-- TcpConnection::sendInLoop, first block (`if (!channel_->isWriting() &&
outputBuffer_.readableBytes() == 0)`): the direct write.  Returns the locals
`nwrote`, `remaining` and `faultError` and the connection after the block. -/
def sendInLoop_direct (w : TcpConnection) (data : List Byte) (wr : WriteResult) :
    Int × Nat × Bool × TcpConnection :=
  let len := data.length
  if !w.channel_.isWriting && w.outputBuffer_.length == 0 then
    let r := sockets.write len wr
    if r.1 ≥ 0 then
      let remaining := ((len : Int) - r.1).toNat
      let w1 := { w with sent := w.sent ++ data.take r.1.toNat }
      let w2 := w1.queueIf (remaining == 0 && w1.writeCompleteCallback_)
        ConnFunctor.writeCompleteCallback
      (r.1, remaining, false, w2)
    else
      (0, len, (r.2 != EWOULDBLOCK && (r.2 == EPIPE || r.2 == ECONNRESET)), w)
  else (0, len, false, w)

/-- TcpConnection::sendInLoop, second block (from `assert(remaining <= len)`):
append what was not written and enable WRITE interest. -/
def sendInLoop_buffer (dbg : Bool) (w : TcpConnection) (data : List Byte) (nwrote : Int)
    (remaining : Nat) (faultError : Bool) : Res := do
  let w4 ← assert dbg (remaining ≤ data.length) Abort.sendInLoop_remaining w
  if !faultError && remaining > 0 then
    let oldLen := w4.outputBuffer_.length
    let w5 := w4.queueIf
      (oldLen + remaining ≥ w4.highWaterMark_ && oldLen < w4.highWaterMark_
        && w4.highWaterMarkCallback_)
      (ConnFunctor.highWaterMarkCallback (oldLen + remaining))
    let w6 := { w5 with
      outputBuffer_ := w5.outputBuffer_ ++ (data.drop nwrote.toNat).take remaining }
    if !w6.channel_.isWriting then w6.onChannel (Channel.enableWriting dbg)
    else pure w6
  else pure w4

/-- TcpConnection::sendInLoop(data, len); `wr` is the answer of the kernel if
a write is attempted. -/
def sendInLoop (dbg : Bool) (w : TcpConnection) (data : List Byte) (wr : WriteResult) :
    Res :=
  if w.state_ = StateE.kDisconnected then Except.ok w
  else
    let direct := sendInLoop_direct w data wr
    sendInLoop_buffer dbg direct.2.2.2 data direct.1 direct.2.1 direct.2.2.1

/-- TcpConnection::shutdownInLoop. -/
def shutdownInLoop (w : TcpConnection) : TcpConnection :=
  if !w.channel_.isWriting then
    w.emit (ConnEvent.shutdownWrite w.state_ w.outputBuffer_.length)
  else w

/-- TcpConnection::handleClose. -/
def handleClose (dbg : Bool) (w : TcpConnection) : Res := do
  let w1 ← assert dbg (w.state_ = StateE.kConnected || w.state_ = StateE.kDisconnecting)
    Abort.handleClose_state w
  let w2 := w1.setState StateE.kDisconnected
  let w3 ← w2.onChannel (Channel.disableAll dbg)
  let w4 := w3.emit (ConnEvent.connection w3.state_)
  pure (w4.emit ConnEvent.close)

/-- TcpConnection::forceCloseInLoop. -/
def forceCloseInLoop (dbg : Bool) (w : TcpConnection) : Res :=
  if w.state_ = StateE.kConnected ∨ w.state_ = StateE.kDisconnecting then
    handleClose dbg w
  else pure w

/-- TcpConnection::handleError: reads SO_ERROR and logs it. -/
def handleError (w : TcpConnection) : TcpConnection := w

/-- TcpConnection::handleRead(receiveTime); `rd` is what readFd yields. -/
def handleRead (dbg : Bool) (w : TcpConnection) (receiveTime : Timestamp)
    (rd : ReadResult) : Res :=
  match rd with
  | ReadResult.bytes data =>
    if data.length > 0 then
      let w1 := { w with inputBuffer_ := w.inputBuffer_ ++ data }
      pure (w1.emit (ConnEvent.message receiveTime w1.inputBuffer_.length))
    else handleClose dbg w
  | ReadResult.fails _ => pure (handleError w)

/-- TcpConnection::handleWrite; `wr` is the answer of the kernel to the write. -/
def handleWrite (dbg : Bool) (w : TcpConnection) (wr : WriteResult) : Res :=
  if w.channel_.isWriting then
    let r := sockets.write w.outputBuffer_.length wr
    if r.1 > 0 then do
      let w1 := { w with sent := w.sent ++ w.outputBuffer_.take r.1.toNat,
                         outputBuffer_ := w.outputBuffer_.drop r.1.toNat }
      if w1.outputBuffer_.length == 0 then
        let w2 ← w1.onChannel (Channel.disableWriting dbg)
        let w3 := w2.queueIf w2.writeCompleteCallback_ ConnFunctor.writeCompleteCallback
        if w3.state_ = StateE.kDisconnecting then pure (shutdownInLoop w3)
        else pure w3
      else pure w1
    else pure w
  else pure w

/-- One functor call `cb()` made by the loop thread. -/
def invoke (dbg : Bool) (w : TcpConnection) (cb : ConnFunctor) : Res :=
  let w1 := { w with loop_ := { w.loop_ with invoked := w.loop_.invoked ++ [cb] } }
  match cb with
  | ConnFunctor.sendInLoop message wr => sendInLoop dbg w1 message wr
  | ConnFunctor.shutdownInLoop => pure (shutdownInLoop w1)
  | ConnFunctor.forceCloseInLoop => forceCloseInLoop dbg w1
  | ConnFunctor.writeCompleteCallback => pure (w1.emit ConnEvent.writeComplete)
  | ConnFunctor.highWaterMarkCallback len => pure (w1.emit (ConnEvent.highWaterMark len))

/-- The call `loop_->runInLoop(cb)` (EventLoop::runInLoop). -/
def runInLoop (dbg : Bool) (w : TcpConnection) (isInLoopThread : Bool) (cb : ConnFunctor) :
    Res :=
  if isInLoopThread then invoke dbg w cb else pure (w.queueInLoop isInLoopThread cb)

/-- EventLoop::doPendingFunctors of the loop of the connection. -/
def doPendingFunctors (dbg : Bool) (w : TcpConnection) : Res := do
  let w1 := { w with loop_ := { w.loop_ with callingPendingFunctors_ := true } }
  let functors := w1.loop_.pendingFunctors_
  let w2 := { w1 with loop_ := { w1.loop_ with pendingFunctors_ := [] } }
  let w3 ← functors.foldlM (fun w' f => invoke dbg w' f) w2
  pure { w3 with loop_ := { w3.loop_ with callingPendingFunctors_ := false } }

/-- TcpConnection::send(message), called on the loop thread or on another
thread; `wr` is the answer of the kernel if sendInLoop attempts a write. -/
def send (dbg : Bool) (w : TcpConnection) (isInLoopThread : Bool) (message : List Byte)
    (wr : WriteResult) : Res :=
  if w.state_ = StateE.kConnected then
    if isInLoopThread then sendInLoop dbg w message wr
    else runInLoop dbg w isInLoopThread (ConnFunctor.sendInLoop message wr)
  else pure w

/-- TcpConnection::shutdown. -/
def shutdown (dbg : Bool) (w : TcpConnection) (isInLoopThread : Bool) : Res :=
  if w.state_ = StateE.kConnected then
    runInLoop dbg (w.setState StateE.kDisconnecting) isInLoopThread ConnFunctor.shutdownInLoop
  else pure w

/-- TcpConnection::forceClose. -/
def forceClose (w : TcpConnection) (isInLoopThread : Bool) : TcpConnection :=
  if w.state_ = StateE.kConnected ∨ w.state_ = StateE.kDisconnecting then
    (w.setState StateE.kDisconnecting).queueInLoop isInLoopThread ConnFunctor.forceCloseInLoop
  else w

/-- TcpConnection::connectEstablished. -/
def connectEstablished (dbg : Bool) (w : TcpConnection) : Res := do
  let w1 ← assert dbg (w.state_ = StateE.kConnecting) Abort.connectEstablished_state w
  let w2 := w1.setState StateE.kConnected
  let w3 := { w2 with channel_ := { w2.channel_ with tied_ := true } }
  let w4 ← w3.onChannel (Channel.enableReading dbg)
  pure (w4.emit (ConnEvent.connection w4.state_))

/-- TcpConnection::connectDestroyed. -/
def connectDestroyed (dbg : Bool) (w : TcpConnection) : Res := do
  let w1 ← (if w.state_ = StateE.kConnected then do
      let w2 := w.setState StateE.kDisconnected
      let w3 ← w2.onChannel (Channel.disableAll dbg)
      pure (w3.emit (ConnEvent.connection w3.state_))
    else pure w)
  w1.onChannel (Channel.remove dbg)

end TcpConnection

/-! ## The life of a connection -/

namespace TcpConnection

/-- The member function TcpConnection binds to each callback of its channel
(TcpConnection::TcpConnection). -/
def dispatch (dbg : Bool) (rd : ReadResult) (wr : WriteResult) (w : TcpConnection) :
    ChannelCall → Res
  | ChannelCall.close => handleClose dbg w
  | ChannelCall.error => pure (handleError w)
  | ChannelCall.read receiveTime => handleRead dbg w receiveTime rd
  | ChannelCall.write => handleWrite dbg w wr

/-- One dispatch by EventLoop::loop: the poller stored the ready mask in the
channel, `channel_->handleEvent(t)` picks the callbacks, and each runs the
member function bound to it.  The tie can be locked, the connection exists. -/
def handleEvent (dbg : Bool) (w : TcpConnection) (revents : Nat) (t : Timestamp)
    (rd : ReadResult) (wr : WriteResult) : Res :=
  let r := (w.channel_.set_revents revents).handleEvent t true
  r.2.foldlM (dispatch dbg rd wr) { w with channel_ := r.1 }

/-- What can happen to an established connection: a call of its public
interface from the loop thread or another thread, a readiness event on its
descriptor, or the drain phase of its loop. -/
inductive ConnOp where
  | send (isInLoopThread : Bool) (message : List Byte) (wr : WriteResult)
  | shutdown (isInLoopThread : Bool)
  | forceClose (isInLoopThread : Bool)
  | ready (revents : Nat) (t : Timestamp) (rd : ReadResult) (wr : WriteResult)
  | doPendingFunctors
  deriving DecidableEq, Repr

/-- One operation.  A readiness event is delivered only while the channel is
in the kernel set (index kAdded). -/
def step (dbg : Bool) (w : TcpConnection) : ConnOp → Res
  | ConnOp.send b message wr => send dbg w b message wr
  | ConnOp.shutdown b => shutdown dbg w b
  | ConnOp.forceClose b => pure (forceClose w b)
  | ConnOp.ready revents t rd wr =>
    if w.channel_.index_ = kAdded then handleEvent dbg w revents t rd wr else pure w
  | ConnOp.doPendingFunctors => doPendingFunctors dbg w

/-- A sequence of operations, stopping at the first abort. -/
def run (dbg : Bool) (w : TcpConnection) (ops : List ConnOp) : Res :=
  ops.foldlM (step dbg) w

/-- connectEstablished followed by a sequence of operations. -/
def established (dbg : Bool) (w : TcpConnection) (ops : List ConnOp) : Res := do
  let w1 ← connectEstablished dbg w
  run dbg w1 ops

/-- A whole life: connectEstablished, a sequence of operations, connectDestroyed. -/
def lifetime (dbg : Bool) (w : TcpConnection) (ops : List ConnOp) : Res := do
  let w1 ← established dbg w ops
  connectDestroyed dbg w1

/-- The invocations of the connection callback in a trace, by state. -/
def connectionCalls (trace : List ConnEvent) : List StateE :=
  trace.filterMap (fun e => match e with
    | ConnEvent.connection s => some s
    | _ => none)

/-- The number of traversals of handleClose: each ends with one call of
`closeCallback_`, which nothing else calls. -/
def closePathCount (w : TcpConnection) : Nat :=
  w.trace.count ConnEvent.close

/-- forceClose called n times. -/
def forceCloseTimes (w : TcpConnection) (isInLoopThread : Bool) : Nat → TcpConnection
  | 0 => w
  | n + 1 => forceCloseTimes (forceClose w isInLoopThread) isInLoopThread n

/-- A new connection on descriptor 7 of a loop with an empty poller. -/
def fresh : TcpConnection := TcpConnection.new 1 7 EPollPoller.new true true

end TcpConnection

/-- The channel is registered with the poller: its index is kAdded, the map
holds it under its descriptor and the descriptor is in the kernel set. -/
def Registered (ch : Channel) (p : EPollPoller) : Prop :=
  ch.index_ = kAdded ∧ p.channels_.lookup ch.fd_ = some ch.addr ∧
    (p.kernel.lookup ch.fd_).isSome = true

/-- The new connection `fresh` after connectEstablished. -/
def TcpConnection.connected : TcpConnection :=
  (TcpConnection.established true TcpConnection.fresh []).world

/-- The connection `fresh` after connectEstablished and connectDestroyed. -/
def TcpConnection.destroyed : TcpConnection :=
  (TcpConnection.lifetime true TcpConnection.fresh []).world

/-- What sendInLoop does with a payload, in the words of the specification
(with the discarding of the payload after EPIPE or ECONNRESET added): the
bytes written directly to the socket and the bytes appended to the output
buffer. -/
def sendOutcome (w : TcpConnection) (data : List Byte) (wr : WriteResult) :
    List Byte × List Byte :=
  if w.channel_.isWriting = true ∨ w.outputBuffer_ ≠ [] then ([], data)
  else
    match wr with
    | WriteResult.accepts room =>
      (data.take (min room data.length), data.drop (min room data.length))
    | WriteResult.fails errno =>
      ([], if errno = EPIPE ∨ errno = ECONNRESET then [] else data)

/-- The two operations that move payload bytes: a call of sendInLoop and a
write-ready event handled by handleWrite, each with the answer of the kernel. -/
inductive WriteOp where
  | sendInLoop (data : List Byte) (wr : WriteResult)
  | handleWrite (wr : WriteResult)
  deriving DecidableEq, Repr

/-- One operation on the output path. -/
def TcpConnection.writeStep (dbg : Bool) (w : TcpConnection) : WriteOp → Res
  | WriteOp.sendInLoop data wr => TcpConnection.sendInLoop dbg w data wr
  | WriteOp.handleWrite wr => TcpConnection.handleWrite dbg w wr

/-- A sequence of operations on the output path. -/
def TcpConnection.writeRun (dbg : Bool) (w : TcpConnection) (ops : List WriteOp) : Res :=
  ops.foldlM (TcpConnection.writeStep dbg) w

/-- The payloads handed to sendInLoop, concatenated in call order. -/
def payloads : List WriteOp → List Byte
  | [] => []
  | WriteOp.sendInLoop data _ :: ops => data ++ payloads ops
  | WriteOp.handleWrite _ :: ops => payloads ops

/-- No write of the sequence fails with EPIPE or ECONNRESET. -/
def noFault (ops : List WriteOp) : Prop :=
  ∀ data errno, WriteOp.sendInLoop data (WriteResult.fails errno) ∈ ops →
    errno ≠ EPIPE ∧ errno ≠ ECONNRESET

/-- Every half-close recorded in the trace while the connection was not yet
Disconnected found the output buffer empty. -/
def ShutdownsDrained (trace : List ConnEvent) : Prop :=
  ∀ st n, ConnEvent.shutdownWrite st n ∈ trace → st ≠ StateE.kDisconnected → n = 0

/-- The invariant of an established connection: the half-closes so far found
the buffer drained, and while the connection is Connected or Disconnecting its
channel is registered with READ interest and has WRITE interest exactly when
the output buffer holds bytes. -/
def Established (w : TcpConnection) : Prop :=
  ShutdownsDrained w.trace ∧ w.state_ ≠ StateE.kConnecting ∧
  (w.state_ ≠ StateE.kDisconnected →
    Registered w.channel_ w.poller_ ∧ w.channel_.events_.testBit 0 = true ∧
    (w.channel_.isWriting = true ↔ w.outputBuffer_ ≠ []))

/-- What holds of a result: the invariant if the call returned, and the
property of the trace if it aborted. -/
def Res.Keeps (r : Res) : Prop :=
  match r with
  | Except.ok w => Established w
  | Except.error e => ShutdownsDrained e.2.trace

/-! ## What the epoll backend holds for a channel -/

/-- The poller and a channel agree: a channel with index kNew is in neither
`channels_` nor the kernel set, one with index kAdded is in both, one with
index kDeleted is in `channels_` only. -/
def PollerKnows (ch : Channel) (p : EPollPoller) : Prop :=
  (ch.index_ = kNew ∧ p.channels_.lookup ch.fd_ = none ∧
      (p.kernel.lookup ch.fd_).isSome = false) ∨
  (ch.index_ = kAdded ∧ p.channels_.lookup ch.fd_ = some ch.addr ∧
      (p.kernel.lookup ch.fd_).isSome = true) ∨
  (ch.index_ = kDeleted ∧ p.channels_.lookup ch.fd_ = some ch.addr ∧
      (p.kernel.lookup ch.fd_).isSome = false)

/-- A channel of descriptor 7 that was registered for reading and then had
all its interest disabled: index kDeleted, empty mask. -/
def deletedChannel : Except Abort (Channel × EPollPoller) := do
  let (c1, p1) ← Channel.enableReading true (Channel.new 1 7) EPollPoller.new
  Channel.disableAll true c1 p1

/-! ## PollPoller -/

/-- The places where the modelled PollPoller stops the process: a failed
`assert`, or an access the C++ standard leaves undefined. -/
inductive PollAbort where
  /-- updateChannel, new channel: `assert(channels_.find(channel->fd()) == channels_.end())` -/
  | updateChannel_new_absent
  /-- updateChannel, known channel: `assert(channels_.find(channel->fd()) != channels_.end())` -/
  | updateChannel_present
  /-- updateChannel, known channel: `assert(channels_[channel->fd()] == channel)` -/
  | updateChannel_same
  /-- updateChannel, known channel: `assert(0 <= idx && idx < pollfds_.size())` -/
  | updateChannel_idx
  /-- updateChannel, known channel: `assert(pfd.fd == channel->fd() || pfd.fd == -channel->fd()-1)` -/
  | updateChannel_pfd
  /-- removeChannel: `assert(channels_.find(channel->fd()) != channels_.end())` -/
  | removeChannel_present
  /-- removeChannel: `assert(channels_[channel->fd()] == channel)` -/
  | removeChannel_same
  /-- removeChannel: `assert(channel->isNoneEvent())` -/
  | removeChannel_isNoneEvent
  /-- removeChannel: `assert(0 <= idx && idx < pollfds_.size())` -/
  | removeChannel_idx
  /-- removeChannel: `assert(pfd.fd == -channel->fd()-1 && pfd.events == channel->events())` -/
  | removeChannel_pfd
  /-- removeChannel: `assert(n == 1)` -/
  | removeChannel_erased
  /-- an element of `pollfds_` outside its bounds, or the null pointer that
  `channels_[key]` creates for an absent key, is used -/
  | undefined_behaviour
  deriving DecidableEq, Repr

/-- The macro `assert(c)` at a site of any component: with assertions
compiled in (`dbg`) a false condition aborts, with NDEBUG nothing happens. -/
def assertE {ε : Type} (dbg : Bool) (c : Bool) (site : ε) : Except ε Unit :=
  if dbg && !c then Except.error site else Except.ok ()

/-- The cast `static_cast<short>(x)` for a non-negative int: the low 16 bits, signed. -/
def toShort (x : Nat) : Int :=
  if x % 65536 < 32768 then ((x % 65536 : Nat) : Int) else ((x % 65536 : Nat) : Int) - 65536

/-- The record `struct pollfd` of poll(2). -/
structure PollFd where
  fd : Int
  events : Int
  revents : Int
  deriving DecidableEq, Repr

/-- The state of a PollPoller together with the Channel objects its pointers
refer to: `pollfds_` (std::vector), `channels_` (std::map from descriptor to
`Channel*`, a pointer being the address of the object) and `heap`, the
Channel object at each address. -/
structure PollPoller where
  pollfds_ : List PollFd
  channels_ : List (Int × Nat)
  heap : Nat → Channel

/-- PollPoller::PollPoller: nothing registered; `heap` gives the channels
that exist. -/
def PollPoller.new (heap : Nat → Channel) : PollPoller :=
  { pollfds_ := [], channels_ := [], heap := heap }

/-- PollPoller::updateChannel(channel), `channel` being the object at address `a`. -/
def PollPoller.updateChannel (dbg : Bool) (w : PollPoller) (a : Nat) :
    Except PollAbort PollPoller :=
  let channel := w.heap a
  if channel.index_ < 0 then do
    assertE dbg (w.channels_.lookup channel.fd_).isNone PollAbort.updateChannel_new_absent
    let pfd : PollFd := { fd := channel.fd_, events := toShort channel.events_, revents := 0 }
    let pollfds := w.pollfds_ ++ [pfd]
    let idx : Int := (pollfds.length : Int) - 1
    pure { pollfds_ := pollfds
           heap := Function.update w.heap a (channel.set_index idx)
           channels_ := mapSet w.channels_ pfd.fd a }
  else do
    assertE dbg (w.channels_.lookup channel.fd_).isSome PollAbort.updateChannel_present
    assertE dbg (w.channels_.lookup channel.fd_ == some a) PollAbort.updateChannel_same
    let idx := channel.index_
    assertE dbg (decide (0 ≤ idx) && decide (idx < (w.pollfds_.length : Int)))
      PollAbort.updateChannel_idx
    match w.pollfds_[idx.toNat]? with
    | none => Except.error PollAbort.undefined_behaviour
    | some pfd =>
      assertE dbg (pfd.fd == channel.fd_ || pfd.fd == -channel.fd_ - 1)
        PollAbort.updateChannel_pfd
      let pfd1 : PollFd :=
        { fd := channel.fd_, events := toShort channel.events_, revents := 0 }
      let pfd2 : PollFd :=
        if channel.isNoneEvent then { pfd1 with fd := -channel.fd_ - 1 } else pfd1
      pure { w with pollfds_ := w.pollfds_.set idx.toNat pfd2 }

/-- The else branch of PollPoller::removeChannel: `iter_swap` of the record
at `idx` with the last one, `channels_[channelAtEnd]->set_index(idx)`,
`pop_back`. -/
def PollPoller.removeChannel_swap (w : PollPoller) (idx : Int) :
    Except PollAbort PollPoller :=
  match w.pollfds_.getLast?, w.pollfds_[idx.toNat]? with
  | some back, some victim =>
    let channelAtEnd := back.fd
    let pollfds := (w.pollfds_.set idx.toNat back).set (w.pollfds_.length - 1) victim
    let channelAtEnd := if channelAtEnd < 0 then -channelAtEnd - 1 else channelAtEnd
    match w.channels_.lookup channelAtEnd with
    | none => Except.error PollAbort.undefined_behaviour
    | some b =>
      Except.ok { w with heap := Function.update w.heap b ((w.heap b).set_index idx)
                         pollfds_ := pollfds.dropLast }
  | _, _ => Except.error PollAbort.undefined_behaviour

/-- PollPoller::removeChannel(channel), `channel` being the object at address `a`.
The test `implicit_cast<size_t>(idx) == pollfds_.size()-1` compares in
size_t, where an empty vector gives SIZE_MAX on the right and idx = -1 gives
SIZE_MAX on the left: for an int `idx` and a vector that fits in memory this
is the comparison of `idx` with `size - 1` as integers.  The reference
`pollfds_[idx]` is bound in both builds; with `idx` outside the vector (also
idx = -1 on an empty vector, where the code goes on to `pop_back`) the
behaviour is undefined. -/
def PollPoller.removeChannel (dbg : Bool) (w : PollPoller) (a : Nat) :
    Except PollAbort PollPoller := do
  let channel := w.heap a
  assertE dbg (w.channels_.lookup channel.fd_).isSome PollAbort.removeChannel_present
  assertE dbg (w.channels_.lookup channel.fd_ == some a) PollAbort.removeChannel_same
  assertE dbg channel.isNoneEvent PollAbort.removeChannel_isNoneEvent
  let idx := channel.index_
  assertE dbg (decide (0 ≤ idx) && decide (idx < (w.pollfds_.length : Int)))
    PollAbort.removeChannel_idx
  match (if 0 ≤ idx then w.pollfds_[idx.toNat]? else none) with
  | none => Except.error PollAbort.undefined_behaviour
  | some pfd =>
    assertE dbg (pfd.fd == -channel.fd_ - 1 && pfd.events == (channel.events_ : Int))
      PollAbort.removeChannel_pfd
    let n := if (w.channels_.lookup channel.fd_).isSome then 1 else 0
    let w1 := { w with channels_ := mapErase w.channels_ channel.fd_ }
    assertE dbg (n == 1) PollAbort.removeChannel_erased
    if idx = (w1.pollfds_.length : Int) - 1 then
      pure { w1 with pollfds_ := w1.pollfds_.dropLast }
    else
      w1.removeChannel_swap idx

/-- What a Channel asks of its poller. -/
inductive PollOp where
  /-- the channel at the address sets its interest mask (enableReading,
  disableWriting, disableAll, ...) and calls `update()` -/
  | update (a : Nat) (events : Nat)
  /-- the channel at the address calls `remove()` -/
  | remove (a : Nat)
  deriving DecidableEq, Repr

/-- The channel at address `a` changes its interest mask. -/
def PollPoller.setEvents (w : PollPoller) (a : Nat) (events : Nat) : PollPoller :=
  { w with heap := Function.update w.heap a { w.heap a with events_ := events } }

/-- One request of a channel. -/
def PollPoller.step (dbg : Bool) (w : PollPoller) : PollOp → Except PollAbort PollPoller
  | PollOp.update a events => PollPoller.updateChannel dbg (w.setEvents a events) a
  | PollOp.remove a => PollPoller.removeChannel dbg w a

/-- A sequence of requests. -/
def PollPoller.run (dbg : Bool) (w : PollPoller) (ops : List PollOp) :
    Except PollAbort PollPoller :=
  ops.foldlM (PollPoller.step dbg) w

/-- The descriptor a record stands for: `-fd-1` is undone for a negative entry. -/
def decodeFd (fd : Int) : Int := if fd < 0 then -fd - 1 else fd

/-- The record array and the map describe the same channels: the map has one
entry per key and as many entries as there are records; the channel the map
holds for the decoded descriptor of record `i` has index `i`; and every
channel in the map has the index of a record that decodes to its key. -/
def PollInv (w : PollPoller) : Prop :=
  (w.channels_.map Prod.fst).Nodup ∧
  w.channels_.length = w.pollfds_.length ∧
  (∀ (i : Nat) (pfd : PollFd), w.pollfds_[i]? = some pfd →
    ∃ a, w.channels_.lookup (decodeFd pfd.fd) = some a ∧ (w.heap a).index_ = (i : Int)) ∧
  (∀ (k : Int) (a : Nat), w.channels_.lookup k = some a →
    ∃ pfd, 0 ≤ (w.heap a).index_ ∧ w.pollfds_[(w.heap a).index_.toNat]? = some pfd ∧
      decodeFd pfd.fd = k)

/-- Channels that exist at every address: the one at address `a` has descriptor `a`. -/
def pollHeap (a : Nat) : Channel := Channel.new a (a : Int)

/-- Three channels registered for reading; then the first one gives up its
interest. -/
def pollThreeOps : List PollOp :=
  [PollOp.update 0 kReadEvent, PollOp.update 1 kReadEvent, PollOp.update 2 kReadEvent,
   PollOp.update 0 kNoneEvent]

/-- The poller after `pollThreeOps`. -/
def pollThree : PollPoller :=
  match PollPoller.run true (PollPoller.new pollHeap) pollThreeOps with
  | Except.ok w => w
  | Except.error _ => PollPoller.new pollHeap

/-- The poller after the channels of descriptors 0 and 1 registered for reading. -/
def pollTwo : PollPoller :=
  match PollPoller.run true (PollPoller.new pollHeap)
      [PollOp.update 0 kReadEvent, PollOp.update 1 kReadEvent] with
  | Except.ok w => w
  | Except.error _ => PollPoller.new pollHeap

/-! ## Timer -/

/-- Modelled from the spec: UINTPTR_MAX of <stdint.h> on a 64-bit machine
(the header is not part of the repository). -/
def UINTPTR_MAX : Nat := 18446744073709551615

/-- Modelled from the spec: Timestamp::valid() of muduo/base/Timestamp.h (not
in the repository): a time stamp is valid when its microseconds since the
epoch are positive.  Times before the epoch are not modelled. -/
def Timestamp.valid (t : Nat) : Bool := decide (0 < t)

/-- Modelled from the spec: Timestamp::invalid() of muduo/base/Timestamp.h. -/
def Timestamp.invalid : Nat := 0

/-- Modelled from the spec: a finite value of the C type `double` (IEEE 754
binary64, provided by the compiler): `mantissa * 2 ^ exponent`, negated when
`negative` is set.  Infinities, NaN and the limits of the exponent range are
not modelled. -/
structure Double where
  negative : Bool
  mantissa : Nat
  exponent : Int
  deriving DecidableEq, Repr

/-- The number of binary digits of `n`, counted in at most `fuel` steps. -/
def bitLengthAux : Nat → Nat → Nat
  | 0, _ => 0
  | fuel + 1, n => if n = 0 then 0 else bitLengthAux fuel (n / 2) + 1

/-- The number of binary digits of a natural number. -/
def bitLength (n : Nat) : Nat := bitLengthAux n n

/-- Modelled from the spec: the rounding of a double operation.  The exact
value `n * 2 ^ e` is brought to 53 significant binary digits, to the nearest
value and to the even one of two nearest values.  Gives mantissa and exponent. -/
def round53 (n : Nat) (e : Int) : Nat × Int :=
  let k := bitLength n - 53
  if k = 0 then (n, e)
  else
    let q := n / 2 ^ k
    let r := n % 2 ^ k
    let half := 2 ^ (k - 1)
    let q1 := if r > half ∨ (r = half ∧ q % 2 = 1) then q + 1 else q
    (q1, e + k)

/-- Modelled from the spec: the double that the decimal literal
`digits`e-`scale` denotes, the value `digits / 10 ^ scale` rounded once.  The
quotient is taken with two digits to spare and a last digit that tells
whether the division left a remainder. -/
def Double.ofDecimal (digits scale : Nat) : Double :=
  if digits = 0 then { negative := false, mantissa := 0, exponent := 0 }
  else
    let s := 55 + bitLength (10 ^ scale)
    let q := digits * 2 ^ s / 10 ^ scale
    let rem := digits * 2 ^ s % 10 ^ scale
    let r := round53 (2 * q + (if rem = 0 then 0 else 1)) (-((s : Int) + 1))
    { negative := false, mantissa := r.1, exponent := r.2 }

/-- The comparison `x > 0.0`. -/
def Double.positive (x : Double) : Bool := !x.negative && decide (0 < x.mantissa)

/-- Modelled from the spec: the number of microseconds that
addTime(timestamp, seconds) of muduo/base/Timestamp.h adds,
`static_cast<int64_t>(seconds * Timestamp::kMicroSecondsPerSecond)`: the
double product with 1000000, rounded, then cut to an integer toward zero. -/
def Double.toMicros (x : Double) : Int :=
  let p := round53 (x.mantissa * 1000000) x.exponent
  let magnitude : Nat :=
    if 0 ≤ p.2 then p.1 * 2 ^ p.2.toNat else p.1 / 2 ^ (-p.2).toNat
  if x.negative then -(magnitude : Int) else (magnitude : Int)

/-- Modelled from the spec: addTime(timestamp, seconds) of
muduo/base/Timestamp.h adds the interval, converted to whole microseconds
(`Double.toMicros`), to the time stamp.  The model keeps the interval of a
timer as the number of microseconds that addTime adds. -/
def addTime (timestamp : Nat) (micros : Nat) : Nat := timestamp + micros

/-- Modelled from the spec: a 64-bit signed integer after an addition that
wraps around (AtomicInt64 of muduo/base/Atomic.h, not in the repository). -/
def wrapInt64 (x : Int) : Int :=
  (x + 9223372036854775808) % 18446744073709551616 - 9223372036854775808

/-- Modelled from the spec: AtomicInt64::incrementAndGet adds one to the
counter and returns the new value.  Gives the value and the counter. -/
def incrementAndGet (counter : Int) : Int × Int :=
  (wrapInt64 (counter + 1), wrapInt64 (counter + 1))

/-- A Timer object: `addr` is its address (the `Timer*` the queue stores),
`expiration_` is a Timestamp as its microseconds since the epoch (a natural
number, so that arithmetic applies to it directly).  Of the member
`const double interval_` the object keeps what the code uses it for: the
whole microseconds that addTime adds for it (`interval_`) and, in `repeat_`,
whether it is positive.  The callback is not part of the object here: a queue
is run with a function from timers to what their callbacks do. -/
structure Timer where
  addr : Nat
  expiration_ : Nat
  interval_ : Nat
  repeat_ : Bool
  sequence_ : Int
  deriving DecidableEq, Repr

/-- Timer::Timer(cb, when, interval) for an object allocated at `addr`, with
the value `numCreated` of the static counter `s_numCreated_`: `repeat_` is
`interval > 0.0`, and the double `interval` is kept as the microseconds that
addTime adds for it.  Gives the timer and the counter. -/
def Timer.new (addr : Nat) (when : Nat) (interval : Double) (numCreated : Int) :
    Timer × Int :=
  let r := incrementAndGet numCreated
  ({ addr := addr, expiration_ := when, interval_ := interval.toMicros.toNat,
     repeat_ := interval.positive, sequence_ := r.1 }, r.2)

/-- Timer::restart(now). -/
def Timer.restart (t : Timer) (now : Nat) : Timer :=
  if t.repeat_ then { t with expiration_ := addTime now t.interval_ }
  else { t with expiration_ := Timestamp.invalid }

/-- Timers created one after another from the counter value `numCreated`:
each item is (address, when, interval in seconds). -/
def createTimers : Int → List (Nat × Nat × Double) → List Timer
  | _, [] => []
  | numCreated, (addr, when, interval) :: rest =>
    (Timer.new addr when interval numCreated).1 ::
      createTimers (Timer.new addr when interval numCreated).2 rest

/-! ## TimerQueue -/

/-- Modelled from the spec: a TimerId (muduo/net/TimerId.h, not in the
repository) holds `timer_`, the address of the timer, and `sequence_`.  The
same pair is the key `ActiveTimer` of `activeTimers_` and `cancelingTimers_`. -/
abbrev TimerId := Nat × Int

/-- The pair `ActiveTimer(timer, timer->sequence())`. -/
def Timer.id (t : Timer) : TimerId := (t.addr, t.sequence_)

/-- The pair `Entry(timer->expiration(), timer)` under which `timers_` holds a timer. -/
def Timer.entry (t : Timer) : Nat × Nat := (t.expiration_, t.addr)

/-- The comparison `operator<` of std::pair on entries: by time stamp, then by address. -/
def entryLt (a b : Nat × Nat) : Bool :=
  decide (a.1 < b.1) || (!decide (b.1 < a.1) && decide (a.2 < b.2))

/-- The places where the modelled TimerQueue stops the process: a failed `assert`. -/
inductive TimerAbort where
  /-- insert: first `assert(timers_.size() == activeTimers_.size())` -/
  | insert_sizes_before
  /-- insert: `assert(result.second)` after `timers_.insert` -/
  | insert_timers
  /-- insert: `assert(result.second)` after `activeTimers_.insert` -/
  | insert_active
  /-- insert: last `assert(timers_.size() == activeTimers_.size())` -/
  | insert_sizes_after
  /-- cancelInLoop: first `assert(timers_.size() == activeTimers_.size())` -/
  | cancelInLoop_sizes_before
  /-- cancelInLoop: `assert(n == 1)` -/
  | cancelInLoop_erased
  /-- cancelInLoop: last `assert(timers_.size() == activeTimers_.size())` -/
  | cancelInLoop_sizes_after
  /-- getExpired: first `assert(timers_.size() == activeTimers_.size())` -/
  | getExpired_sizes_before
  /-- getExpired: `assert(end == timers_.end() || now < end->first)` -/
  | getExpired_end
  /-- getExpired: `assert(n == 1)` -/
  | getExpired_erased
  /-- getExpired: last `assert(timers_.size() == activeTimers_.size())` -/
  | getExpired_sizes_after
  deriving DecidableEq, Repr

/-- The state of a TimerQueue.  `timers_` (std::set of entries) is the list
of its timers in the order of the set; `activeTimers_` (std::set, of which
only membership is used) is a list with one element per key; a `Timer*` in
either set is represented by the object it points to.  `armed` is the
argument `expiration` of the last call of resetTimerfd, the expiration that
`timerfd_` was last armed with; `ran` lists the timers whose callback ran.
With the queue go the clock and the kernel timer behind `timerfd_`: `clock`
is the time that Timestamp::now() returns to howMuchTimeFromNow, `fires` is
the time at which the descriptor becomes readable as the last
timerfd_settime left it. -/
structure TimerQueue where
  timers_ : List Timer
  activeTimers_ : List Timer
  callingExpiredTimers_ : Bool
  cancelingTimers_ : List TimerId
  armed : Option Nat
  ran : List TimerId
  clock : Nat
  fires : Option Nat
  deriving DecidableEq, Repr

/-- TimerQueue::TimerQueue: no timer, descriptor not armed; the clock reads 0
until the surroundings set it. -/
def TimerQueue.new : TimerQueue :=
  { timers_ := [], activeTimers_ := [], callingExpiredTimers_ := false,
    cancelingTimers_ := [], armed := none, ran := [], clock := 0, fires := none }

/-- Time passes: from here on Timestamp::now() returns `t` to
howMuchTimeFromNow. -/
def TimerQueue.atTime (q : TimerQueue) (t : Nat) : TimerQueue := { q with clock := t }

/-- The call `timers_.insert(Entry(timer->expiration(), timer))`: the list after the
insertion and whether an element was inserted (`result.second`). -/
def setInsert (t : Timer) : List Timer → List Timer × Bool
  | [] => ([t], true)
  | h :: rest =>
    if entryLt t.entry h.entry then (t :: h :: rest, true)
    else if entryLt h.entry t.entry then (h :: (setInsert t rest).1, (setInsert t rest).2)
    else (h :: rest, false)

/-- The call `timers_.erase(entry)`: the list after the erasure and the number of
elements erased. -/
def setErase (e : Nat × Nat) (l : List Timer) : List Timer × Nat :=
  (l.filter (fun t => t.entry != e), (l.filter (fun t => t.entry == e)).length)

/-- The call `activeTimers_.insert(ActiveTimer(timer, timer->sequence()))`. -/
def activeInsert (t : Timer) (l : List Timer) : List Timer × Bool :=
  if l.any (fun x => x.id == t.id) then (l, false) else (l ++ [t], true)

/-- The call `activeTimers_.erase(key)`: the list after the erasure and the number of
elements erased. -/
def activeErase (key : TimerId) (l : List Timer) : List Timer × Nat :=
  (l.filter (fun t => t.id != key), (l.filter (fun t => t.id == key)).length)

/-- The call `cancelingTimers_.insert(key)`. -/
def cancelingInsert (key : TimerId) (l : List TimerId) : List TimerId :=
  if l.contains key then l else l ++ [key]

/-- detail::howMuchTimeFromNow(when), `now` being what Timestamp::now()
returns: the microseconds from now to `when`, at least 100.  The timespec
returned holds exactly this many microseconds. -/
def howMuchTimeFromNow (when now : Nat) : Nat :=
  let microseconds : Int := (when : Int) - (now : Int)
  let microseconds := if microseconds < 100 then 100 else microseconds
  microseconds.toNat

/-- detail::resetTimerfd(timerfd_, expiration): the descriptor is armed for
`expiration`.  Modelled from the spec: timerfd_settime(2) with flags 0 makes
the descriptor readable when the time given, here
howMuchTimeFromNow(expiration), has passed since the call. -/
def TimerQueue.resetTimerfd (q : TimerQueue) (expiration : Nat) : TimerQueue :=
  { q with armed := some expiration
           fires := some (q.clock + howMuchTimeFromNow expiration q.clock) }

/-- TimerQueue::insert(timer): whether the earliest expiration changed, and the queue. -/
def TimerQueue.insert (dbg : Bool) (q : TimerQueue) (timer : Timer) :
    Except TimerAbort (Bool × TimerQueue) := do
  assertE dbg (q.timers_.length == q.activeTimers_.length) TimerAbort.insert_sizes_before
  let when := timer.expiration_
  let earliestChanged :=
    match q.timers_.head? with
    | none => true
    | some first => decide (when < first.expiration_)
  let r1 := setInsert timer q.timers_
  assertE dbg r1.2 TimerAbort.insert_timers
  let r2 := activeInsert timer q.activeTimers_
  assertE dbg r2.2 TimerAbort.insert_active
  assertE dbg (r1.1.length == r2.1.length) TimerAbort.insert_sizes_after
  pure (earliestChanged, { q with timers_ := r1.1, activeTimers_ := r2.1 })

/-- TimerQueue::addTimerInLoop(timer). -/
def TimerQueue.addTimerInLoop (dbg : Bool) (q : TimerQueue) (timer : Timer) :
    Except TimerAbort TimerQueue := do
  let r ← q.insert dbg timer
  if r.1 then pure (r.2.resetTimerfd timer.expiration_) else pure r.2

/-- TimerQueue::cancelInLoop(timerId). -/
def TimerQueue.cancelInLoop (dbg : Bool) (q : TimerQueue) (timerId : TimerId) :
    Except TimerAbort TimerQueue := do
  assertE dbg (q.timers_.length == q.activeTimers_.length) TimerAbort.cancelInLoop_sizes_before
  let q1 ← (match q.activeTimers_.find? (fun t => t.id == timerId) with
    | some it => do
      let r := setErase (it.expiration_, it.addr) q.timers_
      assertE dbg (r.2 == 1) TimerAbort.cancelInLoop_erased
      pure { q with timers_ := r.1, activeTimers_ := (activeErase timerId q.activeTimers_).1 }
    | none =>
      if q.callingExpiredTimers_ then
        pure { q with cancelingTimers_ := cancelingInsert timerId q.cancelingTimers_ }
      else pure q)
  assertE dbg (q1.timers_.length == q1.activeTimers_.length) TimerAbort.cancelInLoop_sizes_after
  pure q1

/-- The loop of getExpired that erases every expired timer from `activeTimers_`. -/
def eraseExpired (dbg : Bool) : List Timer → List Timer → Except TimerAbort (List Timer)
  | active, [] => pure active
  | active, it :: rest => do
    let r := activeErase it.id active
    assertE dbg (r.2 == 1) TimerAbort.getExpired_erased
    eraseExpired dbg r.1 rest

/-- The condition `end == timers_.end() || now < end->first` of getExpired,
`rest` being the elements of `timers_` from `end` on. -/
def endAfterNow (rest : List Timer) (now : Nat) : Bool :=
  match rest.head? with
  | none => true
  | some e => decide (now < e.expiration_)

/-- TimerQueue::getExpired(now): the expired timers and the queue.
`timers_.lower_bound(sentry)` is the first element of the set that is not
less than the sentry; the elements before it are copied and erased. -/
def TimerQueue.getExpired (dbg : Bool) (q : TimerQueue) (now : Nat) :
    Except TimerAbort (List Timer × TimerQueue) := do
  assertE dbg (q.timers_.length == q.activeTimers_.length) TimerAbort.getExpired_sizes_before
  let sentry : Nat × Nat := (now, UINTPTR_MAX)
  let expired := q.timers_.takeWhile (fun t => entryLt t.entry sentry)
  let rest := q.timers_.dropWhile (fun t => entryLt t.entry sentry)
  assertE dbg (endAfterNow rest now) TimerAbort.getExpired_end
  let active ← eraseExpired dbg q.activeTimers_ expired
  assertE dbg (rest.length == active.length) TimerAbort.getExpired_sizes_after
  pure (expired, { q with timers_ := rest, activeTimers_ := active })

/-- The loop of TimerQueue::reset over the expired timers. -/
def TimerQueue.resetLoop (dbg : Bool) (now : Nat) :
    TimerQueue → List Timer → Except TimerAbort TimerQueue
  | q, [] => pure q
  | q, it :: rest =>
    if it.repeat_ && !(q.cancelingTimers_.contains it.id) then do
      let r ← q.insert dbg (it.restart now)
      TimerQueue.resetLoop dbg now r.2 rest
    else
      TimerQueue.resetLoop dbg now q rest

/-- TimerQueue::reset(expired, now). -/
def TimerQueue.reset (dbg : Bool) (q : TimerQueue) (expired : List Timer) (now : Nat) :
    Except TimerAbort TimerQueue := do
  let q1 ← TimerQueue.resetLoop dbg now q expired
  let nextExpire : Nat :=
    match q1.timers_.head? with
    | some first => first.expiration_
    | none => Timestamp.invalid
  if Timestamp.valid nextExpire then pure (q1.resetTimerfd nextExpire) else pure q1

/-- What a timer callback does to the queue of its own loop. -/
inductive TimerAction where
  /-- the call `loop->cancel(timerId)`: TimerQueue::cancel runs cancelInLoop at once,
  the callback being on the loop thread -/
  | cancel (timerId : TimerId)
  /-- a call of `loop->runAt/runAfter/runEvery`: TimerQueue::addTimer creates the timer
  and runs addTimerInLoop at once -/
  | addTimer (timer : Timer)
  deriving DecidableEq, Repr

/-- One action of a callback. -/
def TimerQueue.act (dbg : Bool) (q : TimerQueue) : TimerAction → Except TimerAbort TimerQueue
  | TimerAction.cancel timerId => q.cancelInLoop dbg timerId
  | TimerAction.addTimer timer => q.addTimerInLoop dbg timer

/-- The call `it->second->run()`: the callback of an expired timer. -/
def TimerQueue.runTimer (dbg : Bool) (body : TimerId → List TimerAction) (q : TimerQueue)
    (it : Timer) : Except TimerAbort TimerQueue :=
  (body it.id).foldlM (TimerQueue.act dbg) { q with ran := q.ran ++ [it.id] }

/-- TimerQueue::handleRead, `now` being what Timestamp::now() returns. -/
def TimerQueue.handleRead (dbg : Bool) (body : TimerId → List TimerAction) (q : TimerQueue)
    (now : Nat) : Except TimerAbort TimerQueue := do
  let r ← q.getExpired dbg now
  let q1 := { r.2 with callingExpiredTimers_ := true, cancelingTimers_ := [] }
  let q2 ← r.1.foldlM (TimerQueue.runTimer dbg body) q1
  let q3 := { q2 with callingExpiredTimers_ := false }
  q3.reset dbg r.1 now

/-- The order of `timers_`: strictly ascending entries. -/
def TimersSorted (l : List Timer) : Prop :=
  l.Pairwise (fun a b => entryLt a.entry b.entry = true)

/-- The two sets of a TimerQueue describe the same timers: `timers_` is in
the order of its entries, no timer lives at the address UINTPTR_MAX of the
sentry, `activeTimers_` holds the timers of `timers_`, one per key. -/
def TimerQueue.WF (q : TimerQueue) : Prop :=
  TimersSorted q.timers_ ∧ (∀ t ∈ q.timers_, t.addr < UINTPTR_MAX) ∧
  q.activeTimers_.Perm q.timers_ ∧ (q.activeTimers_.map Timer.id).Nodup

/-- The timers that getExpired(now) takes out of `timers_`: those before the
sentry `(now, UINTPTR_MAX)`. -/
def TimerQueue.batch (q : TimerQueue) (now : Nat) : List Timer :=
  q.timers_.takeWhile (fun t => entryLt t.entry (now, UINTPTR_MAX))

/-- Three timers created one after another (sequence numbers 1, 2, 3): a
one-shot timer for time 100 (interval 0.0), a timer for time 200 that repeats
every 50 microseconds (interval 50e-6 seconds), a one-shot timer for time 300. -/
def threeTimers : List Timer :=
  createTimers 0 [(16, 100, Double.ofDecimal 0 0), (32, 200, Double.ofDecimal 50 6),
    (48, 300, Double.ofDecimal 0 0)]

/-- The queue after the three timers were added. -/
def timerQueue3 : TimerQueue :=
  match threeTimers.foldlM (TimerQueue.addTimerInLoop true) TimerQueue.new with
  | Except.ok q => q
  | Except.error _ => TimerQueue.new

/-- Callbacks that do nothing to the queue. -/
def idleBody : TimerId → List TimerAction := fun _ => []

/-- The second of the three timers: expires at 200, repeats every 50. -/
def repeatingTimer : Timer :=
  { addr := 32, expiration_ := 200, interval_ := 50, repeat_ := true, sequence_ := 2 }

/-- The queue of the three timers after handleRead at time 230 with idle callbacks. -/
def timerQueue3Late : TimerQueue :=
  match timerQueue3.handleRead true idleBody 230 with
  | Except.ok q => q
  | Except.error _ => TimerQueue.new

/-- The number `e` is the smallest expiration in the timer set. -/
def TimerQueue.Earliest (q : TimerQueue) (e : Nat) : Prop :=
  (∃ t ∈ q.timers_, t.expiration_ = e) ∧ ∀ t ∈ q.timers_, e ≤ t.expiration_

/-- The descriptor was last armed with the smallest expiration in the timer set. -/
def TimerQueue.ArmedAtEarliest (q : TimerQueue) : Prop :=
  ∀ e, q.Earliest e → q.armed = some e

/-- The set `timers_` is in order and, when it is not empty, the descriptor was last
armed with an expiration that is at most the smallest one in the set. -/
def TimerQueue.ArmedBy (q : TimerQueue) : Prop :=
  TimersSorted q.timers_ ∧ ∀ e, q.Earliest e → ∃ a, q.armed = some a ∧ a ≤ e

/-- The queue of the three timers after the first one was cancelled. -/
def timerQueue3Cancelled : TimerQueue :=
  match timerQueue3.cancelInLoop true (16, 1) with
  | Except.ok q => q
  | Except.error _ => TimerQueue.new

/-- Callbacks are running and the timer `tid` is in neither set. -/
def Gone (tid : TimerId) (q : TimerQueue) : Prop :=
  q.callingExpiredTimers_ = true ∧ (∀ x ∈ q.activeTimers_, x.id ≠ tid) ∧
    (∀ x ∈ q.timers_, x.id ≠ tid)

/-- Callbacks of which the one of the first timer cancels the second timer. -/
def cancelBody : TimerId → List TimerAction :=
  fun id => if id = (16, 1) then [TimerAction.cancel (32, 2)] else []

/-- The queue of the three timers after handleRead at time 230 with `cancelBody`. -/
def timerQueue3Stopped : TimerQueue :=
  match timerQueue3.handleRead true cancelBody 230 with
  | Except.ok q => q
  | Except.error _ => TimerQueue.new

/-! ## Connector -/

/-- Connector.h: `enum States`. -/
inductive ConnectorState where
  | kDisconnected
  | kConnecting
  | kConnected
  deriving DecidableEq, Repr

/-- Connector.h: `kMaxRetryDelayMs`. -/
def kMaxRetryDelayMs : Int := 30 * 1000
/-- Connector.h: `kInitRetryDelayMs`. -/
def kInitRetryDelayMs : Int := 500

/-- Modelled from the spec: the values of errno.h on Linux that
Connector::connect names. -/
def EINPROGRESS : Nat := 115
/-- Modelled from the spec: errno.h. -/
def EINTR : Nat := 4
/-- Modelled from the spec: errno.h. -/
def EISCONN : Nat := 106
/-- Modelled from the spec: errno.h (EWOULDBLOCK has the same value). -/
def EAGAIN : Nat := 11
/-- Modelled from the spec: errno.h. -/
def EADDRINUSE : Nat := 98
/-- Modelled from the spec: errno.h. -/
def EADDRNOTAVAIL : Nat := 99
/-- Modelled from the spec: errno.h. -/
def ECONNREFUSED : Nat := 111
/-- Modelled from the spec: errno.h. -/
def ENETUNREACH : Nat := 101

/-- The places where the modelled Connector stops the process. -/
inductive ConnectorAbort where
  /-- startInLoop: `assert(state_ == kDisconnected)` -/
  | startInLoop_state
  /-- connecting: `assert(!channel_)` -/
  | connecting_channel
  /-- handleWrite: `assert(state_ == kDisconnected)` -/
  | handleWrite_state
  /-- a use of `channel_->` on an empty scoped_ptr -/
  | null_channel
  /-- an abort inside Channel or the poller -/
  | channel (site : Abort)
  deriving DecidableEq, Repr

/-- A 32-bit signed int after an arithmetic operation that wraps around. -/
def wrapInt32 (x : Int) : Int := (x + 2147483648) % 4294967296 - 2147483648

/-- The state of a Connector with the poller of its loop.  `channel_`
(boost::scoped_ptr) is the Channel it owns, if any.  The other fields record
what the connector did: `scheduled` the delays in milliseconds of the retry
timers it set with runAfter, oldest first; `closed` the sockets it closed;
`published` the sockets handed to `newConnectionCallback_`; `pendingReset`
the number of queued `resetChannel` calls. -/
structure Connector where
  connect_ : Bool
  state_ : ConnectorState
  channel_ : Option Channel
  retryDelayMs_ : Int
  poller_ : EPollPoller
  scheduled : List Int
  closed : List Int
  published : List Int
  pendingReset : Nat
  deriving DecidableEq, Repr

/-- What the system answers to one connection attempt: the descriptor that
sockets::createNonblockingOrDie returns, the errno of sockets::connect (0 for
success), and the address at which the Channel for the socket is allocated. -/
structure ConnectAttempt where
  sockfd : Int
  savedErrno : Nat
  channelAddr : Nat
  deriving DecidableEq, Repr

namespace Connector

/-- Connector::Connector on a loop with the given poller. -/
def new (poller : EPollPoller) : Connector :=
  { connect_ := false, state_ := ConnectorState.kDisconnected, channel_ := none,
    retryDelayMs_ := kInitRetryDelayMs, poller_ := poller, scheduled := [], closed := [],
    published := [], pendingReset := 0 }

/-- Connector::setState. -/
def setState (c : Connector) (s : ConnectorState) : Connector := { c with state_ := s }

/-- A call on `channel_` that reaches the poller. -/
def onChannel (c : Connector)
    (f : Channel → EPollPoller → Except Abort (Channel × EPollPoller)) :
    Except ConnectorAbort Connector :=
  match c.channel_ with
  | none => Except.error ConnectorAbort.null_channel
  | some ch =>
    match f ch c.poller_ with
    | Except.ok (ch', p') => Except.ok { c with channel_ := some ch', poller_ := p' }
    | Except.error site => Except.error (ConnectorAbort.channel site)

/-- Connector::retry(sockfd). -/
def retry (c : Connector) (sockfd : Int) : Connector :=
  let c1 := { c with closed := c.closed ++ [sockfd] }
  let c2 := c1.setState ConnectorState.kDisconnected
  if c2.connect_ then
    let c3 := { c2 with scheduled := c2.scheduled ++ [c2.retryDelayMs_] }
    { c3 with retryDelayMs_ := min (wrapInt32 (c3.retryDelayMs_ * 2)) kMaxRetryDelayMs }
  else
    c2

/-- Connector::connecting(sockfd). -/
def connecting (dbg : Bool) (c : Connector) (sockfd : Int) (channelAddr : Nat) :
    Except ConnectorAbort Connector := do
  let c1 := c.setState ConnectorState.kConnecting
  assertE dbg c1.channel_.isNone ConnectorAbort.connecting_channel
  let ch := Channel.new channelAddr sockfd
  let ch := { ch with writeCallback_ := true }
  let ch := { ch with errorCallback_ := true }
  let c2 := { c1 with channel_ := some ch }
  c2.onChannel (Channel.enableWriting dbg)

/-- Connector::connect, with the answer of the system to the attempt. -/
def connect (dbg : Bool) (c : Connector) (a : ConnectAttempt) :
    Except ConnectorAbort Connector :=
  if a.savedErrno = 0 ∨ a.savedErrno = EINPROGRESS ∨ a.savedErrno = EINTR ∨
      a.savedErrno = EISCONN then
    c.connecting dbg a.sockfd a.channelAddr
  else if a.savedErrno = EAGAIN ∨ a.savedErrno = EADDRINUSE ∨ a.savedErrno = EADDRNOTAVAIL ∨
      a.savedErrno = ECONNREFUSED ∨ a.savedErrno = ENETUNREACH then
    pure (c.retry a.sockfd)
  else
    pure { c with closed := c.closed ++ [a.sockfd] }

/-- Connector::startInLoop. -/
def startInLoop (dbg : Bool) (c : Connector) (a : ConnectAttempt) :
    Except ConnectorAbort Connector := do
  assertE dbg (c.state_ == ConnectorState.kDisconnected) ConnectorAbort.startInLoop_state
  if c.connect_ then c.connect dbg a else pure c

/-- Connector::start, up to the call of runInLoop: the flag is set. -/
def start (c : Connector) : Connector := { c with connect_ := true }

/-- Connector::stop, up to the call of queueInLoop: the flag is cleared. -/
def stop (c : Connector) : Connector := { c with connect_ := false }

/-- Connector::restart. -/
def restart (dbg : Bool) (c : Connector) (a : ConnectAttempt) :
    Except ConnectorAbort Connector :=
  let c1 := c.setState ConnectorState.kDisconnected
  let c2 := { c1 with retryDelayMs_ := kInitRetryDelayMs }
  let c3 := { c2 with connect_ := true }
  c3.startInLoop dbg a

/-- Connector::removeAndResetChannel: the connector and the descriptor. -/
def removeAndResetChannel (dbg : Bool) (c : Connector) :
    Except ConnectorAbort (Connector × Int) := do
  let c1 ← c.onChannel (Channel.disableAll dbg)
  let c2 ← c1.onChannel (Channel.remove dbg)
  match c2.channel_ with
  | none => Except.error ConnectorAbort.null_channel
  | some ch => pure ({ c2 with pendingReset := c2.pendingReset + 1 }, ch.fd_)

/-- Connector::resetChannel. -/
def resetChannel (c : Connector) : Connector :=
  { c with channel_ := none, pendingReset := c.pendingReset - 1 }

/-- Connector::stopInLoop. -/
def stopInLoop (dbg : Bool) (c : Connector) : Except ConnectorAbort Connector :=
  if c.state_ = ConnectorState.kConnecting then do
    let c1 := c.setState ConnectorState.kDisconnected
    let r ← c1.removeAndResetChannel dbg
    pure (r.1.retry r.2)
  else pure c

/-- Connector::handleWrite, with what sockets::getSocketError and
sockets::isSelfConnect answer for the socket. -/
def handleWrite (dbg : Bool) (c : Connector) (err : Nat) (selfConnect : Bool) :
    Except ConnectorAbort Connector :=
  if c.state_ = ConnectorState.kConnecting then do
    let r ← c.removeAndResetChannel dbg
    if err ≠ 0 then pure (r.1.retry r.2)
    else if selfConnect then pure (r.1.retry r.2)
    else
      let c1 := r.1.setState ConnectorState.kConnected
      if c1.connect_ then pure { c1 with published := c1.published ++ [r.2] }
      else pure { c1 with closed := c1.closed ++ [r.2] }
  else do
    assertE dbg (c.state_ == ConnectorState.kDisconnected) ConnectorAbort.handleWrite_state
    pure c

/-- Connector::handleError. -/
def handleError (dbg : Bool) (c : Connector) : Except ConnectorAbort Connector :=
  if c.state_ = ConnectorState.kConnecting then do
    let r ← c.removeAndResetChannel dbg
    pure (r.1.retry r.2)
  else pure c

end Connector

/-- What happens to a Connector, one step at a time, on its loop thread
(`start` and `stop` only change the flag and may come from any thread). -/
inductive ConnectorOp where
  | start
  | stop
  | startInLoop (a : ConnectAttempt)
  | stopInLoop
  | restart (a : ConnectAttempt)
  | handleWrite (err : Nat) (selfConnect : Bool)
  | handleError
  | resetChannel
  deriving DecidableEq, Repr

/-- One step of a Connector. -/
def Connector.step (dbg : Bool) (c : Connector) : ConnectorOp → Except ConnectorAbort Connector
  | ConnectorOp.start => pure c.start
  | ConnectorOp.stop => pure c.stop
  | ConnectorOp.startInLoop a => c.startInLoop dbg a
  | ConnectorOp.stopInLoop => c.stopInLoop dbg
  | ConnectorOp.restart a => c.restart dbg a
  | ConnectorOp.handleWrite err selfConnect => c.handleWrite dbg err selfConnect
  | ConnectorOp.handleError => c.handleError dbg
  | ConnectorOp.resetChannel => pure c.resetChannel

/-- A sequence of steps. -/
def Connector.run (dbg : Bool) (c : Connector) (ops : List ConnectorOp) :
    Except ConnectorAbort Connector :=
  ops.foldlM (Connector.step dbg) c

/-- The delay of the k-th retry in the words of the specification:
min(500 * 2^k, 30000) milliseconds. -/
def specRetryDelay (k : Nat) : Int := min (500 * 2 ^ k) 30000

/-- The step is a call of restart(). -/
def ConnectorOp.isRestart : ConnectorOp → Bool
  | ConnectorOp.restart _ => true
  | _ => false

/-- There is no restart among the steps. -/
def noRestart (ops : List ConnectorOp) : Prop :=
  ∀ op ∈ ops, op.isRestart = false

/-- From `c` to `c'` the retry state is untouched, or one retry timer was
scheduled with the current delay and the delay was doubled up to the cap. -/
def Backed (c c' : Connector) : Prop :=
  (c'.scheduled = c.scheduled ∧ c'.retryDelayMs_ = c.retryDelayMs_) ∨
  (c'.scheduled = c.scheduled ++ [c.retryDelayMs_] ∧
    c'.retryDelayMs_ = min (wrapInt32 (c.retryDelayMs_ * 2)) kMaxRetryDelayMs)

/-- A first attempt that is refused. -/
def refusedAttempt : ConnectAttempt := { sockfd := 5, savedErrno := ECONNREFUSED, channelAddr := 1 }

/-- A started connector whose attempts are refused eight times in a row. -/
def eightRefusals : List ConnectorOp :=
  ConnectorOp.start :: List.replicate 8 (ConnectorOp.startInLoop refusedAttempt)

/-- The connector after `eightRefusals`. -/
def refusedEightTimes : Connector :=
  match (Connector.new EPollPoller.new).run true eightRefusals with
  | Except.ok c => c
  | Except.error _ => Connector.new EPollPoller.new

/-- The step sets the connect flag: a call of start() or of restart(). -/
def ConnectorOp.isStart : ConnectorOp → Bool
  | ConnectorOp.start => true
  | ConnectorOp.restart _ => true
  | _ => false

/-- There is neither a start nor a restart among the steps. -/
def noStart (ops : List ConnectorOp) : Prop :=
  ∀ op ∈ ops, op.isStart = false

/-- A connector that is started, whose attempt on socket 5 is in progress,
and that is stopped before the socket becomes writable. -/
def stoppedWhileConnecting : Connector :=
  match (Connector.new EPollPoller.new).run true
      [ConnectorOp.start,
       ConnectorOp.startInLoop { sockfd := 5, savedErrno := EINPROGRESS, channelAddr := 1 },
       ConnectorOp.stop] with
  | Except.ok c => c
  | Except.error _ => Connector.new EPollPoller.new

/-- The timer objects that exist are the ones in `timers_` and the ones of
`batch`, the expired timers that handleRead took out with getExpired and has
not yet given to reset.  The objects lie at distinct addresses below
UINTPTR_MAX, `timers_` is in the order of its entries and `activeTimers_`
holds the timers of `timers_`. -/
def TimerQueue.Live (q : TimerQueue) (batch : List Timer) : Prop :=
  TimersSorted q.timers_ ∧ q.activeTimers_.Perm q.timers_ ∧
  ((q.timers_ ++ batch).map Timer.addr).Nodup ∧
  ∀ t ∈ q.timers_ ++ batch, t.addr < UINTPTR_MAX

/-- The timer is the least element of the set under the order of the
entries (expiration, address). -/
def TimerQueue.IsMinimum (t : Timer) (l : List Timer) : Prop :=
  t ∈ l ∧ ∀ x ∈ l, x ≠ t → entryLt t.entry x.entry = true

/-- A one-shot timer for time 200 at an address below the addresses of the
three timers. -/
def lowTimer : Timer :=
  { addr := 8, expiration_ := 200, interval_ := 0, repeat_ := false, sequence_ := 4 }

/-- The queue of the three timers, the first cancelled, after `lowTimer` was added. -/
def timerQueue3Tied : TimerQueue :=
  match timerQueue3Cancelled.addTimerInLoop true lowTimer with
  | Except.ok q => q
  | Except.error _ => TimerQueue.new

/-- A one-shot timer for time 150. -/
def earlyTimer : Timer :=
  { addr := 8, expiration_ := 150, interval_ := 0, repeat_ := false, sequence_ := 4 }

/-- TcpConnection::setHighWaterMarkCallback(cb, highWaterMark) of
TcpConnection.h; `cb` tells whether the callback given is non-empty. -/
def TcpConnection.setHighWaterMarkCallback (w : TcpConnection) (cb : Bool)
    (highWaterMark : Nat) : TcpConnection :=
  { w with highWaterMarkCallback_ := cb, highWaterMark_ := highWaterMark }

/-- The sizes that the high-water-mark functors of a list carry, in order. -/
def hwmCalls (l : List ConnFunctor) : List Nat :=
  l.filterMap (fun f => match f with
    | ConnFunctor.highWaterMarkCallback len => some len
    | _ => none)

/-- The number of write-complete functors in a list. -/
def writeCompleteCalls (l : List ConnFunctor) : Nat :=
  l.count ConnFunctor.writeCompleteCallback

/-- The operations on the output path of an established connection: a call
of sendInLoop, a write-ready event handled by handleWrite, each with the
answer of the kernel, and a call of shutdown. -/
inductive FlowOp where
  | sendInLoop (data : List Byte) (wr : WriteResult)
  | handleWrite (wr : WriteResult)
  | shutdown (isInLoopThread : Bool)
  deriving DecidableEq, Repr

/-- One operation on the output path. -/
def TcpConnection.flowStep (dbg : Bool) (w : TcpConnection) : FlowOp → Res
  | FlowOp.sendInLoop data wr => TcpConnection.sendInLoop dbg w data wr
  | FlowOp.handleWrite wr => TcpConnection.handleWrite dbg w wr
  | FlowOp.shutdown b => TcpConnection.shutdown dbg w b

/-- connectEstablished followed by a sequence of operations on the output path. -/
def TcpConnection.flow (dbg : Bool) (w : TcpConnection) (ops : List FlowOp) : Res := do
  let w1 ← TcpConnection.connectEstablished dbg w
  ops.foldlM (TcpConnection.flowStep dbg) w1

/-- TcpConnection::forceCloseWithDelay(seconds): the connection afterwards
and, when a timer is set with `runAfter` to call forceClose, its delay. -/
def TcpConnection.forceCloseWithDelay (w : TcpConnection) (seconds : Nat) :
    TcpConnection × Option Nat :=
  if w.state_ = StateE.kConnected ∨ w.state_ = StateE.kDisconnecting then
    (w.setState StateE.kDisconnecting, some seconds)
  else (w, none)

/-! ## EventLoopThreadPool -/

/-- The places where the modelled EventLoopThreadPool stops. -/
inductive PoolAbort where
  /-- start: `assert(!started_)` -/
  | start_started
  /-- getNextLoop: `assert(started_)` -/
  | getNextLoop_started
  /-- getNextLoop: `loops_[next_]` with an index outside the vector, which
  has undefined behaviour -/
  | getNextLoop_index
  deriving DecidableEq, Repr

/-- The conversion `implicit_cast<size_t>(x)` of an int on a 64-bit machine. -/
def toSizeT (x : Int) : Nat := (x % 18446744073709551616).toNat

/-- The data members of `class EventLoopThreadPool` that the choice of a
loop uses (EventLoopThreadPool.h): an `EventLoop*` is represented by the
address of the loop; `threads_` and `name_` are left out.  `initCalls`
records the loops that start itself passed to the thread-init callback. -/
structure EventLoopThreadPool where
  baseLoop_ : Nat
  started_ : Bool
  numThreads_ : Int
  next_ : Int
  loops_ : List Nat
  initCalls : List Nat
  deriving DecidableEq, Repr

namespace EventLoopThreadPool

/-- EventLoopThreadPool::EventLoopThreadPool(baseLoop, nameArg). -/
def new (baseLoop : Nat) : EventLoopThreadPool :=
  { baseLoop_ := baseLoop, started_ := false, numThreads_ := 0, next_ := 0, loops_ := [],
    initCalls := [] }

/-- EventLoopThreadPool::setThreadNum. -/
def setThreadNum (p : EventLoopThreadPool) (numThreads : Int) : EventLoopThreadPool :=
  { p with numThreads_ := numThreads }

/-- EventLoopThreadPool::start(cb).  `startLoop i` is the address of the loop
that `t->startLoop()` returns for the thread created in round `i` of the
`for` loop; `cb` tells whether the callback given is non-empty. -/
def start (dbg : Bool) (p : EventLoopThreadPool) (cb : Bool) (startLoop : Nat → Nat) :
    Except PoolAbort EventLoopThreadPool := do
  assertE dbg (!p.started_) PoolAbort.start_started
  let p1 := { p with started_ := true }
  let p2 := { p1 with loops_ := p1.loops_ ++ (List.range p1.numThreads_.toNat).map startLoop }
  if p2.numThreads_ = 0 ∧ cb = true then
    pure { p2 with initCalls := p2.initCalls ++ [p2.baseLoop_] }
  else pure p2

/-- EventLoopThreadPool::getNextLoop: the loop returned and the pool. -/
def getNextLoop (dbg : Bool) (p : EventLoopThreadPool) :
    Except PoolAbort (Nat × EventLoopThreadPool) := do
  assertE dbg p.started_ PoolAbort.getNextLoop_started
  if !p.loops_.isEmpty then
    match (if 0 ≤ p.next_ then p.loops_.get? p.next_.toNat else none) with
    | none => Except.error PoolAbort.getNextLoop_index
    | some loop =>
      let next1 := wrapInt32 (p.next_ + 1)
      let next2 := if toSizeT next1 ≥ p.loops_.length then 0 else next1
      pure (loop, { p with next_ := next2 })
  else pure (p.baseLoop_, p)

/-- The loops returned by k calls of getNextLoop one after another, and the
pool after the last call. -/
def getNextLoops (dbg : Bool) : Nat → EventLoopThreadPool →
    Except PoolAbort (List Nat × EventLoopThreadPool)
  | 0, p => pure ([], p)
  | k + 1, p => do
    let r ← p.getNextLoop dbg
    let rs ← getNextLoops dbg k r.2
    pure (r.1 :: rs.1, rs.2)

end EventLoopThreadPool

/-- A one-shot timer for time 50. -/
def soonTimer : Timer :=
  { addr := 8, expiration_ := 50, interval_ := 0, repeat_ := false, sequence_ := 4 }

/-- The queue of the three timers with the clock reading 230. -/
def timerQueue3At230 : TimerQueue := timerQueue3.atTime 230

/-- The queue `timerQueue3At230` after `soonTimer` was added. -/
def timerQueue3Soon : TimerQueue :=
  match timerQueue3At230.addTimerInLoop true soonTimer with
  | Except.ok q => q
  | Except.error _ => TimerQueue.new

/-- The queue `timerQueue3At230` after the first timer was cancelled. -/
def timerQueue3CancelledAt230 : TimerQueue :=
  match timerQueue3At230.cancelInLoop true (16, 1) with
  | Except.ok q => q
  | Except.error _ => TimerQueue.new

/-- The queue `timerQueue3At230` after handleRead at time 230 with idle callbacks. -/
def timerQueue3LateAt230 : TimerQueue :=
  match timerQueue3At230.handleRead true idleBody 230 with
  | Except.ok q => q
  | Except.error _ => TimerQueue.new

/-! ## Theorems -/

theorem and_eq_zero_iff_testBit (x m : Nat) :
    x &&& m = 0 ↔ ∀ i, (x.testBit i && m.testBit i) = false := by
  constructor
  · intro h i
    rw [← Nat.testBit_and, h, Nat.zero_testBit]
  · intro h
    apply Nat.eq_of_testBit_eq
    intro i
    rw [Nat.testBit_and, h i, Nat.zero_testBit]

theorem test_iff (x m : Nat) :
    test x m = true ↔ ∃ i, x.testBit i = true ∧ m.testBit i = true := by
  unfold test
  rw [bne_iff_ne, Ne, and_eq_zero_iff_testBit]
  simp

theorem test_two_pow (x k : Nat) : test x (2 ^ k) = x.testBit k := by
  rw [Bool.eq_iff_iff, test_iff]
  constructor
  · rintro ⟨i, hx, hm⟩
    rw [Nat.testBit_two_pow] at hm
    have hki : k = i := by simpa using hm
    rw [hki]; exact hx
  · intro h
    exact ⟨k, h, Nat.testBit_two_pow_self⟩

theorem test_or (x a b : Nat) : test x (a ||| b) = (test x a || test x b) := by
  rw [Bool.eq_iff_iff, Bool.or_eq_true, test_iff, test_iff, test_iff]
  constructor
  · rintro ⟨i, hx, hm⟩
    rw [Nat.testBit_or, Bool.or_eq_true] at hm
    rcases hm with hm | hm
    · exact Or.inl ⟨i, hx, hm⟩
    · exact Or.inr ⟨i, hx, hm⟩
  · rintro (⟨i, hx, hm⟩ | ⟨i, hx, hm⟩)
    · exact ⟨i, hx, by rw [Nat.testBit_or, hm]; rfl⟩
    · exact ⟨i, hx, by rw [Nat.testBit_or, hm]; simp⟩

theorem test_POLLIN (r : Nat) : test r POLLIN = readyIN r := test_two_pow r 0
theorem test_POLLOUT (r : Nat) : test r POLLOUT = readyOUT r := test_two_pow r 2
theorem test_POLLHUP (r : Nat) : test r POLLHUP = readyHUP r := test_two_pow r 4

theorem test_ERR_NVAL (r : Nat) :
    test r (POLLERR ||| POLLNVAL) = (readyERR r || readyNVAL r) := by
  rw [test_or]
  exact congrArg₂ _ (test_two_pow r 3) (test_two_pow r 5)

theorem test_IN_PRI_RDHUP (r : Nat) :
    test r (POLLIN ||| POLLPRI ||| POLLRDHUP) = (readyIN r || readyPRI r || readyRDHUP r) := by
  rw [test_or, test_or]
  exact congrArg₂ _ (congrArg₂ _ (test_two_pow r 0) (test_two_pow r 1)) (test_two_pow r 13)

/-! ### Channel dispatch -/

theorem handleEventWithGuard_trace (ch : Channel) (t : Timestamp) :
    (ch.handleEventWithGuard t).2 = specDispatch ch t := by
  simp only [Channel.handleEventWithGuard, specDispatch, test_POLLIN, test_POLLOUT,
    test_POLLHUP, test_ERR_NVAL, test_IN_PRI_RDHUP, List.nil_append]
  cases readyHUP ch.revents_ && !readyIN ch.revents_ <;>
  cases readyERR ch.revents_ || readyNVAL ch.revents_ <;>
  cases readyIN ch.revents_ || readyPRI ch.revents_ || readyRDHUP ch.revents_ <;>
  cases readyOUT ch.revents_ <;>
  cases ch.closeCallback_ <;> cases ch.errorCallback_ <;>
  cases ch.readCallback_ <;> cases ch.writeCallback_ <;> rfl

theorem specDispatch_sublist (ch : Channel) (t : Timestamp) :
    List.Sublist (specDispatch ch t)
      [ChannelCall.close, ChannelCall.error, ChannelCall.read t, ChannelCall.write] := by
  unfold specDispatch
  cases readyHUP ch.revents_ && !readyIN ch.revents_ && ch.closeCallback_ <;>
  cases (readyERR ch.revents_ || readyNVAL ch.revents_) && ch.errorCallback_ <;>
  cases (readyIN ch.revents_ || readyPRI ch.revents_ || readyRDHUP ch.revents_)
    && ch.readCallback_ <;>
  cases readyOUT ch.revents_ && ch.writeCallback_ <;> simp

/-- C9: for every ready mask, handleEventWithGuard invokes the close callback
iff HUP is set, IN is not and a close callback is set; the error callback iff
ERR or NVAL is set and one is set; the read callback, with the receive time,
iff IN, PRI or RDHUP is set and one is set; the write callback iff OUT is set
and one is set.  The invocations form a sublist of close, error, read, write
(that order, each at most once), an unset callback only removes its own entry,
and eventHandling is false when dispatch returns. -/
theorem C9_handleEventWithGuard_dispatch (ch : Channel) (t : Timestamp) :
    (ch.handleEventWithGuard t).2 = specDispatch ch t ∧
    (ChannelCall.close ∈ (ch.handleEventWithGuard t).2 ↔
      (readyHUP ch.revents_ = true ∧ readyIN ch.revents_ = false) ∧
        ch.closeCallback_ = true) ∧
    (ChannelCall.error ∈ (ch.handleEventWithGuard t).2 ↔
      (readyERR ch.revents_ = true ∨ readyNVAL ch.revents_ = true) ∧
        ch.errorCallback_ = true) ∧
    (∀ t', ChannelCall.read t' ∈ (ch.handleEventWithGuard t).2 ↔
      t' = t ∧ (readyIN ch.revents_ = true ∨ readyPRI ch.revents_ = true ∨
        readyRDHUP ch.revents_ = true) ∧ ch.readCallback_ = true) ∧
    (ChannelCall.write ∈ (ch.handleEventWithGuard t).2 ↔
      readyOUT ch.revents_ = true ∧ ch.writeCallback_ = true) ∧
    List.Sublist (ch.handleEventWithGuard t).2
      [ChannelCall.close, ChannelCall.error, ChannelCall.read t, ChannelCall.write] ∧
    (ch.handleEventWithGuard t).1 = { ch with eventHandling_ := false } := by
  rw [handleEventWithGuard_trace]
  refine ⟨rfl, ?_, ?_, ?_, ?_, specDispatch_sublist ch t, rfl⟩
  · simp only [specDispatch, List.mem_append]
    cases readyHUP ch.revents_ <;> cases readyIN ch.revents_ <;>
      cases ch.closeCallback_ <;> simp
  · simp only [specDispatch, List.mem_append]
    cases readyERR ch.revents_ <;> cases readyNVAL ch.revents_ <;>
      cases ch.errorCallback_ <;> simp
  · intro t'
    simp only [specDispatch, List.mem_append]
    cases readyIN ch.revents_ <;> cases readyPRI ch.revents_ <;>
      cases readyRDHUP ch.revents_ <;>
      cases ch.readCallback_ <;> simp
  · simp only [specDispatch, List.mem_append]
    cases readyOUT ch.revents_ <;>
      cases ch.writeCallback_ <;> simp

/-- C10: a tied Channel whose owner can no longer be locked invokes no
callback and is left untouched, whatever the ready mask; when the lock
succeeds, or the Channel is not tied, handleEvent is handleEventWithGuard. -/
theorem C10_handleEvent_tie (ch : Channel) (t : Timestamp) (lockOk : Bool) :
    (ch.tied_ = true → lockOk = false → ch.handleEvent t lockOk = (ch, [])) ∧
    (ch.tied_ = true → lockOk = true →
      ch.handleEvent t lockOk = ch.handleEventWithGuard t) ∧
    (ch.tied_ = false → ch.handleEvent t lockOk = ch.handleEventWithGuard t) := by
  refine ⟨?_, ?_, ?_⟩
  · intro h1 h2; simp [Channel.handleEvent, h1, h2]
  · intro h1 h2; simp [Channel.handleEvent, h1, h2]
  · intro h1; simp [Channel.handleEvent, h1]

theorem C10_handleEvent_tie_witness :
    (tiedChannel.handleEvent 5 false = (tiedChannel, [])) ∧
    (tiedChannel.handleEvent 5 true = tiedChannel.handleEventWithGuard 5) ∧
    (tiedChannel.handleEventWithGuard 5).2 =
      [ChannelCall.error, ChannelCall.read 5, ChannelCall.write] :=
  ⟨(C10_handleEvent_tie tiedChannel 5 false).1 rfl rfl,
   (C10_handleEvent_tie tiedChannel 5 true).2.1 rfl rfl, by decide⟩


/-! ### EventLoop task queue -/

theorem queueInLoop_fields {F : Type} (L : EventLoop F) (b : Bool) (cb : F) :
    (L.queueInLoop b cb).pendingFunctors_ = L.pendingFunctors_ ++ [cb] ∧
    (L.queueInLoop b cb).queued = L.queued ++ [cb] ∧
    (L.queueInLoop b cb).invoked = L.invoked ∧
    (L.queueInLoop b cb).callingPendingFunctors_ = L.callingPendingFunctors_ ∧
    (L.queueInLoop b cb).wakeups =
      L.wakeups + (if b = false ∨ L.callingPendingFunctors_ = true then 1 else 0) := by
  unfold EventLoop.queueInLoop EventLoop.wakeup
  cases b <;> cases hc : L.callingPendingFunctors_ <;> simp [hc]

theorem foldl_queueInLoop_fields {F : Type} (posts : List (Bool × F)) (L : EventLoop F) :
    let L' := posts.foldl (fun L' p => L'.queueInLoop p.1 p.2) L
    L'.pendingFunctors_ = L.pendingFunctors_ ++ posts.map Prod.snd ∧
    L'.queued = L.queued ++ posts.map Prod.snd ∧
    L'.invoked = L.invoked ∧
    L'.callingPendingFunctors_ = L.callingPendingFunctors_ ∧
    (L.callingPendingFunctors_ = true → L'.wakeups = L.wakeups + posts.length) := by
  induction posts generalizing L with
  | nil => simp
  | cons p ps ih =>
    obtain ⟨h1, h2, h3, h4, h5⟩ := queueInLoop_fields L p.1 p.2
    obtain ⟨i1, i2, i3, i4, i5⟩ := ih (L.queueInLoop p.1 p.2)
    simp only [List.foldl_cons, List.map_cons, List.length_cons]
    refine ⟨?_, ?_, ?_, ?_, ?_⟩
    · rw [i1, h1]; simp
    · rw [i2, h2]; simp
    · rw [i3, h3]
    · rw [i4, h4]
    · intro hc
      rw [i5 (by rw [h4]; exact hc), h5]
      simp [hc]; omega

theorem call_fields {F : Type} (body : F → List (Bool × F)) (L : EventLoop F) (cb : F) :
    (L.call body cb).pendingFunctors_ = L.pendingFunctors_ ++ (body cb).map Prod.snd ∧
    (L.call body cb).queued = L.queued ++ (body cb).map Prod.snd ∧
    (L.call body cb).invoked = L.invoked ++ [cb] ∧
    (L.call body cb).callingPendingFunctors_ = L.callingPendingFunctors_ ∧
    (L.callingPendingFunctors_ = true →
      (L.call body cb).wakeups = L.wakeups + (body cb).length) := by
  unfold EventLoop.call
  exact foldl_queueInLoop_fields (body cb) { L with invoked := L.invoked ++ [cb] }

theorem foldl_call_fields {F : Type} (body : F → List (Bool × F)) (fs : List F)
    (L : EventLoop F) :
    let L' := fs.foldl (fun L' f => L'.call body f) L
    L'.pendingFunctors_ = L.pendingFunctors_ ++ enqueuedBy body fs ∧
    L'.queued = L.queued ++ enqueuedBy body fs ∧
    L'.invoked = L.invoked ++ fs ∧
    L'.callingPendingFunctors_ = L.callingPendingFunctors_ ∧
    (L.callingPendingFunctors_ = true →
      L'.wakeups = L.wakeups + (enqueuedBy body fs).length) := by
  induction fs generalizing L with
  | nil => simp [enqueuedBy]
  | cons f fs ih =>
    obtain ⟨h1, h2, h3, h4, h5⟩ := call_fields body L f
    obtain ⟨i1, i2, i3, i4, i5⟩ := ih (L.call body f)
    simp only [List.foldl_cons]
    refine ⟨?_, ?_, ?_, ?_, ?_⟩
    · rw [i1, h1]; simp [enqueuedBy]
    · rw [i2, h2]; simp [enqueuedBy]
    · rw [i3, h3]; simp
    · rw [i4, h4]
    · intro hc
      rw [i5 (by rw [h4]; exact hc), h5 hc]
      simp [enqueuedBy]; omega

theorem doPendingFunctors_fields {F : Type} (body : F → List (Bool × F)) (L : EventLoop F) :
    (L.doPendingFunctors body).invoked = L.invoked ++ L.pendingFunctors_ ∧
    (L.doPendingFunctors body).pendingFunctors_ = enqueuedBy body L.pendingFunctors_ ∧
    (L.doPendingFunctors body).queued = L.queued ++ enqueuedBy body L.pendingFunctors_ ∧
    (L.doPendingFunctors body).callingPendingFunctors_ = false ∧
    (L.doPendingFunctors body).wakeups =
      L.wakeups + (enqueuedBy body L.pendingFunctors_).length := by
  obtain ⟨h1, h2, h3, _, h5⟩ := foldl_call_fields body L.pendingFunctors_
    { L with callingPendingFunctors_ := true, pendingFunctors_ := [] }
  unfold EventLoop.doPendingFunctors
  exact ⟨h3, by simpa using h1, h2, rfl, h5 rfl⟩

theorem run_invariant {F : Type} (body : F → List (Bool × F)) (ops : List (LoopOp F))
    (L : EventLoop F) (h : L.invoked ++ L.pendingFunctors_ = L.queued) :
    (L.run body ops).invoked ++ (L.run body ops).pendingFunctors_ = (L.run body ops).queued := by
  induction ops generalizing L with
  | nil => exact h
  | cons op ops ih =>
    unfold EventLoop.run
    rw [List.foldl_cons]
    apply ih
    cases op with
    | queue b cb =>
      obtain ⟨h1, h2, h3, _, _⟩ := queueInLoop_fields L b cb
      simp only [EventLoop.step]
      rw [h1, h2, h3, ← h, List.append_assoc]
    | drain =>
      obtain ⟨h1, h2, h3, _, _⟩ := doPendingFunctors_fields body L
      simp only [EventLoop.step]
      rw [h1, h2, h3, ← h]

/-- C6: one drain calls exactly the functors that were in the pending queue
when it started, each once, in queue order, and nothing else.  Over any
sequence of posts (from any thread) and drains starting from a new loop, the
calls made so far followed by the pending queue are the functors posted so
far, in posting order; hence after one more drain the calls made are exactly
the functors posted, one call for each post, in posting order (also when
restricted to the functors of one caller). -/
theorem C6_drain_runs_each_task_once {F : Type} (body : F → List (Bool × F))
    (L : EventLoop F) (ops : List (LoopOp F)) :
    (L.doPendingFunctors body).invoked = L.invoked ++ L.pendingFunctors_ ∧
    ((EventLoop.new.run body ops).invoked ++ (EventLoop.new.run body ops).pendingFunctors_
      = (EventLoop.new.run body ops).queued) ∧
    (((EventLoop.new.run body ops).doPendingFunctors body).invoked
      = (EventLoop.new.run body ops).queued) ∧
    (∀ p : F → Bool, (((EventLoop.new.run body ops).doPendingFunctors body).invoked).filter p
      = ((EventLoop.new.run body ops).queued).filter p) := by
  have hinv := run_invariant body ops (EventLoop.new : EventLoop F) rfl
  have hd := (doPendingFunctors_fields body (EventLoop.new.run body ops)).1
  refine ⟨(doPendingFunctors_fields body L).1, hinv, ?_, ?_⟩
  · rw [hd, hinv]
  · intro p; rw [hd, hinv]

/-- C7: a functor enqueued while doPendingFunctors calls the functors it
swapped out (by one of those functors, or by another thread in the meantime)
is not called by that drain, which calls the swapped queue only; after the
drain the pending queue holds exactly the functors enqueued during it, in
order, and one wake token was written for each of them, whichever thread
enqueued it.  In general queueInLoop writes one wake token if the caller is
not the loop thread or the loop is draining, and none otherwise. -/
theorem C7_enqueue_during_drain {F : Type} (body : F → List (Bool × F))
    (L : EventLoop F) (b : Bool) (cb : F) :
    (L.doPendingFunctors body).invoked = L.invoked ++ L.pendingFunctors_ ∧
    (L.doPendingFunctors body).pendingFunctors_ = enqueuedBy body L.pendingFunctors_ ∧
    (L.doPendingFunctors body).wakeups =
      L.wakeups + (enqueuedBy body L.pendingFunctors_).length ∧
    (L.doPendingFunctors body).callingPendingFunctors_ = false ∧
    (L.queueInLoop b cb).wakeups =
      L.wakeups + (if b = false ∨ L.callingPendingFunctors_ = true then 1 else 0) ∧
    ((L.queueInLoop b cb).wakeups = L.wakeups + 1 ↔
      (b = false ∨ L.callingPendingFunctors_ = true)) ∧
    (L.queueInLoop b cb).pendingFunctors_ = L.pendingFunctors_ ++ [cb] := by
  obtain ⟨h1, h2, _, h4, h5⟩ := doPendingFunctors_fields body L
  obtain ⟨q1, _, _, _, q5⟩ := queueInLoop_fields L b cb
  refine ⟨h1, h2, h5, h4, q5, ?_, q1⟩
  rw [q5]
  by_cases hc : b = false ∨ L.callingPendingFunctors_ = true
  · simp [hc]
  · simp [hc]

/-- C8: runInLoop(f) on the loop thread calls f once, inline: the loop is
afterwards what the call of f left, the call is appended to the calls made,
and the pending queue and the wake count change only by what f itself
enqueued (not at all when f enqueues nothing).  From another thread f is not
called and the loop is afterwards what queueInLoop(f) gives. -/
theorem C8_runInLoop {F : Type} (body : F → List (Bool × F)) (L : EventLoop F) (f : F) :
    L.runInLoop body true f = L.call body f ∧
    (L.runInLoop body true f).invoked = L.invoked ++ [f] ∧
    (L.runInLoop body true f).pendingFunctors_
      = L.pendingFunctors_ ++ (body f).map Prod.snd ∧
    (body f = [] → (L.runInLoop body true f).pendingFunctors_ = L.pendingFunctors_ ∧
      (L.runInLoop body true f).wakeups = L.wakeups ∧
      (L.runInLoop body true f).queued = L.queued) ∧
    L.runInLoop body false f = L.queueInLoop false f ∧
    (L.runInLoop body false f).invoked = L.invoked ∧
    (L.runInLoop body false f).pendingFunctors_ = L.pendingFunctors_ ++ [f] ∧
    (L.runInLoop body false f).wakeups = L.wakeups + 1 := by
  obtain ⟨c1, _, c3, _, _⟩ := call_fields body L f
  obtain ⟨q1, _, q3, _, q5⟩ := queueInLoop_fields L false f
  refine ⟨rfl, c3, c1, ?_, rfl, q3, q1, ?_⟩
  · intro hb
    simp [EventLoop.runInLoop, EventLoop.call, hb]
  · simpa using q5


theorem C8_runInLoop_witness :
    ((EventLoop.new : EventLoop Nat).runInLoop (fun _ => []) true 3).pendingFunctors_ = [] ∧
    ((EventLoop.new : EventLoop Nat).runInLoop (fun _ => []) true 3).wakeups = 0 ∧
    ((EventLoop.new : EventLoop Nat).runInLoop (fun _ => []) true 3).queued = [] :=
  (C8_runInLoop (fun _ => []) (EventLoop.new : EventLoop Nat) 3).2.2.2.1 rfl

/-! ### Channel and poller -/

theorem isWriting_enable (e : Nat) : test (e ||| kWriteEvent) kWriteEvent = true := by
  rw [test_iff]
  refine ⟨2, ?_, by decide⟩
  rw [Nat.testBit_or, Bool.or_eq_true]
  exact Or.inr (by decide)

theorem isWriting_disable (e : Nat) : test (e &&& notMask kWriteEvent) kWriteEvent = false := by
  rw [Bool.eq_false_iff]
  intro h
  rw [test_iff] at h
  obtain ⟨i, hx, hm⟩ := h
  have hi : i = 2 := by
    have := (test_two_pow (2 ^ i) 2)
    by_contra hne
    have h2 : Nat.testBit (2 ^ 2) i = false := Nat.testBit_two_pow_of_ne (Ne.symm hne)
    simp [kWriteEvent, POLLOUT] at hm
    simp [hm] at h2
  subst hi
  rw [Nat.testBit_and, Bool.and_eq_true] at hx
  have h2 : (notMask kWriteEvent).testBit 2 = false := by decide
  rw [h2] at hx
  exact Bool.noConfusion hx.2

theorem check_true (dbg : Bool) (site : Abort) : check dbg true site = Except.ok () := by
  simp [check]

theorem lookup_mapSet (m : List (Int × Nat)) (k : Int) (v : Nat) :
    (mapSet m k v).lookup k = some v := by
  simp [mapSet, List.lookup]

theorem update_registered (dbg : Bool) (ch : Channel) (p : EPollPoller)
    (h : Registered ch p) :
    ∃ p', Channel.update dbg ch p = Except.ok
        ({ ch with addedToLoop_ := true,
                   index_ := if ch.isNoneEvent then kDeleted else kAdded }, p') ∧
      p'.channels_ = p.channels_ ∧
      (ch.isNoneEvent = false → (p'.kernel.lookup ch.fd_).isSome = true) := by
  obtain ⟨h1, h2, h3⟩ := h
  cases hn : ch.isNoneEvent
  · refine ⟨{ p with kernel := mapSet p.kernel ch.fd_ ch.events_ }, ?_, rfl, ?_⟩
    · simp [Channel.update, EPollPoller.updateChannel, h1, h2, kAdded, kNew, kDeleted,
        check, EPollPoller.update, epoll_ctl, h3, Channel.isNoneEvent] at hn ⊢
      simp [hn, bind, Except.bind, pure, Except.pure]
    · intro _; simp [lookup_mapSet]
  · refine ⟨{ p with kernel := mapErase p.kernel ch.fd_ }, ?_, rfl, ?_⟩
    · simp [Channel.update, EPollPoller.updateChannel, h1, h2, kAdded, kNew, kDeleted,
        check, EPollPoller.update, epoll_ctl, h3, Channel.isNoneEvent, Channel.set_index] at hn ⊢
      simp [hn, bind, Except.bind, pure, Except.pure]
    · intro h; cases h


theorem lookup_mapErase (m : List (Int × Nat)) (k : Int) :
    (mapErase m k).lookup k = none := by
  induction m with
  | nil => rfl
  | cons e m ih =>
    unfold mapErase at ih ⊢
    rw [List.filter_cons]
    by_cases hk : e.1 = k
    · simp [hk, ih]
    · have hk' : (k == e.1) = false := by
        rw [beq_eq_false_iff_ne]; exact fun h => hk h.symm
      simp only [bne_iff_ne, ne_eq, hk, not_false_eq_true, if_true]
      obtain ⟨a, b⟩ := e
      rw [List.lookup_cons, hk']
      exact ih

theorem mapErase_idem (m : List (Int × Nat)) (k : Int) :
    mapErase (mapErase m k) k = mapErase m k := by
  simp [mapErase]

theorem onChannel_ok {w w' : TcpConnection}
    {f : Channel → EPollPoller → Except Abort (Channel × EPollPoller)}
    (h : w.onChannel f = Except.ok w') :
    ∃ r, f w.channel_ w.poller_ = Except.ok r ∧
      w' = { w with channel_ := r.1, poller_ := r.2 } := by
  unfold TcpConnection.onChannel at h
  split at h
  · rename_i r hr
    exact ⟨r, hr, by injection h with h; exact h.symm⟩
  · cases h

theorem check_ok {dbg c : Bool} {site : Abort} {α : Type} {k : Unit → Except Abort α}
    {r : α} (h : (check dbg c site >>= k) = Except.ok r) :
    (dbg = true → c = true) ∧ k () = Except.ok r := by
  unfold check at h
  cases dbg <;> cases c <;> simp [bind, Except.bind] at h ⊢ <;> exact h

theorem removeChannel_ok {dbg : Bool} {p p' : EPollPoller} {ch ch' : Channel}
    (h : EPollPoller.removeChannel dbg p ch = Except.ok (ch', p')) :
    ch' = ch.set_index kNew ∧ p'.channels_ = mapErase p.channels_ ch.fd_ := by
  unfold EPollPoller.removeChannel at h
  obtain ⟨_, h⟩ := check_ok h
  obtain ⟨_, h⟩ := check_ok h
  obtain ⟨_, h⟩ := check_ok h
  obtain ⟨_, h⟩ := check_ok h
  obtain ⟨_, h⟩ := check_ok h
  by_cases hi : ch.index_ = kAdded
  · simp only [hi, if_true] at h
    unfold EPollPoller.update at h
    split at h
    · simp [bind, Except.bind, pure, Except.pure] at h
      obtain ⟨h1, h2⟩ := h
      subst h1 h2
      exact ⟨rfl, rfl⟩
    · simp [bind, Except.bind, pure, Except.pure] at h
      obtain ⟨h1, h2⟩ := h
      subst h1 h2
      exact ⟨rfl, rfl⟩
  · simp [hi, bind, Except.bind, pure, Except.pure] at h
    obtain ⟨h1, h2⟩ := h
    subst h1 h2
    exact ⟨rfl, rfl⟩

theorem Channel_remove_ok {dbg : Bool} {p p' : EPollPoller} {ch ch' : Channel}
    (h : Channel.remove dbg ch p = Except.ok (ch', p')) :
    ch' = { ch with addedToLoop_ := false, index_ := kNew } ∧
      p'.channels_ = mapErase p.channels_ ch.fd_ ∧
      (dbg = true → ch.isNoneEvent = true) := by
  unfold Channel.remove at h
  obtain ⟨hc, h⟩ := check_ok h
  obtain ⟨h1, h2⟩ := removeChannel_ok h
  exact ⟨h1, h2, hc⟩

/-- A channel that has been removed is removed again without any effect when
assertions are compiled out. -/
theorem Channel_remove_again (ch : Channel) (p : EPollPoller) (m : List (Int × Nat))
    (hi : ch.index_ = kNew) (ha : ch.addedToLoop_ = false)
    (hm : p.channels_ = mapErase m ch.fd_) :
    Channel.remove false ch p = Except.ok (ch, p) := by
  have hne : ¬ (kNew = kAdded) := by decide
  obtain ⟨c, k⟩ := p
  cases ch
  simp only at hi ha hm
  subst hi ha hm
  simp [Channel.remove, EPollPoller.removeChannel, check, hne, bind, Except.bind,
    pure, Except.pure, mapErase_idem, Channel.set_index]

/-- With assertions compiled in, removing a removed channel with no interest
fails the first assertion of EPollPoller::removeChannel. -/
theorem Channel_remove_again_dbg (ch : Channel) (p : EPollPoller) (m : List (Int × Nat))
    (hn : ch.isNoneEvent = true) (hm : p.channels_ = mapErase m ch.fd_) :
    Channel.remove true ch p = Except.error Abort.removeChannel_present := by
  have hl : p.channels_.lookup ch.fd_ = none := by rw [hm]; exact lookup_mapErase m ch.fd_
  simp [Channel.remove, EPollPoller.removeChannel, check, hn, hl, bind, Except.bind,
    Channel.isNoneEvent] at hn ⊢
  simp [hn, Channel.isNoneEvent]


/-! ### connectDestroyed -/

theorem bind_ok {ε α β : Type} {x : Except ε α} {f : α → Except ε β} {r : β}
    (h : (x >>= f) = Except.ok r) : ∃ a, x = Except.ok a ∧ f a = Except.ok r := by
  cases x with
  | error e => cases h
  | ok a => exact ⟨a, rfl, h⟩

theorem connectDestroyed_ok {dbg : Bool} {w w1 : TcpConnection}
    (h : TcpConnection.connectDestroyed dbg w = Except.ok w1) :
    w1.state_ ≠ StateE.kConnected ∧ w1.channel_.index_ = kNew ∧
    w1.channel_.addedToLoop_ = false ∧
    (∃ m, w1.poller_.channels_ = mapErase m w1.channel_.fd_) ∧
    (dbg = true → w1.channel_.isNoneEvent = true) ∧
    (w.state_ ≠ StateE.kConnected → w1.trace = w.trace ∧ w1.state_ = w.state_) := by
  unfold TcpConnection.connectDestroyed at h
  obtain ⟨w2, h2, h3⟩ := bind_ok h
  obtain ⟨r, hr, hw⟩ := onChannel_ok h3
  obtain ⟨r1, r2⟩ := r
  obtain ⟨c1, c2, c3⟩ := Channel_remove_ok hr
  have key : w2.state_ ≠ StateE.kConnected ∧
      (w.state_ ≠ StateE.kConnected → w2.trace = w.trace ∧ w2.state_ = w.state_) := by
    by_cases hs : w.state_ = StateE.kConnected
    · simp only [hs, if_true] at h2
      obtain ⟨w3, h4, h5⟩ := bind_ok h2
      obtain ⟨r', _, hw3⟩ := onChannel_ok h4
      simp only [pure, Except.pure] at h5
      injection h5 with h5
      subst h5 hw3
      exact ⟨by simp [TcpConnection.emit, TcpConnection.setState], fun hc => absurd hs hc⟩
    · simp only [hs, if_false, pure, Except.pure] at h2
      injection h2 with h2
      subst h2
      exact ⟨hs, fun _ => ⟨rfl, rfl⟩⟩
  subst hw
  simp only
  rw [c1]
  refine ⟨key.1, rfl, rfl, ⟨w2.poller_.channels_, c2⟩, ?_, key.2⟩
  intro hd
  have := c3 hd
  simpa [Channel.isNoneEvent] using this

/-- C5 (as amended): once connectDestroyed has run, a second connectDestroyed
skips the guarded part (the state is not Connected), so it fires no callback
and leaves state, interest mask, poller index and registrations as they are;
but its unconditional `channel_->remove()` reaches EPollPoller::removeChannel
with a channel that is no longer in the map.  With assertions compiled out the
second call is a no-op (the connection is unchanged as a whole); with
assertions compiled in it aborts on the first assertion of removeChannel. -/
theorem C5_connectDestroyed_twice (w w1 : TcpConnection) :
    (TcpConnection.connectDestroyed false w = Except.ok w1 →
      TcpConnection.connectDestroyed false w1 = Except.ok w1) ∧
    (TcpConnection.connectDestroyed true w = Except.ok w1 →
      TcpConnection.connectDestroyed true w1 =
        Except.error (Abort.removeChannel_present, w1)) := by
  constructor
  · intro h
    obtain ⟨hs, hi, ha, ⟨m, hm⟩, _, _⟩ := connectDestroyed_ok h
    have hr := Channel_remove_again w1.channel_ w1.poller_ m hi ha hm
    simp [TcpConnection.connectDestroyed, hs, TcpConnection.onChannel, hr, bind,
      Except.bind, pure, Except.pure]
  · intro h
    obtain ⟨hs, _, _, ⟨m, hm⟩, hn, _⟩ := connectDestroyed_ok h
    have hr := Channel_remove_again_dbg w1.channel_ w1.poller_ m (hn rfl) hm
    simp [TcpConnection.connectDestroyed, hs, TcpConnection.onChannel, hr, bind,
      Except.bind, pure, Except.pure]


/-- C5 (as stated) fails: on the connection that connectEstablished and
connectDestroyed have run on, a second connectDestroyed violates the assertion
`channels_.find(fd) != channels_.end()` of EPollPoller::removeChannel. -/
theorem C5_second_connectDestroyed_asserts :
    TcpConnection.connectDestroyed true TcpConnection.connected
      = Except.ok TcpConnection.destroyed ∧
    TcpConnection.connectDestroyed true TcpConnection.destroyed
      = Except.error (Abort.removeChannel_present, TcpConnection.destroyed) := by
  decide

theorem C5_connectDestroyed_twice_witness :
    TcpConnection.connectDestroyed false TcpConnection.destroyed
      = Except.ok TcpConnection.destroyed ∧
    TcpConnection.connectDestroyed true TcpConnection.destroyed
      = Except.error (Abort.removeChannel_present, TcpConnection.destroyed) :=
  ⟨(C5_connectDestroyed_twice TcpConnection.connected TcpConnection.destroyed).1 (by decide),
   (C5_connectDestroyed_twice TcpConnection.connected TcpConnection.destroyed).2 (by decide)⟩


open TcpConnection

/-! ### sendInLoop -/

section fields
variable (w : TcpConnection) (b c : Bool) (cb : ConnFunctor) (e : ConnEvent) (s : StateE)

@[simp] theorem queueInLoop_state : (w.queueInLoop b cb).state_ = w.state_ := rfl
@[simp] theorem queueInLoop_channel : (w.queueInLoop b cb).channel_ = w.channel_ := rfl
@[simp] theorem queueInLoop_poller : (w.queueInLoop b cb).poller_ = w.poller_ := rfl
@[simp] theorem queueInLoop_trace : (w.queueInLoop b cb).trace = w.trace := rfl
@[simp] theorem queueInLoop_sent : (w.queueInLoop b cb).sent = w.sent := rfl
@[simp] theorem queueInLoop_outputBuffer :
    (w.queueInLoop b cb).outputBuffer_ = w.outputBuffer_ := rfl
@[simp] theorem queueInLoop_writeCompleteCallback :
    (w.queueInLoop b cb).writeCompleteCallback_ = w.writeCompleteCallback_ := rfl

@[simp] theorem queueIf_state : (w.queueIf c cb).state_ = w.state_ := by
  unfold TcpConnection.queueIf; split <;> rfl
@[simp] theorem queueIf_channel : (w.queueIf c cb).channel_ = w.channel_ := by
  unfold TcpConnection.queueIf; split <;> rfl
@[simp] theorem queueIf_poller : (w.queueIf c cb).poller_ = w.poller_ := by
  unfold TcpConnection.queueIf; split <;> rfl
@[simp] theorem queueIf_trace : (w.queueIf c cb).trace = w.trace := by
  unfold TcpConnection.queueIf; split <;> rfl
@[simp] theorem queueIf_sent : (w.queueIf c cb).sent = w.sent := by
  unfold TcpConnection.queueIf; split <;> rfl
@[simp] theorem queueIf_outputBuffer : (w.queueIf c cb).outputBuffer_ = w.outputBuffer_ := by
  unfold TcpConnection.queueIf; split <;> rfl
@[simp] theorem queueIf_writeCompleteCallback :
    (w.queueIf c cb).writeCompleteCallback_ = w.writeCompleteCallback_ := by
  unfold TcpConnection.queueIf; split <;> rfl

@[simp] theorem emit_state : (w.emit e).state_ = w.state_ := rfl
@[simp] theorem emit_channel : (w.emit e).channel_ = w.channel_ := rfl
@[simp] theorem emit_poller : (w.emit e).poller_ = w.poller_ := rfl
@[simp] theorem emit_trace : (w.emit e).trace = w.trace ++ [e] := rfl
@[simp] theorem emit_sent : (w.emit e).sent = w.sent := rfl
@[simp] theorem emit_outputBuffer : (w.emit e).outputBuffer_ = w.outputBuffer_ := rfl

@[simp] theorem setState_state : (w.setState s).state_ = s := rfl
@[simp] theorem setState_channel : (w.setState s).channel_ = w.channel_ := rfl
@[simp] theorem setState_poller : (w.setState s).poller_ = w.poller_ := rfl
@[simp] theorem setState_trace : (w.setState s).trace = w.trace := rfl
@[simp] theorem setState_sent : (w.setState s).sent = w.sent := rfl
@[simp] theorem setState_outputBuffer : (w.setState s).outputBuffer_ = w.outputBuffer_ := rfl

end fields

theorem sendInLoop_direct_spec (w : TcpConnection) (data : List Byte) (wr : WriteResult) :
    (sendInLoop_direct w data wr).2.2.2.state_ = w.state_ ∧
    (sendInLoop_direct w data wr).2.2.2.channel_ = w.channel_ ∧
    (sendInLoop_direct w data wr).2.2.2.poller_ = w.poller_ ∧
    (sendInLoop_direct w data wr).2.2.2.trace = w.trace ∧
    (sendInLoop_direct w data wr).2.2.2.outputBuffer_ = w.outputBuffer_ ∧
    (sendInLoop_direct w data wr).2.2.2.sent = w.sent ++ (sendOutcome w data wr).1 ∧
    (sendInLoop_direct w data wr).2.1 ≤ data.length ∧
    (if (sendInLoop_direct w data wr).2.2.1 = false ∧ 0 < (sendInLoop_direct w data wr).2.1
      then (data.drop (sendInLoop_direct w data wr).1.toNat).take
        (sendInLoop_direct w data wr).2.1
      else []) = (sendOutcome w data wr).2 ∧
    ((sendInLoop_direct w data wr).2.2.1 = false ∧ 0 < (sendInLoop_direct w data wr).2.1
      ↔ (sendOutcome w data wr).2 ≠ []) := by
  by_cases hA : w.channel_.isWriting = true ∨ w.outputBuffer_ ≠ []
  · have hc : (!w.channel_.isWriting && w.outputBuffer_.length == 0) = false := by
      rcases hA with h | h
      · simp [h]
      · simp [h]
    simp only [sendInLoop_direct, hc, sendOutcome, hA, if_true]
    refine ⟨rfl, rfl, rfl, rfl, rfl, by simp, le_refl _, ?_, ?_⟩
    · cases data <;> simp
    · cases data <;> simp
  · have hw : w.channel_.isWriting = false := by
      cases h : w.channel_.isWriting
      · rfl
      · exact absurd (Or.inl h) hA
    have hb : w.outputBuffer_ = [] := by
      by_contra h; exact hA (Or.inr h)
    have hc : (!w.channel_.isWriting && w.outputBuffer_.length == 0) = true := by
      simp [hw, hb]
    cases wr with
    | accepts room =>
      have hge : ((min room data.length : Nat) : Int) ≥ 0 := Int.ofNat_nonneg _
      simp only [sendInLoop_direct, hc, sendOutcome, hA, if_true, if_false, sockets.write, hge]
      simp only [queueIf_state, queueIf_channel, queueIf_poller, queueIf_trace,
        queueIf_outputBuffer, queueIf_sent, Int.toNat_ofNat]
      have hrem : ((data.length : Int) - ((min room data.length : Nat) : Int)).toNat
          = data.length - min room data.length := by omega
      rw [hrem]
      refine ⟨trivial, trivial, trivial, trivial, trivial, trivial, by omega, ?_, ?_⟩
      · by_cases h0 : 0 < data.length - min room data.length
        · simp only [h0, and_self, if_true]
          apply List.take_of_length_le
          simp
        · simp only [h0, and_false, if_false]
          symm
          apply List.drop_eq_nil_of_le
          omega
      · simp only [true_and]
        rw [Ne, List.drop_eq_nil_iff]
        omega
    | fails errno =>
      have hlt : ¬ ((-1 : Int) ≥ 0) := by decide
      simp only [sendInLoop_direct, hc, sendOutcome, hA, if_true, if_false, sockets.write, hlt]
      refine ⟨trivial, trivial, trivial, trivial, trivial, by simp, le_refl _, ?_, ?_⟩
      · by_cases he : errno = EPIPE ∨ errno = ECONNRESET
        · have : (errno != EWOULDBLOCK && (errno == EPIPE || errno == ECONNRESET)) = true := by
            rcases he with h | h <;> subst h <;> decide
          simp [this, he]
        · have : (errno != EWOULDBLOCK && (errno == EPIPE || errno == ECONNRESET)) = false := by
            simp only [not_or] at he
            simp [he.1, he.2]
          simp only [this, he, if_false, true_and]
          cases data <;> simp
      · by_cases he : errno = EPIPE ∨ errno = ECONNRESET
        · have : (errno != EWOULDBLOCK && (errno == EPIPE || errno == ECONNRESET)) = true := by
            rcases he with h | h <;> subst h <;> decide
          simp [this, he]
        · have : (errno != EWOULDBLOCK && (errno == EPIPE || errno == ECONNRESET)) = false := by
            simp only [not_or] at he
            simp [he.1, he.2]
          simp only [this, he, if_false, true_and]
          cases data <;> simp

theorem enableWriting_not_none (ch : Channel) :
    ({ ch with events_ := ch.events_ ||| kWriteEvent } : Channel).isNoneEvent = false := by
  have h := isWriting_enable ch.events_
  unfold test at h
  simp only [Channel.isNoneEvent, kNoneEvent, beq_eq_false_iff_ne, ne_eq]
  intro h0
  rw [h0] at h
  simp at h

theorem enableWriting_registered (dbg : Bool) (ch : Channel) (p : EPollPoller)
    (h : Registered ch p) :
    ∃ p', Channel.enableWriting dbg ch p = Except.ok
        ({ ch with events_ := ch.events_ ||| kWriteEvent, addedToLoop_ := true }, p') ∧
      Registered { ch with events_ := ch.events_ ||| kWriteEvent, addedToLoop_ := true } p' := by
  have hr : Registered { ch with events_ := ch.events_ ||| kWriteEvent } p := h
  obtain ⟨p', h1, h2, h3⟩ := update_registered dbg _ p hr
  have hn := enableWriting_not_none ch
  refine ⟨p', ?_, ?_⟩
  · unfold Channel.enableWriting
    rw [h1, hn]
    have hi : ch.index_ = kAdded := h.1
    simp [hi]
  · exact ⟨h.1, by rw [h2]; exact h.2.1, h3 hn⟩

theorem sendInLoop_buffer_spec (dbg : Bool) (w : TcpConnection) (data : List Byte)
    (nwrote : Int) (remaining : Nat) (fault : Bool) (hrem : remaining ≤ data.length)
    (hr : Registered w.channel_ w.poller_) :
    ∃ w', sendInLoop_buffer dbg w data nwrote remaining fault = Except.ok w' ∧
      w'.state_ = w.state_ ∧ w'.trace = w.trace ∧ w'.sent = w.sent ∧
      Registered w'.channel_ w'.poller_ ∧
      (w'.channel_.events_ = w.channel_.events_ ∨
        w'.channel_.events_ = w.channel_.events_ ||| kWriteEvent) ∧
      w'.outputBuffer_ = w.outputBuffer_ ++
        (if fault = false ∧ 0 < remaining then (data.drop nwrote.toNat).take remaining
          else []) ∧
      (w'.channel_.isWriting = true ↔
        (w.channel_.isWriting = true ∨ (fault = false ∧ 0 < remaining))) := by
  have ha : TcpConnection.assert dbg (decide (remaining ≤ data.length))
      Abort.sendInLoop_remaining w = Except.ok w := by
    simp [TcpConnection.assert, hrem]
  unfold sendInLoop_buffer
  rw [ha]
  simp only [bind, Except.bind]
  by_cases hc : fault = false ∧ 0 < remaining
  · have hc' : (!fault && decide (remaining > 0)) = true := by
      simp [hc.1, hc.2]
    simp only [hc', if_true, hc, and_self]
    by_cases hw : w.channel_.isWriting = true
    · simp only [queueIf_channel, hw, Bool.not_true, Bool.false_eq_true, if_false]
      refine ⟨_, rfl, ?_⟩
      simp [hr, hw]
    · have hw' : w.channel_.isWriting = false := by simpa using hw
      obtain ⟨p', h1, h2⟩ := enableWriting_registered dbg w.channel_ w.poller_ hr
      simp only [queueIf_channel, hw', Bool.not_false, if_true, TcpConnection.onChannel,
        queueIf_poller, h1]
      refine ⟨_, rfl, ?_⟩
      simp only [queueIf_state, queueIf_trace, queueIf_sent, queueIf_outputBuffer, true_and]
      refine ⟨h2, ?_, ?_⟩
      · exact Or.inr trivial
      · simp [Channel.isWriting, isWriting_enable]
  · have hc' : (!fault && decide (remaining > 0)) = false := by
      cases fault <;> simp_all
    simp only [hc', hc, if_false, pure, Except.pure]
    refine ⟨w, rfl, rfl, rfl, rfl, hr, Or.inl rfl, by simp, by simp⟩

theorem sendInLoop_spec (dbg : Bool) (w : TcpConnection) (data : List Byte)
    (wr : WriteResult) (hs : w.state_ ≠ StateE.kDisconnected)
    (hr : Registered w.channel_ w.poller_) :
    ∃ w', sendInLoop dbg w data wr = Except.ok w' ∧
      w'.state_ = w.state_ ∧ w'.trace = w.trace ∧
      Registered w'.channel_ w'.poller_ ∧
      (w'.channel_.events_ = w.channel_.events_ ∨
        w'.channel_.events_ = w.channel_.events_ ||| kWriteEvent) ∧
      w'.sent = w.sent ++ (sendOutcome w data wr).1 ∧
      w'.outputBuffer_ = w.outputBuffer_ ++ (sendOutcome w data wr).2 ∧
      (w'.channel_.isWriting = true ↔
        (w.channel_.isWriting = true ∨ (sendOutcome w data wr).2 ≠ [])) := by
  obtain ⟨d1, d2, d3, d4, d5, d6, d7, d8, d9⟩ := sendInLoop_direct_spec w data wr
  have hr' : Registered (sendInLoop_direct w data wr).2.2.2.channel_
      (sendInLoop_direct w data wr).2.2.2.poller_ := by rw [d2, d3]; exact hr
  obtain ⟨w', h0, h1, h2, h3, h4, h5, h6, h7⟩ :=
    sendInLoop_buffer_spec dbg (sendInLoop_direct w data wr).2.2.2 data
      (sendInLoop_direct w data wr).1 (sendInLoop_direct w data wr).2.1
      (sendInLoop_direct w data wr).2.2.1 d7 hr'
  refine ⟨w', ?_, ?_, ?_, h4, ?_, ?_, ?_, ?_⟩
  · unfold sendInLoop
    simp only [hs, if_false]
    exact h0
  · rw [h1, d1]
  · rw [h2, d4]
  · rw [d2] at h5; exact h5
  · rw [h3, d6]
  · rw [h6, d5, d8]
  · rw [h7, d2, d9]

/-! ### handleWrite -/

theorem disableWriting_registered (dbg : Bool) (ch : Channel) (p : EPollPoller)
    (h : Registered ch p) (hin : ch.events_.testBit 0 = true) :
    ∃ p', Channel.disableWriting dbg ch p = Except.ok
        ({ ch with events_ := ch.events_ &&& notMask kWriteEvent, addedToLoop_ := true }, p') ∧
      Registered
        { ch with events_ := ch.events_ &&& notMask kWriteEvent, addedToLoop_ := true } p' ∧
      (ch.events_ &&& notMask kWriteEvent).testBit 0 = true := by
  have hbit : (ch.events_ &&& notMask kWriteEvent).testBit 0 = true := by
    rw [Nat.testBit_and, hin]
    decide
  have hr : Registered { ch with events_ := ch.events_ &&& notMask kWriteEvent } p := h
  obtain ⟨p', h1, h2, h3⟩ := update_registered dbg _ p hr
  have hn : ({ ch with events_ := ch.events_ &&& notMask kWriteEvent } : Channel).isNoneEvent
      = false := by
    simp only [Channel.isNoneEvent, kNoneEvent, beq_eq_false_iff_ne, ne_eq]
    intro h0
    rw [h0] at hbit
    simp at hbit
  refine ⟨p', ?_, ?_, hbit⟩
  · unfold Channel.disableWriting
    rw [h1, hn]
    have hi : ch.index_ = kAdded := h.1
    simp [hi]
  · exact ⟨h.1, by rw [h2]; exact h.2.1, h3 hn⟩

/-- The connection handleWrite leaves, given what the write returned. -/
theorem handleWrite_spec (dbg : Bool) (w : TcpConnection) (wr : WriteResult)
    (hr : Registered w.channel_ w.poller_) (hin : w.channel_.events_.testBit 0 = true) :
    ∃ w', handleWrite dbg w wr = Except.ok w' ∧
      w'.state_ = w.state_ ∧ Registered w'.channel_ w'.poller_ ∧
      w'.channel_.events_.testBit 0 = true ∧
      w'.sent ++ w'.outputBuffer_ = w.sent ++ w.outputBuffer_ ∧
      (∃ n, w'.sent = w.sent ++ w.outputBuffer_.take n ∧
        w'.outputBuffer_ = w.outputBuffer_.drop n ∧
        (w.channel_.isWriting = true →
          ((n : Int) = (sockets.write w.outputBuffer_.length wr).1 ∨
            (n = 0 ∧ (sockets.write w.outputBuffer_.length wr).1 ≤ 0))) ∧
        (w.channel_.isWriting = false → n = 0)) ∧
      w'.trace = w.trace ++
        (if w.channel_.isWriting = true ∧ w.outputBuffer_ ≠ [] ∧ w'.outputBuffer_ = [] ∧
            w.state_ = StateE.kDisconnecting
          then [ConnEvent.shutdownWrite StateE.kDisconnecting 0] else []) ∧
      (w'.channel_.isWriting = true ↔
        (w.channel_.isWriting = true ∧ ¬ (w.outputBuffer_ ≠ [] ∧ w'.outputBuffer_ = []))) := by
  by_cases hw : w.channel_.isWriting = true
  swap
  · have hw' : w.channel_.isWriting = false := by simpa using hw
    refine ⟨w, by simp [handleWrite, hw', pure, Except.pure], rfl, hr, hin, rfl,
      ⟨0, by simp, by simp, by simp [hw'], fun _ => rfl⟩, by simp [hw'], by simp [hw']⟩
  by_cases hpos : (sockets.write w.outputBuffer_.length wr).1 > 0
  swap
  · refine ⟨w, by simp [handleWrite, hw, hpos, pure, Except.pure], rfl, hr, hin, rfl,
      ⟨0, by simp, by simp, fun _ => Or.inr ⟨rfl, by omega⟩, fun _ => rfl⟩, ?_, ?_⟩
    · have : ¬ (w.channel_.isWriting = true ∧ w.outputBuffer_ ≠ [] ∧ w.outputBuffer_ = [] ∧
          w.state_ = StateE.kDisconnecting) := fun h => h.2.1 h.2.2.1
      simp only [this, if_false, List.append_nil]
    · have : ¬ (w.outputBuffer_ ≠ [] ∧ w.outputBuffer_ = []) := fun h => h.1 h.2
      simp [hw, this]
  -- the write took n > 0 bytes
  obtain ⟨n, hn⟩ : ∃ n : Nat, (sockets.write w.outputBuffer_.length wr).1 = (n : Int) :=
    ⟨(sockets.write w.outputBuffer_.length wr).1.toNat, by omega⟩
  have hn0 : 0 < n := by omega
  have hpos' : (n : Int) > 0 := by omega
  have hne : w.outputBuffer_ ≠ [] := by
    intro h0
    cases wr with
    | accepts room => simp [sockets.write, h0] at hn; omega
    | fails errno => simp [sockets.write] at hpos
  have hwd : test (w.channel_.events_ &&& notMask kWriteEvent) kWriteEvent = false :=
    isWriting_disable _
  by_cases hd : w.outputBuffer_.drop n = []
  · -- drained
    obtain ⟨p', h1, h2, h3⟩ := disableWriting_registered dbg w.channel_ w.poller_ hr hin
    have hlen : (List.drop n w.outputBuffer_).length = 0 := by rw [hd]; rfl
    by_cases hs : w.state_ = StateE.kDisconnecting
    · refine ⟨shutdownInLoop (TcpConnection.queueIf ({ w with
            sent := w.sent ++ w.outputBuffer_.take n
            outputBuffer_ := w.outputBuffer_.drop n
            channel_ := { w.channel_ with
              events_ := w.channel_.events_ &&& notMask kWriteEvent
              addedToLoop_ := true }
            poller_ := p' } : TcpConnection)
          w.writeCompleteCallback_ ConnFunctor.writeCompleteCallback), ?_, ?_⟩
      · simp only [handleWrite, hw, if_true, hn, hpos', Int.toNat_ofNat, hlen, beq_self_eq_true,
          TcpConnection.onChannel, h1, bind, Except.bind, queueIf_state, hs,
          pure, Except.pure]
      · have hsd : ∀ x : TcpConnection, x.channel_.isWriting = false →
            shutdownInLoop x = x.emit (ConnEvent.shutdownWrite x.state_ x.outputBuffer_.length) := by
          intro x hx; simp [shutdownInLoop, hx]
        rw [hsd _ (by simpa [Channel.isWriting] using hwd)]
        refine ⟨?_, ?_, ?_, ?_, ⟨n, ?_, ?_, ?_, ?_⟩, ?_, ?_⟩
        · simp
        · simpa using h2
        · simpa using h3
        · simp
        · simp
        · simp
        · intro _; exact Or.inl hn.symm
        · intro h; rw [h] at hw; cases hw
        · simp [hw, hne, hs, hd]
        · simp [hw, hne, hd, Channel.isWriting, hwd]
    · refine ⟨TcpConnection.queueIf ({ w with
            sent := w.sent ++ w.outputBuffer_.take n
            outputBuffer_ := w.outputBuffer_.drop n
            channel_ := { w.channel_ with
              events_ := w.channel_.events_ &&& notMask kWriteEvent
              addedToLoop_ := true }
            poller_ := p' } : TcpConnection)
          w.writeCompleteCallback_ ConnFunctor.writeCompleteCallback, ?_, ?_⟩
      · simp only [handleWrite, hw, if_true, hn, hpos', Int.toNat_ofNat, hlen, beq_self_eq_true,
          TcpConnection.onChannel, h1, bind, Except.bind, queueIf_state, hs, if_false,
          pure, Except.pure]
      · refine ⟨?_, ?_, ?_, ?_, ⟨n, ?_, ?_, ?_, ?_⟩, ?_, ?_⟩
        · simp
        · simpa using h2
        · simpa using h3
        · simp
        · simp
        · simp
        · intro _; exact Or.inl hn.symm
        · intro h; rw [h] at hw; cases hw
        · simp [hs]
        · simp [hw, hne, hd, Channel.isWriting, hwd]
  · -- bytes remain
    have hlen : ((List.drop n w.outputBuffer_).length == 0) = false := by
      simp only [beq_eq_false_iff_ne, ne_eq, List.length_eq_zero]
      exact hd
    refine ⟨{ w with
      sent := w.sent ++ w.outputBuffer_.take n
      outputBuffer_ := w.outputBuffer_.drop n }, ?_, ?_⟩
    · simp only [handleWrite, hw, if_true, hn, hpos', Int.toNat_ofNat, hlen,
        bind, Except.bind, pure, Except.pure]
      rfl
    · refine ⟨rfl, hr, hin, by simp, ⟨n, rfl, rfl, fun _ => Or.inl hn.symm,
          fun h => by rw [h] at hw; cases hw⟩, ?_, ?_⟩
      · simp [hd]
      · simp [hw, hd]

theorem sendOutcome_concat (w : TcpConnection) (data : List Byte) (wr : WriteResult)
    (h : (w.channel_.isWriting = true ∨ w.outputBuffer_ ≠ []) ∨
      ∀ errno, wr = WriteResult.fails errno → errno ≠ EPIPE ∧ errno ≠ ECONNRESET) :
    (sendOutcome w data wr).1 ++ (sendOutcome w data wr).2 = data := by
  unfold sendOutcome
  by_cases hA : w.channel_.isWriting = true ∨ w.outputBuffer_ ≠ []
  · simp [hA]
  · simp only [hA, if_false]
    cases wr with
    | accepts room => simp
    | fails errno =>
      rcases h with h | h
      · exact absurd h hA
      · obtain ⟨h1, h2⟩ := h errno rfl
        simp [h1, h2]

theorem writeRun_spec (dbg : Bool) (ops : List WriteOp) (w : TcpConnection)
    (hs : w.state_ ≠ StateE.kDisconnected) (hr : Registered w.channel_ w.poller_)
    (hin : w.channel_.events_.testBit 0 = true) (hf : noFault ops) :
    ∃ w', writeRun dbg w ops = Except.ok w' ∧
      w'.sent ++ w'.outputBuffer_ = w.sent ++ w.outputBuffer_ ++ payloads ops := by
  induction ops generalizing w with
  | nil => exact ⟨w, rfl, by simp [payloads]⟩
  | cons op ops ih =>
    have hf' : noFault ops := fun d e hm => hf d e (List.mem_cons_of_mem _ hm)
    cases op with
    | sendInLoop data wr =>
      obtain ⟨w1, h0, h1, _, h3, h4, h5, h6, _⟩ := sendInLoop_spec dbg w data wr hs hr
      have hin1 : w1.channel_.events_.testBit 0 = true := by
        rcases h4 with h | h
        · rw [h]; exact hin
        · rw [h, Nat.testBit_or, hin]; rfl
      obtain ⟨w', hw', he⟩ := ih w1 (by rw [h1]; exact hs) h3 hin1 hf'
      refine ⟨w', ?_, ?_⟩
      · simp only [writeRun, List.foldlM_cons, writeStep, h0, bind, Except.bind]
        exact hw'
      · have hc := sendOutcome_concat w data wr (by
          by_cases hA : w.channel_.isWriting = true ∨ w.outputBuffer_ ≠ []
          · exact Or.inl hA
          · right
            intro errno he
            subst he
            exact hf data errno (List.mem_cons_self _ _))
        rw [he, h5, h6]
        by_cases hA : w.channel_.isWriting = true ∨ w.outputBuffer_ ≠ []
        · simp [sendOutcome, hA, payloads]
        · have hb : w.outputBuffer_ = [] := by
            by_contra h; exact hA (Or.inr h)
          simp only [payloads, hb, List.nil_append, List.append_nil, List.append_assoc]
          rw [← List.append_assoc (sendOutcome w data wr).1, hc]
    | handleWrite wr =>
      obtain ⟨w1, h0, h1, h2, h3, h4, _⟩ := handleWrite_spec dbg w wr hr hin
      obtain ⟨w', hw', he⟩ := ih w1 (by rw [h1]; exact hs) h2 h3 hf'
      refine ⟨w', ?_, ?_⟩
      · simp only [writeRun, List.foldlM_cons, writeStep, h0, bind, Except.bind]
        exact hw'
      · rw [he, h4]; simp [payloads]

/-- C2 (as amended): on a connection that is not Disconnected and whose
channel is registered, sendInLoop returns, and: if WRITE interest is enabled
or the output buffer is non-empty, nothing is written and the whole payload
is appended after the buffered bytes; otherwise, when the write returns
nwrote = min(room, len), those bytes go to the socket and exactly the rest is
appended; when the write fails with EPIPE or ECONNRESET the whole payload is
discarded (nothing written, nothing appended); when it fails with any other
errno the whole payload is appended.  Hence over any sequence of sendInLoop
and handleWrite calls in which no write fails with EPIPE or ECONNRESET,
(bytes written) ++ (output buffer) grows by exactly the payloads, in order. -/
theorem C2_sendInLoop_payload (dbg : Bool) (w : TcpConnection) (data : List Byte)
    (wr : WriteResult) (ops : List WriteOp)
    (hs : w.state_ ≠ StateE.kDisconnected) (hr : Registered w.channel_ w.poller_)
    (hin : w.channel_.events_.testBit 0 = true) :
    (∃ w', sendInLoop dbg w data wr = Except.ok w' ∧
      ((w.channel_.isWriting = true ∨ w.outputBuffer_ ≠ []) →
        w'.sent = w.sent ∧ w'.outputBuffer_ = w.outputBuffer_ ++ data) ∧
      (w.channel_.isWriting = false → w.outputBuffer_ = [] →
        (∀ room, wr = WriteResult.accepts room →
          w'.sent = w.sent ++ data.take (min room data.length) ∧
          w'.outputBuffer_ = data.drop (min room data.length)) ∧
        (∀ errno, wr = WriteResult.fails errno →
          w'.sent = w.sent ∧
          w'.outputBuffer_ = if errno = EPIPE ∨ errno = ECONNRESET then [] else data))) ∧
    (noFault ops → ∃ w', writeRun dbg w ops = Except.ok w' ∧
      w'.sent ++ w'.outputBuffer_ = w.sent ++ w.outputBuffer_ ++ payloads ops) := by
  refine ⟨?_, fun hf => writeRun_spec dbg ops w hs hr hin hf⟩
  obtain ⟨w', h0, _, _, _, _, h5, h6, _⟩ := sendInLoop_spec dbg w data wr hs hr
  refine ⟨w', h0, ?_, ?_⟩
  · intro hA
    rw [h5, h6]
    simp [sendOutcome, hA]
  · intro hw hb
    have hA : ¬ (w.channel_.isWriting = true ∨ w.outputBuffer_ ≠ []) := by
      simp [hw, hb]
    rw [h5, h6]
    constructor
    · intro room hwr
      subst hwr
      simp [sendOutcome, hw, hb]
    · intro errno hwr
      subst hwr
      simp [sendOutcome, hw, hb]

/-- C2 (as stated) fails: on the established connection `connected` (not
Disconnected, WRITE interest off, output buffer empty) a sendInLoop of three
bytes whose direct write fails with EPIPE returns with nothing written and
nothing appended; the payload is dropped. -/
theorem C2_payload_dropped_on_EPIPE :
    TcpConnection.connected.state_ = StateE.kConnected ∧
    TcpConnection.connected.channel_.isWriting = false ∧
    TcpConnection.connected.outputBuffer_ = [] ∧
    (∃ w', sendInLoop true TcpConnection.connected [1, 2, 3] (WriteResult.fails EPIPE)
        = Except.ok w' ∧ w'.sent = [] ∧ w'.outputBuffer_ = [] ∧
        w'.sent ++ w'.outputBuffer_ ≠
          TcpConnection.connected.sent ++ TcpConnection.connected.outputBuffer_ ++ [1, 2, 3]) :=
  ⟨by decide, by decide, by decide,
    ⟨(sendInLoop true TcpConnection.connected [1, 2, 3] (WriteResult.fails EPIPE)).world,
      by decide, by decide, by decide, by decide⟩⟩

theorem C2_sendInLoop_payload_witness :
    TcpConnection.connected.state_ ≠ StateE.kDisconnected ∧
    Registered TcpConnection.connected.channel_ TcpConnection.connected.poller_ ∧
    TcpConnection.connected.channel_.events_.testBit 0 = true ∧
    (∃ w', writeRun true TcpConnection.connected
        [WriteOp.sendInLoop [1, 2, 3] (WriteResult.accepts 1),
         WriteOp.sendInLoop [4] (WriteResult.accepts 9),
         WriteOp.handleWrite (WriteResult.accepts 2),
         WriteOp.sendInLoop [5] (WriteResult.fails EWOULDBLOCK)] = Except.ok w' ∧
      w'.sent ++ w'.outputBuffer_ =
        TcpConnection.connected.sent ++ TcpConnection.connected.outputBuffer_ ++
          payloads [WriteOp.sendInLoop [1, 2, 3] (WriteResult.accepts 1),
            WriteOp.sendInLoop [4] (WriteResult.accepts 9),
            WriteOp.handleWrite (WriteResult.accepts 2),
            WriteOp.sendInLoop [5] (WriteResult.fails EWOULDBLOCK)]) :=
  ⟨by decide, ⟨by decide, by decide, by decide⟩, by decide,
    (C2_sendInLoop_payload true TcpConnection.connected [1, 2, 3] (WriteResult.accepts 1)
      [WriteOp.sendInLoop [1, 2, 3] (WriteResult.accepts 1),
       WriteOp.sendInLoop [4] (WriteResult.accepts 9),
       WriteOp.handleWrite (WriteResult.accepts 2),
       WriteOp.sendInLoop [5] (WriteResult.fails EWOULDBLOCK)]
      (by decide) ⟨by decide, by decide, by decide⟩ (by decide)).2
      (by
        intro data errno hm
        simp only [List.mem_cons, WriteOp.sendInLoop.injEq, WriteResult.fails.injEq,
          List.mem_singleton, reduceCtorEq, and_false, false_or, false_and,
          List.mem_nil_iff, or_false] at hm
        obtain ⟨_, he⟩ := hm
        subst he
        decide)⟩

/-! ### The close path -/

theorem disableAll_registered (dbg : Bool) (ch : Channel) (p : EPollPoller)
    (h : Registered ch p) :
    ∃ p', Channel.disableAll dbg ch p = Except.ok
        ({ ch with events_ := kNoneEvent, addedToLoop_ := true, index_ := kDeleted }, p') := by
  have hr : Registered { ch with events_ := kNoneEvent } p := h
  obtain ⟨p', h1, _, _⟩ := update_registered dbg _ p hr
  refine ⟨p', ?_⟩
  unfold Channel.disableAll
  rw [h1]
  simp [Channel.isNoneEvent]

theorem handleClose_spec (dbg : Bool) (w : TcpConnection)
    (hs : w.state_ = StateE.kConnected ∨ w.state_ = StateE.kDisconnecting)
    (hr : Registered w.channel_ w.poller_) :
    ∃ w', handleClose dbg w = Except.ok w' ∧ w'.state_ = StateE.kDisconnected ∧
      w'.trace = w.trace ++ [ConnEvent.connection StateE.kDisconnected, ConnEvent.close] ∧
      w'.channel_.events_ = kNoneEvent ∧ w'.channel_.index_ = kDeleted ∧
      w'.outputBuffer_ = w.outputBuffer_ ∧ w'.sent = w.sent ∧
      w'.loop_ = w.loop_ := by
  obtain ⟨p', h1⟩ := disableAll_registered dbg w.channel_ w.poller_ hr
  have ha : TcpConnection.assert dbg
      (decide (w.state_ = StateE.kConnected) || decide (w.state_ = StateE.kDisconnecting))
      Abort.handleClose_state w = Except.ok w := by
    rcases hs with h | h <;> simp [TcpConnection.assert, h]
  refine ⟨((({ w with
      state_ := StateE.kDisconnected
      channel_ := { w.channel_ with
        events_ := kNoneEvent
        addedToLoop_ := true
        index_ := kDeleted }
      poller_ := p' } : TcpConnection).emit
        (ConnEvent.connection StateE.kDisconnected)).emit ConnEvent.close), ?_, ?_⟩
  · unfold handleClose
    rw [ha]
    simp only [bind, Except.bind, TcpConnection.onChannel, setState_channel, setState_poller, h1,
      pure, Except.pure]
    rfl
  · simp [TcpConnection.emit]

theorem count_close_append_singleton (t : List ConnEvent) (e : ConnEvent)
    (h : e ≠ ConnEvent.close) :
    (t ++ [e]).count ConnEvent.close = t.count ConnEvent.close := by
  rw [List.count_append, List.count_singleton]
  have : (e == ConnEvent.close) = false := by
    rw [beq_eq_false_iff_ne]; exact h
  simp [this]

/-- A functor called on a connection that is Connected or Disconnecting with
its channel registered: forceCloseInLoop traverses the close path once and
leaves the connection Disconnected; any other functor leaves the connection
Connected or Disconnecting, registered, with no further traversal. -/
theorem invoke_open (dbg : Bool) (w : TcpConnection) (cb : ConnFunctor)
    (hs : w.state_ = StateE.kConnected ∨ w.state_ = StateE.kDisconnecting)
    (hr : Registered w.channel_ w.poller_) :
    ∃ w', invoke dbg w cb = Except.ok w' ∧
      (cb = ConnFunctor.forceCloseInLoop →
        w'.state_ = StateE.kDisconnected ∧ closePathCount w' = closePathCount w + 1) ∧
      (cb ≠ ConnFunctor.forceCloseInLoop →
        (w'.state_ = StateE.kConnected ∨ w'.state_ = StateE.kDisconnecting) ∧
        Registered w'.channel_ w'.poller_ ∧ closePathCount w' = closePathCount w) := by
  cases cb with
  | sendInLoop message wr =>
    have hs' : w.state_ ≠ StateE.kDisconnected := by
      rcases hs with h | h <;> rw [h] <;> decide
    obtain ⟨w', h0, h1, h2, h3, _⟩ := sendInLoop_spec dbg
      { w with loop_ := { w.loop_ with
          invoked := w.loop_.invoked ++ [ConnFunctor.sendInLoop message wr] } }
      message wr hs' hr
    refine ⟨w', h0, (fun h => by cases h), fun _ => ⟨by rw [h1]; exact hs, h3, ?_⟩⟩
    simp only [closePathCount, h2]
  | shutdownInLoop =>
    refine ⟨_, rfl, (fun h => by cases h), fun _ => ?_⟩
    unfold shutdownInLoop
    split
    · exact ⟨hs, hr, count_close_append_singleton _ _ (by simp)⟩
    · exact ⟨hs, hr, rfl⟩
  | forceCloseInLoop =>
    obtain ⟨w', h0, h1, h2, _⟩ := handleClose_spec dbg
      { w with loop_ := { w.loop_ with
          invoked := w.loop_.invoked ++ [ConnFunctor.forceCloseInLoop] } } hs hr
    refine ⟨w', ?_, fun _ => ⟨h1, ?_⟩, fun h => absurd rfl h⟩
    · simp only [invoke, forceCloseInLoop, hs, if_true]
      exact h0
    · simp only [closePathCount, h2]
      simp [List.count_append, List.count_cons]
  | writeCompleteCallback =>
    exact ⟨_, rfl, (fun h => by cases h),
      fun _ => ⟨hs, hr, count_close_append_singleton _ _ (by simp)⟩⟩
  | highWaterMarkCallback len =>
    exact ⟨_, rfl, (fun h => by cases h),
      fun _ => ⟨hs, hr, count_close_append_singleton _ _ (by simp)⟩⟩

/-- A functor called on a Disconnected connection leaves it Disconnected and
does not traverse the close path. -/
theorem invoke_closed (dbg : Bool) (w : TcpConnection) (cb : ConnFunctor)
    (hs : w.state_ = StateE.kDisconnected) :
    ∃ w', invoke dbg w cb = Except.ok w' ∧ w'.state_ = StateE.kDisconnected ∧
      closePathCount w' = closePathCount w := by
  cases cb with
  | sendInLoop message wr =>
    exact ⟨{ w with loop_ := { w.loop_ with
        invoked := w.loop_.invoked ++ [ConnFunctor.sendInLoop message wr] } },
      by simp [invoke, sendInLoop, hs], hs, rfl⟩
  | shutdownInLoop =>
    refine ⟨_, rfl, ?_⟩
    unfold shutdownInLoop
    split
    · exact ⟨hs, count_close_append_singleton _ _ (by simp)⟩
    · exact ⟨hs, rfl⟩
  | forceCloseInLoop =>
    exact ⟨{ w with loop_ := { w.loop_ with
        invoked := w.loop_.invoked ++ [ConnFunctor.forceCloseInLoop] } },
      by simp [invoke, forceCloseInLoop, hs, pure, Except.pure], hs, rfl⟩
  | writeCompleteCallback =>
    exact ⟨_, rfl, hs, count_close_append_singleton _ _ (by simp)⟩
  | highWaterMarkCallback len =>
    exact ⟨_, rfl, hs, count_close_append_singleton _ _ (by simp)⟩

theorem foldlM_invoke_closed (dbg : Bool) (l : List ConnFunctor) (w : TcpConnection)
    (hs : w.state_ = StateE.kDisconnected) :
    ∃ w', l.foldlM (fun w' f => invoke dbg w' f) w = Except.ok w' ∧
      w'.state_ = StateE.kDisconnected ∧ closePathCount w' = closePathCount w := by
  induction l generalizing w with
  | nil => exact ⟨w, rfl, hs, rfl⟩
  | cons cb l ih =>
    obtain ⟨w1, h0, h1, h2⟩ := invoke_closed dbg w cb hs
    obtain ⟨w', g0, g1, g2⟩ := ih w1 h1
    refine ⟨w', ?_, g1, by rw [g2, h2]⟩
    simp only [List.foldlM_cons, h0, bind, Except.bind]
    exact g0

theorem foldlM_invoke_open (dbg : Bool) (l : List ConnFunctor) (w : TcpConnection)
    (hs : w.state_ = StateE.kConnected ∨ w.state_ = StateE.kDisconnecting)
    (hr : Registered w.channel_ w.poller_) (hm : ConnFunctor.forceCloseInLoop ∈ l) :
    ∃ w', l.foldlM (fun w' f => invoke dbg w' f) w = Except.ok w' ∧
      w'.state_ = StateE.kDisconnected ∧ closePathCount w' = closePathCount w + 1 := by
  induction l generalizing w with
  | nil => cases hm
  | cons cb l ih =>
    obtain ⟨w1, h0, h1, h2⟩ := invoke_open dbg w cb hs hr
    by_cases hcb : cb = ConnFunctor.forceCloseInLoop
    · obtain ⟨hd, hc⟩ := h1 hcb
      obtain ⟨w', g0, g1, g2⟩ := foldlM_invoke_closed dbg l w1 hd
      refine ⟨w', ?_, g1, by rw [g2, hc]⟩
      simp only [List.foldlM_cons, h0, bind, Except.bind]
      exact g0
    · obtain ⟨hs1, hr1, hc⟩ := h2 hcb
      have hm' : ConnFunctor.forceCloseInLoop ∈ l := by
        rcases List.mem_cons.1 hm with h | h
        · exact absurd h.symm hcb
        · exact h
      obtain ⟨w', g0, g1, g2⟩ := ih w1 hs1 hr1 hm'
      refine ⟨w', ?_, g1, by rw [g2, hc]⟩
      simp only [List.foldlM_cons, h0, bind, Except.bind]
      exact g0

theorem doPendingFunctors_open (dbg : Bool) (w : TcpConnection)
    (hs : w.state_ = StateE.kConnected ∨ w.state_ = StateE.kDisconnecting)
    (hr : Registered w.channel_ w.poller_)
    (hm : ConnFunctor.forceCloseInLoop ∈ w.loop_.pendingFunctors_) :
    ∃ w', doPendingFunctors dbg w = Except.ok w' ∧
      w'.state_ = StateE.kDisconnected ∧ closePathCount w' = closePathCount w + 1 := by
  obtain ⟨w', h0, h1, h2⟩ := foldlM_invoke_open dbg w.loop_.pendingFunctors_
    { w with loop_ := { w.loop_ with callingPendingFunctors_ := true, pendingFunctors_ := [] } }
    hs hr hm
  refine ⟨{ w' with loop_ := { w'.loop_ with callingPendingFunctors_ := false } }, ?_, h1, h2⟩
  unfold doPendingFunctors
  simp only [bind, Except.bind]
  rw [h0]
  rfl

theorem forceClose_open (w : TcpConnection) (b : Bool)
    (hs : w.state_ = StateE.kConnected ∨ w.state_ = StateE.kDisconnecting) :
    (forceClose w b).state_ = StateE.kDisconnecting ∧
    (forceClose w b).channel_ = w.channel_ ∧ (forceClose w b).poller_ = w.poller_ ∧
    (forceClose w b).trace = w.trace ∧
    (forceClose w b).loop_.pendingFunctors_
      = w.loop_.pendingFunctors_ ++ [ConnFunctor.forceCloseInLoop] := by
  simp only [forceClose, hs, if_true, queueInLoop_state, setState_state, queueInLoop_channel,
    setState_channel, queueInLoop_poller, setState_poller, queueInLoop_trace, setState_trace,
    true_and]
  exact (queueInLoop_fields w.loop_ b ConnFunctor.forceCloseInLoop).1

theorem forceCloseTimes_open (b : Bool) (n : Nat) (w : TcpConnection)
    (hs : w.state_ = StateE.kConnected ∨ w.state_ = StateE.kDisconnecting) :
    ((forceCloseTimes w b n).state_ = StateE.kConnected ∨
      (forceCloseTimes w b n).state_ = StateE.kDisconnecting) ∧
    (forceCloseTimes w b n).channel_ = w.channel_ ∧
    (forceCloseTimes w b n).poller_ = w.poller_ ∧
    (forceCloseTimes w b n).trace = w.trace ∧
    (forceCloseTimes w b n).loop_.pendingFunctors_
      = w.loop_.pendingFunctors_ ++ List.replicate n ConnFunctor.forceCloseInLoop := by
  induction n generalizing w with
  | zero => simp [forceCloseTimes, hs]
  | succ n ih =>
    obtain ⟨f1, f2, f3, f4, f5⟩ := forceClose_open w b hs
    obtain ⟨i1, i2, i3, i4, i5⟩ := ih (forceClose w b) (Or.inr f1)
    unfold forceCloseTimes
    refine ⟨i1, by rw [i2, f2], by rw [i3, f3], by rw [i4, f4], ?_⟩
    rw [i5, f5, List.append_assoc]
    rfl

/-- C4 (as amended): on a connection that is Connected or Disconnecting (its
channel registered), forceClose called N >= 1 times, from any thread, followed
by one drain of the loop, returns with the connection Disconnected and
exactly one more traversal of handleClose, whatever else was queued before.
On a connection that is Connecting (or Disconnected) forceClose does nothing:
the connection, its queue included, is unchanged, and no traversal follows. -/
theorem C4_forceClose_once (dbg b : Bool) (N : Nat) (w : TcpConnection) :
    (1 ≤ N → (w.state_ = StateE.kConnected ∨ w.state_ = StateE.kDisconnecting) →
      Registered w.channel_ w.poller_ →
      ∃ w', doPendingFunctors dbg (forceCloseTimes w b N) = Except.ok w' ∧
        w'.state_ = StateE.kDisconnected ∧ closePathCount w' = closePathCount w + 1) ∧
    ((w.state_ = StateE.kConnecting ∨ w.state_ = StateE.kDisconnected) →
      forceCloseTimes w b N = w) := by
  constructor
  · intro hN hs hr
    obtain ⟨i1, i2, i3, i4, i5⟩ := forceCloseTimes_open b N w hs
    have hm : ConnFunctor.forceCloseInLoop ∈ (forceCloseTimes w b N).loop_.pendingFunctors_ := by
      rw [i5]
      apply List.mem_append_right
      rw [List.mem_replicate]
      exact ⟨by omega, rfl⟩
    obtain ⟨w', h0, h1, h2⟩ := doPendingFunctors_open dbg (forceCloseTimes w b N) i1
      (by rw [i2, i3]; exact hr) hm
    exact ⟨w', h0, h1, by rw [h2, closePathCount, i4, closePathCount]⟩
  · intro hs
    have hf : forceClose w b = w := by
      rcases hs with h | h <;> simp [forceClose, h]
    induction N with
    | zero => rfl
    | succ n ih => unfold forceCloseTimes; rw [hf]; exact ih

/-- C4 (as stated) fails in state Connecting: three calls of forceClose on
the new connection `fresh` leave the queue empty, and the drain that follows
traverses handleClose zero times. -/
theorem C4_forceClose_while_connecting :
    TcpConnection.fresh.state_ = StateE.kConnecting ∧
    (forceCloseTimes TcpConnection.fresh true 3).loop_.pendingFunctors_ = [] ∧
    (∃ w', doPendingFunctors true (forceCloseTimes TcpConnection.fresh true 3) = Except.ok w' ∧
      closePathCount w' = 0) :=
  ⟨by decide, by decide,
    ⟨(doPendingFunctors true (forceCloseTimes TcpConnection.fresh true 3)).world,
      by decide, by decide⟩⟩

theorem C4_forceClose_once_witness :
    (1 ≤ 3 ∧
      (TcpConnection.connected.state_ = StateE.kConnected ∨
        TcpConnection.connected.state_ = StateE.kDisconnecting) ∧
      Registered TcpConnection.connected.channel_ TcpConnection.connected.poller_ ∧
      ∃ w', doPendingFunctors true (forceCloseTimes TcpConnection.connected false 3)
          = Except.ok w' ∧
        w'.state_ = StateE.kDisconnected ∧
        closePathCount w' = closePathCount TcpConnection.connected + 1) ∧
    (TcpConnection.fresh.state_ = StateE.kConnecting ∧
      forceCloseTimes TcpConnection.fresh false 3 = TcpConnection.fresh) :=
  ⟨⟨by decide, Or.inl (by decide), ⟨by decide, by decide, by decide⟩,
      (C4_forceClose_once true false 3 TcpConnection.connected).1 (by decide)
        (Or.inl (by decide)) ⟨by decide, by decide, by decide⟩⟩,
    ⟨by decide, (C4_forceClose_once true false 3 TcpConnection.fresh).2 (Or.inl (by decide))⟩⟩

/-! ### The invariant of an established connection -/

theorem shutdownsDrained_append {t : List ConnEvent} {e : ConnEvent}
    (h : ShutdownsDrained t)
    (he : ∀ st n, e = ConnEvent.shutdownWrite st n → st ≠ StateE.kDisconnected → n = 0) :
    ShutdownsDrained (t ++ [e]) := by
  intro st n hm hst
  rcases List.mem_append.1 hm with h1 | h1
  · exact h st n h1 hst
  · rw [List.mem_singleton] at h1
    exact he st n h1.symm hst

theorem Established.congr {w w' : TcpConnection} (h : Established w)
    (ht : w'.trace = w.trace) (hs : w'.state_ = w.state_)
    (hi : w'.channel_.index_ = w.channel_.index_) (hfd : w'.channel_.fd_ = w.channel_.fd_)
    (ha : w'.channel_.addr = w.channel_.addr)
    (he : w'.channel_.events_ = w.channel_.events_)
    (hp : w'.poller_ = w.poller_) (hb : w'.outputBuffer_ = w.outputBuffer_) :
    Established w' := by
  obtain ⟨h1, h2, h3⟩ := h
  refine ⟨by rw [ht]; exact h1, by rw [hs]; exact h2, ?_⟩
  intro hd
  rw [hs] at hd
  obtain ⟨⟨r1, r2, r3⟩, hin, hw⟩ := h3 hd
  refine ⟨⟨by rw [hi]; exact r1, by rw [hp, hfd, ha]; exact r2, by rw [hp, hfd]; exact r3⟩,
    by rw [he]; exact hin, ?_⟩
  simp only [Channel.isWriting, he, hb] at hw ⊢
  exact hw

theorem keeps_sendInLoop (dbg : Bool) (w : TcpConnection) (data : List Byte)
    (wr : WriteResult) (h : Established w) : (sendInLoop dbg w data wr).Keeps := by
  by_cases hs : w.state_ = StateE.kDisconnected
  · simp only [sendInLoop, hs, if_true, Res.Keeps]
    exact h
  · obtain ⟨h1, h2, h3⟩ := h
    obtain ⟨hr, hin, hw⟩ := h3 hs
    obtain ⟨w', g0, g1, g2, g3, g4, _, g6, g7⟩ := sendInLoop_spec dbg w data wr hs hr
    rw [g0]
    refine ⟨by rw [g2]; exact h1, by rw [g1]; exact h2, fun _ => ⟨g3, ?_, ?_⟩⟩
    · rcases g4 with e | e
      · rw [e]; exact hin
      · rw [e, Nat.testBit_or, hin]; rfl
    · rw [g7, g6, hw]
      simp only [ne_eq, List.append_eq_nil, not_and_or]

theorem established_shutdownInLoop (w : TcpConnection) (h : Established w) :
    Established (shutdownInLoop w) := by
  unfold shutdownInLoop
  by_cases hw : w.channel_.isWriting = true
  · simp only [hw, Bool.not_true, Bool.false_eq_true, if_false]
    exact h
  · have hw' : w.channel_.isWriting = false := by simpa using hw
    simp only [hw', Bool.not_false, if_true]
    obtain ⟨h1, h2, h3⟩ := h
    refine ⟨?_, h2, h3⟩
    apply shutdownsDrained_append h1
    intro st n he hst
    injection he with e1 e2
    subst e1 e2
    obtain ⟨_, _, hiff⟩ := h3 hst
    have : w.outputBuffer_ = [] := by
      by_contra hne
      rw [hiff.2 hne] at hw'
      cases hw'
    rw [this]; rfl

theorem keeps_handleClose (dbg : Bool) (w : TcpConnection)
    (h : ShutdownsDrained w.trace) : (handleClose dbg w).Keeps := by
  unfold handleClose TcpConnection.assert
  split
  · exact h
  · simp only [bind, Except.bind, TcpConnection.onChannel, setState_channel, setState_poller]
    cases Channel.disableAll dbg w.channel_ w.poller_ with
    | error a => exact h
    | ok r =>
      simp only [pure, Except.pure, Res.Keeps]
      refine ⟨?_, by simp [TcpConnection.setState], fun hc => absurd rfl hc⟩
      apply shutdownsDrained_append
      · apply shutdownsDrained_append
        · exact h
        · intro st n he; cases he
      · intro st n he; cases he

theorem keeps_forceCloseInLoop (dbg : Bool) (w : TcpConnection) (h : Established w) :
    (forceCloseInLoop dbg w).Keeps := by
  unfold forceCloseInLoop
  split
  · exact keeps_handleClose dbg w h.1
  · exact h

theorem keeps_handleRead (dbg : Bool) (w : TcpConnection) (t : Timestamp) (rd : ReadResult)
    (h : Established w) : (handleRead dbg w t rd).Keeps := by
  unfold handleRead
  split
  · split
    · simp only [pure, Except.pure, Res.Keeps]
      obtain ⟨h1, h2, h3⟩ := h
      exact ⟨shutdownsDrained_append h1 (fun st n he => by cases he), h2, h3⟩
    · exact keeps_handleClose dbg w h.1
  · exact h

theorem established_of_closed {w : TcpConnection} (hs : w.state_ = StateE.kDisconnected)
    (h : ShutdownsDrained w.trace) : Established w :=
  ⟨h, by rw [hs]; decide, fun hc => absurd hs hc⟩

theorem keeps_handleWrite (dbg : Bool) (w : TcpConnection) (wr : WriteResult)
    (h : Established w) : (handleWrite dbg w wr).Keeps := by
  by_cases hs : w.state_ = StateE.kDisconnected
  · by_cases hw : w.channel_.isWriting = true
    swap
    · simp only [handleWrite, hw, if_false, pure, Except.pure, Bool.false_eq_true]
      exact h
    by_cases hpos : (sockets.write w.outputBuffer_.length wr).1 > 0
    swap
    · simp only [handleWrite, hw, if_true, hpos, if_false, pure, Except.pure]
      exact h
    by_cases hd : ((List.drop (sockets.write w.outputBuffer_.length wr).1.toNat
        w.outputBuffer_).length == 0) = true
    swap
    · simp only [handleWrite, hw, if_true, hpos, hd, if_false, pure, Except.pure,
        Bool.false_eq_true]
      exact established_of_closed hs h.1
    simp only [handleWrite, hw, if_true, hpos, hd, bind, Except.bind, TcpConnection.onChannel]
    cases Channel.disableWriting dbg w.channel_ w.poller_ with
    | error a => exact h.1
    | ok r =>
      have hne : ¬ (StateE.kDisconnected = StateE.kDisconnecting) := by decide
      simp only [queueIf_state, hs, hne, if_false, pure, Except.pure, Res.Keeps]
      exact established_of_closed (by simp [hs]) (by simpa using h.1)
  · obtain ⟨h1, h2, h3⟩ := h
    obtain ⟨hr, hin, hw⟩ := h3 hs
    obtain ⟨w', g0, g1, g2, g3, _, ⟨n, _, g5, _, _⟩, g6, g7⟩ := handleWrite_spec dbg w wr hr hin
    rw [g0]
    refine ⟨?_, by rw [g1]; exact h2, fun _ => ⟨g2, g3, ?_⟩⟩
    · rw [g6]
      split
      · apply shutdownsDrained_append h1
        intro st n he _
        injection he with _ e2
        exact e2.symm
      · simpa using h1
    · rw [g7, hw]
      constructor
      · rintro ⟨hne, hnot⟩ he
        exact hnot ⟨hne, he⟩
      · intro hne
        have hb : w.outputBuffer_ ≠ [] := by
          intro h0
          rw [g5, h0] at hne
          exact hne (by simp)
        exact ⟨hb, fun hc => hne hc.2⟩

theorem keeps_invoke (dbg : Bool) (w : TcpConnection) (cb : ConnFunctor)
    (h : Established w) : (invoke dbg w cb).Keeps := by
  have h' : Established { w with loop_ := { w.loop_ with invoked := w.loop_.invoked ++ [cb] } } :=
    h.congr rfl rfl rfl rfl rfl rfl rfl rfl
  cases cb with
  | sendInLoop message wr => exact keeps_sendInLoop dbg _ message wr h'
  | shutdownInLoop => exact established_shutdownInLoop _ h'
  | forceCloseInLoop => exact keeps_forceCloseInLoop dbg _ h'
  | writeCompleteCallback =>
    obtain ⟨h1, h2, h3⟩ := h
    exact ⟨shutdownsDrained_append h1 (fun st n he => by cases he), h2, h3⟩
  | highWaterMarkCallback len =>
    obtain ⟨h1, h2, h3⟩ := h
    exact ⟨shutdownsDrained_append h1 (fun st n he => by cases he), h2, h3⟩

theorem keeps_foldlM {α : Type} (f : TcpConnection → α → Res)
    (hf : ∀ w a, Established w → (f w a).Keeps) (l : List α) (w : TcpConnection)
    (h : Established w) : Res.Keeps (l.foldlM f w) := by
  induction l generalizing w with
  | nil => exact h
  | cons a l ih =>
    simp only [List.foldlM_cons, bind, Except.bind]
    have := hf w a h
    cases hr : f w a with
    | error e => rw [hr] at this; exact this
    | ok w1 => rw [hr] at this; exact ih w1 this

theorem keeps_doPendingFunctors (dbg : Bool) (w : TcpConnection) (h : Established w) :
    (doPendingFunctors dbg w).Keeps := by
  have h' : Established { w with loop_ :=
      { w.loop_ with callingPendingFunctors_ := true, pendingFunctors_ := [] } } :=
    h.congr rfl rfl rfl rfl rfl rfl rfl rfl
  have := keeps_foldlM (fun w' f => invoke dbg w' f) (fun w a hw => keeps_invoke dbg w a hw)
    w.loop_.pendingFunctors_ _ h'
  unfold doPendingFunctors
  simp only [bind, Except.bind]
  revert this
  cases List.foldlM (fun w' f => invoke dbg w' f)
    { w with loop_ :=
      { w.loop_ with callingPendingFunctors_ := true, pendingFunctors_ := [] } }
    w.loop_.pendingFunctors_ with
  | error e => exact fun h => h
  | ok w3 => exact fun h => h.congr rfl rfl rfl rfl rfl rfl rfl rfl

theorem keeps_send (dbg : Bool) (w : TcpConnection) (b : Bool) (message : List Byte)
    (wr : WriteResult) (h : Established w) : (send dbg w b message wr).Keeps := by
  unfold send
  split
  · cases b
    · exact h.congr rfl rfl rfl rfl rfl rfl rfl rfl
    · exact keeps_sendInLoop dbg w message wr h
  · exact h

theorem keeps_shutdown (dbg : Bool) (w : TcpConnection) (b : Bool) (h : Established w) :
    (shutdown dbg w b).Keeps := by
  unfold shutdown
  split
  · rename_i hs
    have h' : Established (w.setState StateE.kDisconnecting) := by
      obtain ⟨h1, h2, h3⟩ := h
      refine ⟨h1, by simp, fun _ => ?_⟩
      exact h3 (by rw [hs]; decide)
    cases b
    · exact h'.congr rfl rfl rfl rfl rfl rfl rfl rfl
    · exact keeps_invoke dbg _ ConnFunctor.shutdownInLoop h'
  · exact h

theorem established_forceClose (w : TcpConnection) (b : Bool) (h : Established w) :
    Established (forceClose w b) := by
  unfold forceClose
  split
  · rename_i hs
    obtain ⟨h1, h2, h3⟩ := h
    refine ⟨h1, by simp, fun _ => ?_⟩
    exact h3 (by rcases hs with hs | hs <;> rw [hs] <;> decide)
  · exact h

theorem handleEvent_channel (ch : Channel) (revents : Nat) (t : Timestamp) :
    ((ch.set_revents revents).handleEvent t true).1.index_ = ch.index_ ∧
    ((ch.set_revents revents).handleEvent t true).1.fd_ = ch.fd_ ∧
    ((ch.set_revents revents).handleEvent t true).1.addr = ch.addr ∧
    ((ch.set_revents revents).handleEvent t true).1.events_ = ch.events_ := by
  unfold Channel.handleEvent
  cases h : (ch.set_revents revents).tied_ <;>
    simp [Channel.handleEventWithGuard, Channel.set_revents]

theorem keeps_dispatch (dbg : Bool) (rd : ReadResult) (wr : WriteResult)
    (w : TcpConnection) (c : ChannelCall) (h : Established w) :
    (dispatch dbg rd wr w c).Keeps := by
  cases c with
  | close => exact keeps_handleClose dbg w h.1
  | error => exact h
  | read t => exact keeps_handleRead dbg w t rd h
  | write => exact keeps_handleWrite dbg w wr h

theorem keeps_handleEvent (dbg : Bool) (w : TcpConnection) (revents : Nat) (t : Timestamp)
    (rd : ReadResult) (wr : WriteResult) (h : Established w) :
    (handleEvent dbg w revents t rd wr).Keeps := by
  obtain ⟨c1, c2, c3, c4⟩ := handleEvent_channel w.channel_ revents t
  have h' : Established
      { w with channel_ := ((w.channel_.set_revents revents).handleEvent t true).1 } :=
    h.congr rfl rfl c1 c2 c3 c4 rfl rfl
  exact keeps_foldlM (dispatch dbg rd wr) (fun w a hw => keeps_dispatch dbg rd wr w a hw) _ _ h'

theorem keeps_step (dbg : Bool) (w : TcpConnection) (op : ConnOp) (h : Established w) :
    (step dbg w op).Keeps := by
  cases op with
  | send b message wr => exact keeps_send dbg w b message wr h
  | shutdown b => exact keeps_shutdown dbg w b h
  | forceClose b => exact established_forceClose w b h
  | ready revents t rd wr =>
    simp only [step]
    split
    · exact keeps_handleEvent dbg w revents t rd wr h
    · exact h
  | doPendingFunctors => exact keeps_doPendingFunctors dbg w h

theorem keeps_run (dbg : Bool) (ops : List ConnOp) (w : TcpConnection) (h : Established w) :
    (run dbg w ops).Keeps :=
  keeps_foldlM (step dbg) (fun w a hw => keeps_step dbg w a hw) ops w h

theorem enableReading_new {dbg : Bool} {ch ch' : Channel} {p p' : EPollPoller}
    (hi : ch.index_ = kNew) (h : Channel.enableReading dbg ch p = Except.ok (ch', p')) :
    ch' = { ch with events_ := ch.events_ ||| kReadEvent, addedToLoop_ := true,
                    index_ := kAdded } ∧
    Registered ch' p' := by
  have hne : ¬ (kNew = kDeleted) := by decide
  simp only [Channel.enableReading, Channel.update, EPollPoller.updateChannel, hi, true_or,
    if_true] at h
  obtain ⟨p1, h1, h2⟩ := bind_ok h
  obtain ⟨_, h1⟩ := check_ok h1
  simp only [pure, Except.pure] at h1
  injection h1 with h1
  subst h1
  obtain ⟨p2, h3, h4⟩ := bind_ok h2
  simp only [pure, Except.pure] at h4
  injection h4 with h4
  injection h4 with h5 h6
  subst h5 h6
  refine ⟨rfl, rfl, ?_, ?_⟩
  · unfold EPollPoller.update epoll_ctl at h3
    simp only [Channel.set_index] at h3
    split at h3
    · rename_i k hk
      split at hk
      · cases hk
      · injection h3 with h3
        subst h3
        simp [Channel.set_index, lookup_mapSet]
    · simp at h3
  · unfold EPollPoller.update epoll_ctl at h3
    simp only [Channel.set_index] at h3
    split at h3
    · rename_i k hk
      split at hk
      · cases hk
      · injection hk with hk
        injection h3 with h3
        subst h3 hk
        simp [Channel.set_index]
    · simp at h3

theorem keeps_connectEstablished_from (dbg : Bool) (w : TcpConnection)
    (hs : w.state_ = StateE.kConnecting) (hi : w.channel_.index_ = kNew)
    (he : w.channel_.events_ = 0) (hb : w.outputBuffer_ = [])
    (ht : ShutdownsDrained w.trace) : (connectEstablished dbg w).Keeps := by
  have key : ∀ r, Channel.enableReading dbg { w.channel_ with tied_ := true } w.poller_
        = Except.ok r → Registered r.1 r.2 ∧ r.1.events_ = kReadEvent := by
    intro r hr
    obtain ⟨r1, r2⟩ := r
    obtain ⟨e1, e2⟩ := @enableReading_new dbg { w.channel_ with tied_ := true } r1 w.poller_ r2 hi hr
    refine ⟨e2, ?_⟩
    rw [e1]
    show (w.channel_.events_ ||| kReadEvent) = kReadEvent
    rw [he]
    decide
  unfold connectEstablished TcpConnection.assert
  simp only [hs, decide_True, Bool.not_true, Bool.and_false, Bool.false_eq_true, if_false,
    bind, Except.bind, TcpConnection.onChannel, TcpConnection.setState]
  cases hr : Channel.enableReading dbg { w.channel_ with tied_ := true } w.poller_ with
  | error a => exact ht
  | ok r =>
    obtain ⟨k1, k2⟩ := key r hr
    simp only [pure, Except.pure, Res.Keeps]
    refine ⟨?_, by simp, fun _ => ⟨k1, ?_, ?_⟩⟩
    · exact shutdownsDrained_append ht (fun st n h => by cases h)
    · show r.1.events_.testBit 0 = true
      rw [k2]; decide
    · show (r.1.isWriting = true ↔ w.outputBuffer_ ≠ [])
      rw [hb, Channel.isWriting, k2]
      decide

theorem keeps_established (dbg : Bool) (addr : Nat) (fd : Int) (poller : EPollPoller)
    (wcb hcb : Bool) (ops : List ConnOp) :
    (established dbg (TcpConnection.new addr fd poller wcb hcb) ops).Keeps := by
  have h := keeps_connectEstablished_from dbg (TcpConnection.new addr fd poller wcb hcb)
    rfl rfl rfl rfl (fun st n hm => by cases hm)
  unfold established
  simp only [bind, Except.bind]
  revert h
  cases connectEstablished dbg (TcpConnection.new addr fd poller wcb hcb) with
  | error e => exact fun h => h
  | ok w => exact fun h => keeps_run dbg ops w h

theorem keeps_world {r : Res} (h : r.Keeps) : ShutdownsDrained r.world.trace := by
  cases r with
  | error e => exact h
  | ok w => exact h.1

/-- C3 (as amended): over the whole life of a connection (connectEstablished
on a new connection, then any calls of send, shutdown and forceClose from any
thread, readiness events and drains), every half-close of the socket made
while the connection is Connected or Disconnecting finds the output buffer
empty.  In every state so reached: while Connected, WRITE interest is off
exactly when the output buffer is empty, shutdown() on the loop thread moves
to Disconnecting and shuts the writing side down at once exactly in that case,
and shutdown() from another thread moves to Disconnecting and queues
shutdownInLoop; while Disconnecting, handleWrite shuts the writing side down
exactly when its write empties a non-empty output buffer. -/
theorem C3_shutdown_waits_for_drain (dbg : Bool) (addr : Nat) (fd : Int)
    (poller : EPollPoller) (wcb hcb : Bool) (ops : List ConnOp) (wr : WriteResult) :
    (∀ st n, ConnEvent.shutdownWrite st n ∈
        (established dbg (TcpConnection.new addr fd poller wcb hcb) ops).world.trace →
      st ≠ StateE.kDisconnected → n = 0) ∧
    (∀ w, established dbg (TcpConnection.new addr fd poller wcb hcb) ops = Except.ok w →
      (w.state_ = StateE.kConnected →
        (w.channel_.isWriting = false ↔ w.outputBuffer_ = []) ∧
        (∃ w', shutdown dbg w true = Except.ok w' ∧ w'.state_ = StateE.kDisconnecting ∧
          w'.trace = w.trace ++
            (if w.channel_.isWriting = false ∧ w.outputBuffer_ = []
              then [ConnEvent.shutdownWrite StateE.kDisconnecting 0] else [])) ∧
        (∃ w', shutdown dbg w false = Except.ok w' ∧ w'.state_ = StateE.kDisconnecting ∧
          w'.trace = w.trace ∧
          w'.loop_.pendingFunctors_ = w.loop_.pendingFunctors_ ++ [ConnFunctor.shutdownInLoop])) ∧
      (w.state_ = StateE.kDisconnecting →
        ∃ w', handleWrite dbg w wr = Except.ok w' ∧ w'.state_ = StateE.kDisconnecting ∧
          w'.trace = w.trace ++
            (if w.outputBuffer_ ≠ [] ∧ w'.outputBuffer_ = []
              then [ConnEvent.shutdownWrite StateE.kDisconnecting 0] else []))) := by
  have hk := keeps_established dbg addr fd poller wcb hcb ops
  refine ⟨keeps_world hk, ?_⟩
  intro w hw
  rw [hw] at hk
  obtain ⟨_, _, h3⟩ := hk
  constructor
  · intro hs
    obtain ⟨_, _, hiff⟩ := h3 (by rw [hs]; decide)
    have hiff' : w.channel_.isWriting = false ↔ w.outputBuffer_ = [] := by
      constructor
      · intro hf
        by_contra hne
        rw [hiff.2 hne] at hf
        cases hf
      · intro hb
        cases hc : w.channel_.isWriting
        · rfl
        · exact absurd hb (hiff.1 hc)
    have hsh : shutdown dbg w true = Except.ok (shutdownInLoop
        { w.setState StateE.kDisconnecting with
          loop_ := { w.loop_ with
            invoked := w.loop_.invoked ++ [ConnFunctor.shutdownInLoop] } }) := by
      simp only [shutdown, hs, if_true, runInLoop, invoke, pure, Except.pure]
      rfl
    have hsq : shutdown dbg w false = Except.ok
        ((w.setState StateE.kDisconnecting).queueInLoop false ConnFunctor.shutdownInLoop) := by
      simp only [shutdown, hs, if_true, runInLoop, pure, Except.pure]
      rfl
    refine ⟨hiff', ⟨_, hsh, ?_, ?_⟩, ⟨_, hsq, ?_, ?_, ?_⟩⟩
    · unfold shutdownInLoop
      split <;> rfl
    · by_cases hb : w.outputBuffer_ = []
      · have hf := hiff'.2 hb
        simp [shutdownInLoop, hf, TcpConnection.setState, hb]
      · have ht : w.channel_.isWriting = true := hiff.2 hb
        simp [shutdownInLoop, ht, TcpConnection.setState, hb]
    · simp
    · simp
    · exact (queueInLoop_fields _ false ConnFunctor.shutdownInLoop).1
  · intro hs
    obtain ⟨hr, hin, hiff⟩ := h3 (by rw [hs]; decide)
    obtain ⟨w', g0, g1, _, _, _, _, g6, _⟩ := handleWrite_spec dbg w wr hr hin
    refine ⟨w', g0, by rw [g1, hs], ?_⟩
    rw [g6]
    by_cases hc : w.outputBuffer_ ≠ [] ∧ w'.outputBuffer_ = []
    · have : w.channel_.isWriting = true ∧ w.outputBuffer_ ≠ [] ∧ w'.outputBuffer_ = [] ∧
          w.state_ = StateE.kDisconnecting := ⟨hiff.2 hc.1, hc.1, hc.2, hs⟩
      rw [if_pos this, if_pos hc]
    · have : ¬ (w.channel_.isWriting = true ∧ w.outputBuffer_ ≠ [] ∧ w'.outputBuffer_ = [] ∧
          w.state_ = StateE.kDisconnecting) := fun h => hc ⟨h.2.1, h.2.2.1⟩
      rw [if_neg this, if_neg hc]

/-- C3 (as stated) fails: three bytes are sent of which the kernel takes one,
shutdown() is called from another thread (shutdownInLoop is queued), the peer
closes (a read of 0 bytes runs handleClose), and the drain then runs
shutdownInLoop, which shuts the writing side down while the output buffer
still holds two unsent bytes. -/
theorem C3_shutdown_with_unsent_bytes :
    ∃ w, established true TcpConnection.fresh
        [ConnOp.send true [1, 2, 3] (WriteResult.accepts 1),
         ConnOp.shutdown false,
         ConnOp.ready POLLIN 5 (ReadResult.bytes []) (WriteResult.accepts 0),
         ConnOp.doPendingFunctors] = Except.ok w ∧
      w.outputBuffer_ = [2, 3] ∧
      ConnEvent.shutdownWrite StateE.kDisconnected 2 ∈ w.trace :=
  ⟨(established true TcpConnection.fresh
        [ConnOp.send true [1, 2, 3] (WriteResult.accepts 1),
         ConnOp.shutdown false,
         ConnOp.ready POLLIN 5 (ReadResult.bytes []) (WriteResult.accepts 0),
         ConnOp.doPendingFunctors]).world, by decide, by decide, by decide⟩

theorem C3_shutdown_waits_for_drain_witness :
    established true TcpConnection.fresh [] = Except.ok TcpConnection.connected ∧
    TcpConnection.connected.state_ = StateE.kConnected ∧
    (∃ w', shutdown true TcpConnection.connected true = Except.ok w' ∧
      w'.state_ = StateE.kDisconnecting ∧
      w'.trace = TcpConnection.connected.trace ++
        (if TcpConnection.connected.channel_.isWriting = false ∧
            TcpConnection.connected.outputBuffer_ = []
          then [ConnEvent.shutdownWrite StateE.kDisconnecting 0] else [])) :=
  ⟨by decide, by decide,
    ((C3_shutdown_waits_for_drain true 1 7 EPollPoller.new true true []
      (WriteResult.accepts 0)).2 TcpConnection.connected (by decide)).1 (by decide) |>.2.1⟩

/-! ### The connection callback over a life -/

/-- C1 (code defect): connectDestroyed reached while the connection is
Disconnecting, as when shutdown() was called and the owner then destroys the
connection before the peer closes.  connectEstablished invoked the connection
callback in state Connected; connectDestroyed tests `state_ == kConnected`
only, so it invokes no callback and leaves the state Disconnecting.  With
assertions compiled out the life ends with one Connected invocation and no
Disconnected one; with assertions compiled in it aborts in Channel::remove on
`assert(isNoneEvent())`, again with no Disconnected invocation.  Without the
shutdown the same life gives Connected, then Disconnected. -/
theorem C1_destroyed_while_disconnecting :
    (∃ w, lifetime false TcpConnection.fresh [ConnOp.shutdown true] = Except.ok w ∧
      w.state_ = StateE.kDisconnecting ∧
      connectionCalls w.trace = [StateE.kConnected]) ∧
    (∃ w, lifetime true TcpConnection.fresh [ConnOp.shutdown true]
        = Except.error (Abort.Channel_remove_isNoneEvent, w) ∧
      w.state_ = StateE.kDisconnecting ∧
      connectionCalls w.trace = [StateE.kConnected]) ∧
    (∃ w, lifetime true TcpConnection.fresh [] = Except.ok w ∧
      connectionCalls w.trace = [StateE.kConnected, StateE.kDisconnected]) :=
  ⟨⟨(lifetime false TcpConnection.fresh [ConnOp.shutdown true]).world,
      by decide, by decide, by decide⟩,
   ⟨(lifetime true TcpConnection.fresh [ConnOp.shutdown true]).world,
      by decide, by decide, by decide⟩,
   ⟨(lifetime true TcpConnection.fresh []).world, by decide, by decide⟩⟩

/-! ### EPollPoller::updateChannel and the interest mask -/

/-- C11 (amended): for a channel the poller agrees with, updateChannel
returns; afterwards the descriptor is in the kernel set exactly when the
index is kAdded.  From index kAdded the channel stays registered if and only
if its interest mask is non-empty (an empty mask takes it out of the kernel
set, index kDeleted).  From index kNew or kDeleted the channel is always
added to the kernel set with its mask, empty or not, and gets index kAdded. -/
theorem C11_updateChannel_registered (dbg : Bool) (ch : Channel) (p : EPollPoller)
    (h : PollerKnows ch p) :
    ∃ ch' p', EPollPoller.updateChannel dbg p ch = Except.ok (ch', p') ∧
      PollerKnows ch' p' ∧ ch'.events_ = ch.events_ ∧ ch'.fd_ = ch.fd_ ∧
      ((p'.kernel.lookup ch.fd_).isSome = true ↔ ch'.index_ = kAdded) ∧
      (ch.index_ = kAdded → (ch'.index_ = kAdded ↔ ch.isNoneEvent = false)) ∧
      (ch.index_ = kAdded → ch.isNoneEvent = true → ch'.index_ = kDeleted) ∧
      (ch.index_ = kNew ∨ ch.index_ = kDeleted →
        ch'.index_ = kAdded ∧ p'.kernel.lookup ch.fd_ = some ch.events_) := by
  rcases h with ⟨hi, hm, hk⟩ | ⟨hi, hm, hk⟩ | ⟨hi, hm, hk⟩
  · refine ⟨ch.set_index kAdded,
      { channels_ := mapSet p.channels_ ch.fd_ ch.addr,
        kernel := (ch.fd_, ch.events_) :: p.kernel }, ?_, ?_, rfl, rfl, ?_, ?_, ?_, ?_⟩
    · simp [EPollPoller.updateChannel, hi, hm, hk, check, EPollPoller.update, epoll_ctl,
        Channel.set_index, bind, Except.bind, pure, Except.pure]
    · exact Or.inr (Or.inl ⟨rfl, lookup_mapSet _ _ _, by simp [Channel.set_index, List.lookup]⟩)
    · simp [Channel.set_index, List.lookup]
    · intro h; rw [hi] at h; exact absurd h (by decide)
    · intro h; rw [hi] at h; exact absurd h (by decide)
    · intro _; exact ⟨rfl, by simp [List.lookup]⟩
  · cases hn : ch.isNoneEvent
    · refine ⟨ch, { p with kernel := mapSet p.kernel ch.fd_ ch.events_ },
        ?_, ?_, rfl, rfl, ?_, ?_, ?_, ?_⟩
      · simp [EPollPoller.updateChannel, hi, hm, hk, check, EPollPoller.update, epoll_ctl,
          hn, kAdded, kNew, kDeleted, bind, Except.bind, pure, Except.pure]
      · exact Or.inr (Or.inl ⟨hi, hm, by simp [lookup_mapSet]⟩)
      · simp [lookup_mapSet, hi]
      · intro _; simp [hi]
      · intro _ h; cases h
      · intro h; rw [hi] at h; rcases h with h | h <;> exact absurd h (by decide)
    · refine ⟨ch.set_index kDeleted, { p with kernel := mapErase p.kernel ch.fd_ },
        ?_, ?_, rfl, rfl, ?_, ?_, ?_, ?_⟩
      · simp [EPollPoller.updateChannel, hi, hm, hk, check, EPollPoller.update, epoll_ctl,
          hn, kAdded, kNew, kDeleted, bind, Except.bind, pure, Except.pure]
      · exact Or.inr (Or.inr ⟨rfl, hm, by simp [Channel.set_index, lookup_mapErase]⟩)
      · simp [lookup_mapErase, Channel.set_index, kDeleted, kAdded]
      · intro _; simp [Channel.set_index, kDeleted, kAdded]
      · intro _ _; rfl
      · intro h; rw [hi] at h; rcases h with h | h <;> exact absurd h (by decide)
  · refine ⟨ch.set_index kAdded,
      { p with kernel := (ch.fd_, ch.events_) :: p.kernel }, ?_, ?_, rfl, rfl, ?_, ?_, ?_, ?_⟩
    · simp [EPollPoller.updateChannel, hi, hm, hk, check, EPollPoller.update, epoll_ctl,
        Channel.set_index, kNew, kDeleted, bind, Except.bind, pure, Except.pure]
    · exact Or.inr (Or.inl ⟨rfl, hm, by simp [Channel.set_index, List.lookup]⟩)
    · simp [Channel.set_index, List.lookup]
    · intro h; rw [hi] at h; exact absurd h (by decide)
    · intro h; rw [hi] at h; exact absurd h (by decide)
    · intro _; exact ⟨rfl, by simp [List.lookup]⟩

/-- C11 (as stated) fails from index kNew and from index kDeleted: an update
with an empty interest mask adds the descriptor to the kernel set with mask 0
and leaves the channel with index kAdded. -/
theorem C11_empty_mask_added :
    ((Channel.new 1 7).index_ = kNew ∧ (Channel.new 1 7).isNoneEvent = true ∧
      ∃ ch' p', EPollPoller.updateChannel true EPollPoller.new (Channel.new 1 7)
          = Except.ok (ch', p') ∧
        ch'.isNoneEvent = true ∧ ch'.index_ = kAdded ∧ p'.kernel.lookup 7 = some 0) ∧
    (∃ c p, deletedChannel = Except.ok (c, p) ∧ c.index_ = kDeleted ∧
      c.isNoneEvent = true ∧ PollerKnows c p ∧
      ∃ ch' p', EPollPoller.updateChannel true p c = Except.ok (ch', p') ∧
        ch'.isNoneEvent = true ∧ ch'.index_ = kAdded ∧ p'.kernel.lookup 7 = some 0) :=
  ⟨⟨by decide, by decide, _, _, rfl, by decide, by decide, by decide⟩,
    ⟨_, _, rfl, by decide, by decide,
      Or.inr (Or.inr ⟨by decide, by decide, by decide⟩),
      _, _, rfl, by decide, by decide, by decide⟩⟩

theorem C11_updateChannel_registered_witness :
    PollerKnows (Channel.new 1 7) EPollPoller.new ∧
    ∃ ch' p', EPollPoller.updateChannel true EPollPoller.new (Channel.new 1 7)
        = Except.ok (ch', p') ∧
      PollerKnows ch' p' ∧ ch'.events_ = (Channel.new 1 7).events_ ∧
      ch'.fd_ = (Channel.new 1 7).fd_ ∧
      ((p'.kernel.lookup (Channel.new 1 7).fd_).isSome = true ↔ ch'.index_ = kAdded) ∧
      ((Channel.new 1 7).index_ = kAdded →
        (ch'.index_ = kAdded ↔ (Channel.new 1 7).isNoneEvent = false)) ∧
      ((Channel.new 1 7).index_ = kAdded → (Channel.new 1 7).isNoneEvent = true →
        ch'.index_ = kDeleted) ∧
      ((Channel.new 1 7).index_ = kNew ∨ (Channel.new 1 7).index_ = kDeleted →
        ch'.index_ = kAdded ∧
          p'.kernel.lookup (Channel.new 1 7).fd_ = some (Channel.new 1 7).events_) :=
  ⟨Or.inl ⟨by decide, by decide, by decide⟩,
    C11_updateChannel_registered true (Channel.new 1 7) EPollPoller.new
      (Or.inl ⟨by decide, by decide, by decide⟩)⟩

/-! ### PollPoller: the record array and the map -/

theorem assertE_bind {ε α : Type} {dbg c : Bool} {site : ε} {k : Unit → Except ε α} {r : α}
    (h : (assertE dbg c site >>= k) = Except.ok r) :
    (dbg = true → c = true) ∧ k () = Except.ok r := by
  unfold assertE at h
  cases dbg <;> cases c <;> simp [bind, Except.bind] at h ⊢ <;> exact h

theorem assertE_true {ε : Type} (dbg : Bool) (site : ε) :
    assertE dbg true site = Except.ok () := by
  simp [assertE]

theorem assertE_release {ε : Type} (c : Bool) (site : ε) :
    assertE false c site = Except.ok () := by
  simp [assertE]

theorem lookup_mapErase_ne (m : List (Int × Nat)) {k k' : Int} (h : k' ≠ k) :
    (mapErase m k).lookup k' = m.lookup k' := by
  induction m with
  | nil => rfl
  | cons e m ih =>
    obtain ⟨a, b⟩ := e
    unfold mapErase at ih ⊢
    rw [List.filter_cons]
    by_cases hk : a = k
    · subst hk
      have : (k' == a) = false := by rw [beq_eq_false_iff_ne]; exact h
      simp [List.lookup_cons, this, ih]
    · simp only [bne_iff_ne, ne_eq, hk, not_false_eq_true, decide_True, if_true]
      rw [List.lookup_cons, List.lookup_cons, ih]

theorem lookup_mapSet_ne (m : List (Int × Nat)) {k k' : Int} (v : Nat) (h : k' ≠ k) :
    (mapSet m k v).lookup k' = m.lookup k' := by
  have : (k' == k) = false := by rw [beq_eq_false_iff_ne]; exact h
  unfold mapSet
  rw [List.lookup_cons, this]
  exact lookup_mapErase_ne m h

theorem lookup_isSome_iff (m : List (Int × Nat)) (k : Int) :
    (m.lookup k).isSome = true ↔ k ∈ m.map Prod.fst := by
  induction m with
  | nil => simp [List.lookup]
  | cons e m ih =>
    obtain ⟨a, b⟩ := e
    rw [List.lookup_cons]
    by_cases hk : k = a
    · subst hk; simp
    · have : (k == a) = false := by rw [beq_eq_false_iff_ne]; exact hk
      simp [this, ih, hk]

theorem mapErase_of_absent (m : List (Int × Nat)) (k : Int) (h : m.lookup k = none) :
    mapErase m k = m := by
  unfold mapErase
  rw [List.filter_eq_self]
  intro e he
  have hk : ¬ k ∈ m.map Prod.fst := by
    rw [← lookup_isSome_iff, h]; simp
  simp only [bne_iff_ne, ne_eq]
  intro heq
  exact hk (heq ▸ List.mem_map_of_mem Prod.fst he)

theorem keys_mapErase (m : List (Int × Nat)) (k : Int) :
    (mapErase m k).map Prod.fst = (m.map Prod.fst).filter (fun x => x != k) := by
  unfold mapErase
  induction m with
  | nil => rfl
  | cons e m ih =>
    simp only [List.filter_cons, List.map_cons]
    by_cases hk : e.1 = k <;> simp [hk, ih]

theorem nodup_mapErase (m : List (Int × Nat)) (k : Int) (h : (m.map Prod.fst).Nodup) :
    ((mapErase m k).map Prod.fst).Nodup := by
  rw [keys_mapErase]; exact h.filter _

theorem nodup_mapSet (m : List (Int × Nat)) (k : Int) (v : Nat) (h : (m.map Prod.fst).Nodup) :
    ((mapSet m k v).map Prod.fst).Nodup := by
  unfold mapSet
  rw [List.map_cons, List.nodup_cons]
  refine ⟨?_, nodup_mapErase m k h⟩
  rw [keys_mapErase]
  simp

theorem length_mapErase (m : List (Int × Nat)) (k : Int) (v : Nat)
    (h : (m.map Prod.fst).Nodup) (hk : m.lookup k = some v) :
    (mapErase m k).length + 1 = m.length := by
  induction m with
  | nil => simp [List.lookup] at hk
  | cons e m ih =>
    obtain ⟨a, b⟩ := e
    rw [List.map_cons, List.nodup_cons] at h
    by_cases ha : a = k
    · subst ha
      have habs : m.lookup a = none := by
        cases hl : m.lookup a with
        | none => rfl
        | some x =>
          have : (m.lookup a).isSome = true := by rw [hl]; rfl
          exact absurd ((lookup_isSome_iff m a).1 this) h.1
      have := mapErase_of_absent m a habs
      unfold mapErase at this ⊢
      simp [List.filter_cons, this]
    · have hka : (k == a) = false := by
        rw [beq_eq_false_iff_ne]; exact fun h => ha h.symm
      rw [List.lookup_cons, hka] at hk
      have := ih h.2 hk
      unfold mapErase at this ⊢
      simp [List.filter_cons, ha, this]

theorem updateChannel_new_spec {w w' : PollPoller} {a : Nat}
    (hi : (w.heap a).index_ < 0)
    (h : PollPoller.updateChannel true w a = Except.ok w') :
    w.channels_.lookup (w.heap a).fd_ = none ∧
    w' = { pollfds_ := w.pollfds_ ++
              [{ fd := (w.heap a).fd_, events := toShort (w.heap a).events_, revents := 0 }]
           heap := Function.update w.heap a
              ((w.heap a).set_index ((w.pollfds_.length : Int) + 1 - 1))
           channels_ := mapSet w.channels_ (w.heap a).fd_ a } := by
  unfold PollPoller.updateChannel at h
  simp only [hi, if_true] at h
  obtain ⟨h1, h2⟩ := assertE_bind h
  have h1 := h1 rfl
  refine ⟨by simpa using h1, ?_⟩
  simp only [pure, Except.pure, Except.ok.injEq] at h2
  rw [← h2]
  simp

theorem updateChannel_known_spec {w w' : PollPoller} {a : Nat}
    (hi : ¬ (w.heap a).index_ < 0)
    (h : PollPoller.updateChannel true w a = Except.ok w') :
    w.channels_.lookup (w.heap a).fd_ = some a ∧
    (w.heap a).index_.toNat < w.pollfds_.length ∧
    ∃ pfd0, w.pollfds_[(w.heap a).index_.toNat]? = some pfd0 ∧
      (pfd0.fd = (w.heap a).fd_ ∨ pfd0.fd = -(w.heap a).fd_ - 1) ∧
      w' = PollPoller.mk
        (w.pollfds_.set (w.heap a).index_.toNat
          (PollFd.mk (if (w.heap a).isNoneEvent then -(w.heap a).fd_ - 1 else (w.heap a).fd_)
            (toShort (w.heap a).events_) 0))
        w.channels_ w.heap := by
  unfold PollPoller.updateChannel at h
  simp only [hi, if_false] at h
  obtain ⟨_, h⟩ := assertE_bind h
  obtain ⟨h2, h⟩ := assertE_bind h
  obtain ⟨h3, h⟩ := assertE_bind h
  have h2 := h2 rfl
  have h3 := h3 rfl
  simp only [beq_iff_eq, Bool.and_eq_true, decide_eq_true_eq] at h2 h3
  have hlt : (w.heap a).index_.toNat < w.pollfds_.length := by omega
  cases hp : w.pollfds_[(w.heap a).index_.toNat]? with
  | none =>
    rw [hp] at h; cases h
  | some pfd0 =>
    rw [hp] at h
    simp only at h
    obtain ⟨h4, h⟩ := assertE_bind h
    have h4 := h4 rfl
    simp only [Bool.or_eq_true, beq_iff_eq] at h4
    refine ⟨h2, hlt, pfd0, rfl, h4, ?_⟩
    simp only [pure, Except.pure, Except.ok.injEq] at h
    rw [← h]
    cases (w.heap a).isNoneEvent <;> rfl

theorem decodeFd_pos {fd : Int} (h : 0 ≤ fd) : decodeFd fd = fd := by
  unfold decodeFd; split <;> omega

theorem decodeFd_neg {fd : Int} (h : 0 ≤ fd) : decodeFd (-fd - 1) = fd := by
  unfold decodeFd; split <;> omega

theorem lookup_ne_of {m : List (Int × Nat)} {k k' : Int} {v : Nat}
    (h1 : m.lookup k = none) (h2 : m.lookup k' = some v) : k' ≠ k := by
  intro h; rw [h, h1] at h2; cases h2

/-- updateChannel keeps the array and the map consistent. -/
theorem PollInv_updateChannel {w w' : PollPoller} {a : Nat} (hinv : PollInv w)
    (hfd : 0 ≤ (w.heap a).fd_)
    (h : PollPoller.updateChannel true w a = Except.ok w') : PollInv w' := by
  obtain ⟨hnd, hlen, hf, hb⟩ := hinv
  by_cases hi : (w.heap a).index_ < 0
  · obtain ⟨habs, rfl⟩ := updateChannel_new_spec hi h
    refine ⟨nodup_mapSet _ _ _ hnd, ?_, ?_, ?_⟩
    · simp [mapSet, mapErase_of_absent _ _ habs, hlen]
    · intro i pfd hp
      simp only [List.getElem?_append] at hp
      by_cases hil : i < w.pollfds_.length
      · simp only [hil, if_true] at hp
        obtain ⟨b, hb1, hb2⟩ := hf i pfd hp
        have hne : decodeFd pfd.fd ≠ (w.heap a).fd_ := lookup_ne_of habs hb1
        have hba : b ≠ a := by
          intro hba; rw [hba] at hb2; omega
        exact ⟨b, by simp only [lookup_mapSet_ne _ _ hne, hb1],
          by simp only [Function.update_noteq hba, hb2]⟩
      · simp only [hil, if_false] at hp
        have hi0 : i = w.pollfds_.length := by
          by_contra hne
          have : i - w.pollfds_.length ≠ 0 := by omega
          rw [List.getElem?_eq_none (by simp; omega)] at hp
          cases hp
        subst hi0
        simp at hp
        subst hp
        refine ⟨a, ?_, ?_⟩
        · simp only [decodeFd_pos hfd, lookup_mapSet]
        · simp [Function.update_same, Channel.set_index]
    · intro k b hk
      by_cases hkf : k = (w.heap a).fd_
      · subst hkf
        simp only [lookup_mapSet, Option.some.injEq] at hk
        subst hk
        refine ⟨PollFd.mk (w.heap a).fd_ (toShort (w.heap a).events_) 0, ?_, ?_,
          decodeFd_pos hfd⟩
        · simp [Function.update_same, Channel.set_index]
        · simp [Function.update_same, Channel.set_index]
      · simp only [lookup_mapSet_ne _ _ hkf] at hk
        obtain ⟨pfd, hp0, hp1, hp2⟩ := hb k b hk
        have hba : b ≠ a := by
          intro hba; rw [hba] at hp0; omega
        refine ⟨pfd, ?_, ?_, hp2⟩
        · simp only [Function.update_noteq hba]; exact hp0
        · simp only [Function.update_noteq hba]
          have hlt := (List.getElem?_eq_some.1 hp1).1
          simp only [List.getElem?_append, hlt, if_true]
          exact hp1
  · obtain ⟨hl, hlt, pfd0, hp0, hor, rfl⟩ := updateChannel_known_spec hi h
    have hdec0 : decodeFd pfd0.fd = (w.heap a).fd_ := by
      rcases hor with h | h <;> rw [h]
      · exact decodeFd_pos hfd
      · exact decodeFd_neg hfd
    refine ⟨hnd, by simp [hlen], ?_, ?_⟩
    · intro i pfd hp
      simp only [List.getElem?_set] at hp
      by_cases hii : (w.heap a).index_.toNat = i
      · simp only [hii, if_true] at hp
        rw [← hii] at hp
        simp only [hlt, if_true, Option.some.injEq] at hp
        subst hp
        refine ⟨a, ?_, by show (w.heap a).index_ = ((i : Nat) : Int); omega⟩
        have : decodeFd (if (w.heap a).isNoneEvent = true then -(w.heap a).fd_ - 1
            else (w.heap a).fd_) = (w.heap a).fd_ := by
          split
          · exact decodeFd_neg hfd
          · exact decodeFd_pos hfd
        simp only [this]; exact hl
      · simp only [hii, if_false] at hp
        exact hf i pfd hp
    · intro k b hk
      obtain ⟨pfd, hq0, hq1, hq2⟩ := hb k b hk
      by_cases hii : (w.heap a).index_.toNat = (w.heap b).index_.toNat
      · rw [← hii, hp0] at hq1
        simp only [Option.some.injEq] at hq1
        subst hq1
        refine ⟨PollFd.mk (if (w.heap a).isNoneEvent then -(w.heap a).fd_ - 1
          else (w.heap a).fd_) (toShort (w.heap a).events_) 0, hq0, ?_, ?_⟩
        · simp only [List.getElem?_set, hii, if_true]
          rw [← hii]; simp only [hlt, if_true]
        · simp only
          rw [← hq2, hdec0]
          split
          · exact decodeFd_neg hfd
          · exact decodeFd_pos hfd
      · refine ⟨pfd, hq0, ?_, hq2⟩
        simp only [List.getElem?_set, hii, if_false]
        exact hq1

theorem removeChannel_spec {w w' : PollPoller} {a : Nat}
    (h : PollPoller.removeChannel true w a = Except.ok w') :
    w.channels_.lookup (w.heap a).fd_ = some a ∧ (w.heap a).isNoneEvent = true ∧
    0 ≤ (w.heap a).index_ ∧ (w.heap a).index_.toNat < w.pollfds_.length ∧
    (∃ pfd0, w.pollfds_[(w.heap a).index_.toNat]? = some pfd0 ∧
      pfd0.fd = -(w.heap a).fd_ - 1 ∧ pfd0.events = ((w.heap a).events_ : Int)) ∧
    (((w.heap a).index_ = (w.pollfds_.length : Int) - 1 ∧
        w' = PollPoller.mk w.pollfds_.dropLast (mapErase w.channels_ (w.heap a).fd_) w.heap) ∨
      ((w.heap a).index_ ≠ (w.pollfds_.length : Int) - 1 ∧
        PollPoller.removeChannel_swap
          (PollPoller.mk w.pollfds_ (mapErase w.channels_ (w.heap a).fd_) w.heap)
          (w.heap a).index_ = Except.ok w')) := by
  unfold PollPoller.removeChannel at h
  obtain ⟨_, h⟩ := assertE_bind h
  obtain ⟨h2, h⟩ := assertE_bind h
  obtain ⟨h3, h⟩ := assertE_bind h
  obtain ⟨h4, h⟩ := assertE_bind h
  have h2 := h2 rfl
  have h3 := h3 rfl
  have h4 := h4 rfl
  simp only [beq_iff_eq, Bool.and_eq_true, decide_eq_true_eq] at h2 h4
  have hlt : (w.heap a).index_.toNat < w.pollfds_.length := by omega
  simp only [h4.1, if_true] at h
  cases hp : w.pollfds_[(w.heap a).index_.toNat]? with
  | none => rw [hp] at h; cases h
  | some pfd0 =>
  rw [hp] at h
  simp only at h
  obtain ⟨h5, h⟩ := assertE_bind h
  obtain ⟨_, h⟩ := assertE_bind h
  have h5 := h5 rfl
  simp only [Bool.and_eq_true, beq_iff_eq] at h5
  refine ⟨h2, h3, h4.1, hlt, ⟨pfd0, rfl, h5.1, h5.2⟩, ?_⟩
  · by_cases hl : (w.heap a).index_ = (w.pollfds_.length : Int) - 1
    · simp only [hl, if_true, pure, Except.pure, Except.ok.injEq] at h
      exact Or.inl ⟨hl, h.symm⟩
    · simp only [hl, if_false] at h
      exact Or.inr ⟨hl, h⟩

theorem removeChannel_swap_spec {w w' : PollPoller} {idx : Int}
    (h : PollPoller.removeChannel_swap w idx = Except.ok w') :
    ∃ back victim b, w.pollfds_[w.pollfds_.length - 1]? = some back ∧
      w.pollfds_[idx.toNat]? = some victim ∧
      w.channels_.lookup (decodeFd back.fd) = some b ∧
      w' = PollPoller.mk
        (((w.pollfds_.set idx.toNat back).set (w.pollfds_.length - 1) victim).dropLast)
        w.channels_ (Function.update w.heap b ((w.heap b).set_index idx)) := by
  unfold PollPoller.removeChannel_swap at h
  cases hb : w.pollfds_.getLast? with
  | none => rw [hb] at h; cases h
  | some back =>
    cases hv : w.pollfds_[idx.toNat]? with
    | none => rw [hb, hv] at h; cases h
    | some victim =>
      rw [hb, hv] at h
      simp only at h
      cases hl : w.channels_.lookup (decodeFd back.fd) with
      | none =>
        unfold decodeFd at hl
        rw [hl] at h; cases h
      | some b =>
        have hl' := hl
        unfold decodeFd at hl'
        rw [hl'] at h
        simp only [Except.ok.injEq] at h
        rw [List.getLast?_eq_getElem?] at hb
        exact ⟨back, victim, b, hb, rfl, hl, h.symm⟩

theorem swap_getElem? {α : Type} (l : List α) (idx i : Nat) (back victim : α)
    (hidx : idx < l.length - 1) :
    (((l.set idx back).set (l.length - 1) victim).dropLast)[i]? =
      if i < l.length - 1 then (if idx = i then some back else l[i]?) else none := by
  rw [List.getElem?_dropLast]
  simp only [List.length_set]
  by_cases hi : i < l.length - 1
  · simp only [hi, if_true]
    rw [List.getElem?_set]
    have h1 : ¬ (l.length - 1 = i) := by omega
    simp only [h1, if_false]
    rw [List.getElem?_set]
    have h2 : idx < l.length := by omega
    simp only [h2, if_true]
  · simp only [hi, if_false]

/-- removeChannel keeps the array and the map consistent. -/
theorem PollInv_removeChannel {w w' : PollPoller} {a : Nat} (hinv : PollInv w)
    (h : PollPoller.removeChannel true w a = Except.ok w') : PollInv w' := by
  obtain ⟨hnd, hlen, hf, hb⟩ := hinv
  obtain ⟨hl, _, h0, hlt, ⟨pfd0, hp0, _, _⟩, hcase⟩ := removeChannel_spec h
  have hdec0 : decodeFd pfd0.fd = (w.heap a).fd_ := by
    obtain ⟨p, _, hp1, hp2⟩ := hb _ _ hl
    rw [hp0] at hp1
    simp only [Option.some.injEq] at hp1
    rw [hp1]; exact hp2
  have F1 : ∀ (i : Nat) (p : PollFd), w.pollfds_[i]? = some p → i ≠ (w.heap a).index_.toNat →
      decodeFd p.fd ≠ (w.heap a).fd_ := by
    intro i p hp hne heq
    obtain ⟨a', ha1, ha2⟩ := hf i p hp
    rw [heq, hl] at ha1
    simp only [Option.some.injEq] at ha1
    rw [← ha1] at ha2
    omega
  have B1 : ∀ (k : Int) (v : Nat), w.channels_.lookup k = some v → k ≠ (w.heap a).fd_ →
      (w.heap v).index_.toNat ≠ (w.heap a).index_.toNat := by
    intro k v hk hne heq
    obtain ⟨p, _, hp1, hp2⟩ := hb k v hk
    rw [heq, hp0] at hp1
    simp only [Option.some.injEq] at hp1
    rw [← hp1, hdec0] at hp2
    exact hne hp2.symm
  have hkne : ∀ (k : Int) (v : Nat),
      (mapErase w.channels_ (w.heap a).fd_).lookup k = some v → k ≠ (w.heap a).fd_ := by
    intro k v hk heq
    rw [heq, lookup_mapErase] at hk
    cases hk
  have hlenE := length_mapErase w.channels_ _ _ hnd hl
  rcases hcase with ⟨hlast, rfl⟩ | ⟨hnl, hswap⟩
  · refine ⟨nodup_mapErase _ _ hnd, ?_, ?_, ?_⟩
    · simp only [List.length_dropLast]; omega
    · intro i p hp
      simp only [List.getElem?_dropLast] at hp
      by_cases hi : i < w.pollfds_.length - 1
      · simp only [hi, if_true] at hp
        obtain ⟨a', ha1, ha2⟩ := hf i p hp
        have hne := F1 i p hp (by omega)
        exact ⟨a', by simp only [lookup_mapErase_ne _ hne, ha1], ha2⟩
      · simp only [hi, if_false] at hp; cases hp
    · intro k v hk
      have hne := hkne k v hk
      simp only [lookup_mapErase_ne _ hne] at hk
      obtain ⟨p, hp0', hp1, hp2⟩ := hb k v hk
      have := B1 k v hk hne
      have hlt' := (List.getElem?_eq_some.1 hp1).1
      refine ⟨p, hp0', ?_, hp2⟩
      simp only [List.getElem?_dropLast]
      have : (w.heap v).index_.toNat < w.pollfds_.length - 1 := by omega
      simp only [this, if_true]
      exact hp1
  · obtain ⟨back, victim, b, hback, _, hlb, rfl⟩ := removeChannel_swap_spec hswap
    simp only at hback hlb
    have hidx : (w.heap a).index_.toNat < w.pollfds_.length - 1 := by omega
    have hbne : decodeFd back.fd ≠ (w.heap a).fd_ := hkne _ _ hlb
    have hlb' : w.channels_.lookup (decodeFd back.fd) = some b := by
      rw [← lookup_mapErase_ne _ hbne]; exact hlb
    have hbidx : (w.heap b).index_ = ((w.pollfds_.length - 1 : Nat) : Int) := by
      obtain ⟨b', hb1, hb2⟩ := hf _ _ hback
      rw [hlb'] at hb1
      simp only [Option.some.injEq] at hb1
      rw [hb1]; exact hb2
    refine ⟨nodup_mapErase _ _ hnd, ?_, ?_, ?_⟩
    · simp only [List.length_dropLast, List.length_set]; omega
    · intro i p hp
      simp only [swap_getElem? _ _ _ _ _ hidx] at hp
      by_cases hi : i < w.pollfds_.length - 1
      · simp only [hi, if_true] at hp
        by_cases hii : (w.heap a).index_.toNat = i
        · simp only [hii, if_true, Option.some.injEq] at hp
          subst hp
          refine ⟨b, hlb, ?_⟩
          simp only [Function.update_same, Channel.set_index]
          omega
        · simp only [hii, if_false] at hp
          obtain ⟨a', ha1, ha2⟩ := hf i p hp
          have hne := F1 i p hp (fun h => hii h.symm)
          have hab : a' ≠ b := by
            intro hab; rw [hab, hbidx] at ha2; omega
          exact ⟨a', by simp only [lookup_mapErase_ne _ hne, ha1],
            by simp only [Function.update_noteq hab, ha2]⟩
      · simp only [hi, if_false] at hp; cases hp
    · intro k v hk
      have hne := hkne k v hk
      simp only [lookup_mapErase_ne _ hne] at hk
      obtain ⟨p, hp0', hp1, hp2⟩ := hb k v hk
      have hB := B1 k v hk hne
      by_cases hvb : v = b
      · subst hvb
        have hpb : p = back := by
          have : (w.heap v).index_.toNat = w.pollfds_.length - 1 := by omega
          rw [this, hback] at hp1
          simp only [Option.some.injEq] at hp1
          exact hp1.symm
        refine ⟨back, ?_, ?_, by rw [← hpb]; exact hp2⟩
        · simp only [Function.update_same, Channel.set_index]; exact h0
        · simp only [Function.update_same, Channel.set_index,
            swap_getElem? _ _ _ _ _ hidx, hidx, if_true]
      · have hlt' := (List.getElem?_eq_some.1 hp1).1
        have hnl' : (w.heap v).index_.toNat ≠ w.pollfds_.length - 1 := by
          intro heq
          rw [heq, hback] at hp1
          simp only [Option.some.injEq] at hp1
          rw [← hp1] at hp2
          rw [hp2, hk] at hlb'
          simp only [Option.some.injEq] at hlb'
          exact hvb hlb'
        refine ⟨p, ?_, ?_, hp2⟩
        · simp only [Function.update_noteq hvb]; exact hp0'
        · simp only [Function.update_noteq hvb, swap_getElem? _ _ _ _ _ hidx]
          have h1 : (w.heap v).index_.toNat < w.pollfds_.length - 1 := by omega
          have h2 : ¬ ((w.heap a).index_.toNat = (w.heap v).index_.toNat) :=
            fun h => hB h.symm
          simp only [h1, h2, if_true, if_false]
          exact hp1

theorem PollInv_new (heap : Nat → Channel) : PollInv (PollPoller.new heap) := by
  refine ⟨by simp [PollPoller.new], rfl, ?_, ?_⟩
  · intro i pfd h; simp [PollPoller.new] at h
  · intro k a h; simp [PollPoller.new, List.lookup] at h

theorem PollInv_setEvents {w : PollPoller} (a : Nat) (events : Nat) (h : PollInv w) :
    PollInv (w.setEvents a events) := by
  have hidx : ∀ c, ((w.setEvents a events).heap c).index_ = (w.heap c).index_ := by
    intro c
    unfold PollPoller.setEvents
    by_cases hc : c = a
    · subst hc; simp [Function.update_same]
    · simp [Function.update_noteq hc]
  obtain ⟨h1, h2, h3, h4⟩ := h
  refine ⟨h1, h2, ?_, ?_⟩
  · intro i pfd hp
    obtain ⟨b, hb1, hb2⟩ := h3 i pfd hp
    exact ⟨b, hb1, by rw [hidx]; exact hb2⟩
  · intro k b hk
    obtain ⟨p, hp0, hp1, hp2⟩ := h4 k b hk
    exact ⟨p, by rw [hidx]; exact hp0, by rw [hidx]; exact hp1, hp2⟩

theorem fd_update_set_index (heap : Nat → Channel) (b : Nat) (idx : Int) (c : Nat) :
    (Function.update heap b ((heap b).set_index idx) c).fd_ = (heap c).fd_ := by
  by_cases hc : c = b
  · subst hc; simp [Function.update_same, Channel.set_index]
  · simp [Function.update_noteq hc]

theorem fd_setEvents (w : PollPoller) (a events c : Nat) :
    ((w.setEvents a events).heap c).fd_ = (w.heap c).fd_ := by
  unfold PollPoller.setEvents
  by_cases hc : c = a
  · subst hc; simp [Function.update_same]
  · simp [Function.update_noteq hc]

theorem fd_updateChannel {w w' : PollPoller} {a : Nat}
    (h : PollPoller.updateChannel true w a = Except.ok w') (c : Nat) :
    (w'.heap c).fd_ = (w.heap c).fd_ := by
  by_cases hi : (w.heap a).index_ < 0
  · obtain ⟨_, rfl⟩ := updateChannel_new_spec hi h
    exact fd_update_set_index _ _ _ _
  · obtain ⟨_, _, _, _, _, rfl⟩ := updateChannel_known_spec hi h
    rfl

theorem fd_removeChannel {w w' : PollPoller} {a : Nat}
    (h : PollPoller.removeChannel true w a = Except.ok w') (c : Nat) :
    (w'.heap c).fd_ = (w.heap c).fd_ := by
  obtain ⟨_, _, _, _, _, hcase⟩ := removeChannel_spec h
  rcases hcase with ⟨_, rfl⟩ | ⟨_, hswap⟩
  · rfl
  · obtain ⟨_, _, b, _, _, _, rfl⟩ := removeChannel_swap_spec hswap
    exact fd_update_set_index _ _ _ _

theorem PollInv_step {w w' : PollPoller} (op : PollOp) (hinv : PollInv w)
    (hfd : ∀ c, 0 ≤ (w.heap c).fd_)
    (h : PollPoller.step true w op = Except.ok w') :
    PollInv w' ∧ ∀ c, 0 ≤ (w'.heap c).fd_ := by
  cases op with
  | update a events =>
    simp only [PollPoller.step] at h
    refine ⟨PollInv_updateChannel (PollInv_setEvents a events hinv)
      (by rw [fd_setEvents]; exact hfd a) h, ?_⟩
    intro c
    rw [fd_updateChannel h, fd_setEvents]; exact hfd c
  | remove a =>
    simp only [PollPoller.step] at h
    refine ⟨PollInv_removeChannel hinv h, ?_⟩
    intro c
    rw [fd_removeChannel h]; exact hfd c

theorem PollInv_run (ops : List PollOp) {w w' : PollPoller} (hinv : PollInv w)
    (hfd : ∀ c, 0 ≤ (w.heap c).fd_)
    (h : PollPoller.run true w ops = Except.ok w') :
    PollInv w' ∧ ∀ c, 0 ≤ (w'.heap c).fd_ := by
  induction ops generalizing w with
  | nil =>
    simp only [PollPoller.run, List.foldlM, pure, Except.pure, Except.ok.injEq] at h
    subst h; exact ⟨hinv, hfd⟩
  | cons op ops ih =>
    simp only [PollPoller.run, List.foldlM] at h
    cases hs : PollPoller.step true w op with
    | error e => rw [hs] at h; cases h
    | ok w1 =>
      rw [hs] at h
      obtain ⟨h1, h2⟩ := PollInv_step op hinv hfd hs
      exact ih h1 h2 h

/-- removeChannel of a channel whose record is not the last one. -/
theorem removeChannel_not_last {w w' : PollPoller} {a : Nat}
    (h : PollPoller.removeChannel true w a = Except.ok w')
    (hnl : (w.heap a).index_ ≠ (w.pollfds_.length : Int) - 1) :
    ∃ back b, w.pollfds_.getLast? = some back ∧
      (mapErase w.channels_ (w.heap a).fd_).lookup (decodeFd back.fd) = some b ∧
      w'.pollfds_.length = w.pollfds_.length - 1 ∧
      w'.pollfds_[(w.heap a).index_.toNat]? = some back ∧
      (∀ i, i < w.pollfds_.length - 1 → i ≠ (w.heap a).index_.toNat →
        w'.pollfds_[i]? = w.pollfds_[i]?) ∧
      w'.channels_ = mapErase w.channels_ (w.heap a).fd_ ∧
      w'.heap b = (w.heap b).set_index (w.heap a).index_ ∧
      (∀ c, c ≠ b → w'.heap c = w.heap c) := by
  obtain ⟨_, _, h0, hlt, _, hcase⟩ := removeChannel_spec h
  rcases hcase with ⟨hlast, _⟩ | ⟨_, hswap⟩
  · exact absurd hlast hnl
  · obtain ⟨back, victim, b, hback, _, hlb, rfl⟩ := removeChannel_swap_spec hswap
    simp only at hback hlb
    have hidx : (w.heap a).index_.toNat < w.pollfds_.length - 1 := by omega
    refine ⟨back, b, by rw [List.getLast?_eq_getElem?]; exact hback, hlb, ?_, ?_, ?_, rfl,
      ?_, ?_⟩
    · simp only [List.length_dropLast, List.length_set]
    · simp only [swap_getElem? _ _ _ _ _ hidx, hidx, if_true]
    · intro i hi hne
      have : ¬ ((w.heap a).index_.toNat = i) := fun h => hne h.symm
      simp only [swap_getElem? _ _ _ _ _ hidx, hi, this, if_true, if_false]
    · simp only [Function.update_same]
    · intro c hc
      simp only [Function.update_noteq hc]

/-- C12: in every state reached from an empty PollPoller by updateChannel and
removeChannel calls whose assertions hold (channels with descriptors >= 0),
the map has one entry per key and as many entries as the array has records,
the channel the map holds for the decoded descriptor of record i has index
i, and every channel in the map has the index of a record that decodes to
its key.  A removeChannel in such a state keeps this; when the victim is not
the last record, the last record is moved into the victim's slot, the
channel of that record gets the victim's index, the array is one shorter,
and every other record and every other channel is unchanged. -/
theorem C12_pollfds_channels_consistent (heap : Nat → Channel) (ops : List PollOp)
    (w : PollPoller) (hfd : ∀ a, 0 ≤ (heap a).fd_)
    (hrun : PollPoller.run true (PollPoller.new heap) ops = Except.ok w) :
    PollInv w ∧
    ∀ a w', PollPoller.removeChannel true w a = Except.ok w' →
      PollInv w' ∧
      ((w.heap a).index_ ≠ (w.pollfds_.length : Int) - 1 →
        ∃ back b, w.pollfds_.getLast? = some back ∧
          w.channels_.lookup (decodeFd back.fd) = some b ∧
          (w.heap b).index_ = (w.pollfds_.length : Int) - 1 ∧
          w'.pollfds_.length = w.pollfds_.length - 1 ∧
          w'.pollfds_[(w.heap a).index_.toNat]? = some back ∧
          (∀ i, i < w.pollfds_.length - 1 → i ≠ (w.heap a).index_.toNat →
            w'.pollfds_[i]? = w.pollfds_[i]?) ∧
          w'.channels_ = mapErase w.channels_ (w.heap a).fd_ ∧
          w'.heap b = (w.heap b).set_index (w.heap a).index_ ∧
          (∀ c, c ≠ b → w'.heap c = w.heap c)) := by
  obtain ⟨hinv, _⟩ := PollInv_run ops (PollInv_new heap) hfd hrun
  refine ⟨hinv, ?_⟩
  intro a w' hrem
  refine ⟨PollInv_removeChannel hinv hrem, ?_⟩
  intro hnl
  obtain ⟨back, b, h1, h2, h3, h4, h5, h6, h7, h8⟩ := removeChannel_not_last hrem hnl
  have hne : decodeFd back.fd ≠ (w.heap a).fd_ := by
    intro heq; rw [heq, lookup_mapErase] at h2; cases h2
  rw [lookup_mapErase_ne _ hne] at h2
  have hb : (w.heap b).index_ = (w.pollfds_.length : Int) - 1 := by
    rw [List.getLast?_eq_getElem?] at h1
    obtain ⟨b', hb1, hb2⟩ := hinv.2.2.1 _ _ h1
    rw [h2] at hb1
    simp only [Option.some.injEq] at hb1
    rw [hb1, hb2]
    have := (List.getElem?_eq_some.1 h1).1
    omega
  exact ⟨back, b, h1, h2, hb, h3, h4, h5, h6, h7, h8⟩

theorem C12_pollfds_channels_consistent_witness :
    (∀ a, 0 ≤ (pollHeap a).fd_) ∧
    PollPoller.run true (PollPoller.new pollHeap) pollThreeOps = Except.ok pollThree ∧
    PollInv pollThree ∧
    ∀ a w', PollPoller.removeChannel true pollThree a = Except.ok w' →
      PollInv w' ∧
      ((pollThree.heap a).index_ ≠ (pollThree.pollfds_.length : Int) - 1 →
        ∃ back b, pollThree.pollfds_.getLast? = some back ∧
          pollThree.channels_.lookup (decodeFd back.fd) = some b ∧
          (pollThree.heap b).index_ = (pollThree.pollfds_.length : Int) - 1 ∧
          w'.pollfds_.length = pollThree.pollfds_.length - 1 ∧
          w'.pollfds_[(pollThree.heap a).index_.toNat]? = some back ∧
          (∀ i, i < pollThree.pollfds_.length - 1 → i ≠ (pollThree.heap a).index_.toNat →
            w'.pollfds_[i]? = pollThree.pollfds_[i]?) ∧
          w'.channels_ = mapErase pollThree.channels_ (pollThree.heap a).fd_ ∧
          w'.heap b = (pollThree.heap b).set_index (pollThree.heap a).index_ ∧
          (∀ c, c ≠ b → w'.heap c = pollThree.heap c)) :=
  ⟨fun a => Int.ofNat_nonneg a, rfl,
    C12_pollfds_channels_consistent pollHeap pollThreeOps pollThree
      (fun a => Int.ofNat_nonneg a) rfl⟩

/-! ### PollPoller: a record that is ignored -/

theorem updateChannel_known_ok (dbg : Bool) (w : PollPoller) (a : Nat) (pfd : PollFd)
    (h0 : 0 ≤ (w.heap a).index_)
    (hreg : w.channels_.lookup (w.heap a).fd_ = some a)
    (hp : w.pollfds_[(w.heap a).index_.toNat]? = some pfd)
    (hor : pfd.fd = (w.heap a).fd_ ∨ pfd.fd = -(w.heap a).fd_ - 1) :
    PollPoller.updateChannel dbg w a = Except.ok (PollPoller.mk
      (w.pollfds_.set (w.heap a).index_.toNat
        (PollFd.mk (if (w.heap a).isNoneEvent then -(w.heap a).fd_ - 1 else (w.heap a).fd_)
          (toShort (w.heap a).events_) 0))
      w.channels_ w.heap) := by
  have hlt := (List.getElem?_eq_some.1 hp).1
  have hi : ¬ (w.heap a).index_ < 0 := by omega
  have c1 : (decide (0 ≤ (w.heap a).index_) &&
      decide ((w.heap a).index_ < (w.pollfds_.length : Int))) = true := by
    simp only [Bool.and_eq_true, decide_eq_true_eq]; omega
  have c2 : (pfd.fd == (w.heap a).fd_ || pfd.fd == -(w.heap a).fd_ - 1) = true := by
    simp only [Bool.or_eq_true, beq_iff_eq]; exact hor
  unfold PollPoller.updateChannel
  simp only [hi, if_false, hreg, Option.isSome_some, beq_self_eq_true, c1, assertE_true,
    hp, c2, bind, Except.bind, pure, Except.pure]
  cases (w.heap a).isNoneEvent <;> rfl

/-- C13: for a channel with descriptor fd >= 0 registered at index i (the
map holds it under fd, record i carries fd or -fd-1), updateChannel with an
empty interest mask returns and stores -fd-1, a negative number that decodes
to fd, in record i; a following updateChannel with a non-empty mask returns
and stores fd in record i.  Both updates leave the channel's index, the map,
the array length and every other record unchanged. -/
theorem C13_ignored_record (dbg : Bool) (w : PollPoller) (a : Nat) (events : Nat)
    (pfd : PollFd)
    (hfd : 0 ≤ (w.heap a).fd_) (h0 : 0 ≤ (w.heap a).index_)
    (hreg : w.channels_.lookup (w.heap a).fd_ = some a)
    (hp : w.pollfds_[(w.heap a).index_.toNat]? = some pfd)
    (hor : pfd.fd = (w.heap a).fd_ ∨ pfd.fd = -(w.heap a).fd_ - 1)
    (hev : events ≠ kNoneEvent) :
    ∃ w1 w2, PollPoller.updateChannel dbg (w.setEvents a kNoneEvent) a = Except.ok w1 ∧
      PollPoller.updateChannel dbg (w1.setEvents a events) a = Except.ok w2 ∧
      w1.pollfds_[(w.heap a).index_.toNat]? =
        some (PollFd.mk (-(w.heap a).fd_ - 1) (toShort kNoneEvent) 0) ∧
      -(w.heap a).fd_ - 1 < 0 ∧ decodeFd (-(w.heap a).fd_ - 1) = (w.heap a).fd_ ∧
      w2.pollfds_[(w.heap a).index_.toNat]? =
        some (PollFd.mk (w.heap a).fd_ (toShort events) 0) ∧
      (w1.heap a).index_ = (w.heap a).index_ ∧ (w2.heap a).index_ = (w.heap a).index_ ∧
      w1.channels_ = w.channels_ ∧ w2.channels_ = w.channels_ ∧
      w1.pollfds_.length = w.pollfds_.length ∧ w2.pollfds_.length = w.pollfds_.length ∧
      (∀ j, j ≠ (w.heap a).index_.toNat →
        w1.pollfds_[j]? = w.pollfds_[j]? ∧ w2.pollfds_[j]? = w.pollfds_[j]?) := by
  have hlt := (List.getElem?_eq_some.1 hp).1
  have e1 : (w.setEvents a kNoneEvent).heap a = { w.heap a with events_ := kNoneEvent } := by
    simp [PollPoller.setEvents, Function.update_same]
  have hk1 := updateChannel_known_ok dbg (w.setEvents a kNoneEvent) a pfd
    (by rw [e1]; exact h0) (by rw [e1]; exact hreg) (by rw [e1]; exact hp)
    (by rw [e1]; exact hor)
  rw [e1] at hk1
  simp only [Channel.isNoneEvent, beq_self_eq_true, if_true] at hk1
  obtain ⟨w1, hw1⟩ : ∃ w1, w1 = PollPoller.mk ((w.setEvents a kNoneEvent).pollfds_.set
    (w.heap a).index_.toNat (PollFd.mk (-(w.heap a).fd_ - 1) (toShort kNoneEvent) 0))
    (w.setEvents a kNoneEvent).channels_ (w.setEvents a kNoneEvent).heap := ⟨_, rfl⟩
  rw [← hw1] at hk1
  have e2 : (w1.setEvents a events).heap a = { w.heap a with events_ := events } := by
    rw [hw1]
    simp [PollPoller.setEvents, Function.update_same]
  have hp2 : (w1.setEvents a events).pollfds_[(w.heap a).index_.toNat]? =
      some (PollFd.mk (-(w.heap a).fd_ - 1) (toShort kNoneEvent) 0) := by
    rw [hw1]
    simp [PollPoller.setEvents, List.getElem?_set, hlt]
  have hk2 := updateChannel_known_ok dbg (w1.setEvents a events) a _
    (by rw [e2]; exact h0) (by rw [e2, hw1]; exact hreg) (by rw [e2]; exact hp2)
    (by rw [e2]; exact Or.inr rfl)
  rw [e2] at hk2
  have hne : (events == kNoneEvent) = false := by
    rw [beq_eq_false_iff_ne]; exact hev
  simp only [Channel.isNoneEvent, hne, Bool.false_eq_true, if_false] at hk2
  obtain ⟨w2, hw2⟩ : ∃ w2, w2 = PollPoller.mk ((w1.setEvents a events).pollfds_.set
    (w.heap a).index_.toNat (PollFd.mk (w.heap a).fd_ (toShort events) 0))
    (w1.setEvents a events).channels_ (w1.setEvents a events).heap := ⟨_, rfl⟩
  rw [← hw2] at hk2
  refine ⟨w1, w2, hk1, hk2, ?_, by omega, decodeFd_neg hfd, ?_, ?_, ?_, ?_, ?_, ?_, ?_, ?_⟩
  · rw [hw1]; simp [PollPoller.setEvents, List.getElem?_set, hlt]
  · rw [hw2, hw1]; simp [PollPoller.setEvents, List.getElem?_set, hlt]
  · rw [hw1]; simp [PollPoller.setEvents, Function.update_same]
  · rw [hw2, hw1]; simp [PollPoller.setEvents, Function.update_same]
  · rw [hw1]; rfl
  · rw [hw2, hw1]; rfl
  · rw [hw1]; simp [PollPoller.setEvents]
  · rw [hw2, hw1]; simp [PollPoller.setEvents]
  · intro j hj
    have : ¬ ((w.heap a).index_.toNat = j) := fun h => hj h.symm
    rw [hw2, hw1]
    simp [PollPoller.setEvents, List.getElem?_set, this]

theorem C13_ignored_record_witness :
    (0 ≤ (pollTwo.heap 0).fd_ ∧ 0 ≤ (pollTwo.heap 0).index_ ∧
      pollTwo.channels_.lookup (pollTwo.heap 0).fd_ = some 0 ∧
      pollTwo.pollfds_[(pollTwo.heap 0).index_.toNat]? = some (PollFd.mk 0 3 0) ∧
      ((PollFd.mk 0 3 0).fd = (pollTwo.heap 0).fd_ ∨
        (PollFd.mk 0 3 0).fd = -(pollTwo.heap 0).fd_ - 1) ∧
      kWriteEvent ≠ kNoneEvent) ∧
    ∃ w1 w2, PollPoller.updateChannel true (pollTwo.setEvents 0 kNoneEvent) 0 = Except.ok w1 ∧
      PollPoller.updateChannel true (w1.setEvents 0 kWriteEvent) 0 = Except.ok w2 ∧
      w1.pollfds_[(pollTwo.heap 0).index_.toNat]? =
        some (PollFd.mk (-(pollTwo.heap 0).fd_ - 1) (toShort kNoneEvent) 0) ∧
      -(pollTwo.heap 0).fd_ - 1 < 0 ∧
      decodeFd (-(pollTwo.heap 0).fd_ - 1) = (pollTwo.heap 0).fd_ ∧
      w2.pollfds_[(pollTwo.heap 0).index_.toNat]? =
        some (PollFd.mk (pollTwo.heap 0).fd_ (toShort kWriteEvent) 0) ∧
      (w1.heap 0).index_ = (pollTwo.heap 0).index_ ∧
      (w2.heap 0).index_ = (pollTwo.heap 0).index_ ∧
      w1.channels_ = pollTwo.channels_ ∧ w2.channels_ = pollTwo.channels_ ∧
      w1.pollfds_.length = pollTwo.pollfds_.length ∧
      w2.pollfds_.length = pollTwo.pollfds_.length ∧
      (∀ j, j ≠ (pollTwo.heap 0).index_.toNat →
        w1.pollfds_[j]? = pollTwo.pollfds_[j]? ∧ w2.pollfds_[j]? = pollTwo.pollfds_[j]?) :=
  ⟨⟨by decide, by decide, by decide, by decide, Or.inl (by decide), by decide⟩,
    C13_ignored_record true pollTwo 0 kWriteEvent (PollFd.mk 0 3 0)
      (by decide) (by decide) (by decide) (by decide) (Or.inl (by decide)) (by decide)⟩

/-! ### TimerQueue: the order of entries -/

theorem entryLt_iff (a b : Nat × Nat) :
    entryLt a b = true ↔ a.1 < b.1 ∨ (a.1 = b.1 ∧ a.2 < b.2) := by
  unfold entryLt
  simp only [Bool.or_eq_true, Bool.and_eq_true, Bool.not_eq_true', decide_eq_true_eq,
    decide_eq_false_iff_not]
  constructor
  · rintro (h | ⟨h1, h2⟩)
    · exact Or.inl h
    · by_cases h : a.1 < b.1
      · exact Or.inl h
      · exact Or.inr ⟨by omega, h2⟩
  · rintro (h | ⟨h1, h2⟩)
    · exact Or.inl h
    · exact Or.inr ⟨by omega, h2⟩

theorem entryLt_trans {a b c : Nat × Nat} (h1 : entryLt a b = true)
    (h2 : entryLt b c = true) : entryLt a c = true := by
  rw [entryLt_iff] at *
  omega

theorem entryLt_irrefl (a : Nat × Nat) : entryLt a a = false := by
  rw [← Bool.not_eq_true, entryLt_iff]
  omega

theorem entry_eq_of_not_lt {a b : Nat × Nat} (h1 : entryLt a b = false)
    (h2 : entryLt b a = false) : a = b := by
  rw [← Bool.not_eq_true, entryLt_iff] at h1 h2
  obtain ⟨a1, a2⟩ := a
  obtain ⟨b1, b2⟩ := b
  simp only [Prod.mk.injEq] at *
  omega

theorem entryLt_sentry (t : Timer) (now : Nat) (h : t.addr < UINTPTR_MAX) :
    entryLt t.entry (now, UINTPTR_MAX) = true ↔ t.expiration_ ≤ now := by
  rw [entryLt_iff]
  simp only [Timer.entry]
  omega

theorem takeWhile_dropWhile_sorted {α : Type} (R : α → α → Prop) (p : α → Bool)
    (hp : ∀ a b, R a b → p b = true → p a = true) (l : List α) (hs : l.Pairwise R) :
    l.takeWhile p = l.filter p ∧ l.dropWhile p = l.filter (fun x => !p x) := by
  induction l with
  | nil => exact ⟨rfl, rfl⟩
  | cons h rest ih =>
    rw [List.pairwise_cons] at hs
    obtain ⟨ih1, ih2⟩ := ih hs.2
    cases hph : p h
    · have hall : ∀ x ∈ rest, p x = false := by
        intro x hx
        cases hpx : p x
        · rfl
        · rw [hp h x (hs.1 x hx) hpx] at hph; cases hph
      have h1 : rest.filter p = [] := by
        rw [List.filter_eq_nil_iff]
        intro x hx; rw [hall x hx]; simp
      have h2 : rest.filter (fun x => !p x) = rest := by
        rw [List.filter_eq_self]
        intro x hx; rw [hall x hx]; rfl
      simp [List.takeWhile, List.dropWhile, List.filter, hph, h1, h2]
    · simp [List.takeWhile, List.dropWhile, List.filter, hph, ih1, ih2]

theorem sorted_entries_inj {l : List Timer} (hs : TimersSorted l) {a b : Timer}
    (ha : a ∈ l) (hb : b ∈ l) (he : a.entry = b.entry) : a = b := by
  induction l with
  | nil => cases ha
  | cons h rest ih =>
    unfold TimersSorted at hs
    rw [List.pairwise_cons] at hs
    rcases List.mem_cons.1 ha with rfl | ha' <;> rcases List.mem_cons.1 hb with rfl | hb'
    · rfl
    · have := hs.1 b hb'
      rw [he, entryLt_irrefl] at this; cases this
    · have := hs.1 a ha'
      rw [he, entryLt_irrefl] at this; cases this
    · exact ih hs.2 ha' hb'

theorem nodup_of_sorted {l : List Timer} (hs : TimersSorted l) : l.Nodup := by
  unfold TimersSorted at hs
  refine List.Pairwise.imp ?_ hs
  intro a b h heq
  rw [heq, entryLt_irrefl] at h
  cases h

/-! ### TimerQueue: insertion into `timers_` -/

theorem setInsert_subset (t : Timer) (l : List Timer) :
    ∀ x, x ∈ (setInsert t l).1 → x = t ∨ x ∈ l := by
  induction l with
  | nil => intro x hx; simp [setInsert] at hx; exact Or.inl hx
  | cons h rest ih =>
    intro x hx
    unfold setInsert at hx
    split at hx
    · rcases List.mem_cons.1 hx with h1 | h1
      · exact Or.inl h1
      · exact Or.inr h1
    · split at hx
      · rcases List.mem_cons.1 hx with h1 | h1
        · exact Or.inr (List.mem_cons.2 (Or.inl h1))
        · rcases ih x h1 with h2 | h2
          · exact Or.inl h2
          · exact Or.inr (List.mem_cons.2 (Or.inr h2))
      · exact Or.inr hx

theorem setInsert_superset (t : Timer) (l : List Timer) :
    ∀ x, x ∈ l → x ∈ (setInsert t l).1 := by
  induction l with
  | nil => intro x hx; cases hx
  | cons h rest ih =>
    intro x hx
    unfold setInsert
    split
    · exact List.mem_cons.2 (Or.inr hx)
    · split
      · rcases List.mem_cons.1 hx with h1 | h1
        · exact List.mem_cons.2 (Or.inl h1)
        · exact List.mem_cons.2 (Or.inr (ih x h1))
      · exact hx

theorem setInsert_mem_of_inserted (t : Timer) (l : List Timer)
    (h : (setInsert t l).2 = true) : t ∈ (setInsert t l).1 := by
  induction l with
  | nil => simp [setInsert]
  | cons hd rest ih =>
    unfold setInsert at h ⊢
    split
    · exact List.mem_cons.2 (Or.inl rfl)
    · rename_i h1
      simp only [h1] at h
      split
      · rename_i h2
        simp only [h2, if_true] at h
        exact List.mem_cons.2 (Or.inr (ih h))
      · rename_i h2
        simp [h2] at h

theorem setInsert_entry (t : Timer) (l : List Timer) :
    ∃ x ∈ (setInsert t l).1, x.entry = t.entry := by
  induction l with
  | nil => exact ⟨t, by simp [setInsert], rfl⟩
  | cons hd rest ih =>
    unfold setInsert
    split
    · exact ⟨t, List.mem_cons.2 (Or.inl rfl), rfl⟩
    · rename_i h1
      split
      · obtain ⟨x, hx, he⟩ := ih
        exact ⟨x, List.mem_cons.2 (Or.inr hx), he⟩
      · rename_i h2
        refine ⟨hd, List.mem_cons.2 (Or.inl rfl), ?_⟩
        exact entry_eq_of_not_lt (by simpa using h2) (by simpa using h1)

theorem setInsert_sorted (t : Timer) (l : List Timer) (hs : TimersSorted l) :
    TimersSorted (setInsert t l).1 := by
  induction l with
  | nil => simp [setInsert, TimersSorted]
  | cons hd rest ih =>
    unfold TimersSorted at hs ⊢
    rw [List.pairwise_cons] at hs
    unfold setInsert
    split
    · rename_i h1
      rw [List.pairwise_cons]
      refine ⟨?_, List.pairwise_cons.2 hs⟩
      intro x hx
      rcases List.mem_cons.1 hx with rfl | hx'
      · exact h1
      · exact entryLt_trans h1 (hs.1 x hx')
    · split
      · rename_i h2
        rw [List.pairwise_cons]
        refine ⟨?_, ih hs.2⟩
        intro x hx
        rcases setInsert_subset t rest x hx with rfl | hx'
        · exact h2
        · exact hs.1 x hx'
      · exact List.pairwise_cons.2 hs

theorem setInsert_length (t : Timer) (l : List Timer) :
    (setInsert t l).1.length = l.length + (if (setInsert t l).2 then 1 else 0) := by
  induction l with
  | nil => simp [setInsert]
  | cons hd rest ih =>
    unfold setInsert
    split
    · simp
    · split
      · simp only [List.length_cons, ih]; omega
      · simp

/-- The first timer after an insertion into an ordered `timers_`: the new
timer when the set was empty or the new entry is the smallest, the old
first timer otherwise. -/
theorem setInsert_head (t : Timer) (l : List Timer) :
    (setInsert t l).1.head? =
      match l.head? with
      | none => some t
      | some h => if entryLt t.entry h.entry then some t else some h := by
  cases l with
  | nil => simp [setInsert]
  | cons hd rest =>
    unfold setInsert
    simp only [List.head?_cons]
    split
    · rfl
    · split <;> rfl

theorem sorted_head_le {l : List Timer} (hs : TimersSorted l) {h : Timer}
    (hh : l.head? = some h) : ∀ x ∈ l, h.expiration_ ≤ x.expiration_ := by
  cases l with
  | nil => cases hh
  | cons hd rest =>
    simp only [List.head?_cons, Option.some.injEq] at hh
    subst hh
    unfold TimersSorted at hs
    rw [List.pairwise_cons] at hs
    intro x hx
    rcases List.mem_cons.1 hx with rfl | hx'
    · exact Nat.le_refl _
    · have := hs.1 x hx'
      rw [entryLt_iff] at this
      simp only [Timer.entry] at this
      omega

/-! ### TimerQueue::getExpired -/

theorem contains_id_iff (l : List TimerId) (x : TimerId) : l.contains x = true ↔ x ∈ l := by
  simp

theorem eraseExpired_eq (dbg : Bool) (expired : List Timer) :
    ∀ (active r : List Timer), eraseExpired dbg active expired = Except.ok r →
      r = active.filter (fun x => !(expired.map Timer.id).contains x.id) := by
  induction expired with
  | nil =>
    intro active r h
    simp only [eraseExpired, pure, Except.pure, Except.ok.injEq] at h
    simp [← h]
  | cons it rest ih =>
    intro active r h
    unfold eraseExpired at h
    obtain ⟨_, h⟩ := assertE_bind h
    have := ih _ _ h
    rw [this]
    simp only [activeErase, List.filter_filter, List.map_cons]
    apply List.filter_congr
    intro x _
    by_cases hx : x.id = it.id
    · simp [hx]
    · have : (x.id == it.id) = false := by rw [beq_eq_false_iff_ne]; exact hx
      simp [hx, this, List.contains_cons]

theorem filter_id_length_one {l : List Timer} (hn : (l.map Timer.id).Nodup) {key : TimerId}
    (hk : key ∈ l.map Timer.id) : (l.filter (fun t => t.id == key)).length = 1 := by
  induction l with
  | nil => cases hk
  | cons h rest ih =>
    rw [List.map_cons, List.nodup_cons] at hn
    by_cases hh : h.id = key
    · have hnone : rest.filter (fun t => t.id == key) = [] := by
        rw [List.filter_eq_nil_iff]
        intro x hx
        simp only [beq_iff_eq]
        intro hxk
        exact hn.1 (by rw [hh, ← hxk]; exact List.mem_map_of_mem Timer.id hx)
      simp [List.filter_cons, hh, hnone]
    · have hk' : key ∈ rest.map Timer.id := by
        rcases List.mem_cons.1 hk with h1 | h1
        · exact absurd h1.symm hh
        · exact h1
      have hb : (h.id == key) = false := by rw [beq_eq_false_iff_ne]; exact hh
      simp [List.filter_cons, hb, ih hn.2 hk']

theorem eraseExpired_ok (dbg : Bool) (expired : List Timer) :
    ∀ (active : List Timer), (active.map Timer.id).Nodup → (expired.map Timer.id).Nodup →
      (∀ e ∈ expired, e.id ∈ active.map Timer.id) →
      eraseExpired dbg active expired =
        Except.ok (active.filter (fun x => !(expired.map Timer.id).contains x.id)) := by
  induction expired with
  | nil => intro active _ _ _; simp [eraseExpired, pure, Except.pure]
  | cons it rest ih =>
    intro active hna hne hmem
    rw [List.map_cons, List.nodup_cons] at hne
    have h1 := filter_id_length_one hna (hmem it (List.mem_cons.2 (Or.inl rfl)))
    have hrec := ih (activeErase it.id active).1
      (by
        simp only [activeErase]
        exact (List.Sublist.map Timer.id (List.filter_sublist active)).nodup hna)
      hne.2
      (by
        intro e he
        obtain ⟨x, hx, hxe⟩ := List.mem_map.1 (hmem e (List.mem_cons.2 (Or.inr he)))
        simp only [activeErase]
        refine List.mem_map.2 ⟨x, List.mem_filter.2 ⟨hx, ?_⟩, hxe⟩
        simp only [bne_iff_ne, ne_eq]
        intro hxi
        exact hne.1 (by rw [← hxi, hxe]; exact List.mem_map_of_mem Timer.id he))
    have hcl := eraseExpired_eq dbg rest _ _ hrec
    unfold eraseExpired
    simp only [activeErase, h1, beq_self_eq_true, assertE_true, bind, Except.bind]
    simp only [activeErase] at hrec
    rw [hrec]
    congr 1
    simp only [List.filter_filter, List.map_cons]
    apply List.filter_congr
    intro x _
    by_cases hx : x.id = it.id
    · simp [hx]
    · have : (x.id == it.id) = false := by rw [beq_eq_false_iff_ne]; exact hx
      simp [hx, this, List.contains_cons]

theorem perm_ids_inj {l : List Timer} (hn : (l.map Timer.id).Nodup) {a b : Timer}
    (ha : a ∈ l) (hb : b ∈ l) (h : a.id = b.id) : a = b :=
  List.inj_on_of_nodup_map hn ha hb h

theorem getExpired_eq {dbg : Bool} {q q' : TimerQueue} {now : Nat} {expired : List Timer}
    (h : q.getExpired dbg now = Except.ok (expired, q')) :
    expired = q.timers_.takeWhile (fun t => entryLt t.entry (now, UINTPTR_MAX)) ∧
    q' = { q with
      timers_ := q.timers_.dropWhile (fun t => entryLt t.entry (now, UINTPTR_MAX))
      activeTimers_ := q.activeTimers_.filter
        (fun x => !(expired.map Timer.id).contains x.id) } := by
  unfold TimerQueue.getExpired at h
  obtain ⟨_, h⟩ := assertE_bind h
  obtain ⟨_, h⟩ := assertE_bind h
  cases he : eraseExpired dbg q.activeTimers_
      (q.timers_.takeWhile (fun t => entryLt t.entry (now, UINTPTR_MAX))) with
  | error e => simp only [he, bind, Except.bind] at h; cases h
  | ok active =>
    simp only [he, bind, Except.bind] at h
    have h' := h
    cases hc : assertE dbg
        ((List.dropWhile (fun t => entryLt t.entry (now, UINTPTR_MAX)) q.timers_).length ==
          active.length) TimerAbort.getExpired_sizes_after with
    | error e => rw [hc] at h'; cases h'
    | ok u =>
      rw [hc] at h'
      simp only [pure, Except.pure, Except.ok.injEq, Prod.mk.injEq] at h'
      obtain ⟨h1, h2⟩ := h'
      refine ⟨h1.symm, ?_⟩
      rw [← h2, eraseExpired_eq dbg _ _ _ he, ← h1]

theorem getExpired_ok (dbg : Bool) (q : TimerQueue) (now : Nat) (h : q.WF) :
    q.getExpired dbg now = Except.ok
      (q.timers_.filter (fun t => decide (t.expiration_ ≤ now)),
       { q with
          timers_ := q.timers_.filter (fun t => decide (now < t.expiration_))
          activeTimers_ := q.activeTimers_.filter (fun t => decide (now < t.expiration_)) }) := by
  obtain ⟨hs, ha, hperm, hnd⟩ := h
  have htd := takeWhile_dropWhile_sorted (fun a b : Timer => entryLt a.entry b.entry = true)
    (fun t => entryLt t.entry (now, UINTPTR_MAX))
    (fun a b hab hb => entryLt_trans hab hb) q.timers_ hs
  have hT : q.timers_.takeWhile (fun t => entryLt t.entry (now, UINTPTR_MAX)) =
      q.timers_.filter (fun t => decide (t.expiration_ ≤ now)) := by
    rw [htd.1]
    apply List.filter_congr
    intro x hx
    rw [Bool.eq_iff_iff, entryLt_sentry x now (ha x hx)]
    simp
  have hD : q.timers_.dropWhile (fun t => entryLt t.entry (now, UINTPTR_MAX)) =
      q.timers_.filter (fun t => decide (now < t.expiration_)) := by
    rw [htd.2]
    apply List.filter_congr
    intro x hx
    rw [Bool.eq_iff_iff]
    simp only [Bool.not_eq_true', decide_eq_true_eq]
    rw [← Bool.not_eq_true, entryLt_sentry x now (ha x hx)]
    omega
  have hlen : q.timers_.length = q.activeTimers_.length := hperm.length_eq.symm
  have hend : endAfterNow (q.timers_.filter (fun t => decide (now < t.expiration_))) now
      = true := by
    unfold endAfterNow
    cases hh : (q.timers_.filter (fun t => decide (now < t.expiration_))).head? with
    | none => rfl
    | some e =>
      have := List.mem_of_mem_head? hh
      simpa using (List.mem_filter.1 this).2
  have hndT : (q.timers_.map Timer.id).Nodup := (hperm.map Timer.id).nodup_iff.1 hnd
  have hE := eraseExpired_ok dbg (q.timers_.filter (fun t => decide (t.expiration_ ≤ now)))
    q.activeTimers_ hnd
    ((List.Sublist.map Timer.id (List.filter_sublist q.timers_)).nodup hndT)
    (by
      intro e he
      exact List.mem_map_of_mem Timer.id (hperm.mem_iff.2 (List.mem_filter.1 he).1))
  have hA : q.activeTimers_.filter (fun x =>
      !((q.timers_.filter (fun t => decide (t.expiration_ ≤ now))).map Timer.id).contains x.id)
      = q.activeTimers_.filter (fun t => decide (now < t.expiration_)) := by
    apply List.filter_congr
    intro x hx
    rw [Bool.eq_iff_iff]
    simp only [Bool.not_eq_true', decide_eq_true_eq]
    rw [← Bool.not_eq_true, contains_id_iff]
    constructor
    · intro hnot
      by_contra hle
      exact hnot (List.mem_map_of_mem Timer.id
        (List.mem_filter.2 ⟨hperm.mem_iff.1 hx, by simpa using hle⟩))
    · intro hlt hmem
      obtain ⟨e, he, hid⟩ := List.mem_map.1 hmem
      obtain ⟨he1, he2⟩ := List.mem_filter.1 he
      have := perm_ids_inj hnd (hperm.mem_iff.2 he1) hx hid
      subst this
      simp only [decide_eq_true_eq] at he2
      omega
  have hlen2 : (q.timers_.filter (fun t => decide (now < t.expiration_))).length =
      (q.activeTimers_.filter (fun t => decide (now < t.expiration_))).length :=
    (hperm.filter _).length_eq.symm
  unfold TimerQueue.getExpired
  simp only [hT, hD, hlen, beq_self_eq_true, assertE_true, hend, hE, hA, hlen2, bind,
    Except.bind, pure, Except.pure]

theorem WF_getExpired {q : TimerQueue} (now : Nat) (h : q.WF) :
    TimerQueue.WF { q with
      timers_ := q.timers_.filter (fun t => decide (now < t.expiration_))
      activeTimers_ := q.activeTimers_.filter (fun t => decide (now < t.expiration_)) } := by
  obtain ⟨hs, ha, hperm, hnd⟩ := h
  refine ⟨List.Pairwise.filter _ hs, ?_, hperm.filter _, ?_⟩
  · intro t ht; exact ha t (List.mem_filter.1 ht).1
  · exact (List.Sublist.map Timer.id (List.filter_sublist q.activeTimers_)).nodup hnd

/-- C14: for every queue whose two sets describe the same timers and every
time `now`, getExpired(now) returns; it returns exactly the timers of
`timers_` whose expiration is <= now, in ascending (expiration, address)
order; afterwards `timers_` and `activeTimers_` hold exactly the timers they
held whose expiration is > now, so every remaining timer expires strictly
after `now`; the two sets still describe the same timers. -/
theorem C14_getExpired (dbg : Bool) (q : TimerQueue) (now : Nat) (h : q.WF) :
    ∃ expired q', q.getExpired dbg now = Except.ok (expired, q') ∧
      expired = q.timers_.filter (fun t => decide (t.expiration_ ≤ now)) ∧
      (∀ t, t ∈ expired ↔ t ∈ q.timers_ ∧ t.expiration_ ≤ now) ∧
      TimersSorted expired ∧
      q'.timers_ = q.timers_.filter (fun t => decide (now < t.expiration_)) ∧
      q'.activeTimers_ = q.activeTimers_.filter (fun t => decide (now < t.expiration_)) ∧
      (∀ t, t ∈ q'.timers_ ↔ t ∈ q.timers_ ∧ ¬ t ∈ expired) ∧
      (∀ t, t ∈ q'.activeTimers_ ↔ t ∈ q.activeTimers_ ∧ ¬ t ∈ expired) ∧
      (∀ t ∈ q'.timers_, now < t.expiration_) ∧
      q'.WF := by
  refine ⟨_, _, getExpired_ok dbg q now h, rfl, ?_, ?_, rfl, rfl, ?_, ?_, ?_,
    WF_getExpired now h⟩
  · intro t; simp [List.mem_filter]
  · exact List.Pairwise.filter _ h.1
  · intro t
    simp only [List.mem_filter, decide_eq_true_eq]
    constructor
    · rintro ⟨h1, h2⟩; exact ⟨h1, fun h3 => by omega⟩
    · rintro ⟨h1, h2⟩; exact ⟨h1, by by_contra h3; exact h2 ⟨h1, by omega⟩⟩
  · intro t
    simp only [List.mem_filter, decide_eq_true_eq]
    constructor
    · rintro ⟨h1, h2⟩; exact ⟨h1, fun h3 => by omega⟩
    · rintro ⟨h1, h2⟩
      exact ⟨h1, by by_contra h3; exact h2 ⟨h.2.2.1.mem_iff.1 h1, by omega⟩⟩
  · intro t ht
    simpa using (List.mem_filter.1 ht).2

/-! ### TimerQueue::insert, addTimerInLoop, cancelInLoop -/

theorem insert_eq {dbg : Bool} {q q' : TimerQueue} {timer : Timer} {ec : Bool}
    (h : q.insert dbg timer = Except.ok (ec, q')) :
    q' = { q with timers_ := (setInsert timer q.timers_).1
                  activeTimers_ := (activeInsert timer q.activeTimers_).1 } ∧
    ec = (match q.timers_.head? with
      | none => true
      | some first => decide (timer.expiration_ < first.expiration_)) ∧
    (dbg = true → (setInsert timer q.timers_).2 = true ∧
      (activeInsert timer q.activeTimers_).2 = true) := by
  unfold TimerQueue.insert at h
  obtain ⟨_, h⟩ := assertE_bind h
  obtain ⟨h2, h⟩ := assertE_bind h
  obtain ⟨h3, h⟩ := assertE_bind h
  obtain ⟨_, h⟩ := assertE_bind h
  simp only [pure, Except.pure, Except.ok.injEq, Prod.mk.injEq] at h
  exact ⟨h.2.symm, h.1.symm, fun hd => ⟨h2 hd, h3 hd⟩⟩

theorem insert_release (q : TimerQueue) (timer : Timer) :
    ∃ ec, q.insert false timer = Except.ok (ec,
      { q with timers_ := (setInsert timer q.timers_).1
               activeTimers_ := (activeInsert timer q.activeTimers_).1 }) := by
  unfold TimerQueue.insert
  simp only [assertE_release, bind, Except.bind, pure, Except.pure]
  exact ⟨_, rfl⟩

theorem addTimerInLoop_eq {dbg : Bool} {q q' : TimerQueue} {timer : Timer}
    (h : q.addTimerInLoop dbg timer = Except.ok q') :
    q'.timers_ = (setInsert timer q.timers_).1 ∧
    q'.activeTimers_ = (activeInsert timer q.activeTimers_).1 ∧
    q'.callingExpiredTimers_ = q.callingExpiredTimers_ ∧
    q'.cancelingTimers_ = q.cancelingTimers_ ∧ q'.ran = q.ran ∧
    q'.armed = (if (match q.timers_.head? with
        | none => true
        | some first => decide (timer.expiration_ < first.expiration_)) = true
      then some timer.expiration_ else q.armed) ∧
    (dbg = true → (setInsert timer q.timers_).2 = true ∧
      (activeInsert timer q.activeTimers_).2 = true) := by
  unfold TimerQueue.addTimerInLoop at h
  cases hi : q.insert dbg timer with
  | error e => simp only [hi, bind, Except.bind] at h; cases h
  | ok r =>
    obtain ⟨ec, q1⟩ := r
    simp only [hi, bind, Except.bind] at h
    obtain ⟨h1, h2, h3⟩ := insert_eq hi
    subst h1
    cases ec with
    | true =>
      simp only [if_true, pure, Except.pure, Except.ok.injEq] at h
      subst h
      rw [← h2]
      exact ⟨rfl, rfl, rfl, rfl, rfl, by simp [TimerQueue.resetTimerfd], h3⟩
    | false =>
      simp only [Bool.false_eq_true, if_false, pure, Except.pure, Except.ok.injEq] at h
      subst h
      rw [← h2]
      exact ⟨rfl, rfl, rfl, rfl, rfl, by simp, h3⟩

theorem cancelInLoop_found {dbg : Bool} {q q' : TimerQueue} {timerId : TimerId} {it : Timer}
    (hf : q.activeTimers_.find? (fun t => t.id == timerId) = some it)
    (h : q.cancelInLoop dbg timerId = Except.ok q') :
    q' = { q with timers_ := q.timers_.filter (fun t => t.entry != it.entry)
                  activeTimers_ := q.activeTimers_.filter (fun t => t.id != timerId) } := by
  unfold TimerQueue.cancelInLoop at h
  obtain ⟨_, h⟩ := assertE_bind h
  simp only [hf] at h
  cases hc : assertE dbg ((setErase (it.expiration_, it.addr) q.timers_).2 == 1)
      TimerAbort.cancelInLoop_erased with
  | error e => simp only [hc, bind, Except.bind] at h; cases h
  | ok u =>
    simp only [hc, bind, Except.bind, pure, Except.pure] at h
    obtain ⟨_, h⟩ := assertE_bind h
    simp only [pure, Except.pure, Except.ok.injEq] at h
    rw [← h]
    rfl

theorem cancelInLoop_absent {dbg : Bool} {q q' : TimerQueue} {timerId : TimerId}
    (hf : q.activeTimers_.find? (fun t => t.id == timerId) = none)
    (h : q.cancelInLoop dbg timerId = Except.ok q') :
    q' = (if q.callingExpiredTimers_ then
      { q with cancelingTimers_ := cancelingInsert timerId q.cancelingTimers_ } else q) := by
  unfold TimerQueue.cancelInLoop at h
  obtain ⟨_, h⟩ := assertE_bind h
  simp only [hf] at h
  cases hc : q.callingExpiredTimers_
  · simp only [hc, Bool.false_eq_true, if_false, pure, Except.pure, bind, Except.bind] at h ⊢
    obtain ⟨_, h⟩ := assertE_bind h
    simp only [pure, Except.pure, Except.ok.injEq] at h
    exact h.symm
  · simp only [hc, if_true, pure, Except.pure, bind, Except.bind] at h ⊢
    obtain ⟨_, h⟩ := assertE_bind h
    simp only [pure, Except.pure, Except.ok.injEq] at h
    exact h.symm

theorem find?_id_none_iff (l : List Timer) (key : TimerId) :
    l.find? (fun t => t.id == key) = none ↔ ∀ t ∈ l, t.id ≠ key := by
  rw [List.find?_eq_none]
  simp

/-! ### Folds that may abort -/

theorem foldlM_preserve {ε σ α : Type} (f : σ → α → Except ε σ) (P : σ → Prop) (l : List α)
    (hP : ∀ a ∈ l, ∀ s s', P s → f s a = Except.ok s' → P s') :
    ∀ s s', P s → l.foldlM f s = Except.ok s' → P s' := by
  induction l with
  | nil =>
    intro s s' hs h
    simp only [List.foldlM, pure, Except.pure, Except.ok.injEq] at h
    subst h; exact hs
  | cons a l ih =>
    intro s s' hs h
    simp only [List.foldlM] at h
    cases hf : f s a with
    | error e => simp only [hf, bind, Except.bind] at h; cases h
    | ok s1 =>
      simp only [hf, bind, Except.bind] at h
      exact ih (fun b hb => hP b (List.mem_cons.2 (Or.inr hb))) s1 s'
        (hP a (List.mem_cons.2 (Or.inl rfl)) s s1 hs hf) h

theorem foldlM_establish {ε σ α : Type} (f : σ → α → Except ε σ) (P Q : σ → Prop)
    (l : List α)
    (hP : ∀ a ∈ l, ∀ s s', P s → f s a = Except.ok s' → P s')
    (hQ : ∀ a ∈ l, ∀ s s', Q s → f s a = Except.ok s' → Q s')
    (a0 : α) (h0 : a0 ∈ l) (hPQ : ∀ s s', P s → f s a0 = Except.ok s' → Q s') :
    ∀ s s', P s → l.foldlM f s = Except.ok s' → Q s' := by
  induction l with
  | nil => cases h0
  | cons a l ih =>
    intro s s' hs h
    simp only [List.foldlM] at h
    cases hf : f s a with
    | error e => simp only [hf, bind, Except.bind] at h; cases h
    | ok s1 =>
      simp only [hf, bind, Except.bind] at h
      rcases List.mem_cons.1 h0 with rfl | h0'
      · exact foldlM_preserve f Q l (fun b hb => hQ b (List.mem_cons.2 (Or.inr hb))) s1 s'
          (hPQ s s1 hs hf) h
      · exact ih (fun b hb => hP b (List.mem_cons.2 (Or.inr hb)))
          (fun b hb => hQ b (List.mem_cons.2 (Or.inr hb))) h0' s1 s'
          (hP a (List.mem_cons.2 (Or.inl rfl)) s s1 hs hf) h

/-! ### TimerQueue::reset and handleRead -/

theorem activeInsert_subset (t : Timer) (l : List Timer) :
    ∀ x, x ∈ (activeInsert t l).1 → x = t ∨ x ∈ l := by
  intro x hx
  unfold activeInsert at hx
  split at hx
  · exact Or.inr hx
  · rcases List.mem_append.1 hx with h | h
    · exact Or.inr h
    · exact Or.inl (by simpa using h)

theorem activeInsert_superset (t : Timer) (l : List Timer) :
    ∀ x, x ∈ l → x ∈ (activeInsert t l).1 := by
  intro x hx
  unfold activeInsert
  split
  · exact hx
  · exact List.mem_append.2 (Or.inl hx)

theorem activeInsert_mem_of_inserted (t : Timer) (l : List Timer)
    (h : (activeInsert t l).2 = true) : t ∈ (activeInsert t l).1 := by
  unfold activeInsert at h ⊢
  split
  · rename_i hc; simp [hc] at h
  · simp

theorem restart_repeat (e : Timer) (now : Nat) (h : e.repeat_ = true) :
    e.restart now = { e with expiration_ := now + e.interval_ } := by
  simp [Timer.restart, h, addTime]

theorem resetLoop_spec (dbg : Bool) (now : Nat) (expired : List Timer) :
    ∀ (q q' : TimerQueue), TimerQueue.resetLoop dbg now q expired = Except.ok q' →
      q'.cancelingTimers_ = q.cancelingTimers_ ∧ q'.armed = q.armed ∧ q'.ran = q.ran ∧
      q'.callingExpiredTimers_ = q.callingExpiredTimers_ ∧
      (∀ x ∈ q.timers_, x ∈ q'.timers_) ∧
      (∀ x ∈ q.activeTimers_, x ∈ q'.activeTimers_) ∧
      (∀ x ∈ q'.timers_, x ∈ q.timers_ ∨
        ∃ e ∈ expired, e.repeat_ = true ∧ ¬ e.id ∈ q.cancelingTimers_ ∧ x = e.restart now) ∧
      (∀ x ∈ q'.activeTimers_, x ∈ q.activeTimers_ ∨
        ∃ e ∈ expired, e.repeat_ = true ∧ ¬ e.id ∈ q.cancelingTimers_ ∧ x = e.restart now) ∧
      (∀ e ∈ expired, e.repeat_ = true → ¬ e.id ∈ q.cancelingTimers_ →
        (∃ x ∈ q'.timers_, x.entry = (e.restart now).entry) ∧
        (dbg = true → e.restart now ∈ q'.timers_ ∧ e.restart now ∈ q'.activeTimers_)) ∧
      (TimersSorted q.timers_ → TimersSorted q'.timers_) := by
  induction expired with
  | nil =>
    intro q q' h
    simp only [TimerQueue.resetLoop, pure, Except.pure, Except.ok.injEq] at h
    subst h
    refine ⟨rfl, rfl, rfl, rfl, fun x hx => hx, fun x hx => hx, fun x hx => Or.inl hx,
      fun x hx => Or.inl hx, ?_, fun hs => hs⟩
    intro e he; cases he
  | cons it rest ih =>
    intro q q' h
    unfold TimerQueue.resetLoop at h
    by_cases hc : (it.repeat_ && !(q.cancelingTimers_.contains it.id)) = true
    · simp only [hc, if_true] at h
      cases hi : q.insert dbg (it.restart now) with
      | error e => simp only [hi, bind, Except.bind] at h; cases h
      | ok r =>
        obtain ⟨ec, q1⟩ := r
        simp only [hi, bind, Except.bind] at h
        obtain ⟨hq1, _, hins⟩ := insert_eq hi
        obtain ⟨i1, i2, i3, i4, i5, i6, i7, i8, i9, i10⟩ := ih q1 q' h
        subst hq1
        simp only at i1 i2 i3 i4 i5 i6 i7 i8 i9 i10
        simp only [Bool.and_eq_true, Bool.not_eq_true', ← Bool.not_eq_true,
          contains_id_iff] at hc
        refine ⟨i1, i2, i3, i4, ?_, ?_, ?_, ?_, ?_, ?_⟩
        · intro x hx; exact i5 x (setInsert_superset _ _ x hx)
        · intro x hx; exact i6 x (activeInsert_superset _ _ x hx)
        · intro x hx
          rcases i7 x hx with h1 | ⟨e, he, h2⟩
          · rcases setInsert_subset _ _ x h1 with h3 | h3
            · exact Or.inr ⟨it, List.mem_cons.2 (Or.inl rfl), hc.1, hc.2, h3⟩
            · exact Or.inl h3
          · exact Or.inr ⟨e, List.mem_cons.2 (Or.inr he), h2⟩
        · intro x hx
          rcases i8 x hx with h1 | ⟨e, he, h2⟩
          · rcases activeInsert_subset _ _ x h1 with h3 | h3
            · exact Or.inr ⟨it, List.mem_cons.2 (Or.inl rfl), hc.1, hc.2, h3⟩
            · exact Or.inl h3
          · exact Or.inr ⟨e, List.mem_cons.2 (Or.inr he), h2⟩
        · intro e he hr hn
          rcases List.mem_cons.1 he with rfl | he'
          · refine ⟨?_, ?_⟩
            · obtain ⟨x, hx, hxe⟩ := setInsert_entry (e.restart now) q.timers_
              exact ⟨x, i5 x hx, hxe⟩
            · intro hd
              obtain ⟨h1, h2⟩ := hins hd
              exact ⟨i5 _ (setInsert_mem_of_inserted _ _ h1),
                i6 _ (activeInsert_mem_of_inserted _ _ h2)⟩
          · exact i9 e he' hr hn
        · intro hs; exact i10 (setInsert_sorted _ _ hs)
    · simp only [hc, Bool.false_eq_true, if_false] at h
      obtain ⟨i1, i2, i3, i4, i5, i6, i7, i8, i9, i10⟩ := ih q q' h
      refine ⟨i1, i2, i3, i4, i5, i6, ?_, ?_, ?_, i10⟩
      · intro x hx
        rcases i7 x hx with h1 | ⟨e, he, h2⟩
        · exact Or.inl h1
        · exact Or.inr ⟨e, List.mem_cons.2 (Or.inr he), h2⟩
      · intro x hx
        rcases i8 x hx with h1 | ⟨e, he, h2⟩
        · exact Or.inl h1
        · exact Or.inr ⟨e, List.mem_cons.2 (Or.inr he), h2⟩
      · intro e he hr hn
        rcases List.mem_cons.1 he with rfl | he'
        · exfalso
          apply hc
          simp only [Bool.and_eq_true, Bool.not_eq_true', ← Bool.not_eq_true, contains_id_iff]
          exact ⟨hr, hn⟩
        · exact i9 e he' hr hn

theorem reset_spec {dbg : Bool} {q q' : TimerQueue} {expired : List Timer} {now : Nat}
    (h : q.reset dbg expired now = Except.ok q') :
    ∃ q1, TimerQueue.resetLoop dbg now q expired = Except.ok q1 ∧
      q'.timers_ = q1.timers_ ∧ q'.activeTimers_ = q1.activeTimers_ ∧
      q'.cancelingTimers_ = q1.cancelingTimers_ ∧ q'.ran = q1.ran ∧
      q'.callingExpiredTimers_ = q1.callingExpiredTimers_ ∧
      (∀ first, q1.timers_.head? = some first →
        q'.armed = if 0 < first.expiration_ then some first.expiration_ else q1.armed) := by
  unfold TimerQueue.reset at h
  cases hl : TimerQueue.resetLoop dbg now q expired with
  | error e => simp only [hl, bind, Except.bind] at h; cases h
  | ok q1 =>
    simp only [hl, bind, Except.bind] at h
    refine ⟨q1, rfl, ?_⟩
    split at h
    · simp only [pure, Except.pure, Except.ok.injEq] at h
      subst h
      refine ⟨rfl, rfl, rfl, rfl, rfl, ?_⟩
      intro first hf
      rename_i hv
      simp only [hf, Timestamp.valid, decide_eq_true_eq] at hv
      simp [TimerQueue.resetTimerfd, hf, hv]
    · simp only [pure, Except.pure, Except.ok.injEq] at h
      subst h
      refine ⟨rfl, rfl, rfl, rfl, rfl, ?_⟩
      intro first hf
      rename_i hv
      simp only [hf, Timestamp.valid, decide_eq_true_eq] at hv
      simp [hv]

theorem handleRead_spec {dbg : Bool} {body : TimerId → List TimerAction} {q q' : TimerQueue}
    {now : Nat} (h : q.handleRead dbg body now = Except.ok q') :
    ∃ expired q1 q2, q.getExpired dbg now = Except.ok (expired, q1) ∧
      expired.foldlM (TimerQueue.runTimer dbg body)
        { q1 with callingExpiredTimers_ := true, cancelingTimers_ := [] } = Except.ok q2 ∧
      TimerQueue.reset dbg { q2 with callingExpiredTimers_ := false } expired now
        = Except.ok q' := by
  unfold TimerQueue.handleRead at h
  cases hg : q.getExpired dbg now with
  | error e => simp only [hg, bind, Except.bind] at h; cases h
  | ok r =>
    obtain ⟨expired, q1⟩ := r
    simp only [hg, bind, Except.bind] at h
    cases hf : expired.foldlM (TimerQueue.runTimer dbg body)
        { q1 with callingExpiredTimers_ := true, cancelingTimers_ := [] } with
    | error e => simp only [hf] at h; cases h
    | ok q2 =>
      simp only [hf] at h
      exact ⟨expired, q1, q2, rfl, hf, h⟩

theorem runTimers_preserve (dbg : Bool) (body : TimerId → List TimerAction)
    (I : TimerQueue → Prop) (expired : List Timer)
    (hran : ∀ (q : TimerQueue) (id : TimerId), I q → I { q with ran := q.ran ++ [id] })
    (hact : ∀ e ∈ expired, ∀ a ∈ body e.id, ∀ q q', I q →
      TimerQueue.act dbg q a = Except.ok q' → I q') :
    ∀ q q', I q → expired.foldlM (TimerQueue.runTimer dbg body) q = Except.ok q' → I q' := by
  apply foldlM_preserve
  intro e he q q' hq h
  unfold TimerQueue.runTimer at h
  exact foldlM_preserve (TimerQueue.act dbg) I (body e.id) (hact e he) _ _ (hran q e.id hq) h

theorem runTimers_establish (dbg : Bool) (body : TimerId → List TimerAction)
    (P Q : TimerQueue → Prop) (expired : List Timer)
    (hranP : ∀ (q : TimerQueue) (id : TimerId), P q → P { q with ran := q.ran ++ [id] })
    (hranQ : ∀ (q : TimerQueue) (id : TimerId), Q q → Q { q with ran := q.ran ++ [id] })
    (hactP : ∀ e ∈ expired, ∀ a ∈ body e.id, ∀ q q', P q →
      TimerQueue.act dbg q a = Except.ok q' → P q')
    (hactQ : ∀ e ∈ expired, ∀ a ∈ body e.id, ∀ q q', Q q →
      TimerQueue.act dbg q a = Except.ok q' → Q q')
    (e0 : Timer) (he0 : e0 ∈ expired) (a0 : TimerAction) (ha0 : a0 ∈ body e0.id)
    (hPQ : ∀ q q', P q → TimerQueue.act dbg q a0 = Except.ok q' → Q q') :
    ∀ q q', P q → expired.foldlM (TimerQueue.runTimer dbg body) q = Except.ok q' → Q q' := by
  apply foldlM_establish (TimerQueue.runTimer dbg body) P Q expired ?_ ?_ e0 he0
  · intro q q' hq h
    unfold TimerQueue.runTimer at h
    exact foldlM_establish (TimerQueue.act dbg) P Q (body e0.id) (hactP e0 he0) (hactQ e0 he0)
      a0 ha0 hPQ _ _ (hranP q e0.id hq) h
  · intro e he q q' hq h
    unfold TimerQueue.runTimer at h
    exact foldlM_preserve (TimerQueue.act dbg) P (body e.id) (hactP e he) _ _
      (hranP q e.id hq) h
  · intro e he q q' hq h
    unfold TimerQueue.runTimer at h
    exact foldlM_preserve (TimerQueue.act dbg) Q (body e.id) (hactQ e he) _ _
      (hranQ q e.id hq) h

theorem mem_cancelingInsert (key x : TimerId) (l : List TimerId) :
    x ∈ cancelingInsert key l ↔ x = key ∨ x ∈ l := by
  unfold cancelingInsert
  split
  · rename_i hc
    rw [contains_id_iff] at hc
    constructor
    · intro h; exact Or.inr h
    · rintro (rfl | h)
      · exact hc
      · exact h
  · simp only [List.mem_append, List.mem_singleton]
    constructor
    · rintro (h | h)
      · exact Or.inr h
      · exact Or.inl h
    · rintro (h | h)
      · exact Or.inr h
      · exact Or.inl h

theorem cancelInLoop_canceling {dbg : Bool} {q q' : TimerQueue} {timerId : TimerId}
    (h : q.cancelInLoop dbg timerId = Except.ok q') :
    ∀ x, x ∈ q'.cancelingTimers_ → x = timerId ∨ x ∈ q.cancelingTimers_ := by
  intro x hx
  cases hf : q.activeTimers_.find? (fun t => t.id == timerId) with
  | some it =>
    rw [cancelInLoop_found hf h] at hx
    exact Or.inr hx
  | none =>
    rw [cancelInLoop_absent hf h] at hx
    split at hx
    · exact (mem_cancelingInsert _ _ _).1 hx
    · exact Or.inr hx

/-- A repeating timer of the batch that no callback of the batch cancels is
put back by handleRead with the expiration `restart(now)` gives it. -/
theorem handleRead_rearm {dbg : Bool} {body : TimerId → List TimerAction}
    {q q' : TimerQueue} {now : Nat} (h : q.handleRead dbg body now = Except.ok q')
    {e : Timer} (he : e ∈ q.batch now) (hr : e.repeat_ = true)
    (hn : ∀ e' ∈ q.batch now, ¬ TimerAction.cancel e.id ∈ body e'.id) :
    (∃ x ∈ q'.timers_, x.entry = (e.restart now).entry) ∧
    (dbg = true → e.restart now ∈ q'.timers_ ∧ e.restart now ∈ q'.activeTimers_) := by
  obtain ⟨expired, q1, q2, hg, hf, hreset⟩ := handleRead_spec h
  obtain ⟨hexp, _⟩ := getExpired_eq hg
  have hb : expired = q.batch now := hexp
  rw [← hb] at he hn
  have hN : ¬ e.id ∈ q2.cancelingTimers_ := by
    refine runTimers_preserve dbg body (fun s => ¬ e.id ∈ s.cancelingTimers_) expired
      (fun s id hs => hs) ?_ _ _ ?_ hf
    · intro e' he' a ha s s' hs hact
      cases a with
      | cancel timerId =>
        simp only [TimerQueue.act] at hact
        intro hmem
        rcases cancelInLoop_canceling hact _ hmem with h1 | h1
        · rw [← h1] at ha; exact hn e' he' ha
        · exact hs h1
      | addTimer timer =>
        simp only [TimerQueue.act] at hact
        rw [(addTimerInLoop_eq hact).2.2.2.1]
        exact hs
    · simp
  obtain ⟨q3, hloop, ht, ha, _⟩ := reset_spec hreset
  obtain ⟨_, _, _, _, _, _, _, _, i9, _⟩ := resetLoop_spec dbg now expired _ _ hloop
  obtain ⟨h1, h2⟩ := i9 e he hr hN
  rw [ht, ha]
  exact ⟨h1, h2⟩

/-- C15 (amended): when a repeating timer fires in handleRead and no
callback of the batch cancels it, the re-arm step gives it the expiration
now + interval, `now` being the time handleRead took before it collected the
expired timers (not the previous expiration + interval), in a single step,
and puts it back into `timers_` under that expiration. -/
theorem C15_rearm_from_now (dbg : Bool) (body : TimerId → List TimerAction)
    (q q' : TimerQueue) (now : Nat) (e : Timer)
    (h : q.handleRead dbg body now = Except.ok q')
    (he : e ∈ q.batch now) (hr : e.repeat_ = true)
    (hn : ∀ e' ∈ q.batch now, ¬ TimerAction.cancel e.id ∈ body e'.id) :
    e.restart now = { e with expiration_ := now + e.interval_ } ∧
    (∃ x ∈ q'.timers_, x.addr = e.addr ∧ x.expiration_ = now + e.interval_) ∧
    (dbg = true → { e with expiration_ := now + e.interval_ } ∈ q'.timers_ ∧
      { e with expiration_ := now + e.interval_ } ∈ q'.activeTimers_) := by
  obtain ⟨⟨x, hx, hxe⟩, h2⟩ := handleRead_rearm h he hr hn
  rw [restart_repeat e now hr] at hxe h2
  simp only [Timer.entry, Prod.mk.injEq] at hxe
  exact ⟨restart_repeat e now hr, ⟨x, hx, hxe.2, hxe.1⟩, h2⟩

/-- C15 (as stated) fails when the fire is processed late: the timer that
expires at 200 and repeats every 50, processed at time 230, is put back with
expiration 280, not 200 + 50 = 250. -/
theorem C15_late_fire_rearms_from_now :
    (timerQueue3.batch 230).map (fun t => (t.addr, t.expiration_, t.interval_, t.repeat_))
      = [(16, 100, 0, false), (32, 200, 50, true)] ∧
    (∃ q', timerQueue3.handleRead true idleBody 230 = Except.ok q' ∧
      q'.timers_.map (fun t => (t.addr, t.expiration_)) = [(32, 280), (48, 300)]) ∧
    (280 : Nat) ≠ 200 + 50 :=
  ⟨by decide, ⟨_, rfl, by decide⟩, by decide⟩

theorem C15_rearm_from_now_witness :
    (timerQueue3.handleRead true idleBody 230 = Except.ok timerQueue3Late ∧
      repeatingTimer ∈ timerQueue3.batch 230 ∧ repeatingTimer.repeat_ = true ∧
      (∀ e' ∈ timerQueue3.batch 230,
        ¬ TimerAction.cancel repeatingTimer.id ∈ idleBody e'.id)) ∧
    (repeatingTimer.restart 230 =
        { repeatingTimer with expiration_ := 230 + repeatingTimer.interval_ } ∧
      (∃ x ∈ timerQueue3Late.timers_, x.addr = repeatingTimer.addr ∧
        x.expiration_ = 230 + repeatingTimer.interval_) ∧
      (true = true →
        { repeatingTimer with expiration_ := 230 + repeatingTimer.interval_ }
            ∈ timerQueue3Late.timers_ ∧
          { repeatingTimer with expiration_ := 230 + repeatingTimer.interval_ }
            ∈ timerQueue3Late.activeTimers_)) :=
  ⟨⟨rfl, by decide, rfl, fun _ _ h => absurd h (List.not_mem_nil _)⟩,
    C15_rearm_from_now true idleBody timerQueue3 timerQueue3Late 230 repeatingTimer rfl
      (by decide) rfl (fun _ _ h => absurd h (List.not_mem_nil _))⟩

theorem C14_getExpired_witness :
    timerQueue3.WF ∧
    ∃ expired q', timerQueue3.getExpired true 230 = Except.ok (expired, q') ∧
      expired = timerQueue3.timers_.filter (fun t => decide (t.expiration_ ≤ 230)) ∧
      (∀ t, t ∈ expired ↔ t ∈ timerQueue3.timers_ ∧ t.expiration_ ≤ 230) ∧
      TimersSorted expired ∧
      q'.timers_ = timerQueue3.timers_.filter (fun t => decide (230 < t.expiration_)) ∧
      q'.activeTimers_ =
        timerQueue3.activeTimers_.filter (fun t => decide (230 < t.expiration_)) ∧
      (∀ t, t ∈ q'.timers_ ↔ t ∈ timerQueue3.timers_ ∧ ¬ t ∈ expired) ∧
      (∀ t, t ∈ q'.activeTimers_ ↔ t ∈ timerQueue3.activeTimers_ ∧ ¬ t ∈ expired) ∧
      (∀ t ∈ q'.timers_, 230 < t.expiration_) ∧
      q'.WF :=
  ⟨by unfold TimerQueue.WF TimersSorted; decide,
    C14_getExpired true timerQueue3 230 (by unfold TimerQueue.WF TimersSorted; decide)⟩

/-! ### The microseconds of an interval -/

theorem earliest_iff_head {q : TimerQueue} (hs : TimersSorted q.timers_) (e : Nat) :
    q.Earliest e ↔ ∃ h, q.timers_.head? = some h ∧ h.expiration_ = e := by
  constructor
  · rintro ⟨⟨t, ht, hte⟩, hmin⟩
    cases hl : q.timers_ with
    | nil => rw [hl] at ht; cases ht
    | cons hd rest =>
      refine ⟨hd, rfl, ?_⟩
      have h1 := sorted_head_le hs (by rw [hl]; rfl) t ht
      have h2 := hmin hd (by rw [hl]; exact List.mem_cons.2 (Or.inl rfl))
      omega
  · rintro ⟨h, hh, rfl⟩
    exact ⟨⟨h, List.mem_of_mem_head? hh, rfl⟩, sorted_head_le hs hh⟩

theorem armedBy_iff {q : TimerQueue} (hs : TimersSorted q.timers_) :
    q.ArmedBy ↔ ∀ h, q.timers_.head? = some h → ∃ a, q.armed = some a ∧ a ≤ h.expiration_ := by
  constructor
  · rintro ⟨_, h⟩ hd hh
    exact h _ ((earliest_iff_head hs _).2 ⟨hd, hh, rfl⟩)
  · intro h
    refine ⟨hs, ?_⟩
    intro e he
    obtain ⟨hd, hh, rfl⟩ := (earliest_iff_head hs e).1 he
    exact h hd hh

theorem armedAtEarliest_iff {q : TimerQueue} (hs : TimersSorted q.timers_) :
    q.ArmedAtEarliest ↔ ∀ h, q.timers_.head? = some h → q.armed = some h.expiration_ := by
  constructor
  · intro h hd hh
    exact h _ ((earliest_iff_head hs _).2 ⟨hd, hh, rfl⟩)
  · intro h e he
    obtain ⟨hd, hh, rfl⟩ := (earliest_iff_head hs e).1 he
    exact h hd hh

theorem armedBy_sublist {q q' : TimerQueue} (h : q.ArmedBy)
    (hsub : q'.timers_.Sublist q.timers_) (ha : q'.armed = q.armed) : q'.ArmedBy := by
  have hs' : TimersSorted q'.timers_ := List.Pairwise.sublist hsub h.1
  rw [armedBy_iff hs']
  intro hd hh
  have hmem : hd ∈ q.timers_ := hsub.subset (List.mem_of_mem_head? hh)
  cases hl : q.timers_ with
  | nil => rw [hl] at hmem; cases hmem
  | cons h0 rest =>
    obtain ⟨a, h1, h2⟩ := (armedBy_iff h.1).1 h h0 (by rw [hl]; rfl)
    have := sorted_head_le h.1 (by rw [hl]; rfl) hd hmem
    exact ⟨a, by rw [ha]; exact h1, by omega⟩

theorem armedBy_addTimerInLoop {dbg : Bool} {q q' : TimerQueue} {timer : Timer}
    (h : q.ArmedBy) (hadd : q.addTimerInLoop dbg timer = Except.ok q') :
    q'.ArmedBy ∧ ((q.timers_ = [] ∨ q.ArmedAtEarliest) → q'.ArmedAtEarliest) ∧
      q'.timers_ ≠ [] := by
  obtain ⟨ht, _, _, _, _, harm, _⟩ := addTimerInLoop_eq hadd
  have hs' : TimersSorted q'.timers_ := by rw [ht]; exact setInsert_sorted _ _ h.1
  have hhead := setInsert_head timer q.timers_
  rw [← ht] at hhead
  rw [armedBy_iff hs', armedAtEarliest_iff hs']
  cases hl : q.timers_.head? with
  | none =>
    simp only [hl] at hhead harm
    simp only [if_true] at harm
    refine ⟨?_, ?_, ?_⟩
    · intro hd hh
      rw [hhead] at hh
      simp only [Option.some.injEq] at hh
      subst hh
      exact ⟨_, harm, Nat.le_refl _⟩
    · intro _ hd hh
      rw [hhead] at hh
      simp only [Option.some.injEq] at hh
      subst hh
      exact harm
    · intro hnil; rw [hnil] at hhead; cases hhead
  | some first =>
    simp only [hl] at hhead harm
    obtain ⟨a, ha1, ha2⟩ := (armedBy_iff h.1).1 h first hl
    by_cases hlt : timer.expiration_ < first.expiration_
    · have hel : entryLt timer.entry first.entry = true := by
        rw [entryLt_iff]; exact Or.inl hlt
      simp only [hel, if_true] at hhead
      simp only [hlt, decide_True, if_true] at harm
      refine ⟨?_, ?_, ?_⟩
      · intro hd hh
        rw [hhead] at hh
        simp only [Option.some.injEq] at hh
        subst hh
        exact ⟨_, harm, Nat.le_refl _⟩
      · intro _ hd hh
        rw [hhead] at hh
        simp only [Option.some.injEq] at hh
        subst hh
        exact harm
      · intro hnil; rw [hnil] at hhead; cases hhead
    · simp only [hlt, decide_False, Bool.false_eq_true, if_false] at harm
      have hexp : ∀ hd, q'.timers_.head? = some hd → hd.expiration_ = first.expiration_ := by
        intro hd hh
        rw [hhead] at hh
        split at hh
        · rename_i hel
          simp only [Option.some.injEq] at hh
          subst hh
          rw [entryLt_iff] at hel
          simp only [Timer.entry] at hel
          omega
        · simp only [Option.some.injEq] at hh
          subst hh; rfl
      refine ⟨?_, ?_, ?_⟩
      · intro hd hh
        exact ⟨a, by rw [harm]; exact ha1, by rw [hexp hd hh]; exact ha2⟩
      · intro hor hd hh
        rcases hor with hnil | hat
        · rw [hnil] at hl; cases hl
        · rw [harm, hexp hd hh]
          exact (armedAtEarliest_iff h.1).1 hat first hl
      · intro hnil
        rw [hnil] at hhead
        split at hhead <;> cases hhead

theorem armedBy_cancelInLoop {dbg : Bool} {q q' : TimerQueue} {timerId : TimerId}
    (h : q.ArmedBy) (hc : q.cancelInLoop dbg timerId = Except.ok q') :
    q'.ArmedBy ∧ q'.armed = q.armed := by
  cases hf : q.activeTimers_.find? (fun t => t.id == timerId) with
  | some it =>
    have := cancelInLoop_found hf hc
    subst this
    exact ⟨armedBy_sublist h (List.filter_sublist _) rfl, rfl⟩
  | none =>
    have := cancelInLoop_absent hf hc
    subst this
    split
    · exact ⟨armedBy_sublist h (List.Sublist.refl _) rfl, rfl⟩
    · exact ⟨h, rfl⟩

theorem armedBy_handleRead {dbg : Bool} {body : TimerId → List TimerAction}
    {q q' : TimerQueue} {now : Nat} (h : q.ArmedBy) (hnow : 0 < now)
    (hr : q.handleRead dbg body now = Except.ok q') :
    q'.ArmedBy ∧ q'.ArmedAtEarliest := by
  obtain ⟨expired, q1, q2, hg, hf, hreset⟩ := handleRead_spec hr
  obtain ⟨_, hq1⟩ := getExpired_eq hg
  have h1 : TimerQueue.ArmedBy
      { q1 with callingExpiredTimers_ := true, cancelingTimers_ := [] } := by
    subst hq1
    exact armedBy_sublist h (List.dropWhile_sublist _) rfl
  have h2 : q2.ArmedBy := by
    refine runTimers_preserve dbg body TimerQueue.ArmedBy expired
      (fun s id hs => armedBy_sublist hs (List.Sublist.refl _) rfl) ?_ _ _ h1 hf
    intro e _ a _ s s' hs hact
    cases a with
    | cancel timerId => exact (armedBy_cancelInLoop hs hact).1
    | addTimer timer => exact (armedBy_addTimerInLoop hs hact).1
  obtain ⟨q3, hloop, ht, _, _, _, _, harm⟩ := reset_spec hreset
  obtain ⟨_, i2, _, _, _, _, i7, _, _, i10⟩ := resetLoop_spec dbg now expired _ _ hloop
  simp only at i2 i7 i10
  have hs3 : TimersSorted q3.timers_ := i10 h2.1
  have hs' : TimersSorted q'.timers_ := by rw [ht]; exact hs3
  have key : ∀ hd, q'.timers_.head? = some hd → q'.armed = some hd.expiration_ := by
    intro hd hh
    rw [ht] at hh
    rw [harm hd hh]
    by_cases hpos : 0 < hd.expiration_
    · simp only [hpos, if_true]
    · simp only [hpos, if_false]
      have hmem := List.mem_of_mem_head? hh
      rcases i7 hd hmem with hin | ⟨e, _, hrep, _, hx⟩
      · cases hl : q2.timers_ with
        | nil => rw [hl] at hin; cases hin
        | cons h0 rest =>
          obtain ⟨a, ha1, ha2⟩ := (armedBy_iff h2.1).1 h2 h0 (by rw [hl]; rfl)
          have := sorted_head_le h2.1 (by rw [hl]; rfl) hd hin
          rw [i2, ha1]
          congr 1
          omega
      · rw [hx, restart_repeat e now hrep] at hpos
        simp only at hpos
        omega
  refine ⟨(armedBy_iff hs').2 ?_, (armedAtEarliest_iff hs').2 key⟩
  intro hd hh
  exact ⟨_, key hd hh, Nat.le_refl _⟩

theorem armedBy_new : TimerQueue.new.ArmedBy := by
  refine ⟨by simp [TimerQueue.new, TimersSorted], ?_⟩
  rintro e ⟨⟨t, ht, _⟩, _⟩
  simp [TimerQueue.new] at ht

theorem timerQueue3_armedBy : timerQueue3.ArmedBy := by
  rw [armedBy_iff (by unfold TimersSorted; decide)]
  intro hd hh
  have h0 : timerQueue3.timers_.head? = some (Timer.mk 16 100 0 false 1) := by decide
  rw [h0] at hh
  simp only [Option.some.injEq] at hh
  subst hh
  exact ⟨100, by decide, by decide⟩

theorem resetTimerfd_fires (q : TimerQueue) (expiration : Nat) :
    (q.resetTimerfd expiration).fires = some (max expiration (q.clock + 100)) ∧
    (q.resetTimerfd expiration).clock = q.clock ∧
    (q.resetTimerfd expiration).armed = some expiration := by
  refine ⟨?_, rfl, rfl⟩
  simp only [TimerQueue.resetTimerfd, howMuchTimeFromNow, Option.some.injEq]
  split <;> omega

theorem addTimerInLoop_fires {dbg : Bool} {q q' : TimerQueue} {timer : Timer}
    (h : q.addTimerInLoop dbg timer = Except.ok q') :
    q'.clock = q.clock ∧
    q'.fires = (if (match q.timers_.head? with
        | none => true
        | some first => decide (timer.expiration_ < first.expiration_)) = true
      then some (max timer.expiration_ (q.clock + 100)) else q.fires) := by
  unfold TimerQueue.addTimerInLoop at h
  cases hi : q.insert dbg timer with
  | error e => simp only [hi, bind, Except.bind] at h; cases h
  | ok r =>
    obtain ⟨ec, q1⟩ := r
    simp only [hi, bind, Except.bind] at h
    obtain ⟨h1, h2, h3⟩ := insert_eq hi
    subst h1
    cases ec with
    | true =>
      simp only [if_true, pure, Except.pure, Except.ok.injEq] at h
      subst h
      rw [← h2]
      exact ⟨rfl, by simp only [if_true]; exact (resetTimerfd_fires _ _).1⟩
    | false =>
      simp only [Bool.false_eq_true, if_false, pure, Except.pure, Except.ok.injEq] at h
      subst h
      rw [← h2]
      exact ⟨rfl, by simp⟩

theorem cancelInLoop_fires {dbg : Bool} {q q' : TimerQueue} {timerId : TimerId}
    (hc : q.cancelInLoop dbg timerId = Except.ok q') :
    q'.clock = q.clock ∧ q'.fires = q.fires := by
  cases hf : q.activeTimers_.find? (fun t => t.id == timerId) with
  | some it =>
    have := cancelInLoop_found hf hc
    subst this
    exact ⟨rfl, rfl⟩
  | none =>
    have := cancelInLoop_absent hf hc
    subst this
    split <;> exact ⟨rfl, rfl⟩

theorem resetLoop_fires (dbg : Bool) (now : Nat) (expired : List Timer) :
    ∀ (q q' : TimerQueue), TimerQueue.resetLoop dbg now q expired = Except.ok q' →
      q'.clock = q.clock ∧ q'.fires = q.fires := by
  induction expired with
  | nil =>
    intro q q' h
    simp only [TimerQueue.resetLoop, pure, Except.pure, Except.ok.injEq] at h
    subst h
    exact ⟨rfl, rfl⟩
  | cons it rest ih =>
    intro q q' h
    unfold TimerQueue.resetLoop at h
    split at h
    · cases hi : q.insert dbg (it.restart now) with
      | error e => simp only [hi, bind, Except.bind] at h; cases h
      | ok r =>
        obtain ⟨ec, q1⟩ := r
        simp only [hi, bind, Except.bind] at h
        obtain ⟨h1, _, _⟩ := insert_eq hi
        subst h1
        have := ih _ _ h
        exact this
    · exact ih _ _ h

theorem handleRead_fires {dbg : Bool} {body : TimerId → List TimerAction}
    {q q' : TimerQueue} {now : Nat} (hr : q.handleRead dbg body now = Except.ok q') :
    q'.clock = q.clock ∧
    ∀ hd, q'.timers_.head? = some hd → 0 < hd.expiration_ →
      q'.fires = some (max hd.expiration_ (q.clock + 100)) := by
  obtain ⟨expired, q1, q2, hg, hf, hreset⟩ := handleRead_spec hr
  obtain ⟨_, hq1⟩ := getExpired_eq hg
  have h1 : ({ q1 with callingExpiredTimers_ := true, cancelingTimers_ := [] } :
      TimerQueue).clock = q.clock := by
    subst hq1; rfl
  have h2 : q2.clock = q.clock := by
    refine runTimers_preserve dbg body (fun s => s.clock = q.clock) expired
      (fun s id hs => hs) ?_ _ _ h1 hf
    intro e _ a _ s s' hs hact
    cases a with
    | cancel timerId => exact (cancelInLoop_fires hact).1.trans hs
    | addTimer timer => exact (addTimerInLoop_fires hact).1.trans hs
  unfold TimerQueue.reset at hreset
  cases hl : TimerQueue.resetLoop dbg now { q2 with callingExpiredTimers_ := false } expired with
  | error e => simp only [hl, bind, Except.bind] at hreset; cases hreset
  | ok q3 =>
    simp only [hl, bind, Except.bind] at hreset
    have h3 : q3.clock = q.clock := (resetLoop_fires dbg now expired _ _ hl).1.trans h2
    split at hreset
    · simp only [pure, Except.pure, Except.ok.injEq] at hreset
      subst hreset
      refine ⟨h3, ?_⟩
      intro hd hh _
      have hh' : q3.timers_.head? = some hd := hh
      rw [(resetTimerfd_fires _ _).1, h3]
      simp only [hh']
    · simp only [pure, Except.pure, Except.ok.injEq] at hreset
      subst hreset
      refine ⟨h3, ?_⟩
      intro hd hh hpos
      rename_i hv
      simp only [hh, Timestamp.valid, decide_eq_true_eq] at hv
      exact absurd hpos hv

theorem armedBy_atTime {q : TimerQueue} (h : q.ArmedBy) (t : Nat) : (q.atTime t).ArmedBy :=
  armedBy_sublist h (List.Sublist.refl _) rfl

/-- C17 (amended): in a queue whose descriptor was last armed with an
expiration that is at most the smallest one in the set (true of the empty
queue and kept by every operation), addTimerInLoop leaves the set non-empty
and the descriptor armed with the smallest expiration whenever that held
before the call or the set was empty; handleRead at a valid time leaves the
descriptor armed with the smallest expiration of the set it leaves;
cancelInLoop does not arm the descriptor, so after it the armed expiration is
only known to be at most the smallest expiration in the set.  Arming with an
expiration makes the descriptor readable at that expiration or, when that is
less than 100 microseconds after the clock reading of the call, 100
microseconds after that reading. -/
theorem C17_armed_with_earliest (dbg : Bool) (body : TimerId → List TimerAction)
    (q q' : TimerQueue) (h : q.ArmedBy) :
    (∀ timer, q.addTimerInLoop dbg timer = Except.ok q' →
      q'.ArmedBy ∧ q'.timers_ ≠ [] ∧
        ((q.timers_ = [] ∨ q.ArmedAtEarliest) → q'.ArmedAtEarliest) ∧
        (q'.armed = q.armed ∧ q'.fires = q.fires ∨
          q'.armed = some timer.expiration_ ∧
            q'.fires = some (max timer.expiration_ (q.clock + 100)))) ∧
    (∀ timerId, q.cancelInLoop dbg timerId = Except.ok q' →
      q'.ArmedBy ∧ q'.armed = q.armed ∧ q'.fires = q.fires) ∧
    (∀ now, 0 < now → q.handleRead dbg body now = Except.ok q' →
      q'.ArmedBy ∧ q'.ArmedAtEarliest ∧
        ∀ hd, q'.timers_.head? = some hd → 0 < hd.expiration_ →
          q'.armed = some hd.expiration_ ∧
            q'.fires = some (max hd.expiration_ (q.clock + 100))) := by
  refine ⟨?_, ?_, ?_⟩
  · intro timer hadd
    obtain ⟨h1, h2, h3⟩ := armedBy_addTimerInLoop h hadd
    obtain ⟨_, _, _, _, _, ha, _⟩ := addTimerInLoop_eq hadd
    obtain ⟨_, hf⟩ := addTimerInLoop_fires hadd
    refine ⟨h1, h3, h2, ?_⟩
    split at ha
    · rename_i hc
      rw [if_pos hc] at hf
      exact Or.inr ⟨ha, hf⟩
    · rename_i hc
      rw [if_neg hc] at hf
      exact Or.inl ⟨ha, hf⟩
  · intro timerId hc
    exact ⟨(armedBy_cancelInLoop h hc).1, (armedBy_cancelInLoop h hc).2,
      (cancelInLoop_fires hc).2⟩
  · intro now hnow hr
    obtain ⟨h1, h2⟩ := armedBy_handleRead h hnow hr
    refine ⟨h1, h2, ?_⟩
    intro hd hh hpos
    exact ⟨(armedAtEarliest_iff h1.1).1 h2 hd hh, (handleRead_fires hr).2 hd hh hpos⟩

/-- C17 (as stated) fails for cancelInLoop: the queue of the three timers is
armed with its smallest expiration 100; after the timer expiring at 100 is
cancelled the set is not empty, its smallest expiration is 200, and the
descriptor is still armed with 100. -/
theorem C17_cancel_keeps_old_arming :
    timerQueue3.Earliest 100 ∧ timerQueue3.armed = some 100 ∧
    timerQueue3.cancelInLoop true (16, 1) = Except.ok timerQueue3Cancelled ∧
    timerQueue3Cancelled.timers_ ≠ [] ∧ timerQueue3Cancelled.Earliest 200 ∧
    timerQueue3Cancelled.armed = some 100 :=
  ⟨by unfold TimerQueue.Earliest; decide, by decide, rfl, by decide,
    by unfold TimerQueue.Earliest; decide, by decide⟩

theorem C17_armed_with_earliest_witness :
    timerQueue3At230.ArmedBy ∧ timerQueue3At230.clock = 230 ∧
    (timerQueue3At230.addTimerInLoop true soonTimer = Except.ok timerQueue3Soon ∧
      timerQueue3Soon.ArmedBy ∧ timerQueue3Soon.timers_ ≠ [] ∧
      timerQueue3Soon.ArmedAtEarliest ∧ timerQueue3Soon.armed = some 50 ∧
      timerQueue3Soon.fires = some 330) ∧
    (timerQueue3At230.cancelInLoop true (16, 1) = Except.ok timerQueue3CancelledAt230 ∧
      timerQueue3CancelledAt230.ArmedBy ∧
      timerQueue3CancelledAt230.armed = timerQueue3At230.armed ∧
      timerQueue3CancelledAt230.fires = timerQueue3At230.fires) ∧
    (timerQueue3At230.handleRead true idleBody 230 = Except.ok timerQueue3LateAt230 ∧
      timerQueue3LateAt230.ArmedBy ∧ timerQueue3LateAt230.ArmedAtEarliest ∧
      timerQueue3LateAt230.Earliest 280 ∧ timerQueue3LateAt230.armed = some 280 ∧
      timerQueue3LateAt230.fires = some 330) := by
  have hq : timerQueue3At230.ArmedBy := armedBy_atTime timerQueue3_armedBy 230
  have hadd : timerQueue3At230.addTimerInLoop true soonTimer = Except.ok timerQueue3Soon := rfl
  have hcan : timerQueue3At230.cancelInLoop true (16, 1)
      = Except.ok timerQueue3CancelledAt230 := rfl
  have hrd : timerQueue3At230.handleRead true idleBody 230
      = Except.ok timerQueue3LateAt230 := rfl
  have hat : timerQueue3At230.ArmedAtEarliest := by
    rw [armedAtEarliest_iff hq.1]
    intro hd hh
    have h0 : timerQueue3At230.timers_.head? = some (Timer.mk 16 100 0 false 1) := by decide
    rw [h0] at hh
    simp only [Option.some.injEq] at hh
    subst hh
    decide
  obtain ⟨a1, a2, a3, _⟩ :=
    (C17_armed_with_earliest true idleBody timerQueue3At230 timerQueue3Soon hq).1 soonTimer hadd
  obtain ⟨c1, c2, c3⟩ :=
    (C17_armed_with_earliest true idleBody timerQueue3At230 timerQueue3CancelledAt230 hq).2.1 (16, 1) hcan
  obtain ⟨r1, r2, r3⟩ :=
    (C17_armed_with_earliest true idleBody timerQueue3At230 timerQueue3LateAt230 hq).2.2 230 (by decide) hrd
  have hhead : timerQueue3LateAt230.timers_.head? = some (Timer.mk 32 280 50 true 2) := by
    decide
  obtain ⟨r4, r5⟩ := r3 _ hhead (by decide)
  exact ⟨hq, rfl, ⟨hadd, a1, a2, a3 (Or.inr hat), by decide, by decide⟩,
    ⟨hcan, c1, c2, c3⟩,
    ⟨hrd, r1, r2, by unfold TimerQueue.Earliest; decide, r4, r5⟩⟩

/-! ### Cancelling a timer -/

theorem restart_id (e : Timer) (now : Nat) : (e.restart now).id = e.id := by
  unfold Timer.restart
  split <;> rfl

theorem gone_act {dbg : Bool} {tid : TimerId} {q q' : TimerQueue} {a : TimerAction}
    (hadd : ∀ x, a = TimerAction.addTimer x → x.id ≠ tid)
    (h : Gone tid q) (hact : TimerQueue.act dbg q a = Except.ok q') :
    Gone tid q' ∧ (tid ∈ q.cancelingTimers_ → tid ∈ q'.cancelingTimers_) ∧
      (a = TimerAction.cancel tid → tid ∈ q'.cancelingTimers_) := by
  obtain ⟨hc, ha, ht⟩ := h
  cases a with
  | cancel timerId =>
    simp only [TimerQueue.act] at hact
    cases hf : q.activeTimers_.find? (fun t => t.id == timerId) with
    | some it =>
      have := cancelInLoop_found hf hact
      subst this
      refine ⟨⟨hc, ?_, ?_⟩, fun h => h, ?_⟩
      · intro x hx; exact ha x (List.mem_filter.1 hx).1
      · intro x hx; exact ht x (List.mem_filter.1 hx).1
      · intro heq
        simp only [TimerAction.cancel.injEq] at heq
        subst heq
        have hmem := List.mem_of_find?_eq_some hf
        have hid := List.find?_some hf
        simp only [beq_iff_eq] at hid
        exact absurd hid (ha it hmem)
    | none =>
      have := cancelInLoop_absent hf hact
      subst this
      simp only [hc, if_true]
      refine ⟨⟨rfl, ha, ht⟩, ?_, ?_⟩
      · intro h; exact (mem_cancelingInsert _ _ _).2 (Or.inr h)
      · intro heq
        simp only [TimerAction.cancel.injEq] at heq
        subst heq
        exact (mem_cancelingInsert _ _ _).2 (Or.inl rfl)
  | addTimer timer =>
    simp only [TimerQueue.act] at hact
    obtain ⟨h1, h2, h3, h4, _⟩ := addTimerInLoop_eq hact
    refine ⟨⟨by rw [h3]; exact hc, ?_, ?_⟩, by rw [h4]; exact fun h => h, ?_⟩
    · intro x hx
      rw [h2] at hx
      rcases activeInsert_subset _ _ x hx with rfl | hx'
      · exact hadd _ rfl
      · exact ha x hx'
    · intro x hx
      rw [h1] at hx
      rcases setInsert_subset _ _ x hx with rfl | hx'
      · exact hadd _ rfl
      · exact ht x hx'
    · intro heq; cases heq

/-- A timer of the batch that a callback of the batch cancels is in neither
set when handleRead returns. -/
theorem handleRead_cancelled {dbg : Bool} {body : TimerId → List TimerAction}
    {q q' : TimerQueue} {now : Nat} {e : Timer}
    (h : q.handleRead dbg body now = Except.ok q')
    (hnd : (q.timers_.map Timer.id).Nodup)
    (he : e ∈ q.batch now)
    (hc : ∃ e' ∈ q.batch now, TimerAction.cancel e.id ∈ body e'.id)
    (hadd : ∀ e' ∈ q.batch now, ∀ x, TimerAction.addTimer x ∈ body e'.id → x.id ≠ e.id) :
    (∀ x ∈ q'.timers_, x.id ≠ e.id) ∧ (∀ x ∈ q'.activeTimers_, x.id ≠ e.id) := by
  obtain ⟨expired, q1, q2, hg, hf, hreset⟩ := handleRead_spec h
  obtain ⟨hexp, hq1⟩ := getExpired_eq hg
  have hb : expired = q.batch now := hexp
  rw [← hb] at he hc hadd
  obtain ⟨e0, he0, ha0⟩ := hc
  have hP : Gone e.id { q1 with callingExpiredTimers_ := true, cancelingTimers_ := [] } := by
    subst hq1
    refine ⟨rfl, ?_, ?_⟩
    · intro x hx
      have := (List.mem_filter.1 hx).2
      simp only [Bool.not_eq_true', ← Bool.not_eq_true, contains_id_iff] at this
      intro hid
      exact this (by rw [hid]; exact List.mem_map_of_mem Timer.id he)
    · intro x hx hid
      simp only at hx
      rw [← List.takeWhile_append_dropWhile (fun t => entryLt t.entry (now, UINTPTR_MAX))
        q.timers_, List.map_append] at hnd
      have hdis := List.disjoint_of_nodup_append hnd
      rw [hexp] at he
      exact hdis (List.mem_map_of_mem Timer.id he) (by rw [← hid]; exact List.mem_map_of_mem Timer.id hx)
  have hQ : Gone e.id q2 ∧ e.id ∈ q2.cancelingTimers_ := by
    refine runTimers_establish dbg body (Gone e.id)
      (fun s => Gone e.id s ∧ e.id ∈ s.cancelingTimers_) expired
      (fun s id hs => hs) (fun s id hs => hs) ?_ ?_ e0 he0 _ ha0 ?_ _ _ hP hf
    · intro e' he' a ha s s' hs hact
      exact (gone_act (fun x hx => hadd e' he' x (hx ▸ ha)) hs hact).1
    · intro e' he' a ha s s' hs hact
      obtain ⟨g1, g2, _⟩ := gone_act (fun x hx => hadd e' he' x (hx ▸ ha)) hs.1 hact
      exact ⟨g1, g2 hs.2⟩
    · intro s s' hs hact
      obtain ⟨g1, _, g3⟩ := gone_act (fun x hx => by cases hx) hs hact
      exact ⟨g1, g3 rfl⟩
  obtain ⟨q3, hloop, ht, ha, _⟩ := reset_spec hreset
  obtain ⟨_, _, _, _, _, _, i7, i8, _, _⟩ := resetLoop_spec dbg now expired _ _ hloop
  simp only at i7 i8
  obtain ⟨⟨_, g2, g3⟩, g4⟩ := hQ
  refine ⟨?_, ?_⟩
  · intro x hx
    rw [ht] at hx
    rcases i7 x hx with h1 | ⟨e', _, _, hn, rfl⟩
    · exact g3 x h1
    · rw [restart_id]
      intro hid
      exact hn (by rw [hid]; exact g4)
  · intro x hx
    rw [ha] at hx
    rcases i8 x hx with h1 | ⟨e', _, _, hn, rfl⟩
    · exact g2 x h1
    · rw [restart_id]
      intro hid
      exact hn (by rw [hid]; exact g4)

theorem filter_eq_length_one {l : List Timer} (hn : l.Nodup) {it : Timer} (hi : it ∈ l) :
    (l.filter (fun t => t == it)).length = 1 := by
  have := List.count_eq_one_of_mem hn hi
  simpa [List.count, List.countP_eq_length_filter] using this

/-- cancelInLoop of a timer that is in `activeTimers_`: it returns, and the
timer is erased from both sets. -/
theorem cancelInLoop_live (dbg : Bool) (q : TimerQueue) (it : Timer) (h : q.WF)
    (hi : it ∈ q.activeTimers_) :
    q.cancelInLoop dbg it.id = Except.ok
      { q with timers_ := q.timers_.filter (fun t => t != it)
               activeTimers_ := q.activeTimers_.filter (fun t => t != it) } := by
  obtain ⟨hs, ha, hperm, hnd⟩ := h
  have hit : it ∈ q.timers_ := hperm.mem_iff.1 hi
  have hfind : q.activeTimers_.find? (fun t => t.id == it.id) = some it := by
    cases hf : q.activeTimers_.find? (fun t => t.id == it.id) with
    | none =>
      exact absurd rfl ((find?_id_none_iff _ _).1 hf it hi)
    | some it' =>
      have h1 := List.mem_of_find?_eq_some hf
      have h2 := List.find?_some hf
      simp only [beq_iff_eq] at h2
      rw [perm_ids_inj hnd h1 hi h2]
  have hT : q.timers_.filter (fun t => t.entry != (it.expiration_, it.addr)) =
      q.timers_.filter (fun t => t != it) := by
    apply List.filter_congr
    intro x hx
    rw [Bool.eq_iff_iff]
    simp only [bne_iff_ne, ne_eq]
    constructor
    · intro h1 h2; exact h1 (by rw [h2]; rfl)
    · intro h1 h2; exact h1 (sorted_entries_inj hs hx hit h2)
  have hT2 : q.timers_.filter (fun t => t.entry == (it.expiration_, it.addr)) =
      q.timers_.filter (fun t => t == it) := by
    apply List.filter_congr
    intro x hx
    rw [Bool.eq_iff_iff]
    simp only [beq_iff_eq]
    constructor
    · intro h2; exact sorted_entries_inj hs hx hit h2
    · intro h2; rw [h2]; rfl
  have hA : q.activeTimers_.filter (fun t => t.id != it.id) =
      q.activeTimers_.filter (fun t => t != it) := by
    apply List.filter_congr
    intro x hx
    rw [Bool.eq_iff_iff]
    simp only [bne_iff_ne, ne_eq]
    constructor
    · intro h1 h2; exact h1 (by rw [h2])
    · intro h1 h2; exact h1 (perm_ids_inj hnd hx hi h2)
  have hcnt : (q.timers_.filter (fun t => t == it)).length = 1 :=
    filter_eq_length_one (nodup_of_sorted hs) hit
  have hlen : q.timers_.length = q.activeTimers_.length := hperm.length_eq.symm
  have hlen2 : (q.timers_.filter (fun t => t != it)).length =
      (q.activeTimers_.filter (fun t => t != it)).length := (hperm.filter _).length_eq.symm
  unfold TimerQueue.cancelInLoop
  simp only [hlen, beq_self_eq_true, assertE_true, hfind, setErase, activeErase, hT, hT2, hcnt,
    hA, hlen2, bind, Except.bind, pure, Except.pure]

theorem WF_filter {q : TimerQueue} (h : q.WF) (p : Timer → Bool) :
    TimerQueue.WF { q with timers_ := q.timers_.filter p
                           activeTimers_ := q.activeTimers_.filter p } := by
  obtain ⟨hs, ha, hperm, hnd⟩ := h
  refine ⟨List.Pairwise.filter _ hs, ?_, hperm.filter _, ?_⟩
  · intro t ht; exact ha t (List.mem_filter.1 ht).1
  · exact (List.Sublist.map Timer.id (List.filter_sublist q.activeTimers_)).nodup hnd

/-- C18: if a callback of the batch that handleRead processes cancels a timer
of that batch, and no timer added by those callbacks carries its id, then
when handleRead returns the timer is in neither `timers_` nor
`activeTimers_`, and no later getExpired returns it: it never fires again.
cancelInLoop of a timer that is in `activeTimers_` returns with the timer
erased from both sets, the other timers kept, so no later getExpired returns
it: it never fires. -/
theorem C18_cancelled_never_fires (dbg : Bool) (body : TimerId → List TimerAction)
    (q q' : TimerQueue) (now : Nat) (e : Timer)
    (h : q.handleRead dbg body now = Except.ok q')
    (hnd : (q.timers_.map Timer.id).Nodup)
    (he : e ∈ q.batch now)
    (hc : ∃ e' ∈ q.batch now, TimerAction.cancel e.id ∈ body e'.id)
    (hadd : ∀ e' ∈ q.batch now, ∀ x, TimerAction.addTimer x ∈ body e'.id → x.id ≠ e.id) :
    ((∀ x ∈ q'.timers_, x.id ≠ e.id) ∧ (∀ x ∈ q'.activeTimers_, x.id ≠ e.id) ∧
      (∀ later, ∀ x ∈ q'.batch later, x.id ≠ e.id)) ∧
    (∀ (q0 : TimerQueue) (it : Timer), q0.WF → it ∈ q0.activeTimers_ →
      ∃ q1, q0.cancelInLoop dbg it.id = Except.ok q1 ∧
        q1.timers_ = q0.timers_.filter (fun t => t != it) ∧
        q1.activeTimers_ = q0.activeTimers_.filter (fun t => t != it) ∧
        (∀ x ∈ q1.timers_, x.id ≠ it.id) ∧ (∀ x ∈ q1.activeTimers_, x.id ≠ it.id) ∧
        (∀ later, ∀ x ∈ q1.batch later, x.id ≠ it.id) ∧ q1.WF) := by
  obtain ⟨h1, h2⟩ := handleRead_cancelled h hnd he hc hadd
  refine ⟨⟨h1, h2, ?_⟩, ?_⟩
  · intro later x hx
    exact h1 x ((List.takeWhile_sublist _).subset hx)
  · intro q0 it hwf hi
    have hA : ∀ x ∈ q0.activeTimers_.filter (fun t => t != it), x.id ≠ it.id := by
      intro x hx hid
      obtain ⟨hx1, hx2⟩ := List.mem_filter.1 hx
      simp only [bne_iff_ne, ne_eq] at hx2
      exact hx2 (perm_ids_inj hwf.2.2.2 hx1 hi hid)
    have hT : ∀ x ∈ q0.timers_.filter (fun t => t != it), x.id ≠ it.id := by
      intro x hx
      obtain ⟨hx1, hx2⟩ := List.mem_filter.1 hx
      exact hA x (List.mem_filter.2 ⟨hwf.2.2.1.mem_iff.2 hx1, hx2⟩)
    refine ⟨_, cancelInLoop_live dbg q0 it hwf hi, rfl, rfl, hT, hA, ?_, WF_filter hwf _⟩
    intro later x hx
    exact hT x ((List.takeWhile_sublist _).subset hx)

theorem cancelBody_adds_nothing (id : TimerId) (x : Timer) :
    ¬ TimerAction.addTimer x ∈ cancelBody id := by
  intro hx
  unfold cancelBody at hx
  split at hx <;> simp at hx

theorem C18_cancelled_never_fires_witness :
    (timerQueue3.handleRead true cancelBody 230 = Except.ok timerQueue3Stopped ∧
      (timerQueue3.timers_.map Timer.id).Nodup ∧
      repeatingTimer ∈ timerQueue3.batch 230 ∧
      (∃ e' ∈ timerQueue3.batch 230, TimerAction.cancel repeatingTimer.id ∈ cancelBody e'.id) ∧
      (∀ e' ∈ timerQueue3.batch 230, ∀ x, TimerAction.addTimer x ∈ cancelBody e'.id →
        x.id ≠ repeatingTimer.id)) ∧
    (((∀ x ∈ timerQueue3Stopped.timers_, x.id ≠ repeatingTimer.id) ∧
        (∀ x ∈ timerQueue3Stopped.activeTimers_, x.id ≠ repeatingTimer.id) ∧
        (∀ later, ∀ x ∈ timerQueue3Stopped.batch later, x.id ≠ repeatingTimer.id)) ∧
      (∀ (q0 : TimerQueue) (it : Timer), q0.WF → it ∈ q0.activeTimers_ →
        ∃ q1, q0.cancelInLoop true it.id = Except.ok q1 ∧
          q1.timers_ = q0.timers_.filter (fun t => t != it) ∧
          q1.activeTimers_ = q0.activeTimers_.filter (fun t => t != it) ∧
          (∀ x ∈ q1.timers_, x.id ≠ it.id) ∧ (∀ x ∈ q1.activeTimers_, x.id ≠ it.id) ∧
          (∀ later, ∀ x ∈ q1.batch later, x.id ≠ it.id) ∧ q1.WF)) ∧
    timerQueue3Stopped.timers_.map Timer.id = [(48, 3)] :=
  ⟨⟨rfl, by decide, by decide, by decide,
      fun e' _ x hx => absurd hx (cancelBody_adds_nothing e'.id x)⟩,
    C18_cancelled_never_fires true cancelBody timerQueue3 timerQueue3Stopped 230
      repeatingTimer rfl (by decide) (by decide) (by decide)
      (fun e' _ x hx => absurd hx (cancelBody_adds_nothing e'.id x)),
    by decide⟩

/-! ### Timer ids -/

theorem wrapInt64_of_range {x : Int} (h1 : -9223372036854775808 ≤ x)
    (h2 : x < 9223372036854775808) : wrapInt64 x = x := by
  unfold wrapInt64
  omega

theorem createTimers_sequences (specs : List (Nat × Nat × Double)) :
    ∀ (c : Int), -9223372036854775808 ≤ c → c + specs.length < 9223372036854775808 →
      (∀ t ∈ createTimers c specs, c < t.sequence_) ∧
      (createTimers c specs).Pairwise (fun a b => a.sequence_ < b.sequence_) := by
  induction specs with
  | nil =>
    intro c _ _
    exact ⟨fun t ht => by simp [createTimers] at ht, by simp [createTimers]⟩
  | cons s rest ih =>
    intro c h1 h2
    obtain ⟨addr, when, interval⟩ := s
    simp only [List.length_cons, Nat.cast_add, Nat.cast_one] at h2
    have hw : wrapInt64 (c + 1) = c + 1 := wrapInt64_of_range (by omega) (by omega)
    obtain ⟨i1, i2⟩ := ih (c + 1) (by omega) (by omega)
    simp only [createTimers, Timer.new, incrementAndGet, hw]
    refine ⟨?_, ?_⟩
    · intro t ht
      rcases List.mem_cons.1 ht with rfl | ht'
      · simp
      · have := i1 t ht'; omega
    · rw [List.pairwise_cons]
      exact ⟨fun t ht => i1 t ht, i2⟩

theorem cancelInLoop_unknown (dbg : Bool) (q : TimerQueue) (timerId : TimerId)
    (hlen : q.timers_.length = q.activeTimers_.length)
    (habs : ∀ t ∈ q.activeTimers_, t.id ≠ timerId) :
    q.cancelInLoop dbg timerId = Except.ok
      (if q.callingExpiredTimers_ then
        { q with cancelingTimers_ := cancelingInsert timerId q.cancelingTimers_ } else q) := by
  have hfind := (find?_id_none_iff q.activeTimers_ timerId).2 habs
  unfold TimerQueue.cancelInLoop
  cases hc : q.callingExpiredTimers_ <;>
    simp only [hlen, beq_self_eq_true, assertE_true, hfind, hc, if_true, if_false,
      Bool.false_eq_true, bind, Except.bind, pure, Except.pure]

/-- C19: cancelInLoop(id) with an id that is not the key of a timer in
`activeTimers_` returns and leaves `timers_`, `activeTimers_` and the armed
expiration unchanged (at most the id is noted in `cancelingTimers_` while
callbacks run); a timer in the set at the same address has another sequence
number and stays.  Timers created one after another, as long as the 64-bit
counter does not wrap, get strictly increasing sequence numbers, so no two
of them share an id. -/
theorem C19_cancel_unknown_id (dbg : Bool) (q : TimerQueue) (timerId : TimerId)
    (hlen : q.timers_.length = q.activeTimers_.length)
    (habs : ∀ t ∈ q.activeTimers_, t.id ≠ timerId) :
    (∃ q', q.cancelInLoop dbg timerId = Except.ok q' ∧
      q'.timers_ = q.timers_ ∧ q'.activeTimers_ = q.activeTimers_ ∧ q'.armed = q.armed ∧
      (∀ t ∈ q.activeTimers_, t.addr = timerId.1 →
        t.sequence_ ≠ timerId.2 ∧ t ∈ q'.activeTimers_)) ∧
    (∀ (c : Int) (specs : List (Nat × Nat × Double)),
      -9223372036854775808 ≤ c → c + specs.length < 9223372036854775808 →
      (createTimers c specs).Pairwise (fun a b => a.sequence_ < b.sequence_) ∧
      ((createTimers c specs).map Timer.id).Nodup) := by
  refine ⟨⟨_, cancelInLoop_unknown dbg q timerId hlen habs, ?_, ?_, ?_, ?_⟩, ?_⟩
  · split <;> rfl
  · split <;> rfl
  · split <;> rfl
  · intro t ht haddr
    refine ⟨?_, by split <;> exact ht⟩
    intro hseq
    exact habs t ht (by
      obtain ⟨a, s⟩ := timerId
      simp only [Timer.id, Prod.mk.injEq]
      exact ⟨haddr, hseq⟩)
  · intro c specs h1 h2
    obtain ⟨_, hp⟩ := createTimers_sequences specs c h1 h2
    refine ⟨hp, ?_⟩
    rw [List.Nodup, List.pairwise_map]
    refine List.Pairwise.imp ?_ hp
    intro a b hlt heq
    simp only [Timer.id, Prod.mk.injEq] at heq
    omega

theorem C19_cancel_unknown_id_witness :
    (timerQueue3Late.timers_.length = timerQueue3Late.activeTimers_.length ∧
      (∀ t ∈ timerQueue3Late.activeTimers_, t.id ≠ (16, 1))) ∧
    ((∃ q', timerQueue3Late.cancelInLoop true (16, 1) = Except.ok q' ∧
        q'.timers_ = timerQueue3Late.timers_ ∧
        q'.activeTimers_ = timerQueue3Late.activeTimers_ ∧
        q'.armed = timerQueue3Late.armed ∧
        (∀ t ∈ timerQueue3Late.activeTimers_, t.addr = ((16, 1) : TimerId).1 →
          t.sequence_ ≠ ((16, 1) : TimerId).2 ∧ t ∈ q'.activeTimers_)) ∧
      (∀ (c : Int) (specs : List (Nat × Nat × Double)),
        -9223372036854775808 ≤ c → c + specs.length < 9223372036854775808 →
        (createTimers c specs).Pairwise (fun a b => a.sequence_ < b.sequence_) ∧
        ((createTimers c specs).map Timer.id).Nodup)) ∧
    threeTimers.map Timer.id = [(16, 1), (32, 2), (48, 3)] :=
  ⟨⟨by decide, by decide⟩,
    C19_cancel_unknown_id true timerQueue3Late (16, 1) (by decide) (by decide),
    by decide⟩

/-! ### With NDEBUG every TimerQueue operation returns -/

theorem foldlM_total {ε σ α : Type} (f : σ → α → Except ε σ)
    (hf : ∀ s a, ∃ s', f s a = Except.ok s') (l : List α) :
    ∀ s, ∃ s', l.foldlM f s = Except.ok s' := by
  induction l with
  | nil => intro s; exact ⟨s, rfl⟩
  | cons a l ih =>
    intro s
    obtain ⟨s1, h1⟩ := hf s a
    obtain ⟨s2, h2⟩ := ih s1
    exact ⟨s2, by simp only [List.foldlM, h1, bind, Except.bind]; exact h2⟩

theorem eraseExpired_release (expired : List Timer) :
    ∀ active, ∃ r, eraseExpired false active expired = Except.ok r := by
  induction expired with
  | nil => intro active; exact ⟨active, rfl⟩
  | cons it rest ih =>
    intro active
    obtain ⟨r, hr⟩ := ih (activeErase it.id active).1
    exact ⟨r, by
      unfold eraseExpired
      simp only [assertE_release, bind, Except.bind]
      exact hr⟩

theorem getExpired_release (q : TimerQueue) (now : Nat) :
    ∃ r, q.getExpired false now = Except.ok r := by
  obtain ⟨a, ha⟩ := eraseExpired_release
    (q.timers_.takeWhile (fun t => entryLt t.entry (now, UINTPTR_MAX))) q.activeTimers_
  unfold TimerQueue.getExpired
  simp only [assertE_release, ha, bind, Except.bind, pure, Except.pure]
  exact ⟨_, rfl⟩

theorem addTimerInLoop_release (q : TimerQueue) (timer : Timer) :
    ∃ q', q.addTimerInLoop false timer = Except.ok q' := by
  obtain ⟨ec, h⟩ := insert_release q timer
  unfold TimerQueue.addTimerInLoop
  simp only [h, bind, Except.bind]
  cases ec <;> exact ⟨_, rfl⟩

theorem cancelInLoop_release (q : TimerQueue) (timerId : TimerId) :
    ∃ q', q.cancelInLoop false timerId = Except.ok q' := by
  unfold TimerQueue.cancelInLoop
  simp only [assertE_release, bind, Except.bind, pure, Except.pure]
  cases q.activeTimers_.find? (fun t => t.id == timerId) with
  | some it => exact ⟨_, rfl⟩
  | none =>
    simp only
    cases q.callingExpiredTimers_ <;> exact ⟨_, rfl⟩

theorem resetLoop_release (now : Nat) (expired : List Timer) :
    ∀ q, ∃ q', TimerQueue.resetLoop false now q expired = Except.ok q' := by
  induction expired with
  | nil => intro q; exact ⟨q, rfl⟩
  | cons it rest ih =>
    intro q
    unfold TimerQueue.resetLoop
    split
    · obtain ⟨ec, h⟩ := insert_release q (it.restart now)
      simp only [h, bind, Except.bind]
      exact ih _
    · exact ih q

/-- With NDEBUG handleRead returns, whatever the queue and the callbacks. -/
theorem handleRead_release (body : TimerId → List TimerAction) (q : TimerQueue) (now : Nat) :
    ∃ q', q.handleRead false body now = Except.ok q' := by
  obtain ⟨r, hr⟩ := getExpired_release q now
  have hact : ∀ (s : TimerQueue) (a : TimerAction), ∃ s', TimerQueue.act false s a
      = Except.ok s' := by
    intro s a
    cases a with
    | cancel timerId => exact cancelInLoop_release s timerId
    | addTimer timer => exact addTimerInLoop_release s timer
  have hrun : ∀ (s : TimerQueue) (it : Timer), ∃ s', TimerQueue.runTimer false body s it
      = Except.ok s' := by
    intro s it
    exact foldlM_total _ hact _ _
  obtain ⟨q2, h2⟩ := foldlM_total _ hrun r.1
    { r.2 with callingExpiredTimers_ := true, cancelingTimers_ := [] }
  obtain ⟨q3, h3⟩ := resetLoop_release now r.1 { q2 with callingExpiredTimers_ := false }
  unfold TimerQueue.handleRead
  simp only [hr, bind, Except.bind, h2]
  unfold TimerQueue.reset
  simp only [h3, bind, Except.bind]
  split <;> exact ⟨_, rfl⟩

/-! ### Connector: the retry delay -/

theorem specRetryDelay_range (n : Nat) : 500 ≤ specRetryDelay n ∧ specRetryDelay n ≤ 30000 := by
  unfold specRetryDelay
  have h : (1 : Int) ≤ 2 ^ n := by
    have : (0 : Int) < 2 ^ n := by positivity
    omega
  omega

theorem wrapInt32_double {m : Int} (h1 : 500 ≤ m) (h2 : m ≤ 30000) :
    wrapInt32 (m * 2) = m * 2 := by
  unfold wrapInt32
  omega

theorem specRetryDelay_succ (n : Nat) :
    specRetryDelay (n + 1) = min (wrapInt32 (specRetryDelay n * 2)) kMaxRetryDelayMs := by
  obtain ⟨h1, h2⟩ := specRetryDelay_range n
  rw [wrapInt32_double h1 h2]
  unfold specRetryDelay kMaxRetryDelayMs
  have h : (1 : Int) ≤ 2 ^ n := by
    have : (0 : Int) < 2 ^ n := by positivity
    omega
  have hx : (500 : Int) * 2 ^ (n + 1) = 2 * (500 * 2 ^ n) := by ring
  rw [hx]
  generalize (500 : Int) * 2 ^ n = y
  omega

theorem Backed.refl (c : Connector) : Backed c c := Or.inl ⟨rfl, rfl⟩

theorem retry_backed (c : Connector) (sockfd : Int) : Backed c (c.retry sockfd) := by
  unfold Connector.retry Connector.setState
  cases hc : c.connect_
  · simp only [hc, Bool.false_eq_true, if_false]
    exact Or.inl ⟨rfl, rfl⟩
  · simp only [hc, if_true]
    exact Or.inr ⟨rfl, rfl⟩

theorem retry_connect (c : Connector) (sockfd : Int) (hc : c.connect_ = true) :
    (c.retry sockfd).scheduled = c.scheduled ++ [c.retryDelayMs_] ∧
    (c.retry sockfd).retryDelayMs_ = min (wrapInt32 (c.retryDelayMs_ * 2)) kMaxRetryDelayMs ∧
    (c.retry sockfd).connect_ = true ∧
    (c.retry sockfd).state_ = ConnectorState.kDisconnected := by
  refine ⟨?_, ?_, ?_, ?_⟩ <;> simp [Connector.retry, Connector.setState, hc]

theorem Connector.onChannel_frame {c c' : Connector}
    {f : Channel → EPollPoller → Except Abort (Channel × EPollPoller)}
    (h : c.onChannel f = Except.ok c') :
    c'.scheduled = c.scheduled ∧ c'.retryDelayMs_ = c.retryDelayMs_ ∧
    c'.connect_ = c.connect_ ∧ c'.state_ = c.state_ ∧ c'.closed = c.closed ∧
    c'.published = c.published ∧ c'.pendingReset = c.pendingReset := by
  unfold Connector.onChannel at h
  cases hch : c.channel_ with
  | none => simp only [hch] at h; cases h
  | some ch =>
    simp only [hch] at h
    cases hf : f ch c.poller_ with
    | error e => simp only [hf] at h; cases h
    | ok r =>
      obtain ⟨ch', p'⟩ := r
      simp only [hf, Except.ok.injEq] at h
      subst h
      exact ⟨rfl, rfl, rfl, rfl, rfl, rfl, rfl⟩

theorem removeAndResetChannel_frame {dbg : Bool} {c c' : Connector} {fd : Int}
    (h : c.removeAndResetChannel dbg = Except.ok (c', fd)) :
    c'.scheduled = c.scheduled ∧ c'.retryDelayMs_ = c.retryDelayMs_ ∧
    c'.connect_ = c.connect_ ∧ c'.state_ = c.state_ ∧ c'.closed = c.closed ∧
    c'.published = c.published := by
  unfold Connector.removeAndResetChannel at h
  cases h1 : c.onChannel (Channel.disableAll dbg) with
  | error e => simp only [h1, bind, Except.bind] at h; cases h
  | ok c1 =>
    simp only [h1, bind, Except.bind] at h
    cases h2 : c1.onChannel (Channel.remove dbg) with
    | error e => simp only [h2] at h; cases h
    | ok c2 =>
      simp only [h2] at h
      obtain ⟨a1, a2, a3, a4, a5, a6, _⟩ := Connector.onChannel_frame h1
      obtain ⟨b1, b2, b3, b4, b5, b6, _⟩ := Connector.onChannel_frame h2
      cases hch : c2.channel_ with
      | none => simp only [hch] at h; cases h
      | some ch =>
        simp only [hch, pure, Except.pure, Except.ok.injEq, Prod.mk.injEq] at h
        obtain ⟨h, _⟩ := h
        subst h
        exact ⟨by rw [← a1, ← b1], by rw [← a2, ← b2], by rw [← a3, ← b3], by rw [← a4, ← b4],
          by rw [← a5, ← b5], by rw [← a6, ← b6]⟩

theorem connecting_frame {dbg : Bool} {c c' : Connector} {sockfd : Int} {addr : Nat}
    (h : c.connecting dbg sockfd addr = Except.ok c') :
    c'.scheduled = c.scheduled ∧ c'.retryDelayMs_ = c.retryDelayMs_ ∧
    c'.connect_ = c.connect_ := by
  unfold Connector.connecting at h
  obtain ⟨_, h⟩ := assertE_bind h
  obtain ⟨a1, a2, a3, _⟩ := Connector.onChannel_frame h
  exact ⟨a1, a2, a3⟩

theorem connect_backed {dbg : Bool} {c c' : Connector} {a : ConnectAttempt}
    (h : c.connect dbg a = Except.ok c') : Backed c c' := by
  unfold Connector.connect at h
  split at h
  · obtain ⟨a1, a2, _⟩ := connecting_frame h
    exact Or.inl ⟨a1, a2⟩
  · split at h
    · simp only [pure, Except.pure, Except.ok.injEq] at h
      subst h; exact retry_backed c a.sockfd
    · simp only [pure, Except.pure, Except.ok.injEq] at h
      subst h; exact Or.inl ⟨rfl, rfl⟩

theorem startInLoop_backed {dbg : Bool} {c c' : Connector} {a : ConnectAttempt}
    (h : c.startInLoop dbg a = Except.ok c') : Backed c c' := by
  unfold Connector.startInLoop at h
  obtain ⟨_, h⟩ := assertE_bind h
  split at h
  · exact connect_backed h
  · simp only [pure, Except.pure, Except.ok.injEq] at h
    subst h; exact Backed.refl c

theorem retry_after_remove {dbg : Bool} {c : Connector} {r : Connector × Int}
    (h : c.removeAndResetChannel dbg = Except.ok r) : Backed c (r.1.retry r.2) := by
  obtain ⟨c1, fd⟩ := r
  obtain ⟨a1, a2, _⟩ := removeAndResetChannel_frame h
  have := retry_backed c1 fd
  unfold Backed at this ⊢
  rw [a1, a2] at this
  exact this

theorem stopInLoop_backed {dbg : Bool} {c c' : Connector}
    (h : c.stopInLoop dbg = Except.ok c') : Backed c c' := by
  unfold Connector.stopInLoop at h
  split at h
  · cases hr : (c.setState ConnectorState.kDisconnected).removeAndResetChannel dbg with
    | error e => simp only [hr, bind, Except.bind] at h; cases h
    | ok r =>
      simp only [hr, bind, Except.bind, pure, Except.pure, Except.ok.injEq] at h
      subst h
      have := retry_after_remove hr
      exact this
  · simp only [pure, Except.pure, Except.ok.injEq] at h
    subst h; exact Backed.refl c

theorem handleError_backed {dbg : Bool} {c c' : Connector}
    (h : c.handleError dbg = Except.ok c') : Backed c c' := by
  unfold Connector.handleError at h
  split at h
  · cases hr : c.removeAndResetChannel dbg with
    | error e => simp only [hr, bind, Except.bind] at h; cases h
    | ok r =>
      simp only [hr, bind, Except.bind, pure, Except.pure, Except.ok.injEq] at h
      subst h
      exact retry_after_remove hr
  · simp only [pure, Except.pure, Except.ok.injEq] at h
    subst h; exact Backed.refl c

theorem handleWrite_backed {dbg : Bool} {c c' : Connector} {err : Nat} {selfConnect : Bool}
    (h : c.handleWrite dbg err selfConnect = Except.ok c') : Backed c c' := by
  unfold Connector.handleWrite at h
  split at h
  · cases hr : c.removeAndResetChannel dbg with
    | error e => simp only [hr, bind, Except.bind] at h; cases h
    | ok r =>
      simp only [hr, bind, Except.bind] at h
      obtain ⟨a1, a2, _⟩ := removeAndResetChannel_frame (by rw [hr])
      split at h
      · simp only [pure, Except.pure, Except.ok.injEq] at h
        subst h; exact retry_after_remove hr
      · split at h
        · simp only [pure, Except.pure, Except.ok.injEq] at h
          subst h; exact retry_after_remove hr
        · split at h
          · simp only [pure, Except.pure, Except.ok.injEq] at h
            subst h; exact Or.inl ⟨a1, a2⟩
          · simp only [pure, Except.pure, Except.ok.injEq] at h
            subst h; exact Or.inl ⟨a1, a2⟩
  · obtain ⟨_, h⟩ := assertE_bind h
    simp only [pure, Except.pure, Except.ok.injEq] at h
    subst h; exact Backed.refl c

theorem step_backed {dbg : Bool} {c c' : Connector} {op : ConnectorOp}
    (hop : op.isRestart = false)
    (h : c.step dbg op = Except.ok c') : Backed c c' := by
  cases op with
  | start =>
    simp only [Connector.step, pure, Except.pure, Except.ok.injEq] at h
    subst h; exact Or.inl ⟨rfl, rfl⟩
  | stop =>
    simp only [Connector.step, pure, Except.pure, Except.ok.injEq] at h
    subst h; exact Or.inl ⟨rfl, rfl⟩
  | startInLoop a => exact startInLoop_backed h
  | stopInLoop => exact stopInLoop_backed h
  | restart a => cases hop
  | handleWrite err selfConnect => exact handleWrite_backed h
  | handleError => exact handleError_backed h
  | resetChannel =>
    simp only [Connector.step, pure, Except.pure, Except.ok.injEq] at h
    subst h; exact Or.inl ⟨rfl, rfl⟩

theorem backed_spec {base : List Int} {c c' : Connector} {n : Nat} (hb : Backed c c')
    (h1 : c.scheduled = base ++ (List.range n).map specRetryDelay)
    (h2 : c.retryDelayMs_ = specRetryDelay n) :
    ∃ n', c'.scheduled = base ++ (List.range n').map specRetryDelay ∧
      c'.retryDelayMs_ = specRetryDelay n' := by
  rcases hb with ⟨a1, a2⟩ | ⟨a1, a2⟩
  · exact ⟨n, by rw [a1, h1], by rw [a2, h2]⟩
  · refine ⟨n + 1, ?_, ?_⟩
    · rw [a1, h1, h2, List.range_succ, List.map_append, List.append_assoc]
      rfl
    · rw [a2, h2, specRetryDelay_succ]

theorem backoff_run (dbg : Bool) (base : List Int) (ops : List ConnectorOp) :
    ∀ (c c' : Connector) (n : Nat),
      c.scheduled = base ++ (List.range n).map specRetryDelay →
      c.retryDelayMs_ = specRetryDelay n → noRestart ops →
      c.run dbg ops = Except.ok c' →
      ∃ n', c'.scheduled = base ++ (List.range n').map specRetryDelay ∧
        c'.retryDelayMs_ = specRetryDelay n' := by
  induction ops with
  | nil =>
    intro c c' n h1 h2 _ h
    simp only [Connector.run, List.foldlM, pure, Except.pure, Except.ok.injEq] at h
    subst h
    exact ⟨n, h1, h2⟩
  | cons op ops ih =>
    intro c c' n h1 h2 hno h
    simp only [Connector.run, List.foldlM] at h
    cases hs : c.step dbg op with
    | error e => simp only [hs, bind, Except.bind] at h; cases h
    | ok c1 =>
      simp only [hs, bind, Except.bind] at h
      obtain ⟨n1, b1, b2⟩ := backed_spec
        (step_backed (hno op (List.mem_cons.2 (Or.inl rfl))) hs) h1 h2
      exact ih c1 c' n1 b1 b2 (fun o ho => hno o (List.mem_cons.2 (Or.inr ho))) h

theorem restart_backed {dbg : Bool} {c c' : Connector} {a : ConnectAttempt}
    (h : c.restart dbg a = Except.ok c') :
    (c'.scheduled = c.scheduled ∧ c'.retryDelayMs_ = 500) ∨
    (c'.scheduled = c.scheduled ++ [500] ∧ c'.retryDelayMs_ = 1000) := by
  unfold Connector.restart at h
  have hb := startInLoop_backed h
  unfold Backed at hb
  simp only [Connector.setState, kInitRetryDelayMs] at hb
  rcases hb with ⟨a1, a2⟩ | ⟨a1, a2⟩
  · exact Or.inl ⟨a1, a2⟩
  · exact Or.inr ⟨a1, by rw [a2]; decide⟩

theorem range_step {dbg : Bool} {c c' : Connector} {op : ConnectorOp}
    (h1 : 500 ≤ c.retryDelayMs_) (h2 : c.retryDelayMs_ ≤ 30000)
    (h : c.step dbg op = Except.ok c') :
    500 ≤ c'.retryDelayMs_ ∧ c'.retryDelayMs_ ≤ 30000 := by
  cases hop : op.isRestart with
  | false =>
    rcases step_backed hop h with ⟨_, a2⟩ | ⟨_, a2⟩
    · rw [a2]; exact ⟨h1, h2⟩
    · rw [a2, wrapInt32_double h1 h2]
      unfold kMaxRetryDelayMs
      omega
  | true =>
    cases op with
    | restart a =>
      simp only [Connector.step] at h
      rcases restart_backed h with ⟨_, a2⟩ | ⟨_, a2⟩ <;> rw [a2] <;> decide
    | _ => cases hop

theorem range_run (dbg : Bool) (ops : List ConnectorOp) :
    ∀ (c c' : Connector), 500 ≤ c.retryDelayMs_ → c.retryDelayMs_ ≤ 30000 →
      c.run dbg ops = Except.ok c' →
      500 ≤ c'.retryDelayMs_ ∧ c'.retryDelayMs_ ≤ 30000 := by
  induction ops with
  | nil =>
    intro c c' h1 h2 h
    simp only [Connector.run, List.foldlM, pure, Except.pure, Except.ok.injEq] at h
    subst h
    exact ⟨h1, h2⟩
  | cons op ops ih =>
    intro c c' h1 h2 h
    simp only [Connector.run, List.foldlM] at h
    cases hs : c.step dbg op with
    | error e => simp only [hs, bind, Except.bind] at h; cases h
    | ok c1 =>
      simp only [hs, bind, Except.bind] at h
      obtain ⟨r1, r2⟩ := range_step h1 h2 hs
      exact ih c1 c' r1 r2 h

theorem retries_spec (sockfds : List Int) :
    ∀ (c : Connector) (base : List Int) (n : Nat), c.connect_ = true →
      c.scheduled = base ++ (List.range n).map specRetryDelay →
      c.retryDelayMs_ = specRetryDelay n →
      (sockfds.foldl Connector.retry c).scheduled =
        base ++ (List.range (n + sockfds.length)).map specRetryDelay ∧
      (sockfds.foldl Connector.retry c).retryDelayMs_ = specRetryDelay (n + sockfds.length) := by
  induction sockfds with
  | nil => intro c base n _ h1 h2; exact ⟨h1, h2⟩
  | cons fd rest ih =>
    intro c base n hc h1 h2
    obtain ⟨r1, r2, r3, _⟩ := retry_connect c fd hc
    have := ih (c.retry fd) base (n + 1) r3
      (by rw [r1, h1, h2, List.range_succ, List.map_append, List.append_assoc]; rfl)
      (by rw [r2, h2, specRetryDelay_succ])
    simp only [List.foldl, List.length_cons]
    rw [show n + (rest.length + 1) = n + 1 + rest.length by omega]
    exact this

/-- C20: a new Connector has the retry delay 500 ms.  From a state with
delay 500 ms (a new connector, or a connector at the point where restart()
has reset the delay) and the connect flag set, the k-th consecutive retry
schedules the delay min(500 * 2^k, 30000) ms; the same holds for the retries
scheduled in any sequence of steps without a restart, whatever else happens
in between, and for the steps that begin with restart().  The delay stays
within [500, 30000] over every sequence of steps.  restart() makes its
attempt with the delay 500 ms: when it returns either nothing was scheduled
and the delay is 500, or one retry was scheduled after 500 ms and the delay
is 1000. -/
theorem C20_retry_backoff (dbg : Bool) (c : Connector) (p : EPollPoller) :
    (Connector.new p).retryDelayMs_ = 500 ∧
    (∀ (sockfds : List Int), c.connect_ = true → c.retryDelayMs_ = 500 →
      (sockfds.foldl Connector.retry c).scheduled =
        c.scheduled ++ (List.range sockfds.length).map specRetryDelay ∧
      (sockfds.foldl Connector.retry c).retryDelayMs_ = specRetryDelay sockfds.length) ∧
    (∀ ops c', c.retryDelayMs_ = 500 → noRestart ops → c.run dbg ops = Except.ok c' →
      ∃ n, c'.scheduled = c.scheduled ++ (List.range n).map specRetryDelay ∧
        c'.retryDelayMs_ = specRetryDelay n) ∧
    (∀ a ops c', noRestart ops → c.run dbg (ConnectorOp.restart a :: ops) = Except.ok c' →
      ∃ n, c'.scheduled = c.scheduled ++ (List.range n).map specRetryDelay ∧
        c'.retryDelayMs_ = specRetryDelay n) ∧
    (∀ ops c', 500 ≤ c.retryDelayMs_ → c.retryDelayMs_ ≤ 30000 →
      c.run dbg ops = Except.ok c' →
      500 ≤ c'.retryDelayMs_ ∧ c'.retryDelayMs_ ≤ 30000) ∧
    (∀ a c', c.restart dbg a = Except.ok c' →
      (c'.scheduled = c.scheduled ∧ c'.retryDelayMs_ = 500) ∨
      (c'.scheduled = c.scheduled ++ [500] ∧ c'.retryDelayMs_ = 1000)) ∧
    (List.range 8).map specRetryDelay = [500, 1000, 2000, 4000, 8000, 16000, 30000, 30000] := by
  refine ⟨rfl, ?_, ?_, ?_, ?_, ?_, by decide⟩
  · intro sockfds hc hd
    have := retries_spec sockfds c c.scheduled 0 hc (by simp) (by rw [hd]; decide)
    simpa using this
  · intro ops c' hd hno h
    exact backoff_run dbg c.scheduled ops c c' 0 (by simp) (by rw [hd]; decide) hno h
  · intro a ops c' hno h
    simp only [Connector.run, List.foldlM] at h
    cases hs : c.step dbg (ConnectorOp.restart a) with
    | error e => simp only [hs, bind, Except.bind] at h; cases h
    | ok c1 =>
      simp only [hs, bind, Except.bind] at h
      simp only [Connector.step] at hs
      rcases restart_backed hs with ⟨a1, a2⟩ | ⟨a1, a2⟩
      · exact backoff_run dbg c.scheduled ops c1 c' 0 (by simp [a1]) (by rw [a2]; decide) hno h
      · exact backoff_run dbg c.scheduled ops c1 c' 1
          (by rw [a1]; exact congrArg _ (by decide)) (by rw [a2]; decide) hno h
  · intro ops c' h1 h2 h
    exact range_run dbg ops c c' h1 h2 h
  · intro a c' h
    exact restart_backed h

theorem C20_retry_backoff_witness :
    (Connector.new EPollPoller.new).retryDelayMs_ = 500 ∧
    noRestart eightRefusals ∧
    (Connector.new EPollPoller.new).run true eightRefusals = Except.ok refusedEightTimes ∧
    (∃ n, refusedEightTimes.scheduled = (Connector.new EPollPoller.new).scheduled ++
        (List.range n).map specRetryDelay ∧
      refusedEightTimes.retryDelayMs_ = specRetryDelay n) ∧
    refusedEightTimes.scheduled = [500, 1000, 2000, 4000, 8000, 16000, 30000, 30000] ∧
    refusedEightTimes.retryDelayMs_ = 30000 :=
  ⟨rfl, by unfold noRestart eightRefusals; decide, rfl,
    (C20_retry_backoff true (Connector.new EPollPoller.new) EPollPoller.new).2.2.1
      eightRefusals refusedEightTimes rfl (by unfold noRestart eightRefusals; decide) rfl,
    by decide, by decide⟩

/-! ### Connector::connect: the three classes of errno -/

theorem update_new {dbg : Bool} (ch : Channel) (p : EPollPoller) (hi : ch.index_ = kNew)
    (hc : p.channels_.lookup ch.fd_ = none) (hk : (p.kernel.lookup ch.fd_).isSome = false) :
    Channel.update dbg ch p = Except.ok
      ({ ch with addedToLoop_ := true, index_ := kAdded },
       { channels_ := mapSet p.channels_ ch.fd_ ch.addr,
         kernel := (ch.fd_, ch.events_) :: p.kernel }) := by
  simp [Channel.update, EPollPoller.updateChannel, hi, hc, check, EPollPoller.update,
    epoll_ctl, hk, Channel.set_index, bind, Except.bind, pure, Except.pure]

/-- C21. Connector::connect sorts every outcome of connect(2) into one of
three classes.  For 0, EINPROGRESS, EINTR and EISCONN, on a connector without
a channel and a socket the poller does not know, the call returns, the socket
is not closed, the state is kConnecting and the connector owns a channel for
the socket with WRITE interest that is registered with the poller.  For
EAGAIN, EADDRINUSE, EADDRNOTAVAIL, ECONNREFUSED and ENETUNREACH the socket is
closed, the state is kDisconnected, and a retry timer is set exactly when
`connect_` is set.  For every other errno the socket is closed and nothing
else changes, so the state, the timers and the retry delay stay as they were. -/
theorem C21_connect_classifies (dbg : Bool) (c : Connector) (a : ConnectAttempt) :
    (a.savedErrno ∈ [0, EINPROGRESS, EINTR, EISCONN] →
      c.channel_ = none → c.poller_.channels_.lookup a.sockfd = none →
      (c.poller_.kernel.lookup a.sockfd).isSome = false →
      ∃ c' ch, c.connect dbg a = Except.ok c' ∧
        c'.state_ = ConnectorState.kConnecting ∧ c'.closed = c.closed ∧
        c'.scheduled = c.scheduled ∧ c'.retryDelayMs_ = c.retryDelayMs_ ∧
        c'.published = c.published ∧
        c'.channel_ = some ch ∧ ch.fd_ = a.sockfd ∧ ch.addr = a.channelAddr ∧
        ch.events_ = kWriteEvent ∧ ch.isWriting = true ∧ ch.writeCallback_ = true ∧
        ch.errorCallback_ = true ∧ Registered ch c'.poller_ ∧
        c'.poller_.kernel.lookup a.sockfd = some kWriteEvent) ∧
    (a.savedErrno ∈ [EAGAIN, EADDRINUSE, EADDRNOTAVAIL, ECONNREFUSED, ENETUNREACH] →
      ∃ c', c.connect dbg a = Except.ok c' ∧
        c'.closed = c.closed ++ [a.sockfd] ∧ c'.state_ = ConnectorState.kDisconnected ∧
        c'.channel_ = c.channel_ ∧ c'.poller_ = c.poller_ ∧ c'.published = c.published ∧
        (c.connect_ = true → c'.scheduled = c.scheduled ++ [c.retryDelayMs_]) ∧
        (c.connect_ = false →
          c'.scheduled = c.scheduled ∧ c'.retryDelayMs_ = c.retryDelayMs_)) ∧
    (a.savedErrno ∉ [0, EINPROGRESS, EINTR, EISCONN] →
      a.savedErrno ∉ [EAGAIN, EADDRINUSE, EADDRNOTAVAIL, ECONNREFUSED, ENETUNREACH] →
      c.connect dbg a = Except.ok { c with closed := c.closed ++ [a.sockfd] } ∧
        ∃ c', c.connect dbg a = Except.ok c' ∧
          c'.closed = c.closed ++ [a.sockfd] ∧ c'.state_ = c.state_ ∧
          c'.scheduled = c.scheduled ∧ c'.retryDelayMs_ = c.retryDelayMs_ ∧
          c'.channel_ = c.channel_ ∧ c'.poller_ = c.poller_ ∧
          c'.published = c.published) := by
  refine ⟨?_, ?_, ?_⟩
  · intro h1 hch hc hk
    have h1' : a.savedErrno = 0 ∨ a.savedErrno = EINPROGRESS ∨ a.savedErrno = EINTR ∨
        a.savedErrno = EISCONN := by simpa using h1
    have hu := @update_new dbg
      { Channel.new a.channelAddr a.sockfd with
        writeCallback_ := true, errorCallback_ := true, events_ := 0 ||| kWriteEvent }
      c.poller_ rfl hc hk
    refine ⟨{ c with
        state_ := ConnectorState.kConnecting,
        channel_ := some { Channel.new a.channelAddr a.sockfd with
          writeCallback_ := true, errorCallback_ := true, events_ := 0 ||| kWriteEvent,
          addedToLoop_ := true, index_ := kAdded },
        poller_ := { channels_ := mapSet c.poller_.channels_ a.sockfd a.channelAddr,
                     kernel := (a.sockfd, 0 ||| kWriteEvent) :: c.poller_.kernel } },
      { Channel.new a.channelAddr a.sockfd with
          writeCallback_ := true, errorCallback_ := true, events_ := 0 ||| kWriteEvent,
          addedToLoop_ := true, index_ := kAdded }, ?_, ?_⟩
    · simp only [Connector.connect, if_pos h1', Connector.connecting, Connector.setState, hch,
        Option.isNone_none, assertE_true]
      simp only [bind, Except.bind, Connector.onChannel, Channel.enableWriting]
      simp only [Channel.new] at hu ⊢
      rw [hu]
    · simp [Channel.new, Channel.isWriting, test, kWriteEvent, POLLOUT, Registered, kAdded,
        lookup_mapSet]
  · intro h2
    have h1' : ¬ (a.savedErrno = 0 ∨ a.savedErrno = EINPROGRESS ∨ a.savedErrno = EINTR ∨
        a.savedErrno = EISCONN) := by
      simp only [List.mem_cons, List.mem_singleton, List.not_mem_nil, or_false] at h2
      simp only [EAGAIN, EADDRINUSE, EADDRNOTAVAIL, ECONNREFUSED, ENETUNREACH] at h2
      simp only [EINPROGRESS, EINTR, EISCONN]
      omega
    have h2' : a.savedErrno = EAGAIN ∨ a.savedErrno = EADDRINUSE ∨
        a.savedErrno = EADDRNOTAVAIL ∨ a.savedErrno = ECONNREFUSED ∨
        a.savedErrno = ENETUNREACH := by simpa using h2
    refine ⟨c.retry a.sockfd, ?_, ?_⟩
    · simp only [Connector.connect, if_neg h1', if_pos h2', pure, Except.pure]
    · cases hcn : c.connect_ <;> simp [Connector.retry, Connector.setState, hcn]
  · intro h1 h2
    have h1' : ¬ (a.savedErrno = 0 ∨ a.savedErrno = EINPROGRESS ∨ a.savedErrno = EINTR ∨
        a.savedErrno = EISCONN) := by simpa using h1
    have h2' : ¬ (a.savedErrno = EAGAIN ∨ a.savedErrno = EADDRINUSE ∨
        a.savedErrno = EADDRNOTAVAIL ∨ a.savedErrno = ECONNREFUSED ∨
        a.savedErrno = ENETUNREACH) := by simpa using h2
    have he : c.connect dbg a = Except.ok { c with closed := c.closed ++ [a.sockfd] } := by
      simp only [Connector.connect, if_neg h1', if_neg h2', pure, Except.pure]
    exact ⟨he, _, he, rfl, rfl, rfl, rfl, rfl, rfl, rfl⟩

theorem C21_connect_classifies_witness :
    (∃ c', (Connector.new EPollPoller.new).start.connect true
        { sockfd := 5, savedErrno := EINPROGRESS, channelAddr := 1 } = Except.ok c' ∧
      c'.state_ = ConnectorState.kConnecting ∧ c'.closed = [] ∧
      c'.poller_.kernel.lookup 5 = some kWriteEvent) ∧
    (∃ c', (Connector.new EPollPoller.new).start.connect true
        { sockfd := 5, savedErrno := ECONNREFUSED, channelAddr := 1 } = Except.ok c' ∧
      c'.closed = [5] ∧ c'.state_ = ConnectorState.kDisconnected ∧ c'.scheduled = [500]) ∧
    (Connector.new EPollPoller.new).start.connect true
        { sockfd := 5, savedErrno := 13, channelAddr := 1 }
      = Except.ok { (Connector.new EPollPoller.new).start with closed := [5] } := by
  have h1 := C21_connect_classifies true (Connector.new EPollPoller.new).start
    { sockfd := 5, savedErrno := EINPROGRESS, channelAddr := 1 }
  have h2 := C21_connect_classifies true (Connector.new EPollPoller.new).start
    { sockfd := 5, savedErrno := ECONNREFUSED, channelAddr := 1 }
  have h3 := C21_connect_classifies true (Connector.new EPollPoller.new).start
    { sockfd := 5, savedErrno := 13, channelAddr := 1 }
  obtain ⟨c1, ch, e1, s1, cl1, _, _, _, _, _, _, _, _, _, _, _, k1⟩ :=
    h1.1 (by decide) rfl rfl rfl
  obtain ⟨c2, e2, cl2, s2, _, _, _, sc2, _⟩ := h2.2.1 (by decide)
  exact ⟨⟨c1, e1, s1, cl1, k1⟩, ⟨c2, e2, cl2, s2, sc2 rfl⟩,
    (h3.2.2 (by decide) (by decide)).1⟩

/-! ### Connector: after stop nothing is published -/

theorem retry_stopped (c : Connector) (sockfd : Int) (hc : c.connect_ = false) :
    c.retry sockfd = { c with closed := c.closed ++ [sockfd],
                              state_ := ConnectorState.kDisconnected } := by
  simp [Connector.retry, Connector.setState, hc]

theorem step_stopped {dbg : Bool} {c c' : Connector} {op : ConnectorOp}
    (hc : c.connect_ = false) (hop : op.isStart = false)
    (h : c.step dbg op = Except.ok c') :
    c'.connect_ = false ∧ c'.published = c.published := by
  cases op with
  | start => cases hop
  | restart a => cases hop
  | stop =>
    simp only [Connector.step, pure, Except.pure] at h
    injection h with h; subst h; exact ⟨rfl, rfl⟩
  | resetChannel =>
    simp only [Connector.step, pure, Except.pure] at h
    injection h with h; subst h; exact ⟨hc, rfl⟩
  | startInLoop a =>
    simp only [Connector.step, Connector.startInLoop] at h
    obtain ⟨_, h⟩ := assertE_bind h
    simp only [hc, pure, Except.pure] at h
    simp at h
    subst h; exact ⟨hc, rfl⟩
  | stopInLoop =>
    simp only [Connector.step, Connector.stopInLoop] at h
    split at h
    · obtain ⟨r, hr, h⟩ := bind_ok h
      obtain ⟨r1, fd⟩ := r
      have hf := removeAndResetChannel_frame hr
      simp only [pure, Except.pure] at h
      injection h with h
      have hc1 : r1.connect_ = false := by rw [hf.2.2.1]; exact hc
      rw [retry_stopped _ _ hc1] at h
      subst h
      exact ⟨hc1, by simpa [Connector.setState] using hf.2.2.2.2.2⟩
    · simp only [pure, Except.pure] at h
      injection h with h; subst h; exact ⟨hc, rfl⟩
  | handleError =>
    simp only [Connector.step, Connector.handleError] at h
    split at h
    · obtain ⟨r, hr, h⟩ := bind_ok h
      obtain ⟨r1, fd⟩ := r
      have hf := removeAndResetChannel_frame hr
      simp only [pure, Except.pure] at h
      injection h with h
      have hc1 : r1.connect_ = false := by rw [hf.2.2.1]; exact hc
      rw [retry_stopped _ _ hc1] at h
      subst h
      exact ⟨hc1, hf.2.2.2.2.2⟩
    · simp only [pure, Except.pure] at h
      injection h with h; subst h; exact ⟨hc, rfl⟩
  | handleWrite err selfConnect =>
    simp only [Connector.step, Connector.handleWrite] at h
    split at h
    · obtain ⟨r, hr, h⟩ := bind_ok h
      obtain ⟨r1, fd⟩ := r
      have hf := removeAndResetChannel_frame hr
      have hc1 : r1.connect_ = false := by rw [hf.2.2.1]; exact hc
      simp only [pure, Except.pure, retry_stopped _ _ hc1, Connector.setState, hc1] at h
      split at h
      · injection h with h; subst h; exact ⟨rfl, hf.2.2.2.2.2⟩
      · split at h
        · injection h with h; subst h; exact ⟨rfl, hf.2.2.2.2.2⟩
        · simp at h
          subst h; exact ⟨rfl, hf.2.2.2.2.2⟩
    · obtain ⟨_, h⟩ := assertE_bind h
      simp only [pure, Except.pure] at h
      injection h with h; subst h; exact ⟨hc, rfl⟩

theorem removeAndResetChannel_registered (dbg : Bool) (c : Connector) (ch : Channel)
    (hch : c.channel_ = some ch) (hr : Registered ch c.poller_) :
    ∃ c1, c.removeAndResetChannel dbg = Except.ok (c1, ch.fd_) ∧
      c1.connect_ = c.connect_ ∧ c1.state_ = c.state_ ∧ c1.closed = c.closed ∧
      c1.published = c.published ∧ c1.scheduled = c.scheduled ∧
      c1.retryDelayMs_ = c.retryDelayMs_ ∧ c1.pendingReset = c.pendingReset + 1 ∧
      c1.poller_.channels_.lookup ch.fd_ = none ∧
      (c1.poller_.kernel.lookup ch.fd_).isSome = false := by
  obtain ⟨h1, h2, h3⟩ := hr
  have hr0 : Registered { ch with events_ := kNoneEvent } c.poller_ := ⟨h1, h2, h3⟩
  refine ⟨{ c with
      channel_ := some { ch with events_ := kNoneEvent, addedToLoop_ := false, index_ := kNew },
      poller_ := { channels_ := mapErase c.poller_.channels_ ch.fd_,
                   kernel := mapErase c.poller_.kernel ch.fd_ },
      pendingReset := c.pendingReset + 1 }, ?_, rfl, rfl, rfl, rfl, rfl, rfl, rfl, ?_, ?_⟩
  · simp [Connector.removeAndResetChannel, Connector.onChannel, hch, Channel.disableAll,
      Channel.update, EPollPoller.updateChannel, h1, h2, h3, kAdded, kNew, kDeleted, check,
      EPollPoller.update, epoll_ctl, Channel.isNoneEvent, Channel.set_index, Channel.remove,
      EPollPoller.removeChannel, kNoneEvent, bind, Except.bind, pure, Except.pure]
  · simp [lookup_mapErase]
  · simp [lookup_mapErase]

/-- C22. After Connector::stop, as long as neither start nor restart is
called, no sequence of steps (writable and error events, the queued
stopInLoop, retry timers that run startInLoop, the queued resetChannel) hands
a socket to the newConnection callback: `published` stays as it was and the
connect flag stays cleared.  A connector in state kConnecting whose channel
is registered, when the socket becomes writable without error after the stop,
closes the socket: handleWrite returns, the state is kConnected, the socket
is appended to `closed` and not to `published`. -/
theorem C22_no_publish_after_stop (dbg : Bool) (c : Connector) (ops : List ConnectorOp)
    (hn : noStart ops) :
    (∀ c', c.stop.run dbg ops = Except.ok c' →
      c'.published = c.published ∧ c'.connect_ = false) ∧
    (∀ c1 ch, c.stop.run dbg ops = Except.ok c1 →
      c1.state_ = ConnectorState.kConnecting → c1.channel_ = some ch →
      Registered ch c1.poller_ →
      ∃ c', c1.handleWrite dbg 0 false = Except.ok c' ∧
        c'.state_ = ConnectorState.kConnected ∧ c'.published = c.published ∧
        c'.closed = c1.closed ++ [ch.fd_] ∧ c'.scheduled = c1.scheduled) := by
  have key : ∀ c', c.stop.run dbg ops = Except.ok c' →
      c'.connect_ = false ∧ c'.published = c.published := by
    intro c' h
    exact @foldlM_preserve ConnectorAbort Connector ConnectorOp (Connector.step dbg)
      (fun x => x.connect_ = false ∧ x.published = c.published) ops
      (fun op hop x x' hx hs => by
        have := step_stopped hx.1 (hn op hop) hs
        exact ⟨this.1, this.2.trans hx.2⟩)
      c.stop c' ⟨rfl, rfl⟩ h
  refine ⟨fun c' h => ⟨(key c' h).2, (key c' h).1⟩, ?_⟩
  intro c1 ch h hs hch hr
  obtain ⟨hc1, hp1⟩ := key c1 h
  obtain ⟨c2, h2, f1, f2, f3, f4, f5, f6, f7, _⟩ :=
    removeAndResetChannel_registered dbg c1 ch hch hr
  refine ⟨{ c2 with state_ := ConnectorState.kConnected, closed := c2.closed ++ [ch.fd_] },
    ?_, rfl, ?_, ?_, ?_⟩
  · have hc2 : c2.connect_ = false := by rw [f1]; exact hc1
    simp [Connector.handleWrite, hs, h2, bind, Except.bind, pure, Except.pure,
      Connector.setState, hc2]
  · simp [f4, hp1]
  · simp [f3]
  · simp [f5]

theorem C22_no_publish_after_stop_witness :
    noStart [ConnectorOp.stopInLoop, ConnectorOp.resetChannel,
      ConnectorOp.startInLoop refusedAttempt, ConnectorOp.handleError] ∧
    (∀ c', stoppedWhileConnecting.stop.run true
        [ConnectorOp.stopInLoop, ConnectorOp.resetChannel,
          ConnectorOp.startInLoop refusedAttempt, ConnectorOp.handleError] = Except.ok c' →
      c'.published = [] ∧ c'.connect_ = false) ∧
    (stoppedWhileConnecting.handleWrite true 0 false).toOption.map
        (fun c => (c.state_, c.published, c.closed))
      = some (ConnectorState.kConnected, [], [5]) := by
  have hn : noStart [ConnectorOp.stopInLoop, ConnectorOp.resetChannel,
      ConnectorOp.startInLoop refusedAttempt, ConnectorOp.handleError] := by
    intro op hop
    simp only [List.mem_cons, List.mem_singleton, List.not_mem_nil, or_false] at hop
    rcases hop with h | h | h | h <;> subst h <;> rfl
  exact ⟨hn, (C22_no_publish_after_stop true stoppedWhileConnecting _ hn).1, by decide⟩

/-! ### TimerQueue: the two sets hold the same timers -/

theorem setInsert_fresh (t : Timer) (l : List Timer) (h : ∀ x ∈ l, x.entry ≠ t.entry) :
    (setInsert t l).2 = true ∧ (setInsert t l).1.Perm (t :: l) := by
  induction l with
  | nil => exact ⟨rfl, List.Perm.refl _⟩
  | cons a rest ih =>
    unfold setInsert
    by_cases h1 : entryLt t.entry a.entry = true
    · simp only [h1, if_true]
      exact ⟨trivial, List.Perm.refl _⟩
    · by_cases h2 : entryLt a.entry t.entry = true
      · simp only [h1, h2, if_true, if_false]
        have ih1 := ih (fun x hx => h x (List.mem_cons_of_mem _ hx))
        refine ⟨ih1.1, ?_⟩
        exact (List.Perm.cons a ih1.2).trans (List.Perm.swap t a rest)
      · exfalso
        have h1f : entryLt t.entry a.entry = false := by simpa using h1
        have h2f : entryLt a.entry t.entry = false := by simpa using h2
        exact h a (List.mem_cons_self _ _) (entry_eq_of_not_lt h2f h1f)

theorem activeInsert_fresh (t : Timer) (l : List Timer) (h : ∀ x ∈ l, x.id ≠ t.id) :
    activeInsert t l = (l ++ [t], true) := by
  have : l.any (fun x => x.id == t.id) = false := by
    rw [List.any_eq_false]
    intro x hx
    simpa using h x hx
  simp [activeInsert, this]

theorem live_WF {q : TimerQueue} {batch : List Timer} (h : q.Live batch) : q.WF := by
  obtain ⟨hs, hp, hn, hb⟩ := h
  refine ⟨hs, fun t ht => hb t (List.mem_append_left _ ht), hp, ?_⟩
  have h1 : (q.timers_.map Timer.addr).Nodup := by
    rw [List.map_append] at hn
    exact (List.nodup_append.mp hn).1
  have h2 : (q.timers_.map Timer.id).Nodup := by
    have : q.timers_.map Timer.addr = (q.timers_.map Timer.id).map Prod.fst := by
      simp [Timer.id, List.map_map, Function.comp_def]
    rw [this] at h1
    exact List.Nodup.of_map _ h1
  exact (hp.map Timer.id).nodup_iff.mpr h2

theorem live_sets {q : TimerQueue} {batch : List Timer} (h : q.Live batch) :
    (∀ t, t ∈ q.timers_ ↔ t ∈ q.activeTimers_) ∧
    q.timers_.length = q.activeTimers_.length :=
  ⟨fun _ => (h.2.1.mem_iff).symm, h.2.1.length_eq.symm⟩

theorem live_new : TimerQueue.new.Live [] := by
  refine ⟨List.Pairwise.nil, List.Perm.refl _, List.nodup_nil, ?_⟩
  intro t ht
  simp [TimerQueue.new] at ht

theorem insert_live (dbg : Bool) (q : TimerQueue) (pre batch : List Timer) (t : Timer)
    (h : q.Live (pre ++ batch)) (hb : t.addr < UINTPTR_MAX)
    (hf : ∀ x ∈ q.timers_ ++ batch, x.addr ≠ t.addr) :
    (setInsert t q.timers_).2 = true ∧
    q.insert dbg t = Except.ok
      ((match q.timers_.head? with
        | none => true
        | some first => decide (t.expiration_ < first.expiration_)),
       { q with timers_ := (setInsert t q.timers_).1
                activeTimers_ := q.activeTimers_ ++ [t] }) ∧
    TimerQueue.Live { q with timers_ := (setInsert t q.timers_).1
                             activeTimers_ := q.activeTimers_ ++ [t] } batch := by
  obtain ⟨hs, hp, hn, hbd⟩ := h
  have hfe : ∀ x ∈ q.timers_, x.entry ≠ t.entry := by
    intro x hx he
    exact hf x (List.mem_append_left _ hx) (congrArg Prod.snd he)
  have hfi : ∀ x ∈ q.activeTimers_, x.id ≠ t.id := by
    intro x hx he
    exact hf x (List.mem_append_left _ (hp.mem_iff.mp hx)) (congrArg Prod.fst he)
  obtain ⟨hi, hperm⟩ := setInsert_fresh t q.timers_ hfe
  have ha := activeInsert_fresh t q.activeTimers_ hfi
  have hlen : q.timers_.length = q.activeTimers_.length := hp.length_eq.symm
  refine ⟨hi, ?_, setInsert_sorted t q.timers_ hs, ?_, ?_, ?_⟩
  · have hl2 : (setInsert t q.timers_).1.length = (q.activeTimers_ ++ [t]).length := by
      rw [hperm.length_eq]; simp [hlen]
    simp [TimerQueue.insert, hlen, assertE_true, hi, ha, hl2, bind, Except.bind, pure,
      Except.pure]
  · exact (List.perm_append_singleton t q.activeTimers_).trans
      ((List.Perm.cons t hp).trans hperm.symm)
  · have hsub : (q.timers_ ++ batch).Sublist (q.timers_ ++ (pre ++ batch)) :=
      List.Sublist.append (List.Sublist.refl _) (List.sublist_append_right _ _)
    have hn1 : ((q.timers_ ++ batch).map Timer.addr).Nodup := (hsub.map Timer.addr).nodup hn
    have hp2 : ((setInsert t q.timers_).1 ++ batch).Perm (t :: (q.timers_ ++ batch)) :=
      List.Perm.append_right batch hperm
    refine (hp2.map Timer.addr).nodup_iff.mpr ?_
    simp only [List.map_cons, List.nodup_cons]
    refine ⟨?_, hn1⟩
    intro hm
    obtain ⟨x, hx, hxe⟩ := List.mem_map.mp hm
    exact hf x hx hxe
  · intro x hx
    rcases List.mem_append.mp hx with hx | hx
    · rcases setInsert_subset t q.timers_ x hx with rfl | hx
      · exact hb
      · exact hbd x (List.mem_append_left _ hx)
    · exact hbd x (List.mem_append_right _ (List.mem_append_right _ hx))

theorem cancel_live (dbg : Bool) (q : TimerQueue) (batch : List Timer) (timerId : TimerId)
    (h : q.Live batch) :
    ∃ q', q.cancelInLoop dbg timerId = Except.ok q' ∧ q'.Live batch ∧
      (∀ t, t ∈ q'.timers_ ↔ t ∈ q.timers_ ∧ t.id ≠ timerId) := by
  have hwf := live_WF h
  obtain ⟨hs, hp, hn, hbd⟩ := h
  by_cases hex : ∃ it ∈ q.activeTimers_, it.id = timerId
  · obtain ⟨it, hit, rfl⟩ := hex
    refine ⟨_, cancelInLoop_live dbg q it hwf hit, ?_, ?_⟩
    · have hwf2 := WF_filter hwf (fun t => t != it)
      refine ⟨hwf2.1, hwf2.2.2.1, ?_, ?_⟩
      · have hsub : (q.timers_.filter (fun t => t != it) ++ batch).Sublist
            (q.timers_ ++ batch) :=
          List.Sublist.append (List.filter_sublist _) (List.Sublist.refl _)
        exact (hsub.map Timer.addr).nodup hn
      · intro x hx
        rcases List.mem_append.mp hx with hx | hx
        · exact hbd x (List.mem_append_left _ (List.mem_filter.mp hx).1)
        · exact hbd x (List.mem_append_right _ hx)
    · intro t
      simp only [List.mem_filter, bne_iff_ne, ne_eq]
      constructor
      · rintro ⟨ht, hne⟩
        refine ⟨ht, fun hid => hne ?_⟩
        exact perm_ids_inj hwf.2.2.2 (hp.mem_iff.mpr ht) hit hid
      · rintro ⟨ht, hne⟩
        exact ⟨ht, fun he => hne (by rw [he])⟩
  · have habs : ∀ t ∈ q.activeTimers_, t.id ≠ timerId := fun t ht he => hex ⟨t, ht, he⟩
    refine ⟨_, cancelInLoop_unknown dbg q timerId hp.length_eq.symm habs, ?_, ?_⟩
    · cases q.callingExpiredTimers_ <;> exact ⟨hs, hp, hn, hbd⟩
    · intro t
      have : (if q.callingExpiredTimers_ = true then
          { q with cancelingTimers_ := cancelingInsert timerId q.cancelingTimers_ }
          else q).timers_ = q.timers_ := by
        cases q.callingExpiredTimers_ <;> rfl
      rw [this]
      exact ⟨fun ht => ⟨ht, habs t (hp.mem_iff.mpr ht)⟩, fun ht => ht.1⟩

theorem getExpired_live (dbg : Bool) (q : TimerQueue) (now : Nat) (h : q.Live []) :
    ∃ expired q', q.getExpired dbg now = Except.ok (expired, q') ∧ q'.Live expired ∧
      expired = q.timers_.filter (fun t => decide (t.expiration_ ≤ now)) ∧
      q'.timers_ = q.timers_.filter (fun t => decide (now < t.expiration_)) := by
  have hwf := live_WF h
  obtain ⟨hs, hp, hn, hbd⟩ := h
  refine ⟨_, _, getExpired_ok dbg q now hwf, ?_, rfl, rfl⟩
  have hwf2 := WF_getExpired now hwf
  refine ⟨hwf2.1, hwf2.2.2.1, ?_, ?_⟩
  · have hfun : (fun t : Timer => decide (t.expiration_ ≤ now)) =
        (fun t : Timer => !decide (now < t.expiration_)) := by
      funext t
      by_cases hlt : now < t.expiration_
      · have : ¬ t.expiration_ ≤ now := by omega
        simp [hlt, this]
      · have : t.expiration_ ≤ now := by omega
        simp [hlt, this]
    have hperm : (q.timers_.filter (fun t => decide (now < t.expiration_)) ++
        q.timers_.filter (fun t => decide (t.expiration_ ≤ now))).Perm q.timers_ := by
      rw [hfun]
      exact List.filter_append_perm _ _
    rw [List.append_nil] at hn
    exact (hperm.map Timer.addr).nodup_iff.mpr hn
  · intro x hx
    rcases List.mem_append.mp hx with hx | hx
    · exact hbd x (List.mem_append_left _ (List.mem_filter.mp hx).1)
    · exact hbd x (List.mem_append_left _ (List.mem_filter.mp hx).1)

theorem restart_addr (t : Timer) (now : Nat) : (t.restart now).addr = t.addr := by
  unfold Timer.restart
  split <;> rfl

theorem live_skip {q : TimerQueue} {it : Timer} {rest : List Timer}
    (h : q.Live (it :: rest)) : q.Live rest := by
  obtain ⟨hs, hp, hn, hbd⟩ := h
  have hsub : (q.timers_ ++ rest).Sublist (q.timers_ ++ it :: rest) :=
    List.Sublist.append (List.Sublist.refl _) (List.sublist_cons_self _ _)
  exact ⟨hs, hp, (hsub.map Timer.addr).nodup hn, fun x hx => hbd x (hsub.subset hx)⟩

theorem resetLoop_live (dbg : Bool) (now : Nat) (batch : List Timer) :
    ∀ q : TimerQueue, q.Live batch →
      ∃ q', TimerQueue.resetLoop dbg now q batch = Except.ok q' ∧ q'.Live [] := by
  induction batch with
  | nil => intro q h; exact ⟨q, rfl, h⟩
  | cons it rest ih =>
    intro q h
    unfold TimerQueue.resetLoop
    split
    · have hb : (it.restart now).addr < UINTPTR_MAX := by
        rw [restart_addr]
        exact h.2.2.2 it (List.mem_append_right _ (List.mem_cons_self _ _))
      have hf : ∀ x ∈ q.timers_ ++ rest, x.addr ≠ (it.restart now).addr := by
        intro x hx he
        rw [restart_addr] at he
        have hn := h.2.2.1
        rw [List.map_append, List.map_cons] at hn
        have hn2 := List.nodup_middle.mp hn
        rw [List.nodup_cons] at hn2
        apply hn2.1
        rw [← he, ← List.map_append]
        exact List.mem_map_of_mem _ hx
      obtain ⟨_, hi, hl⟩ := insert_live dbg q [it] rest (it.restart now) h hb hf
      obtain ⟨q', hq', hl'⟩ := ih _ hl
      refine ⟨q', ?_, hl'⟩
      simp only [hi, bind, Except.bind]
      exact hq'
    · exact ih q (live_skip h)

theorem reset_live (dbg : Bool) (q : TimerQueue) (batch : List Timer) (now : Nat)
    (h : q.Live batch) : ∃ q', q.reset dbg batch now = Except.ok q' ∧ q'.Live [] := by
  obtain ⟨q1, h1, hl⟩ := resetLoop_live dbg now batch q h
  unfold TimerQueue.reset
  simp only [h1, bind, Except.bind]
  split
  · exact ⟨_, rfl, hl⟩
  · exact ⟨_, rfl, hl⟩

/-- C29. The two sets of a TimerQueue describe the same timers in every state
reached by insert, cancelInLoop, getExpired and reset.  The states are those
that satisfy `Live`, with `batch` the expired timers between getExpired and
reset: the new queue satisfies it, and from a state that satisfies it, with
assertions compiled in or not, each operation returns (so the size
assertions, `result.second` and the erasures `n == 1` hold) and leads to such
a state again: insert of a timer at an address that no existing timer has,
cancelInLoop of any id, getExpired when no batch is outstanding, and reset of
the batch.  In such a state a timer is in `timers_` exactly when it is in
`activeTimers_`, and the sets have the same size. -/
theorem C29_sets_describe_same_timers (dbg : Bool) (q : TimerQueue) (batch : List Timer)
    (h : q.Live batch) :
    TimerQueue.new.Live [] ∧
    (∀ t, t ∈ q.timers_ ↔ t ∈ q.activeTimers_) ∧
    q.timers_.length = q.activeTimers_.length ∧
    (∀ t : Timer, t.addr < UINTPTR_MAX → (∀ x ∈ q.timers_ ++ batch, x.addr ≠ t.addr) →
      ∃ ec q', q.insert dbg t = Except.ok (ec, q') ∧ q'.Live batch ∧
        (∀ x, x ∈ q'.timers_ ↔ x = t ∨ x ∈ q.timers_)) ∧
    (∀ timerId, ∃ q', q.cancelInLoop dbg timerId = Except.ok q' ∧ q'.Live batch ∧
      (∀ x, x ∈ q'.timers_ ↔ x ∈ q.timers_ ∧ x.id ≠ timerId)) ∧
    (batch = [] → ∀ now, ∃ expired q',
      q.getExpired dbg now = Except.ok (expired, q') ∧ q'.Live expired ∧
      expired = q.timers_.filter (fun t => decide (t.expiration_ ≤ now)) ∧
      q'.timers_ = q.timers_.filter (fun t => decide (now < t.expiration_))) ∧
    (∀ now, ∃ q', q.reset dbg batch now = Except.ok q' ∧ q'.Live []) := by
  refine ⟨live_new, (live_sets h).1, (live_sets h).2, ?_, ?_, ?_, ?_⟩
  · intro t hb hf
    obtain ⟨hi, he, hl⟩ := insert_live dbg q [] batch t h hb hf
    refine ⟨_, _, he, hl, ?_⟩
    intro x
    constructor
    · exact setInsert_subset t q.timers_ x
    · rintro (rfl | hx)
      · exact setInsert_mem_of_inserted _ _ hi
      · exact setInsert_superset t q.timers_ x hx
  · intro timerId
    exact cancel_live dbg q batch timerId h
  · intro hb now
    subst hb
    exact getExpired_live dbg q now h
  · intro now
    exact reset_live dbg q batch now h

theorem C29_sets_describe_same_timers_witness :
    timerQueue3.Live [] ∧ timerQueue3.timers_.length = 3 ∧
    timerQueue3.activeTimers_.length = 3 ∧
    (∃ q', timerQueue3.cancelInLoop true (32, 2) = Except.ok q' ∧ q'.Live []) ∧
    (∃ expired q', timerQueue3.getExpired true 230 = Except.ok (expired, q') ∧
      q'.Live expired) := by
  have hl : timerQueue3.Live [] := by
    unfold TimerQueue.Live TimersSorted
    decide
  have h := C29_sets_describe_same_timers true timerQueue3 [] hl
  refine ⟨hl, by decide, by decide, ?_, ?_⟩
  · obtain ⟨q', h1, h2, _⟩ := h.2.2.2.2.1 (32, 2)
    exact ⟨q', h1, h2⟩
  · obtain ⟨e, q', h1, h2, _⟩ := h.2.2.2.2.2.1 rfl 230
    exact ⟨e, q', h1, h2⟩

/-! ### TimerQueue::insert: when the earliest expiration changed -/

/-- C27, counterexample. In the queue that holds the timers for 200 (address
32) and 300 and is still armed for 100, a timer for 200 at address 8 is
inserted.  Its entry (200, 8) is below (200, 32), so after the insertion it is
the minimum of the set, yet insert reports `earliestChanged = false` and
addTimerInLoop does not arm the descriptor: it stays armed for 100. -/
theorem C27_tie_is_minimum_without_rearm :
    timerQueue3Cancelled.insert true lowTimer = Except.ok (false, timerQueue3Tied) ∧
    TimerQueue.IsMinimum lowTimer timerQueue3Tied.timers_ ∧
    timerQueue3Cancelled.addTimerInLoop true lowTimer = Except.ok timerQueue3Tied ∧
    timerQueue3Cancelled.armed = some 100 ∧ timerQueue3Tied.armed = some 100 ∧
    lowTimer.expiration_ = 200 := by
  refine ⟨by decide, ?_, by decide, by decide, by decide, rfl⟩
  unfold TimerQueue.IsMinimum
  decide

/-- C27, amended. For a timer at an address that no existing timer has,
insert returns; it reports `earliestChanged` exactly when the expiration of
the timer is strictly below the expiration of every timer that was in the set
(so also when the set was empty); addTimerInLoop arms the descriptor with the
expiration of the timer exactly in that case.  When `earliestChanged` is
reported the timer is the minimum of the set under the order of the entries;
a timer that is the minimum without the report has the same expiration as a
timer that was in the set and a lower address. -/
theorem C27_earliestChanged (dbg : Bool) (q : TimerQueue) (batch : List Timer)
    (timer : Timer) (h : q.Live batch) (hb : timer.addr < UINTPTR_MAX)
    (hf : ∀ x ∈ q.timers_ ++ batch, x.addr ≠ timer.addr) :
    ∃ ec q', q.insert dbg timer = Except.ok (ec, q') ∧
      (ec = true ↔ ∀ x ∈ q.timers_, timer.expiration_ < x.expiration_) ∧
      (ec = true → TimerQueue.IsMinimum timer q'.timers_) ∧
      (TimerQueue.IsMinimum timer q'.timers_ → ec = false →
        ∃ x ∈ q.timers_, x.expiration_ = timer.expiration_ ∧ timer.addr < x.addr) ∧
      q.addTimerInLoop dbg timer =
        Except.ok (if ec then q'.resetTimerfd timer.expiration_ else q') := by
  obtain ⟨hi, he, hl⟩ := insert_live dbg q [] batch timer h hb hf
  have hmem : timer ∈ (setInsert timer q.timers_).1 := setInsert_mem_of_inserted _ _ hi
  have hec : ((match q.timers_.head? with
        | none => true
        | some first => decide (timer.expiration_ < first.expiration_)) = true ↔
      ∀ x ∈ q.timers_, timer.expiration_ < x.expiration_) := by
    cases hq : q.timers_ with
    | nil => simp
    | cons first rest =>
      have hs : TimersSorted (first :: rest) := hq ▸ h.1
      have hle := sorted_head_le hs (h := first) rfl
      simp only [List.head?_cons, decide_eq_true_eq]
      constructor
      · intro hlt x hx
        exact lt_of_lt_of_le hlt (hle x hx)
      · intro hall
        exact hall first (List.mem_cons_self _ _)
  refine ⟨_, _, he, hec, ?_, ?_, ?_⟩
  · intro hect
    refine ⟨hmem, ?_⟩
    intro x hx hne
    rcases setInsert_subset timer q.timers_ x hx with rfl | hx
    · exact absurd rfl hne
    · rw [entryLt_iff]
      exact Or.inl (hec.mp hect x hx)
  · intro hmin hecf
    cases hq : q.timers_ with
    | nil => simp [hq] at hecf
    | cons first rest =>
      have hfm : first ∈ q.timers_ := by rw [hq]; exact List.mem_cons_self _ _
      have hne : first ≠ timer := by
        intro hft
        exact hf first (List.mem_append_left _ hfm) (by rw [hft])
      have hlt := hmin.2 first (setInsert_superset timer q.timers_ first hfm) hne
      rw [entryLt_iff] at hlt
      simp only [hq, List.head?_cons, decide_eq_false_iff_not] at hecf
      rcases hlt with hlt | ⟨h1, h2⟩
      · exact absurd hlt hecf
      · exact ⟨first, List.mem_cons_self _ _, h1.symm, h2⟩
  · simp only [TimerQueue.addTimerInLoop, he, bind, Except.bind, pure, Except.pure]
    split <;> rename_i hc <;> simp [hc]

theorem C27_earliestChanged_witness :
    timerQueue3Cancelled.Live [] ∧
    ∃ q', timerQueue3Cancelled.insert true earlyTimer = Except.ok (true, q') ∧
      TimerQueue.IsMinimum earlyTimer q'.timers_ ∧
      timerQueue3Cancelled.addTimerInLoop true earlyTimer =
        Except.ok (q'.resetTimerfd 150) := by
  have hl : timerQueue3Cancelled.Live [] := by
    unfold TimerQueue.Live TimersSorted
    decide
  obtain ⟨ec, q', h1, h2, h3, _, h5⟩ :=
    C27_earliestChanged true timerQueue3Cancelled [] earlyTimer hl (by decide) (by decide)
  have hec : ec = true := h2.mpr (by decide)
  subst hec
  exact ⟨hl, q', h1, h3 rfl, h5⟩

/-! ### TcpConnection: the high-water mark -/

theorem EventLoop.queueInLoop_queued {F : Type} (L : EventLoop F) (b : Bool) (cb : F) :
    (L.queueInLoop b cb).queued = L.queued ++ [cb] ∧
    (L.queueInLoop b cb).pendingFunctors_ = L.pendingFunctors_ ++ [cb] := by
  unfold EventLoop.queueInLoop EventLoop.wakeup
  by_cases h : (!b || L.callingPendingFunctors_) = true
  · simp only [h, if_true, and_self]
  · simp [h]

theorem queueIf_queued (w : TcpConnection) (c : Bool) (cb : ConnFunctor) :
    (w.queueIf c cb).loop_.queued = w.loop_.queued ++ (if c then [cb] else []) ∧
    (w.queueIf c cb).highWaterMark_ = w.highWaterMark_ ∧
    (w.queueIf c cb).highWaterMarkCallback_ = w.highWaterMarkCallback_ := by
  unfold TcpConnection.queueIf
  cases c
  · simp
  · simp [TcpConnection.queueInLoop, (EventLoop.queueInLoop_queued w.loop_ true cb).1]

theorem sendInLoop_direct_queue (w : TcpConnection) (data : List Byte) (wr : WriteResult) :
    (sendInLoop_direct w data wr).2.2.2.loop_.queued = w.loop_.queued ++
      (if w.channel_.isWriting = false ∧ w.outputBuffer_ = [] ∧
          0 ≤ (sockets.write data.length wr).1 ∧
          (sendInLoop_direct w data wr).2.1 = 0 ∧ w.writeCompleteCallback_ = true
        then [ConnFunctor.writeCompleteCallback] else []) ∧
    (sendInLoop_direct w data wr).2.2.2.highWaterMark_ = w.highWaterMark_ ∧
    (sendInLoop_direct w data wr).2.2.2.highWaterMarkCallback_ = w.highWaterMarkCallback_ ∧
    (sendInLoop_direct w data wr).2.1 + (sendInLoop_direct w data wr).1.toNat
      = data.length := by
  unfold sendInLoop_direct
  by_cases hc : (!w.channel_.isWriting && w.outputBuffer_.length == 0) = true
  · have hw : w.channel_.isWriting = false := by
      cases h : w.channel_.isWriting <;> simp [h] at hc ⊢
    have hb : w.outputBuffer_ = [] := by
      simp [hw] at hc
      exact hc
    simp only [hc, if_true]
    by_cases hge : (sockets.write data.length wr).1 ≥ 0
    · simp only [hge, if_true]
      have hle : (sockets.write data.length wr).1 ≤ data.length := by
        cases wr with
        | accepts room => simp only [sockets.write]; omega
        | fails errno => simp only [sockets.write]; omega
      refine ⟨?_, (queueIf_queued _ _ _).2.1, (queueIf_queued _ _ _).2.2, by omega⟩
      rw [(queueIf_queued _ _ _).1]
      congr 1
      by_cases hz : ((data.length : Int) - (sockets.write data.length wr).1).toNat = 0 <;>
        cases hcb : w.writeCompleteCallback_ <;> simp [hw, hb, hge, hz, hcb]
    · simp only [hge, if_false]
      refine ⟨by simp [hge], trivial, trivial, by simp⟩
  · simp only [hc]
    refine ⟨?_, rfl, rfl, by simp⟩
    have : ¬ (w.channel_.isWriting = false ∧ w.outputBuffer_ = []) := by
      rintro ⟨h1, h2⟩
      simp [h1, h2] at hc
    simp only [Bool.false_eq_true, if_false]
    rw [if_neg (fun h => this ⟨h.1, h.2.1⟩)]
    simp

theorem sendInLoop_buffer_queue (dbg : Bool) (w : TcpConnection) (data : List Byte)
    (nwrote : Int) (remaining : Nat) (fault : Bool) (hrem : remaining ≤ data.length)
    (hr : Registered w.channel_ w.poller_) :
    ∃ w', sendInLoop_buffer dbg w data nwrote remaining fault = Except.ok w' ∧
      w'.loop_.queued = w.loop_.queued ++
        (if fault = false ∧ 0 < remaining ∧ w.highWaterMarkCallback_ = true ∧
            w.outputBuffer_.length < w.highWaterMark_ ∧
            w.highWaterMark_ ≤ w.outputBuffer_.length + remaining
          then [ConnFunctor.highWaterMarkCallback (w.outputBuffer_.length + remaining)]
          else []) ∧
      w'.highWaterMark_ = w.highWaterMark_ := by
  have ha : TcpConnection.assert dbg (decide (remaining ≤ data.length))
      Abort.sendInLoop_remaining w = Except.ok w := by
    simp [TcpConnection.assert, hrem]
  unfold sendInLoop_buffer
  rw [ha]
  simp only [bind, Except.bind]
  by_cases hc : fault = false ∧ 0 < remaining
  · have hc' : (!fault && decide (remaining > 0)) = true := by
      simp [hc.1, hc.2]
    have hcond : (decide (w.outputBuffer_.length + remaining ≥ w.highWaterMark_) &&
          decide (w.outputBuffer_.length < w.highWaterMark_) && w.highWaterMarkCallback_)
          = true ↔
        (fault = false ∧ 0 < remaining ∧ w.highWaterMarkCallback_ = true ∧
            w.outputBuffer_.length < w.highWaterMark_ ∧
            w.highWaterMark_ ≤ w.outputBuffer_.length + remaining) := by
      simp only [Bool.and_eq_true, decide_eq_true_eq, ge_iff_le]
      constructor
      · rintro ⟨⟨h1, h2⟩, h3⟩
        exact ⟨hc.1, hc.2, h3, h2, h1⟩
      · rintro ⟨_, _, h3, h2, h1⟩
        exact ⟨⟨h1, h2⟩, h3⟩
    simp only [hc', if_true]
    by_cases hw : w.channel_.isWriting = true
    · simp only [queueIf_channel, hw, Bool.not_true, Bool.false_eq_true, if_false]
      refine ⟨_, rfl, ?_, ?_⟩
      · simp only [(queueIf_queued _ _ _).1]
        congr 1
        by_cases hx : (fault = false ∧ 0 < remaining ∧ w.highWaterMarkCallback_ = true ∧
            w.outputBuffer_.length < w.highWaterMark_ ∧
            w.highWaterMark_ ≤ w.outputBuffer_.length + remaining)
        · rw [if_pos (hcond.mpr hx), if_pos hx]
        · rw [if_neg (fun h => hx (hcond.mp h)), if_neg hx]
      · exact (queueIf_queued _ _ _).2.1
    · have hw' : w.channel_.isWriting = false := by simpa using hw
      obtain ⟨p', h1, h2⟩ := enableWriting_registered dbg w.channel_ w.poller_ hr
      simp only [queueIf_channel, hw', Bool.not_false, if_true, TcpConnection.onChannel,
        queueIf_poller, h1]
      refine ⟨_, rfl, ?_, ?_⟩
      · simp only [(queueIf_queued _ _ _).1]
        congr 1
        by_cases hx : (fault = false ∧ 0 < remaining ∧ w.highWaterMarkCallback_ = true ∧
            w.outputBuffer_.length < w.highWaterMark_ ∧
            w.highWaterMark_ ≤ w.outputBuffer_.length + remaining)
        · rw [if_pos (hcond.mpr hx), if_pos hx]
        · rw [if_neg (fun h => hx (hcond.mp h)), if_neg hx]
      · exact (queueIf_queued _ _ _).2.1
  · have hc' : (!fault && decide (remaining > 0)) = false := by
      cases fault <;> simp_all
    simp only [hc', if_false, pure, Except.pure]
    refine ⟨w, rfl, ?_, rfl⟩
    rw [if_neg (fun h => hc ⟨h.1, h.2.1⟩)]
    simp

theorem hwmCalls_append (a b : List ConnFunctor) :
    hwmCalls (a ++ b) = hwmCalls a ++ hwmCalls b := by
  simp [hwmCalls, List.filterMap_append]

/-- C23. A call of sendInLoop on a connection that is not Disconnected and
whose channel is registered returns, and it hands a high-water-mark functor
to the loop exactly when a callback is set, bytes are appended to the output
buffer, the buffer held fewer bytes than the mark before the call and holds
at least as many as the mark after it; the functor carries the size of the
buffer after the append, which is the old size plus `remaining`.  A call that
finds the buffer at or above the mark queues none.  The mark of a new
connection is 64 * 1024 * 1024 and setHighWaterMarkCallback replaces it. -/
theorem C23_highWaterMark (dbg : Bool) (w : TcpConnection) (data : List Byte)
    (wr : WriteResult) (hs : w.state_ ≠ StateE.kDisconnected)
    (hr : Registered w.channel_ w.poller_) :
    (∃ w', sendInLoop dbg w data wr = Except.ok w' ∧
      w'.outputBuffer_ = w.outputBuffer_ ++ (sendOutcome w data wr).2 ∧
      ((sendOutcome w data wr).2 ≠ [] →
        w'.outputBuffer_.length =
          w.outputBuffer_.length + (sendInLoop_direct w data wr).2.1) ∧
      hwmCalls w'.loop_.queued = hwmCalls w.loop_.queued ++
        (if w.highWaterMarkCallback_ = true ∧ (sendOutcome w data wr).2 ≠ [] ∧
            w.outputBuffer_.length < w.highWaterMark_ ∧
            w.highWaterMark_ ≤ w'.outputBuffer_.length
          then [w'.outputBuffer_.length] else []) ∧
      (w.highWaterMark_ ≤ w.outputBuffer_.length →
        hwmCalls w'.loop_.queued = hwmCalls w.loop_.queued) ∧
      w'.highWaterMark_ = w.highWaterMark_) ∧
    (∀ addr sockfd poller wcb hcb,
      (TcpConnection.new addr sockfd poller wcb hcb).highWaterMark_ = 64 * 1024 * 1024 ∧
      ∀ cb mark, ((TcpConnection.new addr sockfd poller wcb hcb).setHighWaterMarkCallback
        cb mark).highWaterMark_ = mark) := by
  refine ⟨?_, fun _ _ _ _ _ => ⟨rfl, fun _ _ => rfl⟩⟩
  obtain ⟨d1, d2, d3, d4, d5, d6, d7, d8, d9⟩ := sendInLoop_direct_spec w data wr
  obtain ⟨e1, e2, e3, e4⟩ := sendInLoop_direct_queue w data wr
  have hr' : Registered (sendInLoop_direct w data wr).2.2.2.channel_
      (sendInLoop_direct w data wr).2.2.2.poller_ := by rw [d2, d3]; exact hr
  obtain ⟨w', h0, _, _, _, _, _, hbuf, _⟩ := sendInLoop_spec dbg w data wr hs hr
  obtain ⟨w'', g0, g1, g2⟩ :=
    sendInLoop_buffer_queue dbg (sendInLoop_direct w data wr).2.2.2 data
      (sendInLoop_direct w data wr).1 (sendInLoop_direct w data wr).2.1
      (sendInLoop_direct w data wr).2.2.1 d7 hr'
  have hww : w'' = w' := by
    unfold sendInLoop at h0
    simp only [hs, if_false] at h0
    rw [g0] at h0
    injection h0
  subst hww
  have hlen : (sendOutcome w data wr).2 ≠ [] →
      ((sendOutcome w data wr).2).length = (sendInLoop_direct w data wr).2.1 := by
    intro hne
    have hc := d9.mpr hne
    rw [← d8, if_pos hc, List.length_take, List.length_drop]
    omega
  have hlen' : (sendOutcome w data wr).2 ≠ [] →
      w''.outputBuffer_.length =
        w.outputBuffer_.length + (sendInLoop_direct w data wr).2.1 := by
    intro hne
    rw [hbuf, List.length_append, hlen hne]
  have hq : hwmCalls w''.loop_.queued = hwmCalls w.loop_.queued ++
      (if w.highWaterMarkCallback_ = true ∧ (sendOutcome w data wr).2 ≠ [] ∧
          w.outputBuffer_.length < w.highWaterMark_ ∧
          w.highWaterMark_ ≤ w''.outputBuffer_.length
        then [w''.outputBuffer_.length] else []) := by
    rw [g1, e1, hwmCalls_append, hwmCalls_append, d5, e2, e3]
    have hwc : hwmCalls (if w.channel_.isWriting = false ∧ w.outputBuffer_ = [] ∧
          0 ≤ (sockets.write data.length wr).1 ∧
          (sendInLoop_direct w data wr).2.1 = 0 ∧ w.writeCompleteCallback_ = true
        then [ConnFunctor.writeCompleteCallback] else []) = [] := by
      split <;> rfl
    rw [hwc, List.append_nil]
    congr 1
    by_cases hne : (sendOutcome w data wr).2 ≠ []
    · have hc := d9.mpr hne
      have hl := hlen' hne
      by_cases hx : w.highWaterMarkCallback_ = true ∧
          w.outputBuffer_.length < w.highWaterMark_ ∧
          w.highWaterMark_ ≤ w''.outputBuffer_.length
      · rw [if_pos ⟨hc.1, hc.2, hx.1, hx.2.1, by rw [← hl]; exact hx.2.2⟩,
          if_pos ⟨hx.1, hne, hx.2.1, hx.2.2⟩, ← hl]
        rfl
      · rw [if_neg, if_neg]
        · rfl
        · exact fun h => hx ⟨h.1, h.2.2.1, h.2.2.2⟩
        · exact fun h => hx ⟨h.2.2.1, h.2.2.2.1, by rw [hl]; exact h.2.2.2.2⟩
    · rw [if_neg, if_neg]
      · rfl
      · exact fun h => hne h.2.1
      · exact fun h => hne (d9.mp ⟨h.1, h.2.1⟩)
  refine ⟨w'', h0, hbuf, hlen', hq, ?_, ?_⟩
  · intro hfull
    rw [hq, if_neg, List.append_nil]
    intro h
    omega
  · rw [g2, e2]

theorem C23_highWaterMark_witness :
    ∃ w', sendInLoop true
        (TcpConnection.connected.setHighWaterMarkCallback true 4) [1, 2, 3, 4, 5, 6]
        (WriteResult.accepts 1) = Except.ok w' ∧
      w'.outputBuffer_ = [2, 3, 4, 5, 6] ∧
      hwmCalls w'.loop_.queued = [5] := by
  obtain ⟨⟨w', h0, h1, _, h3, _⟩, _⟩ := C23_highWaterMark true
    (TcpConnection.connected.setHighWaterMarkCallback true 4) [1, 2, 3, 4, 5, 6]
    (WriteResult.accepts 1) (by decide) (by unfold Registered; decide)
  refine ⟨w', h0, h1, ?_⟩
  rw [h3, h1]
  decide

/-! ### TcpConnection: peer-closed conditions -/

theorem handleEvent_hup (dbg : Bool) (w : TcpConnection) (t : Timestamp) (rd : ReadResult)
    (wr : WriteResult) (hcb : w.channel_.closeCallback_ = true) :
    handleEvent dbg w POLLHUP t rd wr =
      handleClose dbg
        { w with channel_ := { w.channel_ with revents_ := POLLHUP, eventHandling_ := false } } := by
  have h1 : test POLLHUP POLLHUP = true := by decide
  have h2 : test POLLHUP POLLIN = false := by decide
  have h3 : test POLLHUP (POLLERR ||| POLLNVAL) = false := by decide
  have h4 : test POLLHUP (POLLIN ||| POLLPRI ||| POLLRDHUP) = false := by decide
  have h5 : test POLLHUP POLLOUT = false := by decide
  cases ht : w.channel_.tied_ <;>
    simp [handleEvent, Channel.handleEvent, Channel.handleEventWithGuard, Channel.set_revents,
      ht, h1, h2, h3, h4, h5, hcb, dispatch, bind, Except.bind, pure, Except.pure] <;>
    split <;> rename_i hq <;> rw [hq]

/-- C24, counterexample. On the established connection `connected` (no
WRITE interest, empty output buffer) a send whose write fails with EPIPE
returns the connection unchanged: the state is still kConnected, READ
interest is still enabled and the connection callback has only been invoked
with kConnected. -/
theorem C24_epipe_keeps_connected :
    sendInLoop true TcpConnection.connected [1, 2, 3] (WriteResult.fails EPIPE)
      = Except.ok TcpConnection.connected ∧
    TcpConnection.connected.state_ = StateE.kConnected ∧
    TcpConnection.connected.channel_.isReading = true ∧
    connectionCalls TcpConnection.connected.trace = [StateE.kConnected] := by
  decide

/-- C24, amended. On a connection that is Connected or Disconnecting with a
registered channel: when handleRead reads 0 bytes it returns, the state is
kDisconnected, all channel interest is disabled, and the connection callback
is invoked with kDisconnected followed by the close callback.  When the write
attempted by sendInLoop fails with EPIPE or ECONNRESET, sendInLoop returns
and changes nothing: the payload is dropped and the state, the interest and
the trace stay as they are.  The close path is then taken when the poller
reports the hang-up: the event POLLHUP runs handleClose with the same
outcome as the read of 0 bytes. -/
theorem C24_peer_closed (dbg : Bool) (w : TcpConnection) (t : Timestamp)
    (hs : w.state_ = StateE.kConnected ∨ w.state_ = StateE.kDisconnecting)
    (hr : Registered w.channel_ w.poller_) :
    (∃ w', handleRead dbg w t (ReadResult.bytes []) = Except.ok w' ∧
      w'.state_ = StateE.kDisconnected ∧ w'.channel_.events_ = kNoneEvent ∧
      w'.trace = w.trace ++ [ConnEvent.connection StateE.kDisconnected, ConnEvent.close]) ∧
    (∀ data errno, errno = EPIPE ∨ errno = ECONNRESET →
      w.channel_.isWriting = false → w.outputBuffer_ = [] →
      sendInLoop dbg w data (WriteResult.fails errno) = Except.ok w) ∧
    (∀ rd wr, w.channel_.closeCallback_ = true →
      ∃ w', handleEvent dbg w POLLHUP t rd wr = Except.ok w' ∧
        w'.state_ = StateE.kDisconnected ∧ w'.channel_.events_ = kNoneEvent ∧
        w'.trace = w.trace ++
          [ConnEvent.connection StateE.kDisconnected, ConnEvent.close]) := by
  refine ⟨?_, ?_, ?_⟩
  · obtain ⟨w', h0, h1, h2, h3, _⟩ := handleClose_spec dbg w hs hr
    refine ⟨w', ?_, h1, h3, h2⟩
    simp only [handleRead, List.length_nil, gt_iff_lt, lt_self_iff_false, if_false]
    exact h0
  · intro data errno he hw hb
    have hsd : w.state_ ≠ StateE.kDisconnected := by
      rcases hs with h | h <;> rw [h] <;> decide
    have hf : (errno != EWOULDBLOCK && (errno == EPIPE || errno == ECONNRESET)) = true := by
      rcases he with h | h <;> subst h <;> decide
    have hlt : ¬ ((-1 : Int) ≥ 0) := by decide
    simp [sendInLoop, hsd, sendInLoop_direct, hw, hb, sockets.write, hf,
      sendInLoop_buffer, TcpConnection.assert, bind, Except.bind, pure, Except.pure]
  · intro rd wr hcb
    rw [handleEvent_hup dbg w t rd wr hcb]
    obtain ⟨w', h0, h1, h2, h3, _⟩ := handleClose_spec dbg
      { w with channel_ := { w.channel_ with revents_ := POLLHUP, eventHandling_ := false } }
      hs hr
    exact ⟨w', h0, h1, h3, h2⟩

theorem C24_peer_closed_witness :
    (∃ w', handleRead true TcpConnection.connected 5 (ReadResult.bytes []) = Except.ok w' ∧
      w'.state_ = StateE.kDisconnected ∧ w'.channel_.events_ = kNoneEvent ∧
      w'.trace = TcpConnection.connected.trace ++
        [ConnEvent.connection StateE.kDisconnected, ConnEvent.close]) ∧
    sendInLoop true TcpConnection.connected [1, 2, 3] (WriteResult.fails ECONNRESET)
      = Except.ok TcpConnection.connected := by
  have h := C24_peer_closed true TcpConnection.connected 5 (Or.inl (by decide))
    (by unfold Registered; decide)
  exact ⟨h.1, h.2.1 [1, 2, 3] ECONNRESET (Or.inr rfl) (by decide) (by decide)⟩

/-! ### TcpConnection::handleWrite -/

theorem disableWriting_ok (dbg : Bool) (ch : Channel) (p : EPollPoller)
    (hr : Registered ch p) :
    ∃ r, Channel.disableWriting dbg ch p = Except.ok r ∧
      r.1.events_ = ch.events_ &&& notMask kWriteEvent ∧ r.1.isWriting = false := by
  have hr' : Registered { ch with events_ := ch.events_ &&& notMask kWriteEvent } p := hr
  obtain ⟨p', h1, _⟩ := update_registered dbg _ p hr'
  refine ⟨_, h1, rfl, ?_⟩
  simp only [Channel.isWriting]
  exact isWriting_disable _

theorem handleWrite_wrote (dbg : Bool) (w : TcpConnection) (room : Nat)
    (hw : w.channel_.isWriting = true) (hr : Registered w.channel_ w.poller_)
    (hn : 0 < min room w.outputBuffer_.length) :
    ∃ w', handleWrite dbg w (WriteResult.accepts room) = Except.ok w' ∧
      w'.outputBuffer_ = w.outputBuffer_.drop (min room w.outputBuffer_.length) ∧
      w'.sent = w.sent ++ w.outputBuffer_.take (min room w.outputBuffer_.length) ∧
      w'.state_ = w.state_ ∧
      (w'.outputBuffer_ = [] →
        w'.channel_.isWriting = false ∧
        w'.channel_.events_ = w.channel_.events_ &&& notMask kWriteEvent ∧
        w'.loop_.queued = w.loop_.queued ++
          (if w.writeCompleteCallback_ then [ConnFunctor.writeCompleteCallback] else []) ∧
        w'.trace = w.trace ++
          (if w.state_ = StateE.kDisconnecting
            then [ConnEvent.shutdownWrite StateE.kDisconnecting 0] else [])) ∧
      (w'.outputBuffer_ ≠ [] →
        w'.channel_ = w.channel_ ∧ w'.poller_ = w.poller_ ∧ w'.loop_ = w.loop_ ∧
        w'.trace = w.trace) := by
  have hpos : ((min room w.outputBuffer_.length : Nat) : Int) > 0 := by omega
  obtain ⟨r, hr1, hr2, hr3⟩ := disableWriting_ok dbg w.channel_ w.poller_ hr
  by_cases he : w.outputBuffer_.drop (min room w.outputBuffer_.length) = []
  · have hl : ((w.outputBuffer_.drop (min room w.outputBuffer_.length)).length == 0) = true := by
      rw [he]; rfl
    obtain ⟨W3, hW3⟩ : ∃ W3 : TcpConnection, W3 = TcpConnection.queueIf
        { w with sent := w.sent ++ w.outputBuffer_.take (min room w.outputBuffer_.length),
                 outputBuffer_ := w.outputBuffer_.drop (min room w.outputBuffer_.length),
                 channel_ := r.1, poller_ := r.2 }
        w.writeCompleteCallback_ ConnFunctor.writeCompleteCallback := ⟨_, rfl⟩
    have q1 := (queueIf_queued
        { w with sent := w.sent ++ w.outputBuffer_.take (min room w.outputBuffer_.length),
                 outputBuffer_ := w.outputBuffer_.drop (min room w.outputBuffer_.length),
                 channel_ := r.1, poller_ := r.2 }
        w.writeCompleteCallback_ ConnFunctor.writeCompleteCallback).1
    rw [← hW3] at q1
    have f1 : W3.channel_ = r.1 := by rw [hW3, queueIf_channel]
    have f2 : W3.trace = w.trace := by rw [hW3, queueIf_trace]
    have f3 : W3.outputBuffer_ = w.outputBuffer_.drop (min room w.outputBuffer_.length) := by
      rw [hW3, queueIf_outputBuffer]
    have f4 : W3.sent = w.sent ++ w.outputBuffer_.take (min room w.outputBuffer_.length) := by
      rw [hW3, queueIf_sent]
    have f5 : W3.state_ = w.state_ := by rw [hW3, queueIf_state]
    have hE : handleWrite dbg w (WriteResult.accepts room) = Except.ok
        (if W3.state_ = StateE.kDisconnecting then shutdownInLoop W3 else W3) := by
      simp only [handleWrite, hw, if_true, sockets.write, hpos, Int.toNat_ofNat, hl,
        TcpConnection.onChannel, hr1, bind, Except.bind, pure, Except.pure]
      rw [← hW3]
      split <;> rfl
    refine ⟨_, hE, ?_⟩
    by_cases hd : w.state_ = StateE.kDisconnecting
    · have hd' : W3.state_ = StateE.kDisconnecting := by rw [f5, hd]
      have hsh : shutdownInLoop W3 =
          W3.emit (ConnEvent.shutdownWrite StateE.kDisconnecting 0) := by
        simp [shutdownInLoop, f1, hr3, hd', f3, he]
      simp only [hd', if_true, hsh, emit_outputBuffer, emit_sent, emit_state, emit_channel,
        emit_trace, f1, f2, f3, f4, hd, he, hr2, hr3, true_and, ne_eq, not_true_eq_false,
        false_implies, and_true, implies_true]
      intro _
      exact q1
    · have hd' : ¬ W3.state_ = StateE.kDisconnecting := by rw [f5]; exact hd
      simp only [hd', if_false, f1, f2, f3, f4, f5, hd, he, hr2, hr3, true_and, ne_eq,
        not_true_eq_false, false_implies, and_true, implies_true, List.append_nil]
      intro _
      exact q1
  · have hl : ((w.outputBuffer_.drop (min room w.outputBuffer_.length)).length == 0) = false := by
      cases hdr : w.outputBuffer_.drop (min room w.outputBuffer_.length) with
      | nil => exact absurd hdr he
      | cons a l => rfl
    have hE : handleWrite dbg w (WriteResult.accepts room) = Except.ok
        { w with sent := w.sent ++ w.outputBuffer_.take (min room w.outputBuffer_.length),
                 outputBuffer_ := w.outputBuffer_.drop (min room w.outputBuffer_.length) } := by
      simp only [handleWrite, hw, if_true, sockets.write, hpos, Int.toNat_ofNat, hl,
        Bool.false_eq_true, if_false, pure, Except.pure]
    exact ⟨_, hE, rfl, rfl, rfl, fun h => absurd h he, fun _ => ⟨rfl, rfl, rfl, rfl⟩⟩

theorem handleWrite_idle (dbg : Bool) (w : TcpConnection) (wr : WriteResult)
    (h : w.channel_.isWriting = false ∨ (sockets.write w.outputBuffer_.length wr).1 ≤ 0) :
    handleWrite dbg w wr = Except.ok w := by
  unfold handleWrite
  rcases h with h | h
  · simp [h, pure, Except.pure]
  · have : ¬ (sockets.write w.outputBuffer_.length wr).1 > 0 := by omega
    simp only [this, if_false, pure, Except.pure]
    split <;> rfl

/-- C26. On a connection whose channel is registered, handleWrite with WRITE
interest enabled and a write that takes n > 0 bytes returns and removes
exactly the first n bytes from the output buffer (they are sent).  If the
buffer is then empty, WRITE interest is disabled, the write-complete functor
is handed to the loop when the callback is set, and in state kDisconnecting
the writing side of the socket is shut down; if bytes remain, the channel
(WRITE interest included), the loop and the trace are unchanged, so no
write-complete functor is posted.  Neither handleWrite nor sendInLoop posts
the write-complete functor on a call that leaves the output buffer non-empty. -/
theorem C26_handleWrite (dbg : Bool) (w : TcpConnection)
    (hr : Registered w.channel_ w.poller_) :
    (∀ room, w.channel_.isWriting = true → 0 < min room w.outputBuffer_.length →
      ∃ w', handleWrite dbg w (WriteResult.accepts room) = Except.ok w' ∧
        w'.outputBuffer_ = w.outputBuffer_.drop (min room w.outputBuffer_.length) ∧
        w'.sent = w.sent ++ w.outputBuffer_.take (min room w.outputBuffer_.length) ∧
        w'.state_ = w.state_ ∧
        (w'.outputBuffer_ = [] →
          w'.channel_.isWriting = false ∧
          w'.channel_.events_ = w.channel_.events_ &&& notMask kWriteEvent ∧
          w'.loop_.queued = w.loop_.queued ++
            (if w.writeCompleteCallback_ then [ConnFunctor.writeCompleteCallback] else []) ∧
          w'.trace = w.trace ++
            (if w.state_ = StateE.kDisconnecting
              then [ConnEvent.shutdownWrite StateE.kDisconnecting 0] else [])) ∧
        (w'.outputBuffer_ ≠ [] →
          w'.channel_.isWriting = true ∧ w'.channel_ = w.channel_ ∧
          w'.loop_.queued = w.loop_.queued ∧ w'.trace = w.trace)) ∧
    (∀ wr w', handleWrite dbg w wr = Except.ok w' →
      writeCompleteCalls w.loop_.queued < writeCompleteCalls w'.loop_.queued →
      w'.outputBuffer_ = []) ∧
    (∀ data wr w', sendInLoop dbg w data wr = Except.ok w' →
      writeCompleteCalls w.loop_.queued < writeCompleteCalls w'.loop_.queued →
      w'.outputBuffer_ = []) := by
  refine ⟨?_, ?_, ?_⟩
  · intro room hw hn
    obtain ⟨w', h0, h1, h2, h3, h4, h5⟩ := handleWrite_wrote dbg w room hw hr hn
    refine ⟨w', h0, h1, h2, h3, h4, ?_⟩
    intro hne
    obtain ⟨a, _, c, d⟩ := h5 hne
    exact ⟨by rw [a]; exact hw, a, by rw [c], d⟩
  · intro wr w' h hlt
    by_cases hw : w.channel_.isWriting = true
    · by_cases hp : (sockets.write w.outputBuffer_.length wr).1 ≤ 0
      · rw [handleWrite_idle dbg w wr (Or.inr hp)] at h
        injection h with h
        subst h
        exact absurd hlt (lt_irrefl _)
      · cases wr with
        | fails errno => exact absurd (by simp [sockets.write]) hp
        | accepts room =>
          have hn : 0 < min room w.outputBuffer_.length := by
            simp only [sockets.write] at hp
            omega
          obtain ⟨w2, h0, _, _, _, _, h5⟩ := handleWrite_wrote dbg w room hw hr hn
          rw [h0] at h
          injection h with h
          subst h
          by_contra hne
          rw [(h5 hne).2.2.1] at hlt
          exact absurd hlt (lt_irrefl _)
    · have hw' : w.channel_.isWriting = false := by simpa using hw
      rw [handleWrite_idle dbg w wr (Or.inl hw')] at h
      injection h with h
      subst h
      exact absurd hlt (lt_irrefl _)
  · intro data wr w' h hlt
    by_cases hs : w.state_ = StateE.kDisconnected
    · simp only [sendInLoop, hs, if_true] at h
      injection h with h
      subst h
      exact absurd hlt (lt_irrefl _)
    · obtain ⟨d1, d2, d3, d4, d5, d6, d7, d8, d9⟩ := sendInLoop_direct_spec w data wr
      obtain ⟨e1, e2, e3, e4⟩ := sendInLoop_direct_queue w data wr
      have hr' : Registered (sendInLoop_direct w data wr).2.2.2.channel_
          (sendInLoop_direct w data wr).2.2.2.poller_ := by rw [d2, d3]; exact hr
      obtain ⟨w1, h0, _, _, _, _, _, hbuf, _⟩ := sendInLoop_spec dbg w data wr hs hr
      obtain ⟨w2, g0, g1, g2⟩ :=
        sendInLoop_buffer_queue dbg (sendInLoop_direct w data wr).2.2.2 data
          (sendInLoop_direct w data wr).1 (sendInLoop_direct w data wr).2.1
          (sendInLoop_direct w data wr).2.2.1 d7 hr'
      have hw1 : w1 = w' := by
        rw [h0] at h
        injection h
      have hw2 : w2 = w' := by
        unfold sendInLoop at h
        simp only [hs, if_false] at h
        rw [g0] at h
        injection h
      subst hw1
      subst hw2
      by_cases hc : w.channel_.isWriting = false ∧ w.outputBuffer_ = [] ∧
          0 ≤ (sockets.write data.length wr).1 ∧
          (sendInLoop_direct w data wr).2.1 = 0 ∧ w.writeCompleteCallback_ = true
      · have hnone : (sendOutcome w data wr).2 = [] := by
          by_contra hne
          have := (d9.mpr hne).2
          omega
        rw [hbuf, hc.2.1, hnone]
        rfl
      · exfalso
        rw [g1, e1, if_neg hc, List.append_nil] at hlt
        have : writeCompleteCalls (w.loop_.queued ++
            (if (sendInLoop_direct w data wr).2.2.1 = false ∧
                0 < (sendInLoop_direct w data wr).2.1 ∧
                (sendInLoop_direct w data wr).2.2.2.highWaterMarkCallback_ = true ∧
                (sendInLoop_direct w data wr).2.2.2.outputBuffer_.length <
                  (sendInLoop_direct w data wr).2.2.2.highWaterMark_ ∧
                (sendInLoop_direct w data wr).2.2.2.highWaterMark_ ≤
                  (sendInLoop_direct w data wr).2.2.2.outputBuffer_.length +
                    (sendInLoop_direct w data wr).2.1
              then [ConnFunctor.highWaterMarkCallback
                ((sendInLoop_direct w data wr).2.2.2.outputBuffer_.length +
                  (sendInLoop_direct w data wr).2.1)]
              else [])) = writeCompleteCalls w.loop_.queued := by
          unfold writeCompleteCalls
          rw [List.count_append]
          split <;> simp
        rw [this] at hlt
        exact absurd hlt (lt_irrefl _)

theorem C26_handleWrite_witness :
    ∃ w1 w2 w3,
      sendInLoop true TcpConnection.connected [1, 2, 3, 4] (WriteResult.accepts 1)
        = Except.ok w1 ∧
      handleWrite true w1 (WriteResult.accepts 2) = Except.ok w2 ∧
      handleWrite true w2 (WriteResult.accepts 5) = Except.ok w3 ∧
      w1.outputBuffer_ = [2, 3, 4] ∧ w2.outputBuffer_ = [4] ∧ w2.channel_.isWriting = true ∧
      writeCompleteCalls w2.loop_.queued = 0 ∧
      w3.outputBuffer_ = [] ∧ w3.channel_.isWriting = false ∧
      writeCompleteCalls w3.loop_.queued = 1 := by
  obtain ⟨w1, h1, hb1, hr1, hw1, hq1⟩ : ∃ w1,
      sendInLoop true TcpConnection.connected [1, 2, 3, 4] (WriteResult.accepts 1)
        = Except.ok w1 ∧ w1.outputBuffer_ = [2, 3, 4] ∧ Registered w1.channel_ w1.poller_ ∧
      w1.channel_.isWriting = true ∧ writeCompleteCalls w1.loop_.queued = 0 :=
    ⟨_, rfl, by decide, by unfold Registered; decide, by decide, by decide⟩
  obtain ⟨w2, h2, hb2, _, _, _, hk2⟩ :=
    (C26_handleWrite true w1 hr1).1 2 hw1 (by rw [hb1]; decide)
  rw [hb1] at hb2
  have hb2' : w2.outputBuffer_ = [4] := hb2
  have hne2 : w2.outputBuffer_ ≠ [] := by rw [hb2']; decide
  obtain ⟨hw2, hc2, hq2, _⟩ := hk2 hne2
  have hr2 : Registered w2.channel_ w2.poller_ := by
    have := (handleWrite_spec true w1 (WriteResult.accepts 2) hr1
      (by
        have : w1 = (sendInLoop true TcpConnection.connected [1, 2, 3, 4]
          (WriteResult.accepts 1)).world := by rw [h1]; rfl
        rw [this]; decide))
    obtain ⟨w2', e, _, r, _⟩ := this
    rw [h2] at e
    injection e with e
    rw [e]; exact r
  obtain ⟨w3, h3, hb3, _, _, hd3, _⟩ :=
    (C26_handleWrite true w2 hr2).1 5 hw2 (by rw [hb2']; decide)
  rw [hb2'] at hb3
  have hb3' : w3.outputBuffer_ = [] := hb3
  obtain ⟨hw3, _, hq3, _⟩ := hd3 hb3'
  refine ⟨w1, w2, w3, h1, h2, h3, hb1, hb2', hw2, by rw [hq2]; exact hq1, hb3', hw3, ?_⟩
  have hcb : w2.writeCompleteCallback_ = true := by
    have : w2 = (handleWrite true w1 (WriteResult.accepts 2)).world := by rw [h2]; rfl
    have hw1e : w1 = (sendInLoop true TcpConnection.connected [1, 2, 3, 4]
          (WriteResult.accepts 1)).world := by rw [h1]; rfl
    rw [this, hw1e]; decide
  rw [hq3, hq2, hcb]
  unfold writeCompleteCalls at hq1 ⊢
  rw [List.count_append, hq1]
  rfl

/-! ### TcpConnection: WRITE interest and the output buffer -/

theorem foldlM_total_inv {ε σ α : Type} (f : σ → α → Except ε σ) (P : σ → Prop)
    (hf : ∀ s a, P s → ∃ s', f s a = Except.ok s' ∧ P s') (l : List α) :
    ∀ s, P s → ∃ s', l.foldlM f s = Except.ok s' ∧ P s' := by
  induction l with
  | nil => intro s hs; exact ⟨s, rfl, hs⟩
  | cons a l ih =>
    intro s hs
    obtain ⟨s1, h1, hp1⟩ := hf s a hs
    obtain ⟨s2, h2, hp2⟩ := ih s1 hp1
    refine ⟨s2, ?_, hp2⟩
    simp only [List.foldlM_cons, bind, Except.bind, h1]
    exact h2

theorem shutdown_ok (dbg : Bool) (w : TcpConnection) (b : Bool)
    (hs : w.state_ = StateE.kConnected ∨ w.state_ = StateE.kDisconnecting) :
    ∃ w', shutdown dbg w b = Except.ok w' ∧
      (w'.state_ = StateE.kConnected ∨ w'.state_ = StateE.kDisconnecting) := by
  unfold shutdown
  by_cases hc : w.state_ = StateE.kConnected
  · simp only [hc, if_true, runInLoop, invoke, pure, Except.pure]
    cases b
    · exact ⟨_, rfl, Or.inr rfl⟩
    · refine ⟨_, rfl, Or.inr ?_⟩
      simp only [if_true, shutdownInLoop]
      split <;> rfl
  · simp only [hc, if_false, pure, Except.pure]
    exact ⟨w, rfl, hs⟩

theorem connectEstablished_new (dbg : Bool) (addr : Nat) (sockfd : Int) (poller : EPollPoller)
    (wcb hcb : Bool) (hc : poller.channels_.lookup sockfd = none)
    (hk : (poller.kernel.lookup sockfd).isSome = false) :
    ∃ w1, connectEstablished dbg (TcpConnection.new addr sockfd poller wcb hcb) = Except.ok w1 ∧
      w1.state_ = StateE.kConnected ∧ Established w1 := by
  have hu := @update_new dbg
    { Channel.new addr sockfd with
        readCallback_ := true, writeCallback_ := true, closeCallback_ := true,
        errorCallback_ := true, tied_ := true, events_ := 0 ||| kReadEvent }
    poller rfl hc hk
  have hk := keeps_connectEstablished_from dbg (TcpConnection.new addr sockfd poller wcb hcb)
    rfl rfl rfl rfl (fun st n h => by cases h)
  have he : ∃ w1, connectEstablished dbg (TcpConnection.new addr sockfd poller wcb hcb)
      = Except.ok w1 ∧ w1.state_ = StateE.kConnected := by
    simp only [connectEstablished, TcpConnection.new, TcpConnection.assert,
      TcpConnection.setState, TcpConnection.onChannel, Channel.enableReading, bind,
      Except.bind, pure, Except.pure, Channel.new] at hu ⊢
    simp only [decide_True, Bool.not_true, Bool.and_false, Bool.false_eq_true, if_false, hu]
    exact ⟨_, rfl, rfl⟩
  obtain ⟨w1, h1, h2⟩ := he
  rw [h1] at hk
  exact ⟨w1, h1, h2, hk⟩

theorem flowStep_ok (dbg : Bool) (w : TcpConnection) (op : FlowOp)
    (h : Established w ∧ (w.state_ = StateE.kConnected ∨ w.state_ = StateE.kDisconnecting)) :
    ∃ w', TcpConnection.flowStep dbg w op = Except.ok w' ∧
      Established w' ∧ (w'.state_ = StateE.kConnected ∨ w'.state_ = StateE.kDisconnecting) := by
  obtain ⟨he, hs⟩ := h
  have hsd : w.state_ ≠ StateE.kDisconnected := by
    rcases hs with h | h <;> rw [h] <;> decide
  obtain ⟨hr, hin, _⟩ := he.2.2 hsd
  cases op with
  | sendInLoop data wr =>
    obtain ⟨w', h0, h1, _⟩ := sendInLoop_spec dbg w data wr hsd hr
    have hk := keeps_sendInLoop dbg w data wr he
    rw [h0] at hk
    exact ⟨w', h0, hk, by rw [h1]; exact hs⟩
  | handleWrite wr =>
    obtain ⟨w', h0, h1, _⟩ := handleWrite_spec dbg w wr hr hin
    have hk := keeps_handleWrite dbg w wr he
    rw [h0] at hk
    exact ⟨w', h0, hk, by rw [h1]; exact hs⟩
  | shutdown b =>
    obtain ⟨w', h0, h1⟩ := shutdown_ok dbg w b hs
    have hk := keeps_shutdown dbg w b he
    rw [h0] at hk
    exact ⟨w', h0, hk, h1⟩

/-- C28. A new connection on a descriptor that the poller does not know goes
through connectEstablished and any sequence of sendInLoop, handleWrite and
shutdown without abort, stays Connected or Disconnecting, and in the state
reached the channel has WRITE interest exactly when the output buffer is not
empty.  The same holds, as long as the connection is Connected or
Disconnecting, after any sequence of the operations of an established
connection (send, shutdown, forceClose, readiness events, the drain of the
loop). -/
theorem C28_write_interest_iff_buffered (dbg : Bool) (addr : Nat) (sockfd : Int)
    (poller : EPollPoller) (wcb hcb : Bool) (hc : poller.channels_.lookup sockfd = none)
    (hk : (poller.kernel.lookup sockfd).isSome = false) :
    (∀ ops : List FlowOp,
      ∃ w, TcpConnection.flow dbg (TcpConnection.new addr sockfd poller wcb hcb) ops
          = Except.ok w ∧
        (w.state_ = StateE.kConnected ∨ w.state_ = StateE.kDisconnecting) ∧
        (w.channel_.isWriting = true ↔ w.outputBuffer_ ≠ [])) ∧
    (∀ (ops : List ConnOp) (w : TcpConnection),
      established dbg (TcpConnection.new addr sockfd poller wcb hcb) ops = Except.ok w →
      (w.state_ = StateE.kConnected ∨ w.state_ = StateE.kDisconnecting) →
      (w.channel_.isWriting = true ↔ w.outputBuffer_ ≠ [])) := by
  constructor
  · intro ops
    obtain ⟨w1, h1, h2, h3⟩ := connectEstablished_new dbg addr sockfd poller wcb hcb hc hk
    obtain ⟨w, h4, h5, h6⟩ := foldlM_total_inv (TcpConnection.flowStep dbg)
      (fun w => Established w ∧
        (w.state_ = StateE.kConnected ∨ w.state_ = StateE.kDisconnecting))
      (fun w op hw => flowStep_ok dbg w op hw) ops w1 ⟨h3, Or.inl h2⟩
    refine ⟨w, ?_, h6, ?_⟩
    · simp only [TcpConnection.flow, h1, bind, Except.bind]
      exact h4
    · have hsd : w.state_ ≠ StateE.kDisconnected := by
        rcases h6 with h | h <;> rw [h] <;> decide
      exact (h5.2.2 hsd).2.2
  · intro ops w h hs
    have hk := keeps_established dbg addr sockfd poller wcb hcb ops
    rw [h] at hk
    have hsd : w.state_ ≠ StateE.kDisconnected := by
      rcases hs with h | h <;> rw [h] <;> decide
    exact (hk.2.2 hsd).2.2

theorem C28_write_interest_iff_buffered_witness :
    ∃ w, TcpConnection.flow true (TcpConnection.new 1 7 EPollPoller.new true true)
        [FlowOp.sendInLoop [1, 2, 3] (WriteResult.accepts 1), FlowOp.shutdown true,
          FlowOp.handleWrite (WriteResult.accepts 1)] = Except.ok w ∧
      (w.state_ = StateE.kConnected ∨ w.state_ = StateE.kDisconnecting) ∧
      (w.channel_.isWriting = true ↔ w.outputBuffer_ ≠ []) :=
  (C28_write_interest_iff_buffered true 1 7 EPollPoller.new true true rfl rfl).1 _

/-! ### TcpConnection: Disconnected is final -/

/-- C30. Once the state is kDisconnected, send, sendInLoop, shutdown,
forceClose, forceCloseWithDelay and forceCloseInLoop return the connection
exactly as it was: the state does not change, nothing is written to the
socket, nothing is appended to the output buffer, the channel keeps its
interest, no functor is queued and no timer is set.  connectDestroyed fires
no callback and leaves the state kDisconnected, whether it returns or stops
at an assertion; when it returns only the channel and the poller differ. -/
theorem C30_disconnected_absorbing (dbg : Bool) (w : TcpConnection)
    (hs : w.state_ = StateE.kDisconnected) :
    (∀ b message wr, send dbg w b message wr = Except.ok w) ∧
    (∀ data wr, sendInLoop dbg w data wr = Except.ok w) ∧
    (∀ b, shutdown dbg w b = Except.ok w) ∧
    (∀ b, forceClose w b = w) ∧
    (∀ seconds, forceCloseWithDelay w seconds = (w, none)) ∧
    forceCloseInLoop dbg w = Except.ok w ∧
    (connectDestroyed dbg w).world.state_ = StateE.kDisconnected ∧
    (connectDestroyed dbg w).world.trace = w.trace ∧
    (∀ w', connectDestroyed dbg w = Except.ok w' →
      w' = { w with channel_ := w'.channel_, poller_ := w'.poller_ }) := by
  have h1 : ¬ w.state_ = StateE.kConnected := by rw [hs]; decide
  have h2 : ¬ (w.state_ = StateE.kConnected ∨ w.state_ = StateE.kDisconnecting) := by
    rw [hs]; decide
  refine ⟨?_, ?_, ?_, ?_, ?_, ?_, ?_, ?_, ?_⟩
  · intro b message wr
    simp only [send, h1, if_false, pure, Except.pure]
  · intro data wr
    simp only [sendInLoop, hs, if_true]
  · intro b
    simp only [shutdown, h1, if_false, pure, Except.pure]
  · intro b
    simp only [forceClose, h2, if_false]
  · intro seconds
    simp only [forceCloseWithDelay, h2, if_false]
  · simp only [forceCloseInLoop, h2, if_false, pure, Except.pure]
  · simp only [connectDestroyed, h1, if_false, pure, Except.pure, bind, Except.bind,
      TcpConnection.onChannel]
    split <;> exact hs
  · simp only [connectDestroyed, h1, if_false, pure, Except.pure, bind, Except.bind,
      TcpConnection.onChannel]
    split <;> rfl
  · intro w' h
    simp only [connectDestroyed, h1, if_false, pure, Except.pure, bind, Except.bind,
      TcpConnection.onChannel] at h
    split at h
    · injection h with h
      subst h
      rfl
    · cases h

theorem C30_disconnected_absorbing_witness :
    TcpConnection.destroyed.state_ = StateE.kDisconnected ∧
    send true TcpConnection.destroyed true [1, 2] (WriteResult.accepts 5)
      = Except.ok TcpConnection.destroyed ∧
    sendInLoop true TcpConnection.destroyed [1, 2] (WriteResult.accepts 5)
      = Except.ok TcpConnection.destroyed ∧
    forceClose TcpConnection.destroyed false = TcpConnection.destroyed ∧
    forceCloseWithDelay TcpConnection.destroyed 3 = (TcpConnection.destroyed, none) :=
  have h := C30_disconnected_absorbing true TcpConnection.destroyed (by decide)
  ⟨by decide, h.1 true [1, 2] (WriteResult.accepts 5), h.2.1 [1, 2] (WriteResult.accepts 5),
    h.2.2.2.1 false, h.2.2.2.2.1 3⟩

/-! ### EventLoopThreadPool: round robin -/

theorem getNextLoop_worker (dbg : Bool) (p : EventLoopThreadPool) (startLoop : Nat → Nat)
    (N j : Nat) (hN : N < 2147483648) (hj : j < N) (hs : p.started_ = true)
    (hl : p.loops_ = (List.range N).map startLoop) (hn : p.next_ = (j : Int)) :
    p.getNextLoop dbg = Except.ok
      (startLoop j, { p with next_ := (((j + 1) % N : Nat) : Int) }) := by
  have hne : p.loops_.isEmpty = false := by
    rw [hl]
    cases N with
    | zero => omega
    | succ n => simp [List.range_succ_eq_map]
  have hget : p.loops_.get? j = some (startLoop j) := by
    rw [hl]
    simp [List.getElem?_range hj]
  have hlen : p.loops_.length = N := by rw [hl]; simp
  have hw : wrapInt32 ((j : Int) + 1) = (j : Int) + 1 := by
    unfold wrapInt32
    omega
  have hsz : toSizeT ((j : Int) + 1) = j + 1 := by
    unfold toSizeT
    omega
  have hnext : (if toSizeT (wrapInt32 ((j : Int) + 1)) ≥ N then (0 : Int)
      else wrapInt32 ((j : Int) + 1)) = (((j + 1) % N : Nat) : Int) := by
    rw [hw, hsz]
    by_cases hlt : j + 1 < N
    · rw [if_neg (by omega), Nat.mod_eq_of_lt hlt]
      push_cast
      rfl
    · have : j + 1 = N := by omega
      rw [if_pos (by omega), this, Nat.mod_self]
      rfl
  unfold EventLoopThreadPool.getNextLoop
  simp only [hs, assertE_true, bind, Except.bind, hne, Bool.not_false, if_true, hn,
    Int.toNat_ofNat, hget, Int.natCast_nonneg, hlen, hnext, pure, Except.pure]

theorem getNextLoops_worker (dbg : Bool) (startLoop : Nat → Nat) (N : Nat)
    (hN : N < 2147483648) (k : Nat) :
    ∀ (p : EventLoopThreadPool) (j : Nat), j < N → p.started_ = true →
      p.loops_ = (List.range N).map startLoop → p.next_ = (j : Int) →
      EventLoopThreadPool.getNextLoops dbg k p = Except.ok
        ((List.range k).map (fun i => startLoop ((j + i) % N)),
         { p with next_ := (((j + k) % N : Nat) : Int) }) := by
  induction k with
  | zero =>
    intro p j hj hs hl hn
    simp only [EventLoopThreadPool.getNextLoops, pure, Except.pure, List.range_zero,
      List.map_nil, Nat.add_zero, Nat.mod_eq_of_lt hj]
    rw [← hn]
  | succ k ih =>
    intro p j hj hs hl hn
    have h1 := getNextLoop_worker dbg p startLoop N j hN hj hs hl hn
    have hj' : (j + 1) % N < N := Nat.mod_lt _ (by omega)
    have h2 := ih { p with next_ := (((j + 1) % N : Nat) : Int) } ((j + 1) % N) hj' hs hl rfl
    simp only [EventLoopThreadPool.getNextLoops, h1, bind, Except.bind, h2, pure, Except.pure]
    have e1 : ∀ i, ((j + 1) % N + i) % N = (j + (i + 1)) % N := by
      intro i
      rw [Nat.mod_add_mod]
      congr 1
      omega
    have e2 : (List.range (k + 1)).map (fun i => startLoop ((j + i) % N)) =
        startLoop j :: (List.range k).map (fun i => startLoop (((j + 1) % N + i) % N)) := by
      rw [List.range_succ_eq_map, List.map_cons, List.map_map, Nat.add_zero,
        Nat.mod_eq_of_lt hj]
      congr 1
      apply List.map_congr_left
      intro i _
      simp only [Function.comp, e1]
    rw [e2, e1 k]

theorem getNextLoops_base (dbg : Bool) (k : Nat) :
    ∀ (p : EventLoopThreadPool), p.started_ = true → p.loops_ = [] →
      EventLoopThreadPool.getNextLoops dbg k p
        = Except.ok (List.replicate k p.baseLoop_, p) := by
  induction k with
  | zero => intro p _ _; rfl
  | succ k ih =>
    intro p hs hl
    have h1 : p.getNextLoop dbg = Except.ok (p.baseLoop_, p) := by
      simp [EventLoopThreadPool.getNextLoop, hs, assertE_true, hl, bind, Except.bind, pure,
        Except.pure]
    simp only [EventLoopThreadPool.getNextLoops, h1, bind, Except.bind, ih p hs hl, pure,
      Except.pure, List.replicate_succ]

/-- C25. A new pool with the thread number set to N (an int, so below 2^31)
starts without abort and holds the N worker loops in the order of their
creation.  For N >= 1, k calls of getNextLoop one after another all return:
call number i (from 0) returns worker loop number i mod N, and afterwards
the cursor `next_` is k mod N, so it lies in [0, N) and `loops_[next_]` is
never out of range.  For N = 0 every call returns the base loop and leaves the
pool unchanged. -/
theorem C25_round_robin (dbg : Bool) (baseLoop N : Nat) (cb : Bool) (startLoop : Nat → Nat)
    (hN : N < 2147483648) :
    ∃ p, ((EventLoopThreadPool.new baseLoop).setThreadNum N).start dbg cb startLoop
        = Except.ok p ∧
      p.loops_ = (List.range N).map startLoop ∧ p.next_ = 0 ∧
      (0 < N → ∀ k, ∃ p', EventLoopThreadPool.getNextLoops dbg k p =
          Except.ok ((List.range k).map (fun i => startLoop (i % N)), p') ∧
        p'.next_ = ((k % N : Nat) : Int) ∧ 0 ≤ p'.next_ ∧ p'.next_ < N ∧
        p'.loops_ = p.loops_) ∧
      (N = 0 → ∀ k, EventLoopThreadPool.getNextLoops dbg k p =
          Except.ok (List.replicate k baseLoop, p)) := by
  obtain ⟨p, hp, hs, hl, hn, hb⟩ : ∃ p,
      ((EventLoopThreadPool.new baseLoop).setThreadNum N).start dbg cb startLoop
        = Except.ok p ∧ p.started_ = true ∧ p.loops_ = (List.range N).map startLoop ∧
      p.next_ = 0 ∧ p.baseLoop_ = baseLoop := by
    refine ⟨EventLoopThreadPool.mk baseLoop true N 0 ((List.range N).map startLoop)
      (if (N : Int) = 0 ∧ cb = true then [baseLoop] else []), ?_, rfl, rfl, rfl, rfl⟩
    by_cases hc : ((N : Int) = 0 ∧ cb = true)
    · have hN0 : N = 0 := by omega
      subst hN0
      simp only [EventLoopThreadPool.start, EventLoopThreadPool.new,
        EventLoopThreadPool.setThreadNum, Bool.not_false, assertE_true, bind, Except.bind,
        hc, and_self, if_true, pure, Except.pure, Int.toNat_ofNat, List.nil_append]
      rfl
    · simp only [EventLoopThreadPool.start, EventLoopThreadPool.new,
        EventLoopThreadPool.setThreadNum, Bool.not_false, assertE_true, bind, Except.bind,
        hc, if_false, pure, Except.pure, Int.toNat_ofNat, List.nil_append]
  refine ⟨p, hp, hl, hn, ?_, ?_⟩
  · intro hpos k
    have h := getNextLoops_worker dbg startLoop N hN k p 0 hpos hs hl (by rw [hn]; rfl)
    simp only [Nat.zero_add] at h
    refine ⟨_, h, rfl, ?_, ?_, rfl⟩
    · exact Int.natCast_nonneg _
    · have := Nat.mod_lt k hpos
      show ((k % N : Nat) : Int) < N
      omega
  · intro h0 k
    subst h0
    have := getNextLoops_base dbg k p hs (by rw [hl]; rfl)
    rw [hb] at this
    exact this

theorem C25_round_robin_witness :
    ∃ p, ((EventLoopThreadPool.new 100).setThreadNum 3).start true false (fun i => 200 + i)
        = Except.ok p ∧
      ∃ p', EventLoopThreadPool.getNextLoops true 7 p =
          Except.ok ([200, 201, 202, 200, 201, 202, 200], p') ∧ p'.next_ = 1 := by
  obtain ⟨p, h1, _, _, h4, _⟩ := C25_round_robin true 100 3 false (fun i => 200 + i) (by decide)
  obtain ⟨p', h5, h6, _⟩ := h4 (by decide) 7
  exact ⟨p, h1, p', h5, h6⟩

end Muduo
